import Mathlib

/-!
# CPU scheduler simulation: embedding and verified properties

Shallow embedding of the simulation engine of `scheduler_simulation.cpp`
(and of the sibling functions of `student_scheduler.cpp`, in namespace
`Student`).

Conventions of the embedding.

* C++ `int` values are mathematical integers (`Int`); signed overflow is
  undefined behaviour in C++ and is not modelled.  The two index fields
  `currentBurstIndex` and `currentOperationIndex` start at 0 and are only
  ever incremented or reset to 0, and the code compares them with the
  unsigned `size()`; they are natural numbers here.
* `std::map<int, T>` with `operator[]` (which default-inserts) is a total
  function `Int → T`; an absent key reads as the default value
  (`ResourceInfo()` has total 0 and available 0, an absent `int` is 0).
* `std::queue<int>` and `std::vector<int>` are lists, front first.
* `processes[i]` is `procAt`: reading outside the table is undefined
  behaviour in C++; the embedding reads the default `Process()` there and
  ignores writes.  Theorems about whole runs assume every pid of the table
  indexes the table.
* The global variables and the locals of the main loop form the record `Sim`.
* The enumerator for a process inside an I/O burst is written `IO_`.
-/

namespace Sched

/-! ## Data model -/

inductive ProcessState where
  | NEW | READY | RUNNING | WAITING | IO_ | TERMINATED
  deriving DecidableEq, Repr

inductive OperationType where
  | EXEC | REQUEST | RELEASE
  deriving DecidableEq, Repr

structure Operation where
  type : OperationType
  resourceID : Int
  amount : Int
  duration : Int
  deriving DecidableEq, Repr

/-- Constructor `Operation(OperationType t, int dur)`. -/
def Operation.mkExec (t : OperationType) (dur : Int) : Operation :=
  { type := t, resourceID := 0, amount := 0, duration := dur }

/-- Constructor `Operation(OperationType t, int rid, int amt)`. -/
def Operation.mkRes (t : OperationType) (rid amt : Int) : Operation :=
  { type := t, resourceID := rid, amount := amt, duration := 0 }

structure Process where
  pid : Int
  arrivalTime : Int
  priority : Int
  originalPriority : Int
  state : ProcessState
  bursts : List (List Operation)
  isCPUBurst : List Bool
  currentBurstIndex : Nat
  currentOperationIndex : Nat
  remainingTime : Int
  timeInReadyQueue : Int
  startTime : Int
  completionTime : Int
  waitingTime : Int
  turnaroundTime : Int
  heldResources : Int → Int
  waitingForResource : Int
  waitingForAmount : Int

/-- The default constructor `Process()`. -/
instance : Inhabited Process where
  default :=
    { pid := 0, arrivalTime := 0, priority := 0, originalPriority := 0,
      state := ProcessState.NEW, bursts := [], isCPUBurst := [],
      currentBurstIndex := 0, currentOperationIndex := 0, remainingTime := 0,
      timeInReadyQueue := 0, startTime := -1, completionTime := 0,
      waitingTime := 0, turnaroundTime := 0, heldResources := fun _ => 0,
      waitingForResource := -1, waitingForAmount := 0 }

structure GanttEntry where
  pid : Int
  startTime : Int
  endTime : Int
  deriving DecidableEq, Repr

structure ResourceInfo where
  totalInstances : Int
  availableInstances : Int
  deriving DecidableEq, Repr

/-- The default constructor `ResourceInfo()`. -/
instance : Inhabited ResourceInfo where
  default := { totalInstances := 0, availableInstances := 0 }

/-- The global `TIME_QUANTUM`. -/
def TIME_QUANTUM : Int := 10

/-- The global variables of the engine together with the three locals of
`simulate` (`timeSlice`, `ganttStartTime`, `lastProcess`). -/
structure Sim where
  resources : Int → ResourceInfo
  processes : List Process
  readyQueue : List Int
  ioQueue : List Int
  waitingQueue : List Int
  currentProcess : Int
  currentTime : Int
  ganttChart : List GanttEntry
  timeSlice : Int
  ganttStartTime : Int
  lastProcess : Int

/-! ## Table and map access -/

/-- The read `processes[i]`. -/
def procAt (ps : List Process) (i : Int) : Process :=
  if 0 ≤ i then ps.getD i.toNat default else default

/-- The in-place update of `processes[i]` through a reference. -/
def modifyAt (ps : List Process) (i : Int) (f : Process → Process) : List Process :=
  if 0 ≤ i then ps.set i.toNat (f (procAt ps i)) else ps

/-- The update `resources[k].availableInstances += d`. -/
def addAvailable (res : Int → ResourceInfo) (k d : Int) : Int → ResourceInfo :=
  fun r => if r = k then { res r with availableInstances := (res r).availableInstances + d }
           else res r

/-- The update `heldResources[k] += d`. -/
def addHeld (h : Int → Int) (k d : Int) : Int → Int :=
  fun r => if r = k then h r + d else h r

/-- The loop `for (auto& res : held) resources[res.first].availableInstances += res.second`. -/
def releaseAll (res : Int → ResourceInfo) (held : Int → Int) : Int → ResourceInfo :=
  fun r => { res r with availableInstances := (res r).availableInstances + held r }

/-! ## Resource management -/

def requestResource (s : Sim) (pid resourceID amount : Int) : Bool × Sim :=
  if (s.resources resourceID).availableInstances ≥ amount then
    (true,
      { s with
        resources := addAvailable s.resources resourceID (-amount)
        processes := modifyAt s.processes pid
          (fun p => { p with heldResources := addHeld p.heldResources resourceID amount }) })
  else
    (false,
      { s with
        processes := modifyAt s.processes pid
          (fun p => { p with waitingForResource := resourceID, waitingForAmount := amount }) })

def releaseResource (s : Sim) (pid resourceID amount : Int) : Sim :=
  if (procAt s.processes pid).heldResources resourceID ≥ amount then
    { s with
      processes := modifyAt s.processes pid
        (fun p => { p with heldResources := addHeld p.heldResources resourceID (-amount) })
      resources := addAvailable s.resources resourceID amount }
  else s

/-! ## Deadlock detection and recovery -/

/-- Insertion into a `std::set<int>`, kept as a strictly increasing list. -/
def setInsert (x : Int) : List Int → List Int
  | [] => [x]
  | y :: ys => if x < y then x :: y :: ys else if x = y then y :: ys else y :: setInsert x ys

/-- Erasure by key from a `std::set<int>`. -/
def setErase (x : Int) (l : List Int) : List Int :=
  l.filter (fun y => decide (y ≠ x))

/-- One iteration of the `for (int pid : inWaiting)` loop of `detectDeadlock`:
the accumulator is `(tempAvailable, toRemove, progress)`. -/
def detectVisit (ps : List Process)
    (acc : (Int → ResourceInfo) × List Int × Bool) (pid : Int) :
    (Int → ResourceInfo) × List Int × Bool :=
  let p := procAt ps pid
  if p.waitingForResource ≠ -1 then
    if (acc.1 p.waitingForResource).availableInstances ≥ p.waitingForAmount then
      (releaseAll acc.1 p.heldResources, setInsert pid acc.2.1, true)
    else acc
  else acc

/-- The loop `while (progress && !inWaiting.empty())` of `detectDeadlock`;
`fuel` bounds the number of passes. -/
def detectLoop (ps : List Process) :
    Nat → List Int → (Int → ResourceInfo) → List Int
  | 0, inWaiting, _ => inWaiting
  | fuel + 1, inWaiting, tempAvailable =>
    if inWaiting = [] then inWaiting
    else
      let r := inWaiting.foldl (detectVisit ps) (tempAvailable, [], false)
      let inWaiting1 := r.2.1.foldl (fun acc pid => setErase pid acc) inWaiting
      if r.2.2 then detectLoop ps fuel inWaiting1 r.1 else inWaiting1

/-- The function `detectDeadlock`; the argument `deadlockedProcesses` is the
output vector as passed in, the second component of the result is its value
on return.  Every pass that makes progress erases an element, so
`inWaiting.length` passes suffice. -/
def detectDeadlock (s : Sim) (deadlockedProcesses : List Int) : Bool × List Int :=
  let inWaiting := s.waitingQueue.foldl (fun acc pid => setInsert pid acc) []
  if inWaiting = [] then (false, deadlockedProcesses)
  else
    let rest := detectLoop s.processes inWaiting.length inWaiting s.resources
    if rest ≠ [] then (true, rest) else (false, deadlockedProcesses)

/-- The victim scan of `recoverFromDeadlock`: accumulator `(victimPID, lowestPriority)`. -/
def victimScan (ps : List Process) (acc : Int × Int) (pid : Int) : Int × Int :=
  if (procAt ps pid).priority > acc.2 then (pid, (procAt ps pid).priority) else acc

def recoverFromDeadlock (s : Sim) (deadlockedProcesses : List Int) : Sim :=
  let first := deadlockedProcesses.getD 0 0
  let victimPID := (deadlockedProcesses.foldl (victimScan s.processes)
    (first, (procAt s.processes first).priority)).1
  let victim := procAt s.processes victimPID
  { s with
    resources := releaseAll s.resources victim.heldResources
    processes := modifyAt s.processes victimPID
      (fun p => { p with heldResources := fun _ => 0,
                         state := ProcessState.TERMINATED,
                         completionTime := s.currentTime })
    waitingQueue := s.waitingQueue.filter (fun pid => decide (pid ≠ victimPID)) }

/-! ## Scheduling functions -/

/-- The body of the `applyAging` loop for one queue entry. -/
def agingVisit (ps : List Process) (pid : Int) : List Process :=
  modifyAt ps pid (fun p =>
    if p.timeInReadyQueue + 1 ≥ 10 ∧ p.priority > 0 then
      { p with priority := p.priority - 1, timeInReadyQueue := 0 }
    else { p with timeInReadyQueue := p.timeInReadyQueue + 1 })

def applyAging (s : Sim) : Sim :=
  { s with processes := s.readyQueue.foldl agingVisit s.processes }

/-- The first loop of `selectNextProcess`: accumulator `(bestPID, bestPriority)`. -/
def selectVisit (ps : List Process) (acc : Int × Int) (pid : Int) : Int × Int :=
  if (procAt ps pid).priority < acc.2 then (pid, (procAt ps pid).priority) else acc

def selectNextProcess (s : Sim) : Int × Sim :=
  if s.readyQueue = [] then (-1, s)
  else
    let best := s.readyQueue.foldl (selectVisit s.processes) (-1, 100)
    (best.1, { s with readyQueue := s.readyQueue.filter (fun pid => decide (pid ≠ best.1)) })

/-- The function `executeProcess`. -/
def executeProcess (s : Sim) : Sim :=
  if s.currentProcess = -1 then s
  else
    let cp := s.currentProcess
    let p := procAt s.processes cp
    if p.currentBurstIndex ≥ p.bursts.length then
      { s with
        resources := releaseAll s.resources p.heldResources
        processes := modifyAt s.processes cp
          (fun q => { q with state := ProcessState.TERMINATED,
                             completionTime := s.currentTime,
                             heldResources := fun _ => 0 })
        currentProcess := -1 }
    else if ¬ p.isCPUBurst.getD p.currentBurstIndex false then s
    else
      let currentBurst := p.bursts.getD p.currentBurstIndex []
      if p.currentOperationIndex ≥ currentBurst.length then
        let nb := p.currentBurstIndex + 1
        let ps1 := modifyAt s.processes cp
          (fun q => { q with currentBurstIndex := nb, currentOperationIndex := 0,
                             remainingTime := 0 })
        if nb < p.bursts.length ∧ ¬ p.isCPUBurst.getD nb false then
          let ps2 := modifyAt ps1 cp (fun q => { q with state := ProcessState.IO_ })
          let ps3 :=
            if p.bursts.getD nb [] ≠ [] then
              modifyAt ps2 cp (fun q =>
                { q with remainingTime :=
                    ((p.bursts.getD nb []).getD 0 (Operation.mkExec OperationType.EXEC 0)).duration })
            else ps2
          { s with processes := ps3, ioQueue := s.ioQueue ++ [p.pid], currentProcess := -1 }
        else if nb ≥ p.bursts.length then
          let held := (procAt ps1 cp).heldResources
          { s with
            resources := releaseAll s.resources held
            processes := modifyAt ps1 cp
              (fun q => { q with state := ProcessState.TERMINATED,
                                 completionTime := s.currentTime,
                                 heldResources := fun _ => 0 })
            currentProcess := -1 }
        else { s with processes := ps1 }
      else
        let op := currentBurst.getD p.currentOperationIndex (Operation.mkExec OperationType.EXEC 0)
        match op.type with
        | OperationType.REQUEST =>
          let r := requestResource s p.pid op.resourceID op.amount
          if r.1 then
            { r.2 with
              processes := modifyAt r.2.processes cp
                (fun q => { q with currentOperationIndex := q.currentOperationIndex + 1 }) }
          else
            { r.2 with
              processes := modifyAt r.2.processes cp
                (fun q => { q with state := ProcessState.WAITING })
              waitingQueue := r.2.waitingQueue ++ [p.pid]
              currentProcess := -1 }
        | OperationType.RELEASE =>
          let s1 := releaseResource s p.pid op.resourceID op.amount
          { s1 with
            processes := modifyAt s1.processes cp
              (fun q => { q with currentOperationIndex := q.currentOperationIndex + 1 }) }
        | OperationType.EXEC =>
          let ps1 := modifyAt s.processes cp
            (fun q => if q.remainingTime = 0 then { q with remainingTime := op.duration } else q)
          let ps2 := modifyAt ps1 cp (fun q => { q with remainingTime := q.remainingTime - 1 })
          let ps3 := modifyAt ps2 cp
            (fun q => if q.remainingTime = 0
                      then { q with currentOperationIndex := q.currentOperationIndex + 1 }
                      else q)
          { s with processes := ps3 }

/-- One iteration of the `while (!ioQueue.empty())` loop of `processIO`; the
second component is `tempQueue`. -/
def ioVisit (acc : Sim × List Int) (pid : Int) : Sim × List Int :=
  let s := acc.1
  let ps1 := modifyAt s.processes pid (fun p => { p with remainingTime := p.remainingTime - 1 })
  if (procAt ps1 pid).remainingTime = 0 then
    let ps2 := modifyAt ps1 pid
      (fun p => { p with currentBurstIndex := p.currentBurstIndex + 1,
                         currentOperationIndex := 0 })
    if (procAt ps2 pid).currentBurstIndex < (procAt ps2 pid).bursts.length then
      ({ s with
         processes := modifyAt ps2 pid (fun p => { p with state := ProcessState.READY })
         readyQueue := s.readyQueue ++ [pid] }, acc.2)
    else ({ s with processes := ps2 }, acc.2)
  else ({ s with processes := ps1 }, acc.2 ++ [pid])

/-- The function `processIO`. -/
def processIO (s : Sim) : Sim :=
  let r := s.ioQueue.foldl ioVisit ({ s with ioQueue := [] }, [])
  { r.1 with ioQueue := r.2 }

/-- One iteration of the `while (!waitingQueue.empty())` loop of
`processWaiting`; the second component is `tempQueue`. -/
def waitingVisit (acc : Sim × List Int) (pid : Int) : Sim × List Int :=
  let s := acc.1
  let p := procAt s.processes pid
  if p.waitingForResource ≠ -1 then
    if (s.resources p.waitingForResource).availableInstances ≥ p.waitingForAmount then
      ({ s with
         resources := addAvailable s.resources p.waitingForResource (-p.waitingForAmount)
         processes := modifyAt s.processes pid
           (fun q => { q with
             heldResources := addHeld q.heldResources p.waitingForResource p.waitingForAmount,
             waitingForResource := -1,
             waitingForAmount := 0,
             currentOperationIndex := q.currentOperationIndex + 1,
             state := ProcessState.READY })
         readyQueue := s.readyQueue ++ [pid] }, acc.2)
    else (s, acc.2 ++ [pid])
  else (s, acc.2 ++ [pid])

/-- The function `processWaiting`. -/
def processWaiting (s : Sim) : Sim :=
  let r := s.waitingQueue.foldl waitingVisit ({ s with waitingQueue := [] }, [])
  { r.1 with waitingQueue := r.2 }

/-- The arrival test of `checkNewArrivals`. -/
def arrives (now : Int) (p : Process) : Bool :=
  decide (p.state = ProcessState.NEW) && decide (p.arrivalTime ≤ now)

/-- The function `checkNewArrivals`: the loop runs over the table in order,
marks each arriving process READY and pushes its `pid`. -/
def checkNewArrivals (s : Sim) : Sim :=
  { s with
    processes := s.processes.map
      (fun p => if arrives s.currentTime p then { p with state := ProcessState.READY } else p)
    readyQueue := s.readyQueue ++ (s.processes.filter (arrives s.currentTime)).map (fun p => p.pid) }

/-! ## The main loop `simulate` -/

/-- The guard of the periodic deadlock check together with its outcome. -/
def deadlockCheck (s : Sim) : Bool :=
  decide (s.currentTime % 5 = 0) && decide (s.currentTime > 0) && (detectDeadlock s []).1

/-- The periodic check up to and including `recoverFromDeadlock`. -/
def recoveryStage (s : Sim) : Sim :=
  if deadlockCheck s then recoverFromDeadlock s (detectDeadlock s []).2 else s

/-- The whole periodic check: recovery followed by the retry `processWaiting()`. -/
def deadlockStage (s : Sim) : Sim :=
  if deadlockCheck s then processWaiting (recoverFromDeadlock s (detectDeadlock s []).2) else s

/-- The step `if (currentTime % 1 == 0 && !readyQueue.empty()) applyAging();`. -/
def agingStage (s : Sim) : Sim :=
  if s.currentTime % 1 = 0 ∧ s.readyQueue ≠ [] then applyAging s else s

/-- The step "select next process if no current process". -/
def selectStage (s : Sim) : Sim :=
  if s.currentProcess = -1 then
    let r := selectNextProcess s
    let s1 := { r.2 with currentProcess := r.1, timeSlice := 0 }
    if r.1 ≠ -1 then
      { s1 with
        processes := modifyAt s1.processes r.1
          (fun p => { p with state := ProcessState.RUNNING,
                             startTime := if p.startTime = -1 then s.currentTime
                                          else p.startTime }) }
    else s1
  else s

/-- The Gantt bookkeeping at the head of the block `if (currentProcess != -1)`. -/
def ganttStage (s : Sim) : Sim :=
  if s.currentProcess ≠ -1 then
    if s.lastProcess ≠ s.currentProcess then
      { s with
        ganttChart :=
          if s.lastProcess ≠ -1 then
            s.ganttChart ++ [{ pid := s.lastProcess, startTime := s.ganttStartTime,
                               endTime := s.currentTime }]
          else s.ganttChart
        ganttStartTime := s.currentTime
        lastProcess := s.currentProcess }
    else s
  else s

/-- The statements `executeProcess(); timeSlice++;` of that block. -/
def executeStage (s : Sim) : Sim :=
  if s.currentProcess ≠ -1 then
    let s1 := executeProcess s
    { s1 with timeSlice := s1.timeSlice + 1 }
  else s

/-- The scan computing `shouldPreempt`. -/
def shouldPreempt (s : Sim) : Bool :=
  s.readyQueue.any (fun pid =>
    decide ((procAt s.processes pid).priority ≤ (procAt s.processes s.currentProcess).priority))

/-- The round-robin preemption at the end of that block; when the block was
not entered the running slot is still empty and nothing happens. -/
def preemptStage (s : Sim) : Sim :=
  if s.currentProcess ≠ -1 ∧ s.timeSlice ≥ TIME_QUANTUM then
    if shouldPreempt s = true ∧
        (procAt s.processes s.currentProcess).state = ProcessState.RUNNING then
      { s with
        processes := modifyAt s.processes s.currentProcess
          (fun p => { p with state := ProcessState.READY })
        readyQueue := s.readyQueue ++ [s.currentProcess]
        currentProcess := -1
        timeSlice := 0 }
    else s
  else s

/-- The scan computing `allDone`. -/
def allDone (s : Sim) : Bool :=
  s.processes.all (fun p => decide (p.state = ProcessState.TERMINATED))

/-- The three `break` statements of the loop. -/
inductive LoopExit where
  | allDone | stuck | timeout
  deriving DecidableEq, Repr

/-- The guard of the "no progress" check. -/
def noProgress (s : Sim) : Bool :=
  decide (s.currentProcess = -1) && decide (s.readyQueue = []) &&
    decide (s.ioQueue = []) && decide (s.waitingQueue ≠ [])

/-- The state before `currentTime++` on the path that does not break: the
"no progress" check has run and, when it found a deadlock, recovered. -/
def stuckStage (s : Sim) : Sim :=
  if noProgress s && (detectDeadlock s []).1 then
    recoverFromDeadlock s (detectDeadlock s []).2
  else s

/-- The tail of the loop body, from the `allDone` scan on; the second
component tells whether and why the loop is left. -/
def finishTick (s : Sim) : Sim × Option LoopExit :=
  if allDone s then
    ({ s with
       ganttChart :=
         if s.lastProcess ≠ -1 then
           s.ganttChart ++ [{ pid := s.lastProcess, startTime := s.ganttStartTime,
                              endTime := s.currentTime }]
         else s.ganttChart }, some LoopExit.allDone)
  else if noProgress s && !(detectDeadlock s []).1 then (s, some LoopExit.stuck)
  else
    let s1 := stuckStage s
    let s2 := { s1 with currentTime := s1.currentTime + 1 }
    if s2.currentTime > 10000 then (s2, some LoopExit.timeout) else (s2, none)

/-- The state after the stages of one loop body up to the preemption check. -/
def tickBody (s : Sim) : Sim :=
  preemptStage (executeStage (ganttStage (selectStage (agingStage (deadlockStage
    (processWaiting (Sched.processIO (checkNewArrivals s))))))))

/-- One pass through the body of `while (true)`. -/
def tick (s : Sim) : Sim × Option LoopExit :=
  finishTick (tickBody s)

/-- The states after each stage of one loop body, in order. -/
def tickTrace (s : Sim) : List Sim :=
  let s1 := checkNewArrivals s
  let s2 := Sched.processIO s1
  let s3 := processWaiting s2
  let s4 := recoveryStage s3
  let s5 := deadlockStage s3
  let s6 := agingStage s5
  let s7 := selectStage s6
  let s8 := ganttStage s7
  let s9 := executeStage s8
  let s10 := preemptStage s9
  [s1, s2, s3, s4, s5, s6, s7, s8, s9, s10, stuckStage s10, (finishTick s10).1]

/-- The loop `while (true)` run for at most `fuel` passes. -/
def simulateLoop : Nat → Sim → Sim × Option LoopExit
  | 0, s => (s, none)
  | fuel + 1, s =>
    if (tick s).2.isSome then tick s else simulateLoop fuel (tick s).1

/-- The function `simulate` for a run that starts at time 0: the clock
advances on every pass that does not break and the loop breaks once it
exceeds 10000, so 10001 passes always suffice. -/
def simulate (s : Sim) : Sim × Option LoopExit :=
  simulateLoop 10001 s

/-- The state of the engine as `parseInput` leaves it for the resource line
`total` (absent ids have total 0) and the process table `ps`. -/
def initialSim (total : Int → Int) (ps : List Process) : Sim :=
  { resources := fun r => { totalInstances := total r, availableInstances := total r }
    processes := ps
    readyQueue := []
    ioQueue := []
    waitingQueue := []
    currentProcess := -1
    currentTime := 0
    ganttChart := []
    timeSlice := 0
    ganttStartTime := 0
    lastProcess := -1 }

/-- The process record `parseInput` builds from one input line. -/
def loadProcess (pid arrivalTime priority : Int) (bursts : List (List Operation))
    (isCPUBurst : List Bool) : Process :=
  { (default : Process) with
    pid := pid, arrivalTime := arrivalTime, priority := priority,
    originalPriority := priority, bursts := bursts, isCPUBurst := isCPUBurst }

/-! ## The sibling functions of `student_scheduler.cpp`

The student engine keeps the same data in records with slightly different
field names (`currentOpIndex`, `timeInQueue`, `finishTime`,
`waitingResource`, `waitingAmount`, `total`, `available`; a burst is a
record `isCPU`/`operations`; states are the six string constants).  The
embedding reuses `Process`, `ResourceInfo` and `Sim` for it, field by field.
-/

namespace Student

def allocateResource (s : Sim) (pid resourceID amount : Int) : Bool × Sim :=
  if (s.resources resourceID).availableInstances ≥ amount then
    (true,
      { s with
        resources := addAvailable s.resources resourceID (-amount)
        processes := modifyAt s.processes pid
          (fun p => { p with heldResources := addHeld p.heldResources resourceID amount }) })
  else
    (false,
      { s with
        processes := modifyAt s.processes pid
          (fun p => { p with waitingForResource := resourceID, waitingForAmount := amount }) })

def freeResource (s : Sim) (pid resourceID amount : Int) : Sim :=
  if (procAt s.processes pid).heldResources resourceID ≥ amount then
    { s with
      processes := modifyAt s.processes pid
        (fun p => { p with heldResources := addHeld p.heldResources resourceID (-amount) })
      resources := addAvailable s.resources resourceID amount }
  else s

def canGetResource (ps : List Process) (pid : Int) (tempResources : Int → ResourceInfo) : Bool :=
  let p := procAt ps pid
  if p.waitingForResource = -1 then true
  else decide ((tempResources p.waitingForResource).availableInstances ≥ p.waitingForAmount)

/-- One iteration of the `for` loop of `findDeadlock`: the accumulator is
`(tempResources, newWaiting, madeProgress)`. -/
def findVisit (ps : List Process)
    (acc : (Int → ResourceInfo) × List Int × Bool) (pid : Int) :
    (Int → ResourceInfo) × List Int × Bool :=
  if canGetResource ps pid acc.1 then
    (releaseAll acc.1 (procAt ps pid).heldResources, acc.2.1, true)
  else (acc.1, acc.2.1 ++ [pid], acc.2.2)

/-- The loop `while (madeProgress && !stillWaiting.empty())` of `findDeadlock`;
`fuel` bounds the number of passes. -/
def findLoop (ps : List Process) :
    Nat → List Int → (Int → ResourceInfo) → List Int
  | 0, stillWaiting, _ => stillWaiting
  | fuel + 1, stillWaiting, tempResources =>
    if stillWaiting = [] then stillWaiting
    else
      let r := stillWaiting.foldl (findVisit ps) (tempResources, [], false)
      if r.2.2 then findLoop ps fuel r.2.1 r.1 else r.2.1

/-- The function `findDeadlock`; every pass that makes progress drops an
entry, so `waitingQueue.length` passes suffice. -/
def findDeadlock (s : Sim) (deadlockedProcesses : List Int) : Bool × List Int :=
  if s.waitingQueue = [] then (false, deadlockedProcesses)
  else
    let stillWaiting := findLoop s.processes s.waitingQueue.length s.waitingQueue s.resources
    if stillWaiting ≠ [] then (true, stillWaiting) else (false, deadlockedProcesses)

/-- The loop `for (int i = 1; i < readyQueue.size(); i++)` of `pickNextProcess`,
run over the entries from index `i` on: accumulator `(bestIndex, bestPriority)`. -/
def pickScan (ps : List Process) : List Int → Nat → Nat × Int → Nat × Int
  | [], _, acc => acc
  | pid :: rest, i, acc =>
    if (procAt ps pid).priority < acc.2 then pickScan ps rest (i + 1) (i, (procAt ps pid).priority)
    else pickScan ps rest (i + 1) acc

def pickNextProcess (s : Sim) : Int × Sim :=
  match s.readyQueue with
  | [] => (-1, s)
  | first :: rest =>
    let best := pickScan s.processes rest 1 (0, (procAt s.processes first).priority)
    (s.readyQueue.getD best.1 0, { s with readyQueue := s.readyQueue.eraseIdx best.1 })

end Student

/-! ## Predicates, scans and example states used by the theorems -/

/-- An index of the process table. -/
def ValidPid (ps : List Process) (i : Int) : Prop :=
  0 ≤ i ∧ i < ps.length

instance (ps : List Process) (i : Int) : Decidable (ValidPid ps i) := by
  unfold ValidPid; infer_instance

/-- A two-process state used to instantiate the allocator theorems: resource 1
has 3 instances in total, 2 of them free, and process 0 holds one. -/
def allocSim : Sim :=
  { initialSim (fun r => if r = 1 then 3 else 0)
      [{ loadProcess 0 0 1 [] [] with heldResources := fun r => if r = 1 then 1 else 0 },
       loadProcess 1 0 0 [] []] with
    resources := fun r => if r = 1 then { totalInstances := 3, availableInstances := 2 }
                          else default }

/-- The table for the input line `0 0 100 CPU{1}`: one process of priority 100. -/
def sentinelTable : List Process :=
  [loadProcess 0 0 100 [[Operation.mkExec OperationType.EXEC 1]] [true]]

/-- The state in which `simulate` calls `selectNextProcess` for the first time
on that input: the stages of tick 0 up to aging have run. -/
def sentinelSim : Sim :=
  agingStage (deadlockStage (processWaiting (Sched.processIO
    (checkNewArrivals (initialSim (fun _ => 0) sentinelTable)))))

/-- The priority of the `i`-th entry of a queue. -/
def queuePriority (ps : List Process) (q : List Int) (i : Nat) : Int :=
  (procAt ps (q.getD i 0)).priority

/-- A ready queue of three processes with priorities 2, 1, 1. -/
def pickSim : Sim :=
  { initialSim (fun _ => 0)
      [loadProcess 0 0 2 [] [], loadProcess 1 0 1 [] [], loadProcess 2 0 1 [] []] with
    readyQueue := [0, 1, 2] }

/-- A waiting process: `held` are its holdings, and it waits for `amount`
units of resource `rid`. -/
def waiter (pid priority : Int) (held : Int → Int) (rid amount : Int) : Process :=
  { loadProcess pid 0 priority [[Operation.mkRes OperationType.REQUEST rid amount]] [true] with
    state := ProcessState.WAITING
    heldResources := held
    waitingForResource := rid
    waitingForAmount := amount }

/-- Self-wait example: `R1` has one instance, held by `P0`; `P0` waits for a
second unit of `R1`, `P1` holds nothing and waits for one unit of `R1`. -/
def selfWaitSim : Sim :=
  { initialSim (fun r => if r = 1 then 1 else 0)
      [waiter 0 0 (fun r => if r = 1 then 1 else 0) 1 1, waiter 1 0 (fun _ => 0) 1 1] with
    resources := fun r => if r = 1 then { totalInstances := 1, availableInstances := 0 }
                          else default
    waitingQueue := [0, 1] }

/-- Circular wait: `R1` and `R2` have one instance each; `P0` holds `R1` and
waits for `R2`, `P1` holds `R2` and waits for `R1`. -/
def circularSim : Sim :=
  { initialSim (fun r => if r = 1 ∨ r = 2 then 1 else 0)
      [waiter 0 0 (fun r => if r = 1 then 1 else 0) 2 1,
       waiter 1 0 (fun r => if r = 2 then 1 else 0) 1 1] with
    resources := fun r => if r = 1 ∨ r = 2 then { totalInstances := 1, availableInstances := 0 }
                          else default
    waitingQueue := [0, 1] }

/-- The test `detectDeadlock` applies to waiter `q` against the scratch pool `t`. -/
def satisfiable (ps : List Process) (t : Int → ResourceInfo) (q : Int) : Bool :=
  decide ((procAt ps q).waitingForResource ≠ -1) &&
    decide ((t (procAt ps q).waitingForResource).availableInstances
      ≥ (procAt ps q).waitingForAmount)

/-- The scratch pool after one pass over `l`. -/
def scanTemp (ps : List Process) : List Int → (Int → ResourceInfo) → (Int → ResourceInfo)
  | [], t => t
  | q :: l, t =>
    if satisfiable ps t q then scanTemp ps l (releaseAll t (procAt ps q).heldResources)
    else scanTemp ps l t

/-- The waiters found satisfiable during one pass over `l`, in visit order. -/
def scanRemoved (ps : List Process) : List Int → (Int → ResourceInfo) → List Int
  | [], _ => []
  | q :: l, t =>
    if satisfiable ps t q then q :: scanRemoved ps l (releaseAll t (procAt ps q).heldResources)
    else scanRemoved ps l t

/-- The waiters not found satisfiable during one pass over `l`, in visit order. -/
def scanKept (ps : List Process) : List Int → (Int → ResourceInfo) → List Int
  | [], _ => []
  | q :: l, t =>
    if satisfiable ps t q then scanKept ps l (releaseAll t (procAt ps q).heldResources)
    else q :: scanKept ps l t

/-- The passes of `detectDeadlock` written with the three scans. -/
def scanLoop (ps : List Process) : Nat → List Int → (Int → ResourceInfo) → List Int
  | 0, l, _ => l
  | n + 1, l, t =>
    if l = [] then l
    else if scanRemoved ps l t ≠ [] then scanLoop ps n (scanKept ps l t) (scanTemp ps l t)
    else l

/-- The total of `heldResources[r]` over the processes listed in `l`. -/
def heldSum (ps : List Process) (l : List Int) (r : Int) : Int :=
  (l.map (fun q => (procAt ps q).heldResources r)).sum

/-- The set `inWaiting` that `detectDeadlock` builds from the waiting queue. -/
def waitingSet (s : Sim) : List Int :=
  s.waitingQueue.foldl (fun acc pid => setInsert pid acc) []

/-- A set `S` of waiters none of which can be satisfied even after every
waiter outside `S` has hypothetically completed and returned its holdings. -/
def Unsatisfiable (s : Sim) (S : Finset Int) : Prop :=
  S ⊆ s.waitingQueue.toFinset ∧
  ∀ p ∈ S, (procAt s.processes p).waitingForAmount
    > (s.resources (procAt s.processes p).waitingForResource).availableInstances
      + Finset.sum (s.waitingQueue.toFinset \ S)
          (fun q => (procAt s.processes q).heldResources (procAt s.processes p).waitingForResource)

/-- The total of `heldResources[r]` over the whole process table. -/
def heldTotal (ps : List Process) (r : Int) : Int :=
  (ps.map (fun p => p.heldResources r)).sum

/-- Resource conservation: for every resource id, `availableInstances` plus
everything held equals `totalInstances`. -/
def Conserved (s : Sim) : Prop :=
  ∀ r, (s.resources r).availableInstances + heldTotal s.processes r
    = (s.resources r).totalInstances

/-- Every Request and Release operation of the process asks for a
non-negative amount. -/
def AmountsNonneg (p : Process) : Prop :=
  ∀ b ∈ p.bursts, ∀ op ∈ b, op.type ≠ OperationType.EXEC → 0 ≤ op.amount

/-- The per-process part of the sign invariant. -/
def ProcNonneg (p : Process) : Prop :=
  (∀ r, 0 ≤ p.heldResources r) ∧ 0 ≤ p.waitingForAmount ∧ AmountsNonneg p

/-- The invariant of the table and the pool: every pid indexes the table,
resources are conserved and, when `b` is set, holdings, pending amounts and
operation amounts are non-negative and every available count is non-negative
or not below its total (the case of a resource declared with a negative
total, of which nothing is ever granted). -/
def TableInv (b : Bool) (res : Int → ResourceInfo) (ps : List Process) : Prop :=
  (∀ p ∈ ps, ValidPid ps p.pid) ∧
  (∀ r, (res r).availableInstances + heldTotal ps r = (res r).totalInstances) ∧
  (b = true → (∀ p ∈ ps, ProcNonneg p) ∧
    ∀ r, 0 ≤ (res r).availableInstances ∨
      (res r).totalInstances ≤ (res r).availableInstances)

/-- Every queue entry and the running slot index a table of length `n`. -/
def QueueInv (n : Nat) (s : Sim) : Prop :=
  (∀ q ∈ s.readyQueue, 0 ≤ q ∧ q < n) ∧
  (∀ q ∈ s.ioQueue, 0 ≤ q ∧ q < n) ∧
  (∀ q ∈ s.waitingQueue, 0 ≤ q ∧ q < n) ∧
  (s.currentProcess = -1 ∨ (0 ≤ s.currentProcess ∧ s.currentProcess < n))

/-- The invariant kept by every stage of the loop. -/
def Inv (b : Bool) (n : Nat) (s : Sim) : Prop :=
  s.processes.length = n ∧ TableInv b s.resources s.processes ∧ QueueInv n s

/-- The fields of a process on which `TableInv` depends. -/
def procSig (p : Process) : Int × (Int → Int) × Int × List (List Operation) :=
  (p.pid, p.heldResources, p.waitingForAmount, p.bursts)

/-- The table of the end-to-end scenario of the specification:
`P0: 0 1 CPU{5,R[1,1],3,F[1,1]}` and `P1: 0 0 CPU{2}`. -/
def scenarioTable : List Process :=
  [loadProcess 0 0 1
     [[Operation.mkExec OperationType.EXEC 5, Operation.mkRes OperationType.REQUEST 1 1,
       Operation.mkExec OperationType.EXEC 3, Operation.mkRes OperationType.RELEASE 1 1]] [true],
   loadProcess 1 0 0 [[Operation.mkExec OperationType.EXEC 2]] [true]]

/-- The resource line `[1,1]` of that scenario. -/
def scenarioTotal : Int → Int :=
  fun r => if r = 1 then 1 else 0

/-- The input `[1,1]` / `0 0 0 CPU{R[1,-1]}`: a request for a negative amount. -/
def negativeRequestSim : Sim :=
  initialSim (fun r => if r = 1 then 1 else 0)
    [loadProcess 0 0 0 [[Operation.mkRes OperationType.REQUEST 1 (-1)]] [true]]

/-- The input `[1,0]` / `0 0 0 CPU{F[1,-1]}`: a release of a negative amount. -/
def negativeReleaseSim : Sim :=
  initialSim (fun _ => 0)
    [loadProcess 0 0 0 [[Operation.mkRes OperationType.RELEASE 1 (-1)]] [true]]

/-- The end-to-end scenario of the specification as `simulate` receives it. -/
def scenarioSim : Sim :=
  initialSim scenarioTotal scenarioTable

/-- The state at the head of pass `k` of the end-to-end scenario (the final
state once the loop has been left). -/
def scenarioAt (k : Nat) : Sim :=
  (simulateLoop k scenarioSim).1

namespace Student

/-- The sibling `breakDeadlock` of `student_scheduler.cpp`: the victim scan
starts at index 1 of the deadlocked list. -/
def breakDeadlock (s : Sim) (deadlockedProcesses : List Int) : Sim :=
  let first := deadlockedProcesses.getD 0 0
  let victim := (deadlockedProcesses.tail.foldl (victimScan s.processes)
    (first, (procAt s.processes first).priority)).1
  { s with
    resources := releaseAll s.resources (procAt s.processes victim).heldResources
    processes := modifyAt s.processes victim (fun p =>
      { p with heldResources := fun _ => 0, state := ProcessState.TERMINATED,
               completionTime := s.currentTime })
    waitingQueue := s.waitingQueue.filter (fun pid => decide (pid ≠ victim)) }

end Student

/-- What one visit of the aging loop does to the visited process: the body of
the `while` of `applyAging` from `p.timeInReadyQueue++` on. -/
def ageOnce (p : Process) : Process :=
  if p.timeInReadyQueue + 1 ≥ 10 ∧ p.priority > 0 then
    { p with priority := p.priority - 1, timeInReadyQueue := 0 }
  else { p with timeInReadyQueue := p.timeInReadyQueue + 1 }

namespace Student

/-- The sibling `ageProcesses` of `student_scheduler.cpp`: the same visit for
`i = 0 .. readyQueue.size() - 1`. -/
def ageProcesses (s : Sim) : Sim :=
  { s with
    processes := s.readyQueue.foldl (fun ps pid =>
      modifyAt ps pid (fun p =>
        if p.timeInReadyQueue + 1 ≥ 10 ∧ p.priority > 0 then
          { p with priority := p.priority - 1, timeInReadyQueue := 0 }
        else { p with timeInReadyQueue := p.timeInReadyQueue + 1 })) s.processes }

end Student

/-- The state of a pass just before its aging step. -/
def beforeAging (s : Sim) : Sim :=
  deadlockStage (processWaiting (Sched.processIO (checkNewArrivals s)))

/-- The state of a pass just before `executeProcess()` is called. -/
def beforeExecute (s : Sim) : Sim :=
  ganttStage (selectStage (agingStage (beforeAging s)))

/-- The state of a pass after `executeProcess(); timeSlice++;`, before the
preemption check. -/
def afterExecute (s : Sim) : Sim :=
  executeStage (beforeExecute s)

/-- An input file with two process lines of the same id 0 (`0 0 5 CPU{3}` twice). -/
def duplicateSim : Sim :=
  initialSim (fun _ => 0)
    [loadProcess 0 0 5 [[Operation.mkExec OperationType.EXEC 3]] [true],
     loadProcess 0 0 5 [[Operation.mkExec OperationType.EXEC 3]] [true]]

/-- The operation `executeProcess` is about to execute for a process: the entry
`currentBurst[currentOperationIndex]` reached when the burst index is in
range, the burst is a CPU burst and the operation index is in range. -/
def currentOp (p : Process) : Option Operation :=
  if p.currentBurstIndex < p.bursts.length ∧
      p.isCPUBurst.getD p.currentBurstIndex false = true ∧
      p.currentOperationIndex < (p.bursts.getD p.currentBurstIndex []).length then
    some ((p.bursts.getD p.currentBurstIndex []).getD p.currentOperationIndex
      (Operation.mkExec OperationType.EXEC 0))
  else none

/-- The three statements of the `EXEC` branch of `executeProcess`, in order. -/
def execTick (d : Int) (q : Process) : Process :=
  let q1 := if q.remainingTime = 0 then { q with remainingTime := d } else q
  let q2 := { q1 with remainingTime := q1.remainingTime - 1 }
  if q2.remainingTime = 0 then { q2 with currentOperationIndex := q2.currentOperationIndex + 1 }
  else q2

/-- The fields of a process that `executeProcess` reads to locate and time the
current operation. -/
def execView (p : Process) : List (List Operation) × List Bool × Nat × Nat × Int :=
  (p.bursts, p.isCPUBurst, p.currentBurstIndex, p.currentOperationIndex, p.remainingTime)

/-- An input whose process lines carry the ids 1, 0, 2 in this order
(`1 0 0 CPU{R[1,1]}`, `0 0 1 CPU{30}`, `2 8 1 CPU{1}`) and no resource: the
request of the first line is recorded for the table entry 1, which is
dispatched next and is chosen as victim by the periodic deadlock check of
tick 5 while it occupies the running slot. -/
def terminatedRunnerSim : Sim :=
  initialSim (fun _ => 0)
    [loadProcess 1 0 0 [[Operation.mkRes OperationType.REQUEST 1 1]] [true],
     loadProcess 0 0 1 [[Operation.mkExec OperationType.EXEC 30]] [true],
     loadProcess 2 8 1 [[Operation.mkExec OperationType.EXEC 1]] [true]]

/-- The state of that run at the preemption check of pass 10. -/
def terminatedRunnerCheck : Sim :=
  afterExecute (simulateLoop 10 terminatedRunnerSim).1

/-- The fields of a process that no stage other than the aging step writes. -/
def stableSig (p : Process) :
    Int × Int × Int × Int × List (List Operation) × List Bool × Int × Int × Int :=
  (p.pid, p.arrivalTime, p.priority, p.originalPriority, p.bursts, p.isCPUBurst,
    p.timeInReadyQueue, p.waitingTime, p.turnaroundTime)

/-- Stage `b` follows `a` without touching the stable fields of any table
entry, the running slot, `timeSlice` or the clock. -/
def Kept (a b : Sim) : Prop :=
  b.processes.map stableSig = a.processes.map stableSig ∧
  b.currentProcess = a.currentProcess ∧ b.timeSlice = a.timeSlice ∧
  b.currentTime = a.currentTime

/-- Stage `b` follows `a` without touching the stable fields of any table entry
or the clock. -/
def StableKept (a b : Sim) : Prop :=
  b.processes.map stableSig = a.processes.map stableSig ∧ b.currentTime = a.currentTime

/-- An input with two processes of equal priority, the second arriving at
tick 15 (`0 0 0 CPU{20}`, `1 15 0 CPU{1}`), and no resource. -/
def lateRivalSim : Sim :=
  initialSim (fun _ => 0)
    [loadProcess 0 0 0 [[Operation.mkExec OperationType.EXEC 20]] [true],
     loadProcess 1 15 0 [[Operation.mkExec OperationType.EXEC 1]] [true]]

/-- The state at the head of pass `k` of that run. -/
def lateRivalAt (k : Nat) : Sim :=
  (simulateLoop k lateRivalSim).1

/-- What the preemption check leaves behind: an occupied running slot whose
process is RUNNING and has a competitor in the ready queue has not used up
its quantum. -/
def QuantumOpen (s : Sim) : Prop :=
  s.currentProcess ≠ -1 → shouldPreempt s = true →
    (procAt s.processes s.currentProcess).state = ProcessState.RUNNING → s.timeSlice < 10

/-- State `b` follows `a` with no priority raised: at every table index the
original priority is the same, the priority is not larger, and a priority
that was non-negative still is. -/
def PriorityStep (a b : Sim) : Prop :=
  ∀ i : Int,
    (procAt b.processes i).originalPriority = (procAt a.processes i).originalPriority ∧
    (procAt b.processes i).priority ≤ (procAt a.processes i).priority ∧
    (0 ≤ (procAt a.processes i).priority → 0 ≤ (procAt b.processes i).priority)

/-- The favoured process of the starvation scenario: `0 0 0 CPU{50}`. -/
def boss : Process :=
  loadProcess 0 0 0 [[Operation.mkExec OperationType.EXEC 50]] [true]

/-- One of the ten disadvantaged processes: `i 0 p CPU{1}`. -/
def rival (p i : Int) : Process :=
  loadProcess i 0 p [[Operation.mkExec OperationType.EXEC 1]] [true]

/-- The starvation scenario: `boss` and ten rivals of priority `p`, all arriving
at tick 0, no resource. -/
def starveTable (p : Int) : List Process :=
  [boss, rival p 1, rival p 2, rival p 3, rival p 4, rival p 5, rival p 6, rival p 7,
   rival p 8, rival p 9, rival p 10]

def starveSim (p : Int) : Sim :=
  initialSim (fun _ => 0) (starveTable p)

/-- The states the starvation run passes through while `boss` runs its
`Exec 50`: the rivals wait with priority `q` and aging counter `c`, `boss` has
`r` ticks left, the clock shows `t` and `timeSlice` is `ts`. -/
def starveState (p q c r t ts : Int) : Sim :=
  { resources := fun _ => { totalInstances := 0, availableInstances := 0 }
    processes :=
      [{ boss with state := ProcessState.RUNNING, startTime := 0, remainingTime := r,
                   timeInReadyQueue := 1 },
       { rival p 1 with priority := q, state := ProcessState.READY, timeInReadyQueue := c },
       { rival p 2 with priority := q, state := ProcessState.READY, timeInReadyQueue := c },
       { rival p 3 with priority := q, state := ProcessState.READY, timeInReadyQueue := c },
       { rival p 4 with priority := q, state := ProcessState.READY, timeInReadyQueue := c },
       { rival p 5 with priority := q, state := ProcessState.READY, timeInReadyQueue := c },
       { rival p 6 with priority := q, state := ProcessState.READY, timeInReadyQueue := c },
       { rival p 7 with priority := q, state := ProcessState.READY, timeInReadyQueue := c },
       { rival p 8 with priority := q, state := ProcessState.READY, timeInReadyQueue := c },
       { rival p 9 with priority := q, state := ProcessState.READY, timeInReadyQueue := c },
       { rival p 10 with priority := q, state := ProcessState.READY, timeInReadyQueue := c }]
    readyQueue := [1, 2, 3, 4, 5, 6, 7, 8, 9, 10]
    ioQueue := []
    waitingQueue := []
    currentProcess := 0
    currentTime := t
    ganttChart := []
    timeSlice := ts
    ganttStartTime := 0
    lastProcess := 0 }

namespace Student

/-- The sibling `runProcess` of `student_scheduler.cpp`.  It differs from
`executeProcess` in the shape of the test after a finished CPU burst and in
reading `operations[0].duration` of the following I/O burst without asking
whether that burst is empty (read here as duration 0). -/
def runProcess (s : Sim) : Sim :=
  if s.currentProcess = -1 then s
  else
    let cp := s.currentProcess
    let p := procAt s.processes cp
    if p.currentBurstIndex ≥ p.bursts.length then
      { s with
        resources := releaseAll s.resources p.heldResources
        processes := modifyAt s.processes cp
          (fun q => { q with state := ProcessState.TERMINATED,
                             completionTime := s.currentTime,
                             heldResources := fun _ => 0 })
        currentProcess := -1 }
    else if ¬ p.isCPUBurst.getD p.currentBurstIndex false then s
    else
      let currentBurst := p.bursts.getD p.currentBurstIndex []
      if p.currentOperationIndex ≥ currentBurst.length then
        let nb := p.currentBurstIndex + 1
        let ps1 := modifyAt s.processes cp
          (fun q => { q with currentBurstIndex := nb, currentOperationIndex := 0,
                             remainingTime := 0 })
        if nb < p.bursts.length then
          if ¬ p.isCPUBurst.getD nb false then
            let ps2 := modifyAt ps1 cp (fun q => { q with state := ProcessState.IO_ })
            let ps3 := modifyAt ps2 cp (fun q =>
              { q with remainingTime :=
                  ((p.bursts.getD nb []).getD 0 (Operation.mkExec OperationType.EXEC 0)).duration })
            { s with processes := ps3, ioQueue := s.ioQueue ++ [p.pid], currentProcess := -1 }
          else { s with processes := ps1 }
        else
          let held := (procAt ps1 cp).heldResources
          { s with
            resources := releaseAll s.resources held
            processes := modifyAt ps1 cp
              (fun q => { q with state := ProcessState.TERMINATED,
                                 completionTime := s.currentTime,
                                 heldResources := fun _ => 0 })
            currentProcess := -1 }
      else
        let op := currentBurst.getD p.currentOperationIndex (Operation.mkExec OperationType.EXEC 0)
        match op.type with
        | OperationType.REQUEST =>
          let r := allocateResource s p.pid op.resourceID op.amount
          if r.1 then
            { r.2 with
              processes := modifyAt r.2.processes cp
                (fun q => { q with currentOperationIndex := q.currentOperationIndex + 1 }) }
          else
            { r.2 with
              processes := modifyAt r.2.processes cp
                (fun q => { q with state := ProcessState.WAITING })
              waitingQueue := r.2.waitingQueue ++ [p.pid]
              currentProcess := -1 }
        | OperationType.RELEASE =>
          let s1 := freeResource s p.pid op.resourceID op.amount
          { s1 with
            processes := modifyAt s1.processes cp
              (fun q => { q with currentOperationIndex := q.currentOperationIndex + 1 }) }
        | OperationType.EXEC =>
          let ps1 := modifyAt s.processes cp
            (fun q => if q.remainingTime = 0 then { q with remainingTime := op.duration } else q)
          let ps2 := modifyAt ps1 cp (fun q => { q with remainingTime := q.remainingTime - 1 })
          let ps3 := modifyAt ps2 cp
            (fun q => if q.remainingTime = 0
                      then { q with currentOperationIndex := q.currentOperationIndex + 1 }
                      else q)
          { s with processes := ps3 }

end Student

/-- An input with a single process that arrives at tick 3 (`0 3 0 CPU{1}`) and
no resource. -/
def lateArrivalSim : Sim :=
  initialSim (fun _ => 0)
    [loadProcess 0 3 0 [[Operation.mkExec OperationType.EXEC 1]] [true]]

/-! ## Statistics -/

/-- The two nested loops of `printStatistics` that compute `cpuTime`: the outer
one over the burst indices, the inner one over the operations of a burst
whose `isCPUBurst[i]` is set. -/
def cpuTimeOf (p : Process) : Int :=
  (List.range p.bursts.length).foldl
    (fun cpuTime i =>
      if p.isCPUBurst.getD i false then
        (p.bursts.getD i []).foldl
          (fun acc op => if op.type = OperationType.EXEC then acc + op.duration else acc)
          cpuTime
      else cpuTime) 0

/-- The guard `p.state == TERMINATED && p.completionTime > 0` of the report. -/
def reported (p : Process) : Bool :=
  decide (p.state = ProcessState.TERMINATED) && decide (p.completionTime > 0)

/-- The body of the loop of `printStatistics` for one process: the fields it
writes. -/
def statsVisit (p : Process) : Process :=
  if reported p then
    let turnaround := p.completionTime - p.arrivalTime
    { p with turnaroundTime := turnaround, waitingTime := turnaround - cpuTimeOf p }
  else p

/-- One printed block of the report: pid, arrival, completion, turnaround and
waiting time. -/
structure StatRow where
  pid : Int
  arrival : Int
  completion : Int
  turnaround : Int
  waiting : Int
  deriving DecidableEq, Repr

/-- The function `printStatistics`: the table with the statistics fields
written, the printed blocks in table order, and the three accumulators
`totalWaitingTime`, `totalTurnaroundTime`, `completedProcesses`. -/
def printStatistics (s : Sim) : Sim × List StatRow × (Int × Int × Nat) :=
  let ps := s.processes.map statsVisit
  let rows := (ps.filter reported).map
    (fun p => { pid := p.pid, arrival := p.arrivalTime, completion := p.completionTime,
                turnaround := p.turnaroundTime, waiting := p.waitingTime : StatRow })
  ({ s with processes := ps }, rows,
    ((rows.map (fun r => r.waiting)).sum, (rows.map (fun r => r.turnaround)).sum, rows.length))

namespace Student

end Student

/-- Modelled from the spec: the sum of the durations of all `Exec` operations
inside the CPU bursts of a process. -/
def execSum (p : Process) : Int :=
  ((p.bursts.zip p.isCPUBurst).map
    (fun bc => if bc.2 then
        ((bc.1.filter (fun op => decide (op.type = OperationType.EXEC))).map
          (fun op => op.duration)).sum
      else 0)).sum

/-- A terminated process with a CPU burst `5, R[1,1], 3, F[1,1]`, an I/O burst of
4 and a CPU burst `2`, arrived at 1 and finished at 20. -/
def statsExample : Sim :=
  { initialSim (fun _ => 0)
      [{ loadProcess 0 1 0
            [[Operation.mkExec OperationType.EXEC 5, Operation.mkRes OperationType.REQUEST 1 1,
              Operation.mkExec OperationType.EXEC 3, Operation.mkRes OperationType.RELEASE 1 1],
             [Operation.mkExec OperationType.EXEC 4],
             [Operation.mkExec OperationType.EXEC 2]] [true, false, true] with
          state := ProcessState.TERMINATED
          completionTime := 20 }] with
    currentTime := 20 }

/-- Stage `b` follows `a` without touching the Gantt bookkeeping. -/
def GanttKept (a b : Sim) : Prop :=
  b.ganttChart = a.ganttChart ∧ b.ganttStartTime = a.ganttStartTime ∧
  b.lastProcess = a.lastProcess

/-- The state of a pass at the Gantt bookkeeping: after selection, before
`executeProcess()`. -/
def atGantt (s : Sim) : Sim :=
  selectStage (agingStage (beforeAging s))

/-- A single process that leaves the processor for an I/O burst and comes back
(`0 0 0 CPU{2} IO{3} CPU{1}`), no resource. -/
def gapSim : Sim :=
  initialSim (fun _ => 0)
    [loadProcess 0 0 0
      [[Operation.mkExec OperationType.EXEC 2], [Operation.mkExec OperationType.EXEC 3],
       [Operation.mkExec OperationType.EXEC 1]] [true, false, true]]

/-- What one visit of the loop of `processIO` does to the visited process. -/
def ioStep (p : Process) : Process :=
  let p1 := { p with remainingTime := p.remainingTime - 1 }
  if p1.remainingTime = 0 then
    let p2 := { p1 with currentBurstIndex := p1.currentBurstIndex + 1,
                        currentOperationIndex := 0 }
    if p2.currentBurstIndex < p2.bursts.length then { p2 with state := ProcessState.READY }
    else p2
  else p1

/-- The visit finds the I/O burst finished: `remainingTime` reaches 0. -/
def ioDone (p : Process) : Bool :=
  decide (p.remainingTime - 1 = 0)

/-- The visit sends the process back to the ready queue: the I/O burst is
finished and a further burst exists. -/
def ioBack (p : Process) : Bool :=
  ioDone p && decide (p.currentBurstIndex + 1 < p.bursts.length)

namespace Student

/-- The sibling `handleIO` of `student_scheduler.cpp`: the same visit for
`i = 0 .. ioQueue.size() - 1`, the queue being replaced by `stillInIO` at the
end. -/
def handleIO (s : Sim) : Sim :=
  let r := s.ioQueue.foldl
    (fun (acc : Sim × List Int) pid =>
      let t := acc.1
      let ps1 := modifyAt t.processes pid
        (fun p => { p with remainingTime := p.remainingTime - 1 })
      if (procAt ps1 pid).remainingTime = 0 then
        let ps2 := modifyAt ps1 pid
          (fun p => { p with currentBurstIndex := p.currentBurstIndex + 1,
                             currentOperationIndex := 0 })
        if (procAt ps2 pid).currentBurstIndex < (procAt ps2 pid).bursts.length then
          ({ t with
             processes := modifyAt ps2 pid (fun p => { p with state := ProcessState.READY })
             readyQueue := t.readyQueue ++ [pid] }, acc.2)
        else ({ t with processes := ps2 }, acc.2)
      else ({ t with processes := ps1 }, acc.2 ++ [pid])) (s, [])
  { r.1 with ioQueue := r.2 }

end Student

/-- A single process whose last burst is an I/O burst (`0 0 0 CPU{1} IO{2}`). -/
def trailingIoSim : Sim :=
  initialSim (fun _ => 0)
    [loadProcess 0 0 0
      [[Operation.mkExec OperationType.EXEC 1], [Operation.mkExec OperationType.EXEC 2]]
      [true, false]]

/-- The edges of the process state machine. -/
def stateEdges : List (ProcessState × ProcessState) :=
  [(ProcessState.NEW, ProcessState.READY), (ProcessState.READY, ProcessState.RUNNING),
   (ProcessState.RUNNING, ProcessState.READY), (ProcessState.RUNNING, ProcessState.WAITING),
   (ProcessState.RUNNING, ProcessState.IO_), (ProcessState.RUNNING, ProcessState.TERMINATED),
   (ProcessState.WAITING, ProcessState.READY), (ProcessState.WAITING, ProcessState.TERMINATED),
   (ProcessState.IO_, ProcessState.READY)]

/-- No change of state, or a change along one of the edges. -/
def Moves (a b : ProcessState) : Prop :=
  a = b ∨ (a, b) ∈ stateEdges

instance (a b : ProcessState) : Decidable (Moves a b) := by
  unfold Moves; infer_instance

/-- The process stands at an operation of its current burst. -/
def AtOp (p : Process) : Prop :=
  p.currentBurstIndex < p.bursts.length ∧
  p.currentOperationIndex < (p.bursts.getD p.currentBurstIndex []).length

/-- The burst and operation indices are within the bounds the accesses of
`executeProcess`, `processIO` and `processWaiting` rely on. -/
def IndexOk (p : Process) : Prop :=
  p.currentBurstIndex ≤ p.bursts.length ∧
  (p.currentBurstIndex < p.bursts.length →
    p.currentOperationIndex ≤ (p.bursts.getD p.currentBurstIndex []).length)

/-- How the record `p` of a process fits the places it occupies: `inR`, `inI`,
`inW` say that its index is in the ready, I/O and waiting queue, `isCp` that
it is in the running slot. -/
def LocRaw (p : Process) (inR inI inW isCp : Prop) : Prop :=
  (inR → p.state = ProcessState.READY) ∧
  (inI → p.state = ProcessState.IO_ ∧ p.currentBurstIndex < p.bursts.length) ∧
  (inW → p.state = ProcessState.WAITING ∧ AtOp p) ∧
  (isCp → p.state = ProcessState.RUNNING) ∧
  (p.state = ProcessState.WAITING → inW) ∧
  (p.waitingForResource ≠ -1 →
    p.state = ProcessState.WAITING ∨ p.state = ProcessState.TERMINATED) ∧
  (p.state = ProcessState.TERMINATED → ∀ r, p.heldResources r = 0) ∧
  IndexOk p

/-- The table entry `i` of state `s` fits the queues and the running slot. -/
def Loc (s : Sim) (i : Int) : Prop :=
  LocRaw (procAt s.processes i) (i ∈ s.readyQueue) (i ∈ s.ioQueue) (i ∈ s.waitingQueue)
    (s.currentProcess = i ∧ i ≠ -1)

/-- Every process's pid equals its position in the table. -/
def PidOk (ps : List Process) : Prop :=
  ∀ i : Int, ValidPid ps i → (procAt ps i).pid = i

/-- The invariant of runs on tables whose pids equal the positions. -/
def WF (s : Sim) : Prop :=
  PidOk s.processes ∧ (∀ i : Int, Loc s i) ∧ s.ioQueue.Nodup ∧ s.waitingQueue.Nodup

/-- The process `i` is out of the engine's reach: it has arrived, and its index
is in no queue and not in the running slot. -/
def Idle (s : Sim) (i : Int) : Prop :=
  i ∉ s.readyQueue ∧ i ∉ s.ioQueue ∧ i ∉ s.waitingQueue ∧ s.currentProcess ≠ i ∧
  (procAt s.processes i).state ≠ ProcessState.NEW

/-- Stage `b` follows `a`: the invariant holds again, every state moves along
an edge or not at all, and a process out of reach stays so, untouched. -/
def Good (a b : Sim) : Prop :=
  WF b ∧
  (∀ i : Int, Moves (procAt a.processes i).state (procAt b.processes i).state) ∧
  (∀ i : Int, Idle a i → procAt b.processes i = procAt a.processes i ∧ Idle b i)

/-- Process `i` and its places are the same in `b` as in `a`. -/
def SameAt (a b : Sim) (i : Int) : Prop :=
  procAt b.processes i = procAt a.processes i ∧
  (i ∈ b.readyQueue ↔ i ∈ a.readyQueue) ∧ (i ∈ b.ioQueue ↔ i ∈ a.ioQueue) ∧
  (i ∈ b.waitingQueue ↔ i ∈ a.waitingQueue) ∧
  (b.currentProcess = i → i ≠ -1 → a.currentProcess = i)

/-- The table as `parseInput` leaves it when every process line carries the
number of its position as pid: the other fields tested are those the
constructor `Process()` sets. -/
def Loaded (ps : List Process) : Prop :=
  ∀ k ∈ List.range ps.length,
    (ps.getD k default).pid = k ∧
    (ps.getD k default).state = ProcessState.NEW ∧
    (ps.getD k default).currentBurstIndex = 0 ∧
    (ps.getD k default).currentOperationIndex = 0 ∧
    (ps.getD k default).waitingForResource = -1

instance (ps : List Process) : Decidable (Loaded ps) := by
  unfold Loaded; infer_instance

/-- State `v` is reached from `s` within one pass of `processWaiting`: the
invariant holds, and every process is as in `s` or has left the waiting queue
along an edge. -/
def WaitingPass (s v : Sim) : Prop :=
  WF v ∧ ∀ i : Int, SameAt s v i ∨
    (i ∉ v.waitingQueue ∧ ¬ Idle s i ∧
      Moves (procAt s.processes i).state (procAt v.processes i).state)

/-- One stage of a pass run from a state satisfying the invariant. -/
def Step (a b : Sim) : Prop :=
  WF a ∧ Good a b

/-- From `a` to `b` the state of every process moves along an edge of the state
machine or not at all. -/
def StateStep (a b : Sim) : Prop :=
  ∀ i : Int, Moves (procAt a.processes i).state (procAt b.processes i).state

/-- From `a` to `b` every process out of reach keeps its record and stays out
of reach. -/
def Frozen (a b : Sim) : Prop :=
  ∀ i : Int, Idle a i → procAt b.processes i = procAt a.processes i ∧ Idle b i

/-- From `a` to `b` the record of every TERMINATED process is unchanged. -/
def TermKept (a b : Sim) : Prop :=
  ∀ i : Int, (procAt a.processes i).state = ProcessState.TERMINATED →
    procAt b.processes i = procAt a.processes i

/-- A TERMINATED process holds nothing and is in no queue and not in the
running slot. -/
def TermOut (t : Sim) : Prop :=
  ∀ i : Int, (procAt t.processes i).state = ProcessState.TERMINATED →
    (∀ r, (procAt t.processes i).heldResources r = 0) ∧
    i ∉ t.readyQueue ∧ i ∉ t.ioQueue ∧ i ∉ t.waitingQueue ∧ t.currentProcess ≠ i

/-- An input whose two process lines carry the ids 1 and 0 in this order
(`1 5 0 CPU{1}`, `0 0 0 CPU{1}`), no resource: the id 0 pushed for the second
line, which arrives at time 0, addresses the first table entry, which has not
arrived. -/
def swappedSim : Sim :=
  initialSim (fun _ => 0)
    [loadProcess 1 5 0 [[Operation.mkExec OperationType.EXEC 1]] [true],
     loadProcess 0 0 0 [[Operation.mkExec OperationType.EXEC 1]] [true]]

/-- An input with two process lines of the same id 0, the second arriving at
time 3 (`0 0 0 CPU{1}`, `0 3 0 CPU{1}`), no resource: the first entry has
terminated when the id 0 is pushed for the second line. -/
def reusedPidSim : Sim :=
  initialSim (fun _ => 0)
    [loadProcess 0 0 0 [[Operation.mkExec OperationType.EXEC 1]] [true],
     loadProcess 0 3 0 [[Operation.mkExec OperationType.EXEC 1]] [true]]

/-- The input `[1,1]` / `0 0 0 CPU{R[1,2]}`: the only process asks for more
instances than exist, blocks, and is the victim of the recovery run by the
"no progress" check of the same pass. -/
def overAskSim : Sim :=
  initialSim (fun r => if r = 1 then 1 else 0)
    [loadProcess 0 0 0 [[Operation.mkRes OperationType.REQUEST 1 2]] [true]]

/-- An input whose two process lines carry the ids 1 and 0 in this order
(`1 0 0 CPU{R[1,1]}`, `0 0 1 CPU{1}`), no instance of resource 1: the failing
request made while table entry 0 runs is recorded under the pid 1. -/
def swappedAskSim : Sim :=
  initialSim (fun _ => 0)
    [loadProcess 1 0 0 [[Operation.mkRes OperationType.REQUEST 1 1]] [true],
     loadProcess 0 0 1 [[Operation.mkExec OperationType.EXEC 1]] [true]]

/-- An input with two process lines of the same id 0
(`0 0 0 CPU{1} IO{1}`, `0 10 0 CPU{1}`), no resource: the first entry ends
with an I/O burst, and the id 0 is pushed again for the second line at
time 10. -/
def reusedDanglingSim : Sim :=
  initialSim (fun _ => 0)
    [loadProcess 0 0 0
      [[Operation.mkExec OperationType.EXEC 1], [Operation.mkExec OperationType.EXEC 1]]
      [true, false],
     loadProcess 0 10 0 [[Operation.mkExec OperationType.EXEC 1]] [true]]

/-- The state in which `processIO` is called in pass 2 of that run. -/
def reusedDanglingCall : Sim :=
  checkNewArrivals (simulateLoop 2 reusedDanglingSim).1

/-- The accesses `p.bursts[..]` and `..[currentOperationIndex]`, `..[0]` into a
burst that one call of `executeProcess` makes in state `s`, in order, each as
the pair of the index used and the size of the vector indexed.  (The
functions `processIO` and `processWaiting` index no burst and no operation:
they only read `bursts.size()`.) -/
def burstAccesses (s : Sim) : List (Nat × Nat) :=
  if s.currentProcess = -1 then []
  else
    let p := procAt s.processes s.currentProcess
    if p.currentBurstIndex ≥ p.bursts.length then []
    else if ¬ p.isCPUBurst.getD p.currentBurstIndex false then []
    else
      let currentBurst := p.bursts.getD p.currentBurstIndex []
      (p.currentBurstIndex, p.bursts.length) ::
        (if p.currentOperationIndex ≥ currentBurst.length then
          let nb := p.currentBurstIndex + 1
          if nb < p.bursts.length ∧ ¬ p.isCPUBurst.getD nb false then
            (nb, p.bursts.length) ::
              (if p.bursts.getD nb [] ≠ [] then
                [(nb, p.bursts.length), (0, (p.bursts.getD nb []).length)]
              else [])
          else []
        else [(p.currentOperationIndex, currentBurst.length)])

/-- The input `[1,1]` / `0 0 0 CPU{R[1,1],20,F[1,1]}` / `1 0 0 CPU{R[1,1],1}`:
`P0` acquires the only instance of resource 1 and computes for 20 ticks
before releasing it; `P1`, of the same priority, gets the processor when the
quantum of `P0` expires, asks for resource 1 and blocks. -/
def holderSim : Sim :=
  initialSim (fun r => if r = 1 then 1 else 0)
    [loadProcess 0 0 0
      [[Operation.mkRes OperationType.REQUEST 1 1, Operation.mkExec OperationType.EXEC 20,
        Operation.mkRes OperationType.RELEASE 1 1]] [true],
     loadProcess 1 0 0
      [[Operation.mkRes OperationType.REQUEST 1 1, Operation.mkExec OperationType.EXEC 1]]
      [true]]

/-- The state of that run in which the periodic check of pass 15 is made. -/
def holderCheck : Sim :=
  processWaiting (Sched.processIO (checkNewArrivals (simulateLoop 15 holderSim).1))

/-- The input `0 0 0 CPU{0,1}`, no resource: the first operation of the only
process is an `Exec` of duration 0. -/
def zeroExecSim : Sim :=
  initialSim (fun _ => 0)
    [loadProcess 0 0 0
      [[Operation.mkExec OperationType.EXEC 0, Operation.mkExec OperationType.EXEC 1]] [true]]

/-- What a grant of `processWaiting` does to the record of the waiter. -/
def grantStep (p : Process) : Process :=
  { p with
    heldResources := addHeld p.heldResources p.waitingForResource p.waitingForAmount
    waitingForResource := -1
    waitingForAmount := 0
    currentOperationIndex := p.currentOperationIndex + 1
    state := ProcessState.READY }

/-- The retry pass in the words of the specification: the waiters are visited
in queue order against the pool `t` and the table `ps` as the earlier visits
left them; a waiter with a pending resource whose amount the pool can cover
is granted (the amount leaves the pool, the record is updated by `grantStep`)
and listed as granted, any other waiter is listed as kept.  The result is the
final pool, the final table, the granted and the kept waiters, each in visit
order. -/
def retryPass : List Int → (Int → ResourceInfo) → List Process →
    (Int → ResourceInfo) × List Process × List Int × List Int
  | [], t, ps => (t, ps, [], [])
  | q :: l, t, ps =>
    if satisfiable ps t q then
      let r := retryPass l
        (addAvailable t (procAt ps q).waitingForResource (-(procAt ps q).waitingForAmount))
        (modifyAt ps q grantStep)
      (r.1, r.2.1, q :: r.2.2.1, r.2.2.2)
    else
      let r := retryPass l t ps
      (r.1, r.2.1, r.2.2.1, q :: r.2.2.2)

namespace Student

/-- The sibling `handleWaiting` of `student_scheduler.cpp`: the same visit for
`i = 0 .. waitingQueue.size() - 1`, the queue being replaced by
`stillWaiting` at the end. -/
def handleWaiting (s : Sim) : Sim :=
  let r := s.waitingQueue.foldl
    (fun (acc : Sim × List Int) pid =>
      let t := acc.1
      let p := procAt t.processes pid
      if p.waitingForResource ≠ -1 then
        if (t.resources p.waitingForResource).availableInstances ≥ p.waitingForAmount then
          ({ t with
             resources := addAvailable t.resources p.waitingForResource (-p.waitingForAmount)
             processes := modifyAt t.processes pid
               (fun q => { q with
                 heldResources := addHeld q.heldResources p.waitingForResource p.waitingForAmount,
                 waitingForResource := -1,
                 waitingForAmount := 0,
                 currentOperationIndex := q.currentOperationIndex + 1,
                 state := ProcessState.READY })
             readyQueue := t.readyQueue ++ [pid] }, acc.2)
        else (t, acc.2 ++ [pid])
      else (t, acc.2 ++ [pid])) (s, [])
  { r.1 with waitingQueue := r.2 }

end Student

/-- The input `0 0 0 IO{2} CPU{1}`, no resource: the first burst of the only
process is an I/O burst. -/
def ioFirstSim : Sim :=
  initialSim (fun _ => 0)
    [loadProcess 0 0 0
      [[Operation.mkExec OperationType.EXEC 2], [Operation.mkExec OperationType.EXEC 1]]
      [false, true]]

/-- The input `0 0 0 CPU{1} IO{1} IO{1} CPU{1}`, no resource: an I/O burst
directly follows another I/O burst. -/
def ioAfterIoSim : Sim :=
  initialSim (fun _ => 0)
    [loadProcess 0 0 0
      [[Operation.mkExec OperationType.EXEC 1], [Operation.mkExec OperationType.EXEC 1],
       [Operation.mkExec OperationType.EXEC 1], [Operation.mkExec OperationType.EXEC 1]]
      [true, false, false, true]]

/-- Two consecutive timeline entries: the second starts when the first ends
and belongs to another process. -/
def GanttLink (e f : GanttEntry) : Prop :=
  e.endTime = f.startTime ∧ e.pid ≠ f.pid

/-- A timeline whose entries are closed intervals, each linked to the next. -/
def ChartOk (c : List GanttEntry) : Prop :=
  (∀ e ∈ c, e.startTime ≤ e.endTime) ∧ List.Chain' GanttLink c

/-- The timeline bookkeeping while the loop runs: the chart is in order, the
open entry starts where the last closed one ends and belongs to another
process, it does not start in the future, and nothing has been closed while
no process has been recorded. -/
def GanttOpen (s : Sim) : Prop :=
  ChartOk s.ganttChart ∧
  (∀ e ∈ s.ganttChart.getLast?, e.endTime = s.ganttStartTime ∧ e.pid ≠ s.lastProcess) ∧
  s.ganttStartTime ≤ s.currentTime ∧
  (s.lastProcess = -1 → s.ganttChart = [])

namespace Student

/-- The function `checkArrivals` of `student_scheduler.cpp`: the loop runs over
the table indices in order, marks each arriving process READY and pushes the
index `i` (not the `pid` field). -/
def checkArrivals (s : Sim) : Sim :=
  { s with
    processes := s.processes.map
      (fun p => if arrives s.currentTime p then { p with state := ProcessState.READY } else p)
    readyQueue := s.readyQueue ++
      ((List.range s.processes.length).filter
        (fun i => arrives s.currentTime (s.processes.getD i default))).map Int.ofNat }

/-- Steps 1 to 8 of the body of `while (true)` in `runSimulation`; the locals
`lastPID` and `ganttStart` are the fields `lastProcess` and `ganttStartTime`. -/
def loopBody (s : Sim) : Sim :=
  let s1 : Sim := checkArrivals s
  let s2 : Sim := handleIO s1
  let s3 : Sim := handleWaiting s2
  let s4 : Sim :=
    if s3.currentTime % 5 = 0 ∧ s3.currentTime > 0 then
      let r := findDeadlock s3 []
      if r.1 then handleWaiting (breakDeadlock s3 r.2) else s3
    else s3
  let s5 : Sim := if s4.readyQueue ≠ [] then ageProcesses s4 else s4
  let s6 : Sim :=
    if s5.currentProcess = -1 then
      let r := pickNextProcess s5
      let t : Sim := { r.2 with currentProcess := r.1, timeSlice := 0 }
      if r.1 ≠ -1 then
        { t with
          processes := modifyAt t.processes r.1
            (fun p => { p with state := ProcessState.RUNNING,
                               startTime := if p.startTime = -1 then t.currentTime
                                            else p.startTime }) }
      else t
    else s5
  if s6.currentProcess ≠ -1 then
    let s7 : Sim :=
      if s6.lastProcess ≠ s6.currentProcess then
        { s6 with
          ganttChart :=
            if s6.lastProcess ≠ -1 then
              s6.ganttChart ++ [{ pid := s6.lastProcess, startTime := s6.ganttStartTime,
                                  endTime := s6.currentTime }]
            else s6.ganttChart
          ganttStartTime := s6.currentTime
          lastProcess := s6.currentProcess }
      else s6
    let s8 : Sim := runProcess s7
    let s9 : Sim := { s8 with timeSlice := s8.timeSlice + 1 }
    if s9.currentProcess ≠ -1 ∧ s9.timeSlice ≥ TIME_QUANTUM then
      if s9.readyQueue.any (fun pid =>
            decide ((procAt s9.processes pid).priority
              ≤ (procAt s9.processes s9.currentProcess).priority)) = true ∧
          (procAt s9.processes s9.currentProcess).state = ProcessState.RUNNING then
        { s9 with
          processes := modifyAt s9.processes s9.currentProcess
            (fun p => { p with state := ProcessState.READY })
          readyQueue := s9.readyQueue ++ [s9.currentProcess]
          currentProcess := -1
          timeSlice := 0 }
      else s9
    else s9
  else s6

/-- Step 9 and the tail of the body of `while (true)` in `runSimulation`: the
`allDone` scan, `currentTime++` and the safety check.  There is no "stuck"
check in this loop. -/
def loopTail (s : Sim) : Sim × Option LoopExit :=
  if allDone s then
    ({ s with
       ganttChart :=
         if s.lastProcess ≠ -1 then
           s.ganttChart ++ [{ pid := s.lastProcess, startTime := s.ganttStartTime,
                              endTime := s.currentTime }]
         else s.ganttChart }, some LoopExit.allDone)
  else
    let s1 : Sim := { s with currentTime := s.currentTime + 1 }
    if s1.currentTime > 10000 then (s1, some LoopExit.timeout) else (s1, none)

/-- The loop `while (true)` of `runSimulation` run for at most `fuel` passes. -/
def runLoop : Nat → Sim → Sim × Option LoopExit
  | 0, s => (s, none)
  | fuel + 1, s =>
    if (loopTail (loopBody s)).2.isSome then loopTail (loopBody s)
    else runLoop fuel (loopTail (loopBody s)).1

/-- The function `runSimulation` for a run that starts at time 0: the clock
advances on every pass that does not break and the loop breaks once it
exceeds 10000, so 10001 passes always suffice. -/
def runSimulation (s : Sim) : Sim × Option LoopExit :=
  runLoop 10001 s

end Student

/-- The input of the premature halt: resource 1 with one instance;
`0 0 0 CPU{R[1,1]} IO{2} CPU{1}` and `1 0 1 CPU{R[1,1],1}`. -/
def haltSim : Sim :=
  initialSim (fun r => if r = 1 then 1 else 0)
    [loadProcess 0 0 0
      [[Operation.mkRes OperationType.REQUEST 1 1], [Operation.mkExec OperationType.EXEC 2],
       [Operation.mkExec OperationType.EXEC 1]] [true, false, true],
     loadProcess 1 0 1
      [[Operation.mkRes OperationType.REQUEST 1 1, Operation.mkExec OperationType.EXEC 1]]
      [true]]

/-! ## The analyzers as programs over all the variables they can reach (C31)

`detectDeadlock` and `findDeadlock` are functions of the global variables that
return a boolean and write through the reference `deadlockedProcesses`.  The
definitions above give their results; the ones below keep every variable the
bodies can reach, the globals included, and pass them from statement to
statement, each statement writing what the source statement writes. -/

/-- The variables in reach of the body of `detectDeadlock`: the globals, the
output vector passed by reference, and the locals. -/
structure DetectVars where
  globals : Sim
  deadlockedProcesses : List Int
  inWaiting : List Int
  tempQueue : List Int
  tempAvailable : Int → ResourceInfo
  progress : Bool
  toRemove : List Int

/-- The body of `while (!tempQueue.empty())`:
`inWaiting.insert(tempQueue.front()); tempQueue.pop();`. -/
def drainVisit (v : DetectVars) (_ : Int) : DetectVars :=
  { v with
    inWaiting := setInsert (v.tempQueue.headD 0) v.inWaiting
    tempQueue := v.tempQueue.tail }

/-- The body of `for (int pid : inWaiting)`. -/
def detectVisitRun (v : DetectVars) (pid : Int) : DetectVars :=
  let p := procAt v.globals.processes pid
  if p.waitingForResource ≠ -1 then
    if (v.tempAvailable p.waitingForResource).availableInstances ≥ p.waitingForAmount then
      { v with
        toRemove := setInsert pid v.toRemove
        progress := true
        tempAvailable := releaseAll v.tempAvailable p.heldResources }
    else v
  else v

/-- The body of `for (int pid : toRemove)`: `inWaiting.erase(pid);`. -/
def eraseVisit (v : DetectVars) (pid : Int) : DetectVars :=
  { v with inWaiting := setErase pid v.inWaiting }

/-- The loop `while (progress && !inWaiting.empty())`, at most `fuel` passes. -/
def detectWhile : Nat → DetectVars → DetectVars
  | 0, v => v
  | fuel + 1, v =>
    if v.progress = true ∧ v.inWaiting ≠ [] then
      let v1 : DetectVars := { v with progress := false, toRemove := [] }
      let v2 : DetectVars := v1.inWaiting.foldl detectVisitRun v1
      let v3 : DetectVars := v2.toRemove.foldl eraseVisit v2
      detectWhile fuel v3
    else v

/-- The function `detectDeadlock`, statement by statement: the returned value
and the variables on return. -/
def detectDeadlockRun (s : Sim) (deadlockedProcesses : List Int) : Bool × DetectVars :=
  let v0 : DetectVars :=
    { globals := s, deadlockedProcesses := deadlockedProcesses, inWaiting := [],
      tempQueue := s.waitingQueue, tempAvailable := fun _ => default,
      progress := false, toRemove := [] }
  let v1 : DetectVars := v0.tempQueue.foldl drainVisit v0
  if v1.inWaiting = [] then (false, v1)
  else
    let v2 : DetectVars := { v1 with tempAvailable := v1.globals.resources, progress := true }
    let v3 : DetectVars := detectWhile v2.inWaiting.length v2
    if v3.inWaiting ≠ [] then (true, { v3 with deadlockedProcesses := v3.inWaiting })
    else (false, v3)

namespace Student

/-- The variables in reach of the body of `findDeadlock`: the globals, the
output vector passed by reference, and the locals. -/
structure FindVars where
  globals : Sim
  deadlockedProcesses : List Int
  tempResources : Int → ResourceInfo
  stillWaiting : List Int
  madeProgress : Bool
  newWaiting : List Int

/-- The body of `for (int i = 0; i < stillWaiting.size(); i++)`. -/
def findVisitRun (v : FindVars) (pid : Int) : FindVars :=
  if canGetResource v.globals.processes pid v.tempResources then
    { v with
      madeProgress := true
      tempResources := releaseAll v.tempResources (procAt v.globals.processes pid).heldResources }
  else { v with newWaiting := v.newWaiting ++ [pid] }

/-- The loop `while (madeProgress && !stillWaiting.empty())`, at most `fuel`
passes. -/
def findWhile : Nat → FindVars → FindVars
  | 0, v => v
  | fuel + 1, v =>
    if v.madeProgress = true ∧ v.stillWaiting ≠ [] then
      let v1 : FindVars := { v with madeProgress := false, newWaiting := [] }
      let v2 : FindVars := v1.stillWaiting.foldl findVisitRun v1
      findWhile fuel { v2 with stillWaiting := v2.newWaiting }
    else v

/-- The function `findDeadlock`, statement by statement: the returned value and
the variables on return. -/
def findDeadlockRun (s : Sim) (deadlockedProcesses : List Int) : Bool × FindVars :=
  let v0 : FindVars :=
    { globals := s, deadlockedProcesses := deadlockedProcesses,
      tempResources := fun _ => default, stillWaiting := [], madeProgress := false,
      newWaiting := [] }
  if v0.globals.waitingQueue = [] then (false, v0)
  else
    let v1 : FindVars :=
      { v0 with tempResources := v0.globals.resources, stillWaiting := v0.globals.waitingQueue,
                madeProgress := true }
    let v2 : FindVars := findWhile v1.stillWaiting.length v1
    if v2.stillWaiting ≠ [] then (true, { v2 with deadlockedProcesses := v2.stillWaiting })
    else (false, v2)

end Student

/-- Two waiters that can finish one after the other: `R1` has one instance,
held by `P0`; `R2` has two, one held by `P1` and one free; `P0` waits for one
unit of `R2`, `P1` for one unit of `R1`. -/
def chainSim : Sim :=
  { initialSim (fun r => if r = 1 then 1 else if r = 2 then 2 else 0)
      [waiter 0 0 (fun r => if r = 1 then 1 else 0) 2 1,
       waiter 1 0 (fun r => if r = 2 then 1 else 0) 1 1] with
    resources := fun r =>
      if r = 1 then { totalInstances := 1, availableInstances := 0 }
      else if r = 2 then { totalInstances := 2, availableInstances := 1 }
      else default
    waitingQueue := [0, 1] }

/-- The indices with which the stages that run on state `s` index the table
(`processes[...]`): the entries of the three queues, the running slot, and the
`pid` field of the running process, which `executeProcess` hands to
`requestResource` and `releaseResource` and pushes on the I/O and waiting
queues. -/
def tableAccesses (s : Sim) : List Int :=
  s.readyQueue ++ s.ioQueue ++ s.waitingQueue ++
    (if s.currentProcess ≠ -1 then
      [s.currentProcess, (procAt s.processes s.currentProcess).pid]
    else [])

/-- The input `5 0 0 CPU{1}`, no resource: a one-line table whose only pid is
5. -/
def strayPidSim : Sim :=
  initialSim (fun _ => 0)
    [loadProcess 5 0 0 [[Operation.mkExec OperationType.EXEC 1]] [true]]

/-- The value a 32-bit two's-complement `int` holds when the exact result of
an addition or a subtraction is `x`. -/
def wrapInt (x : Int) : Int :=
  (x + 2147483648) % 4294967296 - 2147483648

/-- The function `requestResource` with the 32-bit arithmetic of the compiled
program made explicit: the results of `availableInstances -= amount` and of
`heldResources[resourceID] += amount` wrap around.  It is `requestResource`
whenever both results fit in 32 bits. -/
def requestResource32 (s : Sim) (pid resourceID amount : Int) : Bool × Sim :=
  if (s.resources resourceID).availableInstances ≥ amount then
    (true,
      { s with
        resources := fun r =>
          if r = resourceID then
            { s.resources r with
              availableInstances := wrapInt ((s.resources r).availableInstances - amount) }
          else s.resources r
        processes := modifyAt s.processes pid
          (fun p => { p with heldResources := fun r =>
            if r = resourceID then wrapInt (p.heldResources r + amount)
            else p.heldResources r }) })
  else
    (false,
      { s with
        processes := modifyAt s.processes pid
          (fun p => { p with waitingForResource := resourceID, waitingForAmount := amount }) })

/-- The input `[1,1]` / `0 0 0 CPU{R[1,-2147483647],2}`: a request for the
most negative amount but one. -/
def overflowSim : Sim :=
  initialSim (fun r => if r = 1 then 1 else 0)
    [loadProcess 0 0 0
      [[Operation.mkRes OperationType.REQUEST 1 (-2147483647),
        Operation.mkExec OperationType.EXEC 2]] [true]]

/-- The process can still be given the processor: it has not arrived yet, is
READY or is RUNNING. -/
def Active (p : Process) : Prop :=
  p.state = ProcessState.NEW ∨ p.state = ProcessState.READY ∨ p.state = ProcessState.RUNNING

instance (p : Process) : Decidable (Active p) := by
  unfold Active; infer_instance

/-- The number of those among the first `n` passes run from `s` in which
`executeProcess` is called with process `i` in the running slot. -/
def callCount (i : Int) : Nat → Sim → Nat
  | 0, _ => 0
  | n + 1, s =>
    (if (beforeExecute s).currentProcess = i then 1 else 0) + callCount i n (tick s).1

/-- The three statements of the `EXEC` branch with the 32-bit arithmetic of
the compiled program made explicit: the result of `remainingTime--` wraps
around.  It is `execTick` whenever that result fits in 32 bits. -/
def execTick32 (d : Int) (q : Process) : Process :=
  let q1 := if q.remainingTime = 0 then { q with remainingTime := d } else q
  let q2 := { q1 with remainingTime := wrapInt (q1.remainingTime - 1) }
  if q2.remainingTime = 0 then { q2 with currentOperationIndex := q2.currentOperationIndex + 1 }
  else q2

/-- The input `0 0 0 CPU{-2147483648}`, no resource: an `Exec` of the most
negative duration. -/
def minExecSim : Sim :=
  initialSim (fun _ => 0)
    [loadProcess 0 0 0 [[Operation.mkExec OperationType.EXEC (-2147483648)]] [true]]

/-- An input whose two process lines carry the ids 1 and 0 in this order
(`1 0 0 CPU{1} IO{5} CPU{1}`, `0 0 0 CPU{30}`), no resource. -/
def swappedExecSim : Sim :=
  initialSim (fun _ => 0)
    [loadProcess 1 0 0
      [[Operation.mkExec OperationType.EXEC 1], [Operation.mkExec OperationType.EXEC 5],
       [Operation.mkExec OperationType.EXEC 1]] [true, false, true],
     loadProcess 0 0 0 [[Operation.mkExec OperationType.EXEC 30]] [true]]

/-- An input whose first two process lines carry the ids 1 and 0 in this order
(`1 0 3 CPU{R[1,1]}`, `0 0 3 CPU{0,1}`, `2 10 0 CPU{R[1,1]} IO{2} CPU{F[1,1]}`)
over one instance of resource 1. -/
def swappedZeroSim : Sim :=
  initialSim (fun r => if r = 1 then 1 else 0)
    [loadProcess 1 0 3 [[Operation.mkRes OperationType.REQUEST 1 1]] [true],
     loadProcess 0 0 3
      [[Operation.mkExec OperationType.EXEC 0, Operation.mkExec OperationType.EXEC 1]] [true],
     loadProcess 2 10 0
      [[Operation.mkRes OperationType.REQUEST 1 1], [Operation.mkExec OperationType.EXEC 2],
       [Operation.mkRes OperationType.RELEASE 1 1]] [true, false, true]]

/-- State `b` has the same total of every resource as state `a`. -/
def SameTotals (a b : Sim) : Prop :=
  ∀ r, (b.resources r).totalInstances = (a.resources r).totalInstances

/-! ## Basic facts about the process table -/

theorem length_modifyAt (ps : List Process) (i : Int) (f : Process → Process) :
    (modifyAt ps i f).length = ps.length := by
  unfold modifyAt
  split <;> simp

theorem procAt_modifyAt_same (ps : List Process) (i : Int) (f : Process → Process)
    (h : ValidPid ps i) : procAt (modifyAt ps i f) i = f (procAt ps i) := by
  obtain ⟨h0, h1⟩ := h
  have hlt : i.toNat < ps.length := by omega
  simp [modifyAt, procAt, h0, List.getD_eq_getElem?_getD, List.getElem?_set, hlt]

theorem procAt_modifyAt_ne (ps : List Process) (i j : Int) (f : Process → Process)
    (h : j ≠ i) : procAt (modifyAt ps i f) j = procAt ps j := by
  unfold modifyAt
  split
  · rename_i h0
    unfold procAt
    split
    · rename_i hj
      have hne : i.toNat ≠ j.toNat := by omega
      simp [List.getD_eq_getElem?_getD, List.getElem?_set, hne]
    · rfl
  · rfl

theorem validPid_modifyAt (ps : List Process) (i j : Int) (f : Process → Process) :
    ValidPid (modifyAt ps i f) j ↔ ValidPid ps j := by
  unfold ValidPid
  rw [length_modifyAt]

/-! ## The resource allocator (C5, C6, C7) -/

/-- C6. Allocation failure: when `available(r) < a`, `requestResource` returns
false and sets the caller's `waitingForResource = r` and `waitingForAmount = a`;
the resource pool, every process's `heldResources` (the caller's prior
holdings included), every other field of the caller, every other process and
every queue stay as they were.  `allocateResource` of the student engine is
the same function. -/
theorem requestResource_failure (s : Sim) (pid r a : Int)
    (hpid : ValidPid s.processes pid)
    (h : (s.resources r).availableInstances < a) :
    (requestResource s pid r a).1 = false ∧
    (procAt (requestResource s pid r a).2.processes pid).waitingForResource = r ∧
    (procAt (requestResource s pid r a).2.processes pid).waitingForAmount = a ∧
    (requestResource s pid r a).2.resources = s.resources ∧
    (∀ j, (procAt (requestResource s pid r a).2.processes j).heldResources
      = (procAt s.processes j).heldResources) ∧
    procAt (requestResource s pid r a).2.processes pid
      = { procAt s.processes pid with waitingForResource := r, waitingForAmount := a } ∧
    (∀ j, j ≠ pid → procAt (requestResource s pid r a).2.processes j = procAt s.processes j) ∧
    (requestResource s pid r a).2.processes.length = s.processes.length ∧
    (requestResource s pid r a).2
      = { s with processes := (requestResource s pid r a).2.processes } ∧
    Student.allocateResource s pid r a = requestResource s pid r a := by
  have hreq : requestResource s pid r a = (false,
      { s with
        processes := modifyAt s.processes pid
          (fun p => { p with waitingForResource := r, waitingForAmount := a }) }) := by
    unfold requestResource
    rw [if_neg (by omega)]
  rw [hreq]
  refine ⟨rfl, ?_, ?_, rfl, ?_, ?_, ?_, ?_, rfl, ?_⟩
  · simp [procAt_modifyAt_same _ _ _ hpid]
  · simp [procAt_modifyAt_same _ _ _ hpid]
  · intro j
    by_cases hj : j = pid
    · subst hj; simp [procAt_modifyAt_same _ _ _ hpid]
    · simp [procAt_modifyAt_ne _ _ _ _ hj]
  · simp [procAt_modifyAt_same _ _ _ hpid]
  · intro j hj; simp [procAt_modifyAt_ne _ _ _ _ hj]
  · simp [length_modifyAt]
  · rw [← hreq]; rfl

theorem requestResource_failure_witness :
    ValidPid allocSim.processes 0 ∧ (allocSim.resources 1).availableInstances < 3 ∧
    (requestResource allocSim 0 1 3).1 = false ∧
    (procAt (requestResource allocSim 0 1 3).2.processes 0).waitingForResource = 1 ∧
    (procAt (requestResource allocSim 0 1 3).2.processes 0).waitingForAmount = 3 ∧
    (procAt (requestResource allocSim 0 1 3).2.processes 0).heldResources 1 = 1 :=
  ⟨by decide, by decide,
   (requestResource_failure allocSim 0 1 3 (by decide) (by decide)).1,
   by decide, by decide, by decide⟩

/-- C3. Failing input: with the single ready process of priority 100 (input line
`0 0 100 CPU{1}`, first selection of the run) the ready queue is `[0]`, yet
`selectNextProcess` returns -1, which is not in the queue, and removes
nothing; the selection stage leaves the CPU idle. -/
theorem selectNextProcess_sentinel_miss :
    sentinelSim.readyQueue = [0] ∧
    (procAt sentinelSim.processes 0).priority = 100 ∧
    (selectNextProcess sentinelSim).1 = -1 ∧
    (selectNextProcess sentinelSim).2.readyQueue = [0] ∧
    (selectStage sentinelSim).currentProcess = -1 := by
  decide

theorem pickScan_spec (ps : List Process) :
    ∀ (rest pre : List Int) (bi : Nat) (bp : Int),
      bi < pre.length →
      bp = queuePriority ps (pre ++ rest) bi →
      (∀ j, j < pre.length → bp ≤ queuePriority ps (pre ++ rest) j) →
      (∀ j, j < bi → bp < queuePriority ps (pre ++ rest) j) →
      (Student.pickScan ps rest pre.length (bi, bp)).1 < (pre ++ rest).length ∧
      (Student.pickScan ps rest pre.length (bi, bp)).2
        = queuePriority ps (pre ++ rest) (Student.pickScan ps rest pre.length (bi, bp)).1 ∧
      (∀ j, j < (pre ++ rest).length →
        (Student.pickScan ps rest pre.length (bi, bp)).2 ≤ queuePriority ps (pre ++ rest) j) ∧
      (∀ j, j < (Student.pickScan ps rest pre.length (bi, bp)).1 →
        (Student.pickScan ps rest pre.length (bi, bp)).2 < queuePriority ps (pre ++ rest) j) := by
  intro rest
  induction rest with
  | nil =>
    intro pre bi bp hbi hbp hle hlt
    simp only [Student.pickScan, List.append_nil] at *
    exact ⟨hbi, hbp, hle, hlt⟩
  | cons pid rest ih =>
    intro pre bi bp hbi hbp hle hlt
    have happ : pre ++ pid :: rest = (pre ++ [pid]) ++ rest := by simp
    have hlen : (pre ++ [pid]).length = pre.length + 1 := by simp
    have hget : (pre ++ pid :: rest)[pre.length]? = some pid := by
      rw [List.getElem?_append_right (le_refl _)]; simp
    have hpid : queuePriority ps (pre ++ pid :: rest) pre.length = (procAt ps pid).priority := by
      unfold queuePriority
      rw [List.getD_eq_getElem?_getD, hget]; rfl
    rw [happ] at hbp hle hlt hpid ⊢
    unfold Student.pickScan
    split
    · rename_i hlt'
      simp only at hlt'
      rw [← hlen]
      apply ih (pre ++ [pid]) pre.length (procAt ps pid).priority
      · omega
      · exact hpid.symm
      · intro j hj
        rw [hlen] at hj
        by_cases hj' : j < pre.length
        · have := hle j hj'; omega
        · have : j = pre.length := by omega
          subst this; omega
      · intro j hj
        have := hle j hj; omega
    · rename_i hge
      simp only at hge
      rw [← hlen]
      apply ih (pre ++ [pid]) bi bp
      · omega
      · exact hbp
      · intro j hj
        rw [hlen] at hj
        by_cases hj' : j < pre.length
        · exact hle j hj'
        · have : j = pre.length := by omega
          subst this; omega
      · exact hlt

theorem pickNextProcess_cons (s : Sim) (first : Int) (rest : List Int)
    (hq : s.readyQueue = first :: rest) :
    Student.pickNextProcess s =
      ((first :: rest).getD
          (Student.pickScan s.processes rest 1 (0, (procAt s.processes first).priority)).1 0,
        { s with
          readyQueue := (first :: rest).eraseIdx
            (Student.pickScan s.processes rest 1 (0, (procAt s.processes first).priority)).1 }) := by
  unfold Student.pickNextProcess
  split
  · rename_i h; rw [hq] at h; cases h
  · rename_i f r h
    rw [hq] at h
    cases h
    rw [hq]

/-- C4. For a non-empty ready queue, `pickNextProcess` returns the entry at the
first position `i` whose priority is minimal in the queue (every entry has
priority at least that of entry `i`, every earlier entry a strictly larger
one), and the queue afterwards is the original queue with exactly the entry
at position `i` erased, the others in their order; nothing else changes. -/
theorem pickNextProcess_spec (s : Sim) (h : s.readyQueue ≠ []) :
    ∃ i, i < s.readyQueue.length ∧
      (Student.pickNextProcess s).1 = s.readyQueue.getD i 0 ∧
      (Student.pickNextProcess s).1 ∈ s.readyQueue ∧
      (∀ j, j < s.readyQueue.length →
        queuePriority s.processes s.readyQueue i ≤ queuePriority s.processes s.readyQueue j) ∧
      (∀ j, j < i →
        queuePriority s.processes s.readyQueue i < queuePriority s.processes s.readyQueue j) ∧
      (Student.pickNextProcess s).2.readyQueue = s.readyQueue.eraseIdx i ∧
      (Student.pickNextProcess s).2
        = { s with readyQueue := (Student.pickNextProcess s).2.readyQueue } := by
  cases hq : s.readyQueue with
  | nil => exact absurd hq h
  | cons first rest =>
    have hspec := pickScan_spec s.processes rest [first] 0 (procAt s.processes first).priority
      (by simp) (by simp [queuePriority])
      (by intro j hj
          have : j = 0 := by simpa using hj
          subst this; simp [queuePriority])
      (by intro j hj; omega)
    simp only [List.length_singleton, List.singleton_append] at hspec
    obtain ⟨h1, h2, h3, h4⟩ := hspec
    have hpick := pickNextProcess_cons s first rest hq
    refine ⟨_, h1, ?_, ?_, ?_, ?_, ?_, ?_⟩
    · rw [hpick]
    · rw [hpick]
      simp only [List.getD_eq_getElem?_getD, List.getElem?_eq_getElem h1, Option.getD_some]
      exact List.getElem_mem _
    · intro j hj; rw [← h2]; exact h3 j hj
    · intro j hj; rw [← h2]; exact h4 j hj
    · rw [hpick]
    · rw [hpick]

theorem pickNextProcess_spec_witness :
    pickSim.readyQueue ≠ [] ∧
    (Student.pickNextProcess pickSim).1 = 1 ∧
    (Student.pickNextProcess pickSim).2.readyQueue = [0, 2] ∧
    ∃ i, i < pickSim.readyQueue.length ∧
      (Student.pickNextProcess pickSim).1 = pickSim.readyQueue.getD i 0 :=
  ⟨by decide, by decide, by decide,
   (pickNextProcess_spec pickSim (by decide)).imp (fun _ hi => ⟨hi.1, hi.2.1⟩)⟩

/-! ## The deadlock analyzer on the two examples of the specification (C9, C10) -/

/-- C9, as stated, fails: on the self-wait example neither analyzer reports
exactly `{P0}`. -/
theorem selfWait_not_only_P0 :
    (detectDeadlock selfWaitSim []).2 ≠ [0] ∧
    (Student.findDeadlock selfWaitSim []).2 ≠ [0] ∧
    ¬ (∀ pid, pid ∈ (detectDeadlock selfWaitSim []).2 ↔ pid = 0) := by
  refine ⟨by decide, by decide, ?_⟩
  intro h
  exact absurd ((h 1).1 (by decide)) (by decide)

/-- C9, amended: on the self-wait example both analyzers return true and
report `P0` and `P1`; `P1` is unsatisfiable too, because the only unit of
`R1` is held by `P0`, which never completes. -/
theorem selfWait_reports_both :
    detectDeadlock selfWaitSim [] = (true, [0, 1]) ∧
    Student.findDeadlock selfWaitSim [] = (true, [0, 1]) := by
  constructor <;> decide

/-- C10. On the circular wait over two single-instance resources both
analyzers return true and report exactly `P0` and `P1`. -/
theorem circularWait_reports_both :
    detectDeadlock circularSim [] = (true, [0, 1]) ∧
    Student.findDeadlock circularSim [] = (true, [0, 1]) ∧
    (∀ pid, pid ∈ (detectDeadlock circularSim []).2 ↔ pid = 0 ∨ pid = 1) := by
  refine ⟨by decide, by decide, ?_⟩
  intro pid
  have h : (detectDeadlock circularSim []).2 = [0, 1] := by decide
  rw [h]
  simp

/-! ## The deadlock analyzer as a fixed point (C8) -/

theorem mem_setInsert (x y : Int) (l : List Int) : y ∈ setInsert x l ↔ y = x ∨ y ∈ l := by
  induction l with
  | nil => simp [setInsert]
  | cons z zs ih =>
    unfold setInsert
    split
    · simp
    · split
      · rename_i h; subst h; simp
      · simp [ih]; tauto

theorem setInsert_sorted (x : Int) (l : List Int) (h : l.Pairwise (· < ·)) :
    (setInsert x l).Pairwise (· < ·) := by
  induction l with
  | nil => simp [setInsert]
  | cons z zs ih =>
    rw [List.pairwise_cons] at h
    unfold setInsert
    split
    · rename_i hlt
      rw [List.pairwise_cons]
      refine ⟨?_, List.pairwise_cons.2 h⟩
      intro a ha
      rcases List.mem_cons.1 ha with rfl | ha
      · exact hlt
      · have := h.1 a ha; omega
    · split
      · exact List.pairwise_cons.2 h
      · rename_i h1 h2
        rw [List.pairwise_cons]
        refine ⟨?_, ih h.2⟩
        intro a ha
        rcases (mem_setInsert x a zs).1 ha with rfl | ha
        · omega
        · exact h.1 a ha

theorem mem_foldl_setInsert (l acc : List Int) (y : Int) :
    y ∈ l.foldl (fun acc pid => setInsert pid acc) acc ↔ y ∈ l ∨ y ∈ acc := by
  induction l generalizing acc with
  | nil => simp
  | cons x xs ih =>
    simp only [List.foldl_cons, ih, mem_setInsert, List.mem_cons]
    tauto

theorem foldl_setInsert_sorted (l acc : List Int) (h : acc.Pairwise (· < ·)) :
    (l.foldl (fun acc pid => setInsert pid acc) acc).Pairwise (· < ·) := by
  induction l generalizing acc with
  | nil => simpa using h
  | cons x xs ih => exact ih _ (setInsert_sorted x acc h)

theorem nodup_of_sorted (l : List Int) (h : l.Pairwise (· < ·)) : l.Nodup := by
  unfold List.Nodup
  exact h.imp (fun hab => by omega)

theorem foldl_setErase (R l : List Int) :
    R.foldl (fun acc pid => setErase pid acc) l = l.filter (fun y => decide (y ∉ R)) := by
  induction R generalizing l with
  | nil => simp
  | cons x xs ih =>
    rw [List.foldl_cons, ih]
    unfold setErase
    rw [List.filter_filter]
    apply List.filter_congr
    intro y _
    simp only [List.mem_cons, not_or, ne_eq, decide_not, Bool.decide_and]
    exact Bool.and_comm _ _

theorem foldl_detectVisit (ps : List Process) (l : List Int) :
    ∀ (t : Int → ResourceInfo) (R : List Int) (b : Bool),
      l.foldl (detectVisit ps) (t, R, b)
        = (scanTemp ps l t,
           (scanRemoved ps l t).foldl (fun acc pid => setInsert pid acc) R,
           b || !(scanRemoved ps l t).isEmpty) := by
  induction l with
  | nil => intro t R b; simp [scanTemp, scanRemoved]
  | cons q l ih =>
    intro t R b
    rw [List.foldl_cons]
    by_cases hs : satisfiable ps t q = true
    · have hv : detectVisit ps (t, R, b) q
          = (releaseAll t (procAt ps q).heldResources, setInsert q R, true) := by
        unfold satisfiable at hs
        simp only [Bool.and_eq_true, decide_eq_true_eq] at hs
        unfold detectVisit
        simp only [hs.1, hs.2, ne_eq, not_false_eq_true, if_true, ge_iff_le]
      rw [hv, ih]
      simp [scanTemp, scanRemoved, hs]
    · have hv : detectVisit ps (t, R, b) q = (t, R, b) := by
        unfold satisfiable at hs
        simp only [Bool.and_eq_true, decide_eq_true_eq, not_and] at hs
        unfold detectVisit
        by_cases h1 : (procAt ps q).waitingForResource ≠ -1
        · simp only [h1, ne_eq, not_false_eq_true, if_true, hs h1, if_false]
        · simp only [h1, if_false]
      rw [hv, ih]
      simp [scanTemp, scanRemoved, hs]

theorem scanRemoved_sublist (ps : List Process) (l : List Int) :
    ∀ t, (scanRemoved ps l t).Sublist l := by
  induction l with
  | nil => intro t; simp [scanRemoved]
  | cons q l ih =>
    intro t
    unfold scanRemoved
    split
    · exact (ih _).cons₂ q
    · exact (ih _).cons q

theorem scanKept_sublist (ps : List Process) (l : List Int) :
    ∀ t, (scanKept ps l t).Sublist l := by
  induction l with
  | nil => intro t; simp [scanKept]
  | cons q l ih =>
    intro t
    unfold scanKept
    split
    · exact (ih _).cons q
    · exact (ih _).cons₂ q

theorem mem_scan (ps : List Process) (l : List Int) :
    ∀ t y, y ∈ l ↔ y ∈ scanRemoved ps l t ∨ y ∈ scanKept ps l t := by
  induction l with
  | nil => intro t y; simp [scanRemoved, scanKept]
  | cons q l ih =>
    intro t y
    unfold scanRemoved scanKept
    split
    · simp only [List.mem_cons, ih (releaseAll t (procAt ps q).heldResources) y]; tauto
    · simp only [List.mem_cons, ih t y]; tauto

theorem length_scan (ps : List Process) (l : List Int) :
    ∀ t, l.length = (scanRemoved ps l t).length + (scanKept ps l t).length := by
  induction l with
  | nil => intro t; simp [scanRemoved, scanKept]
  | cons q l ih =>
    intro t
    unfold scanRemoved scanKept
    split
    · simp only [List.length_cons, ih (releaseAll t (procAt ps q).heldResources)]; omega
    · simp only [List.length_cons, ih t]; omega

theorem scanRemoved_nil (ps : List Process) (l : List Int) :
    ∀ t, scanRemoved ps l t = [] →
      scanKept ps l t = l ∧ ∀ q ∈ l, satisfiable ps t q = false := by
  induction l with
  | nil => intro t _; simp [scanKept]
  | cons q l ih =>
    intro t h
    unfold scanRemoved at h
    unfold scanKept
    split at h
    · cases h
    · rename_i hs
      obtain ⟨h1, h2⟩ := ih t h
      rw [if_neg hs, h1]
      refine ⟨rfl, ?_⟩
      intro y hy
      rcases List.mem_cons.1 hy with rfl | hy
      · simpa using hs
      · exact h2 y hy

/-- On a duplicate-free list, erasing the removed keys leaves the kept ones. -/
theorem filter_not_removed (ps : List Process) (l : List Int) :
    ∀ t, l.Nodup →
      l.filter (fun y => decide (y ∉ scanRemoved ps l t)) = scanKept ps l t := by
  induction l with
  | nil => intro t _; simp [scanKept]
  | cons q l ih =>
    intro t hnd
    rw [List.nodup_cons] at hnd
    unfold scanRemoved scanKept
    split
    · rw [List.filter_cons_of_neg (by simp)]
      rw [← ih _ hnd.2]
      apply List.filter_congr
      intro y hy
      have hne : y ≠ q := fun h => hnd.1 (h ▸ hy)
      simp [hne]
    · have hq : q ∉ scanRemoved ps l t := fun h => hnd.1 ((scanRemoved_sublist ps l t).subset h)
      rw [List.filter_cons_of_pos (by simpa using hq), ih _ hnd.2]

theorem heldSum_cons (ps : List Process) (q : Int) (l : List Int) (r : Int) :
    heldSum ps (q :: l) r = (procAt ps q).heldResources r + heldSum ps l r := by
  simp [heldSum]

theorem heldSum_nil (ps : List Process) (r : Int) : heldSum ps [] r = 0 := by
  simp [heldSum]

theorem scanTemp_available (ps : List Process) (l : List Int) :
    ∀ t r, (scanTemp ps l t r).availableInstances
      = (t r).availableInstances + heldSum ps (scanRemoved ps l t) r := by
  induction l with
  | nil => intro t r; simp [scanTemp, scanRemoved, heldSum]
  | cons q l ih =>
    intro t r
    unfold scanTemp scanRemoved
    split
    · rw [ih, heldSum_cons]
      simp only [releaseAll]
      omega
    · exact ih t r

/-- The holdings of the listed processes that satisfy `P` split into those of
the removed and those of the kept ones. -/
theorem heldSum_filter_scan (ps : List Process) (P : Int → Bool) (l : List Int) :
    ∀ t r, heldSum ps (l.filter P) r
      = heldSum ps ((scanRemoved ps l t).filter P) r
        + heldSum ps ((scanKept ps l t).filter P) r := by
  induction l with
  | nil => intro t r; simp [scanRemoved, scanKept, heldSum]
  | cons q l ih =>
    intro t r
    unfold scanRemoved scanKept
    split
    · by_cases hP : P q = true
      · rw [List.filter_cons_of_pos hP, List.filter_cons_of_pos hP, heldSum_cons, heldSum_cons,
          ih (releaseAll t (procAt ps q).heldResources) r]
        omega
      · rw [List.filter_cons_of_neg hP, List.filter_cons_of_neg hP,
          ih (releaseAll t (procAt ps q).heldResources) r]
    · by_cases hP : P q = true
      · rw [List.filter_cons_of_pos hP, List.filter_cons_of_pos hP, heldSum_cons, heldSum_cons,
          ih t r]
        omega
      · rw [List.filter_cons_of_neg hP, List.filter_cons_of_neg hP, ih t r]

theorem heldSum_scan (ps : List Process) (l : List Int) (t : Int → ResourceInfo) (r : Int) :
    heldSum ps l r = heldSum ps (scanRemoved ps l t) r + heldSum ps (scanKept ps l t) r := by
  have h := heldSum_filter_scan ps (fun _ => true) l t r
  simpa using h

theorem heldSum_nonneg (ps : List Process) (l : List Int) (r : Int)
    (h : ∀ q ∈ l, 0 ≤ (procAt ps q).heldResources r) : 0 ≤ heldSum ps l r := by
  induction l with
  | nil => simp [heldSum]
  | cons q l ih =>
    rw [heldSum_cons]
    have h1 := h q (List.mem_cons_self _ _)
    have h2 := ih (fun y hy => h y (List.mem_cons_of_mem _ hy))
    omega

theorem detectLoop_eq_scanLoop (ps : List Process) (n : Nat) :
    ∀ l t, l.Nodup → detectLoop ps n l t = scanLoop ps n l t := by
  induction n with
  | zero => intro l t _; rfl
  | succ n ih =>
    intro l t hnd
    unfold detectLoop scanLoop
    by_cases hl : l = []
    · simp [hl]
    · simp only [hl, if_false]
      rw [foldl_detectVisit]
      simp only [Bool.false_or]
      rw [foldl_setErase]
      have hfil : l.filter (fun y =>
            decide (y ∉ (scanRemoved ps l t).foldl (fun acc pid => setInsert pid acc) []))
          = scanKept ps l t := by
        rw [← filter_not_removed ps l t hnd]
        apply List.filter_congr
        intro y _
        simp [mem_foldl_setInsert]
      rw [hfil]
      by_cases hr : scanRemoved ps l t = []
      · simp [hr, (scanRemoved_nil ps l t hr).1]
      · have hne : (!(scanRemoved ps l t).isEmpty) = true := by
          cases h : scanRemoved ps l t with
          | nil => exact absurd h hr
          | cons _ _ => rfl
        simp only [hne, if_true, hr, ne_eq, not_false_eq_true]
        exact ih _ _ ((scanKept_sublist ps l t).nodup hnd)

theorem scanLoop_sublist (ps : List Process) (n : Nat) :
    ∀ l t, (scanLoop ps n l t).Sublist l := by
  induction n with
  | zero => intro l t; exact List.Sublist.refl l
  | succ n ih =>
    intro l t
    unfold scanLoop
    split
    · exact List.Sublist.refl l
    · split
      · exact (ih _ _).trans (scanKept_sublist ps l t)
      · exact List.Sublist.refl l

/-- With enough fuel the loop ends in a pass without progress: every process
left waits for more than the scratch pool then holds. -/
theorem scanLoop_final (ps : List Process) (n : Nat) :
    ∀ l t, l.length ≤ n → ∀ q ∈ scanLoop ps n l t,
      (procAt ps q).waitingForResource ≠ -1 →
      (procAt ps q).waitingForAmount
        > (t (procAt ps q).waitingForResource).availableInstances
          + heldSum ps l (procAt ps q).waitingForResource
          - heldSum ps (scanLoop ps n l t) (procAt ps q).waitingForResource := by
  induction n with
  | zero =>
    intro l t hlen q hq
    have : l = [] := List.length_eq_zero.1 (by omega)
    subst this
    simp [scanLoop] at hq
  | succ n ih =>
    intro l t hlen q hq hw
    unfold scanLoop at hq ⊢
    by_cases hl : l = []
    · simp [hl] at hq
    · rw [if_neg hl] at hq ⊢
      by_cases hr : scanRemoved ps l t = []
      · rw [if_neg (by simpa using hr)] at hq ⊢
        have hs := (scanRemoved_nil ps l t hr).2 q hq
        unfold satisfiable at hs
        simp only [Bool.and_eq_false_iff, decide_eq_false_iff_not, not_not] at hs
        rcases hs with hs | hs
        · exact absurd hs hw
        · omega
      · rw [if_pos hr] at hq ⊢
        have hlen' : (scanKept ps l t).length ≤ n := by
          have h1 := length_scan ps l t
          have h2 : 0 < (scanRemoved ps l t).length := List.length_pos.2 hr
          omega
        have h := ih (scanKept ps l t) (scanTemp ps l t) hlen' q hq hw
        rw [scanTemp_available] at h
        have hsplit := heldSum_scan ps l t (procAt ps q).waitingForResource
        omega

theorem filter_notMem_cons (S : Finset Int) (x : Int) (l : List Int) :
    (x :: l).filter (fun y => decide (y ∉ S))
      = if x ∈ S then l.filter (fun y => decide (y ∉ S))
        else x :: l.filter (fun y => decide (y ∉ S)) := by
  by_cases hx : x ∈ S <;> simp [List.filter_cons, hx]

/-- A pass never removes a member of a set `S` each of whose members waits
for more than the scratch pool plus everything held outside `S`. -/
theorem scanRemoved_disjoint (ps : List Process) (S : Finset Int) (l : List Int) :
    ∀ t,
      (∀ q ∈ l, ∀ r, 0 ≤ (procAt ps q).heldResources r) →
      (∀ p ∈ S, (procAt ps p).waitingForAmount
        > (t (procAt ps p).waitingForResource).availableInstances
          + heldSum ps (l.filter (fun y => decide (y ∉ S))) (procAt ps p).waitingForResource) →
      ∀ q ∈ scanRemoved ps l t, q ∉ S := by
  induction l with
  | nil => intro t _ _ q hq; simp [scanRemoved] at hq
  | cons x l ih =>
    intro t hheld hS q hq
    have hheld' : ∀ q ∈ l, ∀ r, 0 ≤ (procAt ps q).heldResources r :=
      fun y hy => hheld y (List.mem_cons_of_mem _ hy)
    have hnn : ∀ r, 0 ≤ heldSum ps (l.filter (fun y => decide (y ∉ S))) r := by
      intro r
      apply heldSum_nonneg
      intro y hy
      exact hheld' y (List.mem_filter.1 hy).1 r
    unfold scanRemoved at hq
    by_cases hs : satisfiable ps t x = true
    · rw [if_pos hs] at hq
      have hxS : x ∉ S := by
        intro hx
        have h1 := hS x hx
        unfold satisfiable at hs
        simp only [Bool.and_eq_true, decide_eq_true_eq] at hs
        rw [filter_notMem_cons, if_pos hx] at h1
        have := hnn (procAt ps x).waitingForResource
        omega
      rcases List.mem_cons.1 hq with rfl | hq
      · exact hxS
      · apply ih (releaseAll t (procAt ps x).heldResources) hheld' _ q hq
        intro p hp
        have h1 := hS p hp
        rw [filter_notMem_cons, if_neg hxS, heldSum_cons] at h1
        simp only [releaseAll]
        omega
    · rw [if_neg hs] at hq
      apply ih t hheld' _ q hq
      intro p hp
      have h1 := hS p hp
      by_cases hxf : x ∈ S
      · rw [filter_notMem_cons, if_pos hxf] at h1
        exact h1
      · rw [filter_notMem_cons, if_neg hxf, heldSum_cons] at h1
        have := hheld x (List.mem_cons_self _ _) (procAt ps p).waitingForResource
        omega

/-- Such a set `S` survives every pass of the loop. -/
theorem scanLoop_greatest (ps : List Process) (S : Finset Int) (n : Nat) :
    ∀ l t,
      (∀ q ∈ l, ∀ r, 0 ≤ (procAt ps q).heldResources r) →
      (∀ p ∈ S, (procAt ps p).waitingForAmount
        > (t (procAt ps p).waitingForResource).availableInstances
          + heldSum ps (l.filter (fun y => decide (y ∉ S))) (procAt ps p).waitingForResource) →
      ∀ q ∈ S, q ∈ l → q ∈ scanLoop ps n l t := by
  induction n with
  | zero => intro l t _ _ q _ hq; exact hq
  | succ n ih =>
    intro l t hheld hS q hqS hql
    unfold scanLoop
    split
    · exact hql
    · split
      · have hdis := scanRemoved_disjoint ps S l t hheld hS
        have hkept : q ∈ scanKept ps l t := by
          rcases (mem_scan ps l t q).1 hql with h | h
          · exact absurd hqS (hdis q h)
          · exact h
        apply ih (scanKept ps l t) (scanTemp ps l t) _ _ q hqS hkept
        · intro y hy
          exact hheld y ((scanKept_sublist ps l t).subset hy)
        · intro p hp
          have h1 := hS p hp
          have hsplit := heldSum_filter_scan ps (fun y => decide (y ∉ S)) l t
            (procAt ps p).waitingForResource
          have hfil : (scanRemoved ps l t).filter (fun y => decide (y ∉ S))
              = scanRemoved ps l t := by
            apply List.filter_eq_self.2
            intro y hy
            simpa using hdis y hy
          rw [hfil] at hsplit
          rw [scanTemp_available]
          omega
      · exact hql

theorem mem_waitingSet (s : Sim) (y : Int) : y ∈ waitingSet s ↔ y ∈ s.waitingQueue := by
  unfold waitingSet
  rw [mem_foldl_setInsert]
  simp

theorem waitingSet_nodup (s : Sim) : (waitingSet s).Nodup :=
  nodup_of_sorted _ (foldl_setInsert_sorted _ _ List.Pairwise.nil)

theorem waitingSet_toFinset (s : Sim) : (waitingSet s).toFinset = s.waitingQueue.toFinset := by
  ext y
  simp [mem_waitingSet]

/-- The result of `detectDeadlock` on a fresh output vector, in terms of the scans. -/
theorem detectDeadlock_eq (s : Sim) :
    detectDeadlock s []
      = (decide (scanLoop s.processes (waitingSet s).length (waitingSet s) s.resources ≠ []),
         scanLoop s.processes (waitingSet s).length (waitingSet s) s.resources) := by
  unfold detectDeadlock
  simp only []
  rw [show s.waitingQueue.foldl (fun acc pid => setInsert pid acc) [] = waitingSet s from rfl]
  by_cases h : waitingSet s = []
  · rw [if_pos h, h]
    simp [scanLoop]
  · rw [if_neg h, detectLoop_eq_scanLoop _ _ _ _ (waitingSet_nodup s)]
    by_cases h2 : scanLoop s.processes (waitingSet s).length (waitingSet s) s.resources = []
    · simp [h2]
    · simp [h2]

theorem heldSum_eq_sum (ps : List Process) (l : List Int) (r : Int) (h : l.Nodup) :
    heldSum ps l r = Finset.sum l.toFinset (fun q => (procAt ps q).heldResources r) := by
  unfold heldSum
  rw [List.sum_toFinset _ h]

/-- C8. For a state whose waiters have non-negative holdings and all wait for
a resource (`waitingForResource ≠ -1`), the set `D` reported by
`detectDeadlock` is the greatest set of waiters `S` such that every `p` in `S`
has `waitingForAmount(p) > available(res(p)) +` the holdings of `res(p)` over
the waiters outside `S`: `D` is such a set, it contains every such set, and
the function returns true exactly when `D` is non-empty. -/
theorem detectDeadlock_characterisation (s : Sim)
    (hheld : ∀ q ∈ s.waitingQueue, ∀ r, 0 ≤ (procAt s.processes q).heldResources r)
    (hwait : ∀ q ∈ s.waitingQueue, (procAt s.processes q).waitingForResource ≠ -1) :
    Unsatisfiable s (detectDeadlock s []).2.toFinset ∧
    (∀ S, Unsatisfiable s S → S ⊆ (detectDeadlock s []).2.toFinset) ∧
    ((detectDeadlock s []).1 = true ↔ (detectDeadlock s []).2.toFinset.Nonempty) := by
  rw [detectDeadlock_eq]
  simp only []
  have hsub := scanLoop_sublist s.processes (waitingSet s).length (waitingSet s) s.resources
  have hndD := hsub.nodup (waitingSet_nodup s)
  have hDW : (scanLoop s.processes (waitingSet s).length (waitingSet s) s.resources).toFinset
      ⊆ s.waitingQueue.toFinset := by
    intro y hy
    rw [List.mem_toFinset] at hy ⊢
    exact (mem_waitingSet s y).1 (hsub.subset hy)
  refine ⟨⟨hDW, ?_⟩, ?_, ?_⟩
  · intro p hp
    rw [List.mem_toFinset] at hp
    have hpW : p ∈ s.waitingQueue := (mem_waitingSet s p).1 (hsub.subset hp)
    have h := scanLoop_final s.processes (waitingSet s).length (waitingSet s) s.resources
      (le_refl _) p hp (hwait p hpW)
    rw [heldSum_eq_sum _ _ _ (waitingSet_nodup s), heldSum_eq_sum _ _ _ hndD,
      waitingSet_toFinset] at h
    have hsd := Finset.sum_sdiff (f := fun q =>
      (procAt s.processes q).heldResources (procAt s.processes p).waitingForResource) hDW
    beta_reduce at hsd
    omega
  · intro S hS y hy
    rw [List.mem_toFinset]
    have hyW : y ∈ waitingSet s :=
      (mem_waitingSet s y).2 (List.mem_toFinset.1 (hS.1 hy))
    apply scanLoop_greatest s.processes S (waitingSet s).length (waitingSet s) s.resources
      _ _ y hy hyW
    · intro q hq
      exact hheld q ((mem_waitingSet s q).1 hq)
    · intro p hp
      have h := hS.2 p hp
      rw [heldSum_eq_sum _ _ _ ((waitingSet_nodup s).filter _)]
      have hset : ((waitingSet s).filter (fun y => decide (y ∉ S))).toFinset
          = s.waitingQueue.toFinset \ S := by
        ext z
        simp [List.mem_filter, mem_waitingSet]
      rw [hset]
      exact h
  · rw [decide_eq_true_eq, List.toFinset_nonempty_iff]

theorem detectDeadlock_characterisation_witness :
    (∀ q ∈ circularSim.waitingQueue, ∀ r, 0 ≤ (procAt circularSim.processes q).heldResources r) ∧
    (∀ q ∈ circularSim.waitingQueue, (procAt circularSim.processes q).waitingForResource ≠ -1) ∧
    Unsatisfiable circularSim (detectDeadlock circularSim []).2.toFinset := by
  have h1 : ∀ q ∈ circularSim.waitingQueue, ∀ r,
      0 ≤ (procAt circularSim.processes q).heldResources r := by
    intro q hq r
    have hq' : q = 0 ∨ q = 1 := by simpa [circularSim] using hq
    rcases hq' with rfl | rfl
    · show 0 ≤ (if r = 1 then (1 : Int) else 0)
      split <;> omega
    · show 0 ≤ (if r = 2 then (1 : Int) else 0)
      split <;> omega
  have h2 : ∀ q ∈ circularSim.waitingQueue,
      (procAt circularSim.processes q).waitingForResource ≠ -1 := by
    intro q hq
    have hq' : q = 0 ∨ q = 1 := by simpa [circularSim] using hq
    rcases hq' with rfl | rfl <;> decide
  exact ⟨h1, h2, (detectDeadlock_characterisation circularSim h1 h2).1⟩

/-! ## Invariants of the run: conservation and bounds (C1, C2) -/

theorem modifyAt_invalid (ps : List Process) (i : Int) (f : Process → Process)
    (h : ¬ ValidPid ps i) : modifyAt ps i f = ps := by
  unfold modifyAt
  split
  · rename_i h0
    apply List.set_eq_of_length_le
    unfold ValidPid at h
    omega
  · rfl

theorem procAt_mem (ps : List Process) (i : Int) (h : ValidPid ps i) : procAt ps i ∈ ps := by
  obtain ⟨h0, h1⟩ := h
  have hlt : i.toNat < ps.length := by omega
  unfold procAt
  rw [if_pos h0, List.getD_eq_getElem?_getD, List.getElem?_eq_getElem hlt]
  exact List.getElem_mem _

theorem modifyAt_eq_set (ps : List Process) (i : Int) (f : Process → Process)
    (h : ValidPid ps i) : modifyAt ps i f = ps.set i.toNat (f (procAt ps i)) := by
  unfold modifyAt
  rw [if_pos h.1]

theorem procAt_eq_getElem (ps : List Process) (i : Int) (h : ValidPid ps i)
    (hlt : i.toNat < ps.length) : procAt ps i = ps[i.toNat] := by
  unfold procAt
  rw [if_pos h.1, List.getD_eq_getElem?_getD, List.getElem?_eq_getElem hlt]
  rfl

theorem sum_map_set (g : Process → Int) (l : List Process) :
    ∀ (k : Nat) (v : Process) (hk : k < l.length),
      ((l.set k v).map g).sum = (l.map g).sum - g l[k] + g v := by
  induction l with
  | nil => intro k v hk; simp at hk
  | cons x xs ih =>
    intro k v hk
    cases k with
    | zero => simp only [List.set_cons_zero, List.map_cons, List.sum_cons, List.getElem_cons_zero]; omega
    | succ k =>
      simp only [List.set_cons_succ, List.map_cons, List.sum_cons, List.getElem_cons_succ]
      rw [ih k v (by simpa using hk)]
      omega

theorem heldTotal_modifyAt (ps : List Process) (i : Int) (f : Process → Process) (r : Int)
    (h : ValidPid ps i) :
    heldTotal (modifyAt ps i f) r
      = heldTotal ps r - (procAt ps i).heldResources r + (f (procAt ps i)).heldResources r := by
  have hlt : i.toNat < ps.length := by
    obtain ⟨h0, h1⟩ := h; omega
  rw [modifyAt_eq_set _ _ _ h]
  unfold heldTotal
  rw [sum_map_set (fun p => p.heldResources r) ps i.toNat _ hlt, procAt_eq_getElem ps i h hlt]

theorem mem_modifyAt (ps : List Process) (i : Int) (f : Process → Process) (p : Process)
    (h : p ∈ modifyAt ps i f) : p ∈ ps ∨ (ValidPid ps i ∧ p = f (procAt ps i)) := by
  by_cases hv : ValidPid ps i
  · rw [modifyAt_eq_set _ _ _ hv] at h
    rcases List.mem_or_eq_of_mem_set h with h | h
    · exact Or.inl h
    · exact Or.inr ⟨hv, h⟩
  · rw [modifyAt_invalid _ _ _ hv] at h
    exact Or.inl h

theorem map_modifyAt_of_eq {α : Type} (g : Process → α) (ps : List Process) (i : Int)
    (f : Process → Process) (h : ∀ p, g (f p) = g p) :
    (modifyAt ps i f).map g = ps.map g := by
  by_cases hv : ValidPid ps i
  · have hlt : i.toNat < ps.length := by
      obtain ⟨h0, h1⟩ := hv; omega
    rw [modifyAt_eq_set _ _ _ hv]
    apply List.ext_getElem
    · simp
    · intro k h1 h2
      simp only [List.getElem_map, List.getElem_set]
      split
      · rename_i hk
        subst hk
        rw [h, procAt_eq_getElem ps i hv hlt]
      · rfl
  · rw [modifyAt_invalid _ _ _ hv]

/-- The invariant of table and pool depends on the table only through the
signature of its processes. -/
theorem tableInv_congr (b : Bool) (res : Int → ResourceInfo) (ps ps' : List Process)
    (h : ps'.map procSig = ps.map procSig) (hinv : TableInv b res ps) : TableInv b res ps' := by
  have hlen : ps'.length = ps.length := by
    have := congrArg List.length h
    simpa using this
  have hmem : ∀ p' ∈ ps', ∃ p ∈ ps, procSig p = procSig p' := by
    intro p' hp'
    have : procSig p' ∈ ps.map procSig := h ▸ List.mem_map_of_mem procSig hp'
    obtain ⟨p, hp, hpe⟩ := List.mem_map.1 this
    exact ⟨p, hp, hpe⟩
  have hheld : ∀ r, heldTotal ps' r = heldTotal ps r := by
    intro r
    have h1 : ∀ l : List Process,
        l.map (fun p => p.heldResources r) = (l.map procSig).map (fun x => x.2.1 r) := by
      intro l; simp [procSig]
    unfold heldTotal
    rw [h1 ps', h1 ps, h]
  obtain ⟨hp, hc, hn⟩ := hinv
  refine ⟨?_, ?_, ?_⟩
  · intro p' hp'
    obtain ⟨p, hpm, hpe⟩ := hmem p' hp'
    have hpid : p.pid = p'.pid := congrArg (fun x => x.1) hpe
    have := hp p hpm
    unfold ValidPid at this ⊢
    rw [hlen, ← hpid]
    exact this
  · intro r; rw [hheld r]; exact hc r
  · intro hb
    refine ⟨?_, (hn hb).2⟩
    intro p' hp'
    obtain ⟨p, hpm, hpe⟩ := hmem p' hp'
    have h1 : p.heldResources = p'.heldResources := congrArg (fun x => x.2.1) hpe
    have h2 : p.waitingForAmount = p'.waitingForAmount := congrArg (fun x => x.2.2.1) hpe
    have h3 : p.bursts = p'.bursts := congrArg (fun x => x.2.2.2) hpe
    have := (hn hb).1 p hpm
    unfold ProcNonneg AmountsNonneg at this ⊢
    rw [← h1, ← h2, ← h3]
    exact this

/-- Moving amounts between the pool and the holdings of one process keeps the
invariant of table and pool. -/
theorem tableInv_transfer (b : Bool) (res res' : Int → ResourceInfo) (ps : List Process)
    (i : Int) (f : Process → Process) (hv : ValidPid ps i)
    (hinv : TableInv b res ps)
    (hpid : (f (procAt ps i)).pid = (procAt ps i).pid)
    (htot : ∀ r, (res' r).totalInstances = (res r).totalInstances)
    (hmove : ∀ r, (res' r).availableInstances + (f (procAt ps i)).heldResources r
      = (res r).availableInstances + (procAt ps i).heldResources r)
    (hnn : b = true → ProcNonneg (procAt ps i) →
      (∀ r, 0 ≤ (res r).availableInstances ∨
        (res r).totalInstances ≤ (res r).availableInstances) →
      ProcNonneg (f (procAt ps i)) ∧
      ∀ r, 0 ≤ (res' r).availableInstances ∨
        (res' r).totalInstances ≤ (res' r).availableInstances) :
    TableInv b res' (modifyAt ps i f) := by
  obtain ⟨hp, hc, hn⟩ := hinv
  refine ⟨?_, ?_, ?_⟩
  · intro p hpm
    rw [validPid_modifyAt]
    rcases mem_modifyAt ps i f p hpm with h | ⟨_, h⟩
    · exact hp p h
    · rw [h, hpid]; exact hp _ (procAt_mem ps i hv)
  · intro r
    rw [heldTotal_modifyAt ps i f r hv, htot r]
    have := hc r
    have := hmove r
    omega
  · intro hb
    have h1 := hnn hb ((hn hb).1 _ (procAt_mem ps i hv)) (hn hb).2
    refine ⟨?_, h1.2⟩
    intro p hpm
    rcases mem_modifyAt ps i f p hpm with h | ⟨_, h⟩
    · exact (hn hb).1 p h
    · rw [h]; exact h1.1

theorem sig_modifyAt (ps : List Process) (i : Int) (f : Process → Process)
    (h : ∀ p, procSig (f p) = procSig p) :
    (modifyAt ps i f).map procSig = ps.map procSig :=
  map_modifyAt_of_eq procSig ps i f h

theorem sig_step (σ : List (Int × (Int → Int) × Int × List (List Operation)))
    (ps : List Process) (i : Int) (f : Process → Process)
    (h2 : ps.map procSig = σ) (h : ∀ p, procSig (f p) = procSig p) :
    (modifyAt ps i f).map procSig = σ :=
  (sig_modifyAt ps i f h).trans h2

/-- A stage that changes neither the signature of the table nor the pool
keeps the invariant as soon as its queues stay within the table. -/
theorem inv_of_sig (b : Bool) (n : Nat) (s s' : Sim) (h : Inv b n s)
    (hsig : s'.processes.map procSig = s.processes.map procSig)
    (hres : s'.resources = s.resources) (hq : QueueInv n s') : Inv b n s' := by
  obtain ⟨hlen, ht, _⟩ := h
  refine ⟨?_, ?_, hq⟩
  · have := congrArg List.length hsig
    simp only [List.length_map] at this
    omega
  · rw [hres]
    exact tableInv_congr b _ _ _ hsig ht

theorem checkNewArrivals_inv (b : Bool) (n : Nat) (s : Sim) (h : Inv b n s) :
    Inv b n (checkNewArrivals s) := by
  apply inv_of_sig b n s _ h
  · simp only [checkNewArrivals, List.map_map]
    apply List.map_congr_left
    intro p _
    simp only [Function.comp]
    split <;> rfl
  · rfl
  · obtain ⟨hlen, ht, hr, hi, hw, hc⟩ := h
    refine ⟨?_, hi, hw, hc⟩
    intro q hq
    simp only [checkNewArrivals, List.mem_append, List.mem_map, List.mem_filter] at hq
    rcases hq with hq | ⟨p, ⟨hp, _⟩, rfl⟩
    · exact hr q hq
    · have := ht.1 p hp
      unfold ValidPid at this
      omega

/-- The property carried through the loop of `processIO`. -/
theorem ioVisit_keeps (n : Nat) (σ : List (Int × (Int → Int) × Int × List (List Operation)))
    (res : Int → ResourceInfo) (acc : Sim × List Int) (pid : Int)
    (hpid : 0 ≤ pid ∧ pid < n)
    (h : acc.1.processes.map procSig = σ ∧ acc.1.resources = res ∧ QueueInv n acc.1 ∧
      ∀ q ∈ acc.2, 0 ≤ q ∧ q < n) :
    (ioVisit acc pid).1.processes.map procSig = σ ∧ (ioVisit acc pid).1.resources = res ∧
      QueueInv n (ioVisit acc pid).1 ∧ ∀ q ∈ (ioVisit acc pid).2, 0 ≤ q ∧ q < n := by
  obtain ⟨hs, hr, ⟨hq1, hq2, hq3, hq4⟩, ht⟩ := h
  unfold ioVisit
  simp only []
  split
  · split
    · refine ⟨?_, hr, ⟨?_, hq2, hq3, hq4⟩, ht⟩
      · simp only []
        exact sig_step _ _ _ _ (sig_step _ _ _ _ (sig_step _ _ _ _ hs (fun _ => rfl))
          (fun _ => rfl)) (fun _ => rfl)
      · intro q hq
        simp only [List.mem_append, List.mem_singleton] at hq
        rcases hq with hq | rfl
        · exact hq1 q hq
        · exact hpid
    · refine ⟨?_, hr, ⟨hq1, hq2, hq3, hq4⟩, ht⟩
      simp only []
      exact sig_step _ _ _ _ (sig_step _ _ _ _ hs (fun _ => rfl)) (fun _ => rfl)
  · refine ⟨?_, hr, ⟨hq1, hq2, hq3, hq4⟩, ?_⟩
    · simp only []
      exact sig_step _ _ _ _ hs (fun _ => rfl)
    · intro q hq
      simp only [List.mem_append, List.mem_singleton] at hq
      rcases hq with hq | rfl
      · exact ht q hq
      · exact hpid

theorem foldl_keeps {α : Type} (K : α → Prop) (visit : α → Int → α) (n : Nat)
    (hstep : ∀ acc pid, (0 ≤ pid ∧ pid < (n : Int)) → K acc → K (visit acc pid)) :
    ∀ (l : List Int) (acc : α), (∀ q ∈ l, 0 ≤ q ∧ q < (n : Int)) → K acc →
      K (l.foldl visit acc) := by
  intro l
  induction l with
  | nil => intro acc _ h; exact h
  | cons x xs ih =>
    intro acc hl h
    rw [List.foldl_cons]
    apply ih
    · intro q hq; exact hl q (List.mem_cons_of_mem _ hq)
    · exact hstep acc x (hl x (List.mem_cons_self _ _)) h

theorem processIO_inv (b : Bool) (n : Nat) (s : Sim) (h : Inv b n s) :
    Inv b n (Sched.processIO s) := by
  have hk := foldl_keeps
    (fun acc : Sim × List Int =>
      acc.1.processes.map procSig = s.processes.map procSig ∧ acc.1.resources = s.resources ∧
      QueueInv n acc.1 ∧ ∀ q ∈ acc.2, 0 ≤ q ∧ q < (n : Int))
    ioVisit n
    (fun acc pid hpid hK => ioVisit_keeps n _ _ acc pid hpid hK)
    s.ioQueue ({ s with ioQueue := [] }, []) h.2.2.2.1
    ⟨rfl, rfl, ⟨h.2.2.1, by simp, h.2.2.2.2.1, h.2.2.2.2.2⟩, by simp⟩
  obtain ⟨h1, h2, ⟨h3, _, h5, h6⟩, h7⟩ := hk
  apply inv_of_sig b n s _ h
  · exact h1
  · exact h2
  · exact ⟨h3, h7, h5, h6⟩

theorem foldl_agingVisit_sig (l : List Int) :
    ∀ ps : List Process, (l.foldl agingVisit ps).map procSig = ps.map procSig := by
  induction l with
  | nil => intro ps; rfl
  | cons x xs ih =>
    intro ps
    rw [List.foldl_cons, ih]
    unfold agingVisit
    exact sig_step _ _ _ _ rfl (fun p => by split <;> rfl)

theorem agingStage_inv (b : Bool) (n : Nat) (s : Sim) (h : Inv b n s) :
    Inv b n (agingStage s) := by
  unfold agingStage
  split
  · apply inv_of_sig b n s _ h
    · exact foldl_agingVisit_sig _ _
    · rfl
    · exact h.2.2
  · exact h

theorem foldl_selectVisit_mem (ps : List Process) (l : List Int) :
    ∀ acc : Int × Int, (l.foldl (selectVisit ps) acc).1 = acc.1 ∨
      (l.foldl (selectVisit ps) acc).1 ∈ l := by
  induction l with
  | nil => intro acc; exact Or.inl rfl
  | cons x xs ih =>
    intro acc
    rw [List.foldl_cons]
    rcases ih (selectVisit ps acc x) with h | h
    · rw [h]
      unfold selectVisit
      split
      · exact Or.inr (List.mem_cons_self _ _)
      · exact Or.inl rfl
    · exact Or.inr (List.mem_cons_of_mem _ h)

/-- The pid returned by `selectNextProcess` is -1 or an entry of the ready queue. -/
theorem selectNextProcess_mem (s : Sim) :
    (selectNextProcess s).1 = -1 ∨ (selectNextProcess s).1 ∈ s.readyQueue := by
  unfold selectNextProcess
  split
  · exact Or.inl rfl
  · exact foldl_selectVisit_mem s.processes s.readyQueue (-1, 100)

theorem selectNextProcess_frame (s : Sim) :
    (selectNextProcess s).2.processes = s.processes ∧
    (selectNextProcess s).2.resources = s.resources ∧
    (∀ q ∈ (selectNextProcess s).2.readyQueue, q ∈ s.readyQueue) ∧
    (selectNextProcess s).2.ioQueue = s.ioQueue ∧
    (selectNextProcess s).2.waitingQueue = s.waitingQueue := by
  unfold selectNextProcess
  split
  · exact ⟨rfl, rfl, fun _ h => h, rfl, rfl⟩
  · exact ⟨rfl, rfl, fun q hq => (List.mem_filter.1 hq).1, rfl, rfl⟩

theorem selectStage_inv (b : Bool) (n : Nat) (s : Sim) (h : Inv b n s) :
    Inv b n (selectStage s) := by
  obtain ⟨hf1, hf2, hf3, hf4, hf5⟩ := selectNextProcess_frame s
  have hcur : (selectNextProcess s).1 = -1 ∨
      (0 ≤ (selectNextProcess s).1 ∧ (selectNextProcess s).1 < (n : Int)) := by
    rcases selectNextProcess_mem s with h1 | h1
    · exact Or.inl h1
    · exact Or.inr (h.2.2.1 _ h1)
  have hq : ∀ q ∈ (selectNextProcess s).2.readyQueue, 0 ≤ q ∧ q < (n : Int) :=
    fun q hq => h.2.2.1 q (hf3 q hq)
  unfold selectStage
  split
  · simp only []
    split
    · apply inv_of_sig b n s _ h
      · simp only []
        exact sig_step _ _ _ _ (by rw [hf1]) (fun _ => rfl)
      · exact hf2
      · exact ⟨hq, by simpa [hf4] using h.2.2.2.1, by simpa [hf5] using h.2.2.2.2.1, hcur⟩
    · apply inv_of_sig b n s _ h
      · simp only []; rw [hf1]
      · exact hf2
      · exact ⟨hq, by simpa [hf4] using h.2.2.2.1, by simpa [hf5] using h.2.2.2.2.1, hcur⟩
  · exact h

theorem ganttStage_inv (b : Bool) (n : Nat) (s : Sim) (h : Inv b n s) :
    Inv b n (ganttStage s) := by
  unfold ganttStage
  split
  · split
    · exact inv_of_sig b n s _ h rfl rfl h.2.2
    · exact h
  · exact h

theorem preemptStage_inv (b : Bool) (n : Nat) (s : Sim) (h : Inv b n s) :
    Inv b n (preemptStage s) := by
  unfold preemptStage
  split
  · rename_i hc
    split
    · apply inv_of_sig b n s _ h
      · simp only []
        exact sig_step _ _ _ _ rfl (fun _ => rfl)
      · rfl
      · obtain ⟨_, _, hr, hi, hw, hcur⟩ := h
        refine ⟨?_, hi, hw, Or.inl rfl⟩
        intro q hq
        simp only [List.mem_append, List.mem_singleton] at hq
        rcases hq with hq | rfl
        · exact hr q hq
        · rcases hcur with h1 | h1
          · exact absurd h1 hc.1
          · exact h1
    · exact h
  · exact h

theorem requestResource_inv (b : Bool) (n : Nat) (s : Sim) (pid r a : Int) (h : Inv b n s)
    (hpid : ValidPid s.processes pid) (ha : b = true → 0 ≤ a) :
    Inv b n (requestResource s pid r a).2 := by
  obtain ⟨hlen, ht, hq⟩ := h
  unfold requestResource
  split
  · rename_i hge
    refine ⟨by simpa [length_modifyAt] using hlen, ?_, hq⟩
    simp only []
    refine tableInv_transfer b s.resources _ s.processes pid _ hpid ht ?_ ?_ ?_ ?_
    · rfl
    · intro r'; unfold addAvailable; split <;> rfl
    · intro r'
      simp only [addAvailable, addHeld]
      split
      · simp only []; omega
      · rfl
    · intro hb hp hav
      refine ⟨⟨?_, hp.2.1, hp.2.2⟩, ?_⟩
      · intro r'
        have := hp.1 r'
        have := ha hb
        simp only [addHeld]
        split <;> omega
      · intro r'
        have := hav r'
        simp only [addAvailable]
        split
        · rename_i hr; subst hr; simp only []; omega
        · exact this
  · refine ⟨by simpa [length_modifyAt] using hlen, ?_, hq⟩
    simp only []
    refine tableInv_transfer b s.resources _ s.processes pid _ hpid ht ?_ ?_ ?_ ?_
    · rfl
    · intro r'; rfl
    · intro r'; rfl
    · intro hb hp hav
      exact ⟨⟨hp.1, ha hb, hp.2.2⟩, hav⟩

theorem releaseResource_inv (b : Bool) (n : Nat) (s : Sim) (pid r a : Int) (h : Inv b n s)
    (hpid : ValidPid s.processes pid) (ha : b = true → 0 ≤ a) :
    Inv b n (releaseResource s pid r a) := by
  obtain ⟨hlen, ht, hq⟩ := h
  unfold releaseResource
  split
  · rename_i hge
    refine ⟨by simpa [length_modifyAt] using hlen, ?_, hq⟩
    simp only []
    refine tableInv_transfer b s.resources _ s.processes pid _ hpid ht ?_ ?_ ?_ ?_
    · rfl
    · intro r'; unfold addAvailable; split <;> rfl
    · intro r'
      simp only [addAvailable, addHeld]
      split
      · simp only []; omega
      · rfl
    · intro hb hp hav
      refine ⟨⟨?_, hp.2.1, hp.2.2⟩, ?_⟩
      · intro r'
        have := hp.1 r'
        simp only [addHeld]
        split
        · rename_i hr; subst hr; omega
        · exact this
      · intro r'
        have h1 := hav r'
        have h2 := ha hb
        simp only [addAvailable]
        split
        · simp only []; omega
        · exact h1
  · exact ⟨hlen, ht, hq⟩

theorem requestResource_frame (s : Sim) (pid r a : Int) :
    (requestResource s pid r a).2.readyQueue = s.readyQueue ∧
    (requestResource s pid r a).2.ioQueue = s.ioQueue ∧
    (requestResource s pid r a).2.waitingQueue = s.waitingQueue ∧
    (requestResource s pid r a).2.currentProcess = s.currentProcess := by
  unfold requestResource
  split <;> exact ⟨rfl, rfl, rfl, rfl⟩

/-- The property carried through the loop of `processWaiting`. -/
theorem waitingVisit_keeps (b : Bool) (n : Nat) (acc : Sim × List Int) (pid : Int)
    (hpid : 0 ≤ pid ∧ pid < (n : Int))
    (h : Inv b n acc.1 ∧ ∀ q ∈ acc.2, 0 ≤ q ∧ q < (n : Int)) :
    Inv b n (waitingVisit acc pid).1 ∧ ∀ q ∈ (waitingVisit acc pid).2, 0 ≤ q ∧ q < (n : Int) := by
  obtain ⟨⟨hlen, ht, hq1, hq2, hq3, hq4⟩, hacc⟩ := h
  have hv : ValidPid acc.1.processes pid := by
    unfold ValidPid; rw [hlen]; exact hpid
  have hkeep : ∀ q ∈ acc.2 ++ [pid], 0 ≤ q ∧ q < (n : Int) := by
    intro q hq
    simp only [List.mem_append, List.mem_singleton] at hq
    rcases hq with hq | rfl
    · exact hacc q hq
    · exact hpid
  unfold waitingVisit
  simp only []
  split
  · split
    · rename_i hge
      refine ⟨⟨by simpa [length_modifyAt] using hlen, ?_, ?_, hq2, hq3, hq4⟩, hacc⟩
      · simp only []
        refine tableInv_transfer b acc.1.resources _ acc.1.processes pid _ hv ht ?_ ?_ ?_ ?_
        · rfl
        · intro r'; unfold addAvailable; split <;> rfl
        · intro r'
          simp only [addAvailable, addHeld]
          split
          · simp only []; omega
          · rfl
        · intro hb hp hav
          refine ⟨⟨?_, le_refl _, hp.2.2⟩, ?_⟩
          · intro r'
            have := hp.1 r'
            have := hp.2.1
            simp only [addHeld]
            split <;> omega
          · intro r'
            have := hav r'
            simp only [addAvailable]
            split
            · rename_i hr; subst hr; simp only []; omega
            · exact this
      · intro q hq
        simp only [List.mem_append, List.mem_singleton] at hq
        rcases hq with hq | rfl
        · exact hq1 q hq
        · exact hpid
    · exact ⟨⟨hlen, ht, hq1, hq2, hq3, hq4⟩, hkeep⟩
  · exact ⟨⟨hlen, ht, hq1, hq2, hq3, hq4⟩, hkeep⟩

theorem processWaiting_inv (b : Bool) (n : Nat) (s : Sim) (h : Inv b n s) :
    Inv b n (processWaiting s) := by
  have hk := foldl_keeps
    (fun acc : Sim × List Int => Inv b n acc.1 ∧ ∀ q ∈ acc.2, 0 ≤ q ∧ q < (n : Int))
    waitingVisit n
    (fun acc pid hpid hK => waitingVisit_keeps b n acc pid hpid hK)
    s.waitingQueue ({ s with waitingQueue := [] }, []) h.2.2.2.2.1
    ⟨⟨h.1, h.2.1, h.2.2.1, h.2.2.2.1, by simp, h.2.2.2.2.2⟩, by simp⟩
  obtain ⟨⟨h1, h2, h3, h4, _, h6⟩, h7⟩ := hk
  exact ⟨h1, h2, h3, h4, h7, h6⟩

theorem foldl_victimScan_mem (ps : List Process) (l : List Int) :
    ∀ acc : Int × Int, (l.foldl (victimScan ps) acc).1 = acc.1 ∨
      (l.foldl (victimScan ps) acc).1 ∈ l := by
  induction l with
  | nil => intro acc; exact Or.inl rfl
  | cons x xs ih =>
    intro acc
    rw [List.foldl_cons]
    rcases ih (victimScan ps acc x) with h | h
    · rw [h]
      unfold victimScan
      split
      · exact Or.inr (List.mem_cons_self _ _)
      · exact Or.inl rfl
    · exact Or.inr (List.mem_cons_of_mem _ h)

theorem recoverFromDeadlock_inv (b : Bool) (n : Nat) (s : Sim) (dl : List Int) (h : Inv b n s)
    (hne : dl ≠ []) (hdl : ∀ q ∈ dl, q ∈ s.waitingQueue) :
    Inv b n (recoverFromDeadlock s dl) := by
  obtain ⟨hlen, ht, hq1, hq2, hq3, hq4⟩ := h
  have hfirst : dl.getD 0 0 ∈ dl := by
    cases dl with
    | nil => exact absurd rfl hne
    | cons x xs => simp
  have hvm : (dl.foldl (victimScan s.processes)
      (dl.getD 0 0, (procAt s.processes (dl.getD 0 0)).priority)).1 ∈ dl := by
    rcases foldl_victimScan_mem s.processes dl
      (dl.getD 0 0, (procAt s.processes (dl.getD 0 0)).priority) with h1 | h1
    · rw [h1]; exact hfirst
    · exact h1
  have hv : ValidPid s.processes (dl.foldl (victimScan s.processes)
      (dl.getD 0 0, (procAt s.processes (dl.getD 0 0)).priority)).1 := by
    unfold ValidPid; rw [hlen]; exact hq3 _ (hdl _ hvm)
  unfold recoverFromDeadlock
  simp only []
  refine ⟨by simpa [length_modifyAt] using hlen, ?_, hq1, hq2, ?_, hq4⟩
  · simp only []
    refine tableInv_transfer b s.resources _ s.processes _ _ hv ht ?_ ?_ ?_ ?_
    · rfl
    · intro r'; rfl
    · intro r'; simp only [releaseAll]; omega
    · intro hb hp hav
      refine ⟨⟨fun _ => le_refl _, hp.2.1, hp.2.2⟩, ?_⟩
      intro r'
      have := hav r'
      have := hp.1 r'
      simp only [releaseAll]
      omega
  · intro q hq
    exact hq3 q (List.mem_filter.1 hq).1

/-- What `detectDeadlock` reports on a fresh vector is a list of waiters,
non-empty when the function returns true. -/
theorem detectDeadlock_reported (s : Sim) :
    (∀ q ∈ (detectDeadlock s []).2, q ∈ s.waitingQueue) ∧
    ((detectDeadlock s []).1 = true → (detectDeadlock s []).2 ≠ []) := by
  rw [detectDeadlock_eq]
  refine ⟨?_, ?_⟩
  · intro q hq
    exact (mem_waitingSet s q).1
      ((scanLoop_sublist s.processes _ (waitingSet s) s.resources).subset hq)
  · intro h
    simpa using h

theorem recoveryStage_inv (b : Bool) (n : Nat) (s : Sim) (h : Inv b n s) :
    Inv b n (recoveryStage s) := by
  unfold recoveryStage
  split
  · rename_i hc
    unfold deadlockCheck at hc
    simp only [Bool.and_eq_true] at hc
    exact recoverFromDeadlock_inv b n s _ h ((detectDeadlock_reported s).2 hc.2)
      (detectDeadlock_reported s).1
  · exact h

theorem deadlockStage_inv (b : Bool) (n : Nat) (s : Sim) (h : Inv b n s) :
    Inv b n (deadlockStage s) := by
  unfold deadlockStage
  split
  · rename_i hc
    unfold deadlockCheck at hc
    simp only [Bool.and_eq_true] at hc
    exact processWaiting_inv b n _
      (recoverFromDeadlock_inv b n s _ h ((detectDeadlock_reported s).2 hc.2)
        (detectDeadlock_reported s).1)
  · exact h

theorem stuckStage_inv (b : Bool) (n : Nat) (s : Sim) (h : Inv b n s) :
    Inv b n (stuckStage s) := by
  unfold stuckStage
  split
  · rename_i hc
    simp only [Bool.and_eq_true] at hc
    exact recoverFromDeadlock_inv b n s _ h ((detectDeadlock_reported s).2 hc.2)
      (detectDeadlock_reported s).1
  · exact h

theorem finishTick_inv (b : Bool) (n : Nat) (s : Sim) (h : Inv b n s) :
    Inv b n (finishTick s).1 := by
  unfold finishTick
  split
  · exact inv_of_sig b n s _ h rfl rfl h.2.2
  · split
    · exact h
    · have h1 := stuckStage_inv b n s h
      simp only []
      split <;> exact inv_of_sig b n _ _ h1 rfl rfl h1.2.2

theorem getD_mem_of_lt {α : Type} (l : List α) (i : Nat) (d : α) (h : i < l.length) :
    l.getD i d ∈ l := by
  rw [List.getD_eq_getElem?_getD, List.getElem?_eq_getElem h]
  exact List.getElem_mem _

/-- Termination of the process in slot `i`: its holdings go back to the pool. -/
theorem terminate_tableInv (b : Bool) (res : Int → ResourceInfo) (ps : List Process) (i : Int)
    (now : Int) (hv : ValidPid ps i) (ht : TableInv b res ps) :
    TableInv b (releaseAll res (procAt ps i).heldResources)
      (modifyAt ps i (fun q => { q with state := ProcessState.TERMINATED,
                                        completionTime := now,
                                        heldResources := fun _ => 0 })) := by
  refine tableInv_transfer b res _ ps i _ hv ht ?_ ?_ ?_ ?_
  · rfl
  · intro r'; rfl
  · intro r'; simp only [releaseAll]; omega
  · intro hb hp hav
    refine ⟨⟨fun _ => le_refl _, hp.2.1, hp.2.2⟩, ?_⟩
    intro r'
    have := hav r'
    have := hp.1 r'
    simp only [releaseAll]
    omega

theorem executeProcess_inv (b : Bool) (n : Nat) (s : Sim) (h : Inv b n s) :
    Inv b n (executeProcess s) := by
  obtain ⟨hlen, ht, hq1, hq2, hq3, hq4⟩ := h
  have hI : Inv b n s := ⟨hlen, ht, hq1, hq2, hq3, hq4⟩
  unfold executeProcess
  split
  · exact hI
  · rename_i hcp
    have hv : ValidPid s.processes s.currentProcess := by
      rcases hq4 with h1 | h1
      · exact absurd h1 hcp
      · unfold ValidPid; rw [hlen]; exact h1
    have hpm := procAt_mem s.processes s.currentProcess hv
    have hpv : ValidPid s.processes (procAt s.processes s.currentProcess).pid := ht.1 _ hpm
    have hpn : 0 ≤ (procAt s.processes s.currentProcess).pid ∧
        (procAt s.processes s.currentProcess).pid < (n : Int) := by
      unfold ValidPid at hpv; rw [hlen] at hpv; exact hpv
    simp only []
    split
    · -- all bursts exhausted
      exact ⟨by simpa [length_modifyAt] using hlen,
        terminate_tableInv b s.resources s.processes s.currentProcess s.currentTime hv ht,
        hq1, hq2, hq3, Or.inl rfl⟩
    · rename_i hbi
      split
      · exact hI
      · split
        · -- the current burst is finished
          split
          · -- next burst is an I/O burst
            apply inv_of_sig b n s _ hI
            · simp only []
              split
              · try simp only []
                exact sig_step _ _ _ _ (sig_step _ _ _ _ (sig_step _ _ _ _ rfl (fun _ => rfl))
                  (fun _ => rfl)) (fun _ => rfl)
              · try simp only []
                exact sig_step _ _ _ _ (sig_step _ _ _ _ rfl (fun _ => rfl)) (fun _ => rfl)
            · rfl
            · refine ⟨hq1, ?_, hq3, Or.inl rfl⟩
              intro q hq
              simp only [List.mem_append, List.mem_singleton] at hq
              rcases hq with hq | rfl
              · exact hq2 q hq
              · exact hpn
          · split
            · -- no further burst
              have hsig : (modifyAt s.processes s.currentProcess
                  (fun q => { q with
                    currentBurstIndex := (procAt s.processes s.currentProcess).currentBurstIndex + 1,
                    currentOperationIndex := 0, remainingTime := 0 })).map procSig
                  = s.processes.map procSig := sig_step _ _ _ _ rfl (fun _ => rfl)
              have ht1 := tableInv_congr b s.resources _ _ hsig ht
              have hv1 := (validPid_modifyAt s.processes s.currentProcess s.currentProcess
                (fun q => { q with
                    currentBurstIndex := (procAt s.processes s.currentProcess).currentBurstIndex + 1,
                    currentOperationIndex := 0, remainingTime := 0 })).2 hv
              exact ⟨by simpa [length_modifyAt] using hlen,
                terminate_tableInv b s.resources _ s.currentProcess s.currentTime hv1 ht1,
                hq1, hq2, hq3, Or.inl rfl⟩
            · apply inv_of_sig b n s _ hI
              · try simp only []
                exact sig_step _ _ _ _ rfl (fun _ => rfl)
              · rfl
              · exact ⟨hq1, hq2, hq3, hq4⟩
        · -- execute the current operation
          rename_i hcpu hoi
          have hbm : (procAt s.processes s.currentProcess).bursts.getD
              (procAt s.processes s.currentProcess).currentBurstIndex []
              ∈ (procAt s.processes s.currentProcess).bursts :=
            getD_mem_of_lt _ _ _ (by omega)
          have hom : ((procAt s.processes s.currentProcess).bursts.getD
              (procAt s.processes s.currentProcess).currentBurstIndex []).getD
              (procAt s.processes s.currentProcess).currentOperationIndex
              (Operation.mkExec OperationType.EXEC 0)
              ∈ (procAt s.processes s.currentProcess).bursts.getD
                (procAt s.processes s.currentProcess).currentBurstIndex [] :=
            getD_mem_of_lt _ _ _ (by omega)
          have hamt : ∀ (hty : (((procAt s.processes s.currentProcess).bursts.getD
              (procAt s.processes s.currentProcess).currentBurstIndex []).getD
              (procAt s.processes s.currentProcess).currentOperationIndex
              (Operation.mkExec OperationType.EXEC 0)).type ≠ OperationType.EXEC),
              b = true → 0 ≤ (((procAt s.processes s.currentProcess).bursts.getD
              (procAt s.processes s.currentProcess).currentBurstIndex []).getD
              (procAt s.processes s.currentProcess).currentOperationIndex
              (Operation.mkExec OperationType.EXEC 0)).amount := by
            intro hty hb
            exact ((ht.2.2 hb).1 _ hpm).2.2 _ hbm _ hom hty
          split
          · -- REQUEST
            rename_i hty
            have hreq := requestResource_inv b n s
              (procAt s.processes s.currentProcess).pid
              (((procAt s.processes s.currentProcess).bursts.getD
                (procAt s.processes s.currentProcess).currentBurstIndex []).getD
                (procAt s.processes s.currentProcess).currentOperationIndex
                (Operation.mkExec OperationType.EXEC 0)).resourceID
              (((procAt s.processes s.currentProcess).bursts.getD
                (procAt s.processes s.currentProcess).currentBurstIndex []).getD
                (procAt s.processes s.currentProcess).currentOperationIndex
                (Operation.mkExec OperationType.EXEC 0)).amount hI hpv
              (hamt (by rw [hty]; decide))
            obtain ⟨hf1, hf2, hf3, hf4⟩ := requestResource_frame s
              (procAt s.processes s.currentProcess).pid
              (((procAt s.processes s.currentProcess).bursts.getD
                (procAt s.processes s.currentProcess).currentBurstIndex []).getD
                (procAt s.processes s.currentProcess).currentOperationIndex
                (Operation.mkExec OperationType.EXEC 0)).resourceID
              (((procAt s.processes s.currentProcess).bursts.getD
                (procAt s.processes s.currentProcess).currentBurstIndex []).getD
                (procAt s.processes s.currentProcess).currentOperationIndex
                (Operation.mkExec OperationType.EXEC 0)).amount
            split
            · apply inv_of_sig b n _ _ hreq
              · try simp only []
                exact sig_step _ _ _ _ rfl (fun _ => rfl)
              · rfl
              · exact hreq.2.2
            · apply inv_of_sig b n _ _ hreq
              · try simp only []
                exact sig_step _ _ _ _ rfl (fun _ => rfl)
              · rfl
              · refine ⟨hreq.2.2.1, hreq.2.2.2.1, ?_, Or.inl rfl⟩
                intro q hq
                simp only [List.mem_append, List.mem_singleton] at hq
                rcases hq with hq | rfl
                · exact hreq.2.2.2.2.1 q hq
                · exact hpn
          · -- RELEASE
            rename_i hty
            have hrel := releaseResource_inv b n s
              (procAt s.processes s.currentProcess).pid
              (((procAt s.processes s.currentProcess).bursts.getD
                (procAt s.processes s.currentProcess).currentBurstIndex []).getD
                (procAt s.processes s.currentProcess).currentOperationIndex
                (Operation.mkExec OperationType.EXEC 0)).resourceID
              (((procAt s.processes s.currentProcess).bursts.getD
                (procAt s.processes s.currentProcess).currentBurstIndex []).getD
                (procAt s.processes s.currentProcess).currentOperationIndex
                (Operation.mkExec OperationType.EXEC 0)).amount hI hpv
              (hamt (by rw [hty]; decide))
            apply inv_of_sig b n _ _ hrel
            · try simp only []
              exact sig_step _ _ _ _ rfl (fun _ => rfl)
            · rfl
            · exact hrel.2.2
          · -- EXEC
            apply inv_of_sig b n s _ hI
            · try simp only []
              exact sig_step _ _ _ _ (sig_step _ _ _ _ (sig_step _ _ _ _ rfl
                (fun _ => by split <;> rfl)) (fun _ => rfl)) (fun _ => by split <;> rfl)
            · rfl
            · exact ⟨hq1, hq2, hq3, hq4⟩

theorem executeStage_inv (b : Bool) (n : Nat) (s : Sim) (h : Inv b n s) :
    Inv b n (executeStage s) := by
  unfold executeStage
  split
  · have h1 := executeProcess_inv b n s h
    exact inv_of_sig b n _ _ h1 rfl rfl h1.2.2
  · exact h

theorem tickBody_inv (b : Bool) (n : Nat) (s : Sim) (h : Inv b n s) : Inv b n (tickBody s) := by
  unfold tickBody
  exact preemptStage_inv b n _ (executeStage_inv b n _ (ganttStage_inv b n _
    (selectStage_inv b n _ (agingStage_inv b n _ (deadlockStage_inv b n _
      (processWaiting_inv b n _ (processIO_inv b n _ (checkNewArrivals_inv b n s h))))))))

theorem tick_inv (b : Bool) (n : Nat) (s : Sim) (h : Inv b n s) : Inv b n (tick s).1 := by
  unfold tick
  exact finishTick_inv b n _ (tickBody_inv b n s h)

theorem simulateLoop_inv (b : Bool) (n : Nat) (fuel : Nat) :
    ∀ s, Inv b n s → Inv b n (simulateLoop fuel s).1 := by
  induction fuel with
  | zero => intro s h; exact h
  | succ k ih =>
    intro s h
    have ht := tick_inv b n s h
    by_cases hx : (tick s).2.isSome = true
    · rw [show simulateLoop (k + 1) s = tick s by rw [simulateLoop, if_pos hx]]
      exact ht
    · rw [show simulateLoop (k + 1) s = simulateLoop k (tick s).1 by
        rw [simulateLoop, if_neg hx]]
      exact ih _ ht

/-- The invariant holds after every stage of a pass that starts in a state
satisfying it. -/
theorem tickTrace_inv (b : Bool) (n : Nat) (s : Sim) (h : Inv b n s) :
    ∀ t ∈ tickTrace s, Inv b n t := by
  have h1 := checkNewArrivals_inv b n s h
  have h2 := processIO_inv b n _ h1
  have h3 := processWaiting_inv b n _ h2
  have h4 := recoveryStage_inv b n _ h3
  have h5 := deadlockStage_inv b n _ h3
  have h6 := agingStage_inv b n _ h5
  have h7 := selectStage_inv b n _ h6
  have h8 := ganttStage_inv b n _ h7
  have h9 := executeStage_inv b n _ h8
  have h10 := preemptStage_inv b n _ h9
  have h11 := stuckStage_inv b n _ h10
  have h12 := finishTick_inv b n _ h10
  intro t ht
  unfold tickTrace at ht
  simp only [List.mem_cons, List.mem_singleton, List.not_mem_nil, or_false] at ht
  rcases ht with rfl | rfl | rfl | rfl | rfl | rfl | rfl | rfl | rfl | rfl | rfl | rfl
  · exact h1
  · exact h2
  · exact h3
  · exact h4
  · exact h5
  · exact h6
  · exact h7
  · exact h8
  · exact h9
  · exact h10
  · exact h11
  · exact h12

theorem heldTotal_zero (ps : List Process) (r : Int)
    (h : ∀ p ∈ ps, p.heldResources r = 0) : heldTotal ps r = 0 := by
  induction ps with
  | nil => rfl
  | cons p ps ih =>
    have h1 := h p (List.mem_cons_self _ _)
    have h2 := ih (fun q hq => h q (List.mem_cons_of_mem _ hq))
    unfold heldTotal at h2 ⊢
    simp only [List.map_cons, List.sum_cons]
    omega

theorem heldTotal_nonneg (ps : List Process) (r : Int)
    (h : ∀ p ∈ ps, 0 ≤ p.heldResources r) : 0 ≤ heldTotal ps r := by
  induction ps with
  | nil => simp [heldTotal]
  | cons p ps ih =>
    have h1 := h p (List.mem_cons_self _ _)
    have h2 := ih (fun q hq => h q (List.mem_cons_of_mem _ hq))
    unfold heldTotal at h2 ⊢
    simp only [List.map_cons, List.sum_cons]
    omega

/-- The state `parseInput` hands to `simulate` satisfies the invariant. -/
theorem initialSim_inv (b : Bool) (total : Int → Int) (ps : List Process)
    (hpids : ∀ p ∈ ps, ValidPid ps p.pid)
    (hnone : ∀ p ∈ ps, ∀ r, p.heldResources r = 0)
    (hsign : b = true → ∀ p ∈ ps, 0 ≤ p.waitingForAmount ∧ AmountsNonneg p) :
    Inv b ps.length (initialSim total ps) := by
  refine ⟨rfl, ⟨hpids, ?_, ?_⟩, ?_⟩
  · intro r
    show total r + heldTotal ps r = total r
    rw [heldTotal_zero ps r (fun p hp => hnone p hp r)]
    omega
  · intro hb
    refine ⟨?_, fun r => Or.inr (le_refl _)⟩
    intro p hp
    refine ⟨?_, (hsign hb p hp).1, (hsign hb p hp).2⟩
    intro r
    rw [hnone p hp r]
  · refine ⟨?_, ?_, ?_, Or.inl rfl⟩ <;> intro q hq <;> simp [initialSim] at hq

theorem scenarioTable_fresh : ∀ p ∈ scenarioTable, ∀ r, p.heldResources r = 0 := by
  intro p hp r
  simp only [scenarioTable, List.mem_cons, List.mem_singleton, List.not_mem_nil, or_false] at hp
  rcases hp with rfl | rfl <;> rfl

theorem foldl_preserves {α β : Type} (K : α → Prop) (visit : α → β → α)
    (hstep : ∀ acc x, K acc → K (visit acc x)) :
    ∀ (l : List β) (acc : α), K acc → K (l.foldl visit acc) := by
  intro l
  induction l with
  | nil => intro acc h; exact h
  | cons x xs ih =>
    intro acc h
    rw [List.foldl_cons]
    exact ih _ (hstep acc x h)

/-! ## The totals of the pool never change -/

theorem sameTotals_refl (s : Sim) : SameTotals s s := fun _ => rfl

theorem sameTotals_trans {a b c : Sim} (h1 : SameTotals a b) (h2 : SameTotals b c) :
    SameTotals a c := fun r => (h2 r).trans (h1 r)

theorem sameTotals_of_eq (a b : Sim) (h : b.resources = a.resources) : SameTotals a b := by
  intro r
  rw [h]

theorem addAvailable_totals (res : Int → ResourceInfo) (k d r : Int) :
    (addAvailable res k d r).totalInstances = (res r).totalInstances := by
  unfold addAvailable
  split <;> rfl

theorem processIO_totals (s : Sim) : SameTotals s (Sched.processIO s) := by
  apply sameTotals_of_eq
  unfold Sched.processIO
  simp only []
  exact foldl_preserves (fun acc : Sim × List Int => acc.1.resources = s.resources)
    ioVisit (fun acc x hk => by
      unfold ioVisit
      simp only []
      split
      · split <;> exact hk
      · exact hk) _ _ rfl

theorem processWaiting_totals (s : Sim) : SameTotals s (processWaiting s) := by
  unfold processWaiting
  simp only []
  exact foldl_preserves (fun acc : Sim × List Int => SameTotals s acc.1)
    waitingVisit (fun acc x hk => by
      unfold waitingVisit
      simp only []
      split
      · split
        · intro r
          simp only []
          rw [addAvailable_totals]
          exact hk r
        · exact hk
      · exact hk) _ _ (fun _ => rfl)

theorem recoverFromDeadlock_totals (s : Sim) (dl : List Int) :
    SameTotals s (recoverFromDeadlock s dl) := fun _ => rfl

theorem recoveryStage_totals (s : Sim) : SameTotals s (recoveryStage s) := by
  unfold recoveryStage
  split
  · exact recoverFromDeadlock_totals s _
  · exact sameTotals_refl s

theorem deadlockStage_totals (s : Sim) : SameTotals s (deadlockStage s) := by
  unfold deadlockStage
  split
  · exact sameTotals_trans (recoverFromDeadlock_totals s _) (processWaiting_totals _)
  · exact sameTotals_refl s

theorem agingStage_totals (s : Sim) : SameTotals s (agingStage s) := by
  unfold agingStage
  split
  · exact fun _ => rfl
  · exact sameTotals_refl s

theorem selectStage_totals (s : Sim) : SameTotals s (selectStage s) := by
  apply sameTotals_of_eq
  unfold selectStage
  split
  · simp only []
    split
    · exact (selectNextProcess_frame s).2.1
    · exact (selectNextProcess_frame s).2.1
  · rfl

theorem ganttStage_totals (s : Sim) : SameTotals s (ganttStage s) := by
  unfold ganttStage
  split
  · split
    · exact fun _ => rfl
    · exact sameTotals_refl s
  · exact sameTotals_refl s

theorem executeProcess_totals (s : Sim) : SameTotals s (executeProcess s) := by
  obtain ⟨b, hb⟩ : ∃ b, b = executeProcess s := ⟨_, rfl⟩
  rw [← hb]
  unfold executeProcess at hb
  split at hb
  · rw [hb]; exact sameTotals_refl s
  · simp only [] at hb
    split at hb
    · subst hb
      exact fun _ => rfl
    · split at hb
      · rw [hb]; exact sameTotals_refl s
      · split at hb
        · split at hb
          · subst hb
            exact fun _ => rfl
          · split at hb
            · subst hb
              exact fun _ => rfl
            · subst hb
              exact fun _ => rfl
        · split at hb
          · unfold requestResource at hb
            split at hb
            · simp only [if_true] at hb
              subst hb
              intro r
              exact addAvailable_totals _ _ _ r
            · simp only [Bool.false_eq_true, if_false] at hb
              subst hb
              exact fun _ => rfl
          · unfold releaseResource at hb
            split at hb
            · subst hb
              intro r
              exact addAvailable_totals _ _ _ r
            · subst hb
              exact fun _ => rfl
          · subst hb
            exact fun _ => rfl

theorem executeStage_totals (s : Sim) : SameTotals s (executeStage s) := by
  unfold executeStage
  split
  · exact executeProcess_totals s
  · exact sameTotals_refl s

theorem preemptStage_totals (s : Sim) : SameTotals s (preemptStage s) := by
  unfold preemptStage
  split
  · split
    · exact fun _ => rfl
    · exact sameTotals_refl s
  · exact sameTotals_refl s

theorem stuckStage_totals (s : Sim) : SameTotals s (stuckStage s) := by
  unfold stuckStage
  split
  · exact recoverFromDeadlock_totals s _
  · exact sameTotals_refl s

theorem finishTick_totals (s : Sim) : SameTotals s (finishTick s).1 := by
  unfold finishTick
  split
  · exact fun _ => rfl
  · split
    · exact sameTotals_refl s
    · simp only []
      split <;> exact stuckStage_totals s

/-- Every state of a pass has the totals of the state at its head. -/
theorem tickTrace_totals (s : Sim) : ∀ t ∈ tickTrace s, SameTotals s t := by
  have h1 : SameTotals s (checkNewArrivals s) := fun _ => rfl
  have h2 := sameTotals_trans h1 (processIO_totals _)
  have h3 := sameTotals_trans h2 (processWaiting_totals _)
  have h4 := sameTotals_trans h3 (recoveryStage_totals _)
  have h5 := sameTotals_trans h3 (deadlockStage_totals _)
  have h6 := sameTotals_trans h5 (agingStage_totals _)
  have h7 := sameTotals_trans h6 (selectStage_totals _)
  have h8 := sameTotals_trans h7 (ganttStage_totals _)
  have h9 := sameTotals_trans h8 (executeStage_totals _)
  have h10 := sameTotals_trans h9 (preemptStage_totals _)
  have h11 := sameTotals_trans h10 (stuckStage_totals _)
  have h12 := sameTotals_trans h10 (finishTick_totals _)
  intro t ht
  unfold tickTrace at ht
  simp only [List.mem_cons, List.mem_singleton, List.not_mem_nil, or_false] at ht
  rcases ht with rfl | rfl | rfl | rfl | rfl | rfl | rfl | rfl | rfl | rfl | rfl | rfl
  · exact h1
  · exact h2
  · exact h3
  · exact h4
  · exact h5
  · exact h6
  · exact h7
  · exact h8
  · exact h9
  · exact h10
  · exact h11
  · exact h12

theorem tick_totals (s : Sim) : SameTotals s (tick s).1 := by
  apply tickTrace_totals s
  unfold tickTrace tick tickBody
  simp

theorem simulateLoop_totals (n : Nat) : ∀ s : Sim, SameTotals s (simulateLoop n s).1 := by
  induction n with
  | zero => intro s; exact sameTotals_refl s
  | succ n ih =>
    intro s
    by_cases hx : (tick s).2.isSome = true
    · rw [simulateLoop, if_pos hx]
      exact tick_totals s
    · rw [simulateLoop, if_neg hx]
      exact sameTotals_trans (tick_totals s) (ih _)

/-- Every state of a run, at the head of a pass or after a stage, has the
totals of the resource line. -/
theorem run_totals (total : Int → Int) (ps : List Process) (fuel : Nat) :
    ∀ t ∈ (simulateLoop fuel (initialSim total ps)).1
        :: tickTrace (simulateLoop fuel (initialSim total ps)).1,
      ∀ r, (t.resources r).totalInstances = total r := by
  have h1 := simulateLoop_totals fuel (initialSim total ps)
  intro t ht r
  rcases List.mem_cons.1 ht with rfl | ht
  · exact h1 r
  · exact (sameTotals_trans h1 (tickTrace_totals _ t ht)) r

/-! ## The bounds of the available count (C2) -/

/-- C2, as stated, fails: a request for a negative amount (input
`0 0 0 CPU{R[1,-1]}` with `[1,1]`) is granted and raises `available` to 2
above the total 1, and a release of a negative amount (input
`0 0 0 CPU{F[1,-1]}` with `[1,0]`) lowers `available` to -1. -/
theorem available_out_of_bounds :
    ((simulateLoop 1 negativeRequestSim).1.resources 1).totalInstances = 1 ∧
    ((simulateLoop 1 negativeRequestSim).1.resources 1).availableInstances = 2 ∧
    ((simulateLoop 1 negativeReleaseSim).1.resources 1).totalInstances = 0 ∧
    ((simulateLoop 1 negativeReleaseSim).1.resources 1).availableInstances = -1 ∧
    ¬ (∀ r, 0 ≤ ((simulateLoop 1 negativeReleaseSim).1.resources r).availableInstances ∧
        ((simulateLoop 1 negativeRequestSim).1.resources r).availableInstances
          ≤ ((simulateLoop 1 negativeRequestSim).1.resources r).totalInstances) := by
  refine ⟨by decide, by decide, by decide, by decide, ?_⟩
  intro h
  exact absurd (h 1).1 (by decide)

/-- C2, amended.  Start `simulate` with `available = total ≥ 0` for every
resource and a table in which every pid indexes the table, nothing is held,
no pending amount is negative and every Request and Release operation has a
non-negative amount.  Then at the head of every pass and after every stage of
every pass every resource satisfies
`0 ≤ availableInstances ≤ totalInstances`. -/
theorem available_within_bounds (total : Int → Int) (ps : List Process)
    (hpids : ∀ p ∈ ps, ValidPid ps p.pid)
    (hnone : ∀ p ∈ ps, ∀ r, p.heldResources r = 0)
    (htotal : ∀ r, 0 ≤ total r)
    (hpend : ∀ p ∈ ps, 0 ≤ p.waitingForAmount)
    (hamt : ∀ p ∈ ps, AmountsNonneg p) (fuel : Nat) :
    ∀ t ∈ (simulateLoop fuel (initialSim total ps)).1
        :: tickTrace (simulateLoop fuel (initialSim total ps)).1,
      ∀ r, 0 ≤ (t.resources r).availableInstances ∧
        (t.resources r).availableInstances ≤ (t.resources r).totalInstances := by
  have h0 := initialSim_inv true total ps hpids hnone
    (fun _ p hp => ⟨hpend p hp, hamt p hp⟩)
  have h1 := simulateLoop_inv true ps.length fuel _ h0
  have hb : ∀ t, Inv true ps.length t → (∀ r, (t.resources r).totalInstances = total r) →
      ∀ r, 0 ≤ (t.resources r).availableInstances ∧
        (t.resources r).availableInstances ≤ (t.resources r).totalInstances := by
    intro t ht hT r
    obtain ⟨_, ⟨_, hc, hn⟩, _⟩ := ht
    have hnn := hn rfl
    have hh := heldTotal_nonneg t.processes r (fun p hp => (hnn.1 p hp).1 r)
    have := hc r
    have := hnn.2 r
    have := hT r
    have := htotal r
    omega
  intro t ht
  have hT := run_totals total ps fuel t ht
  rcases List.mem_cons.1 ht with rfl | ht
  · exact hb _ h1 hT
  · exact hb t (tickTrace_inv true ps.length _ h1 t ht) hT

theorem scenarioTable_amounts : ∀ p ∈ scenarioTable, AmountsNonneg p := by
  intro p hp
  simp only [scenarioTable, List.mem_cons, List.mem_singleton, List.not_mem_nil, or_false] at hp
  rcases hp with rfl | rfl
  · intro b hb op hop _
    simp only [loadProcess, List.mem_singleton] at hb
    subst hb
    simp only [List.mem_cons, List.mem_singleton, List.not_mem_nil, or_false] at hop
    rcases hop with rfl | rfl | rfl | rfl <;> decide
  · intro b hb op hop _
    simp only [loadProcess, List.mem_singleton] at hb
    subst hb
    simp only [List.mem_singleton] at hop
    subst hop
    decide

theorem available_within_bounds_witness :
    (∀ p ∈ scenarioTable, ValidPid scenarioTable p.pid) ∧
    (∀ p ∈ scenarioTable, ∀ r, p.heldResources r = 0) ∧
    (∀ r, 0 ≤ scenarioTotal r) ∧
    (∀ p ∈ scenarioTable, 0 ≤ p.waitingForAmount) ∧
    (∀ p ∈ scenarioTable, AmountsNonneg p) ∧
    (0 ≤ ((simulateLoop 9 (initialSim scenarioTotal scenarioTable)).1.resources 1).availableInstances
      ∧ ((simulateLoop 9 (initialSim scenarioTotal scenarioTable)).1.resources 1).availableInstances
        ≤ ((simulateLoop 9 (initialSim scenarioTotal scenarioTable)).1.resources 1).totalInstances) :=
  have htotal : ∀ r, 0 ≤ scenarioTotal r := by
    intro r; unfold scenarioTotal; split <;> omega
  ⟨by decide, scenarioTable_fresh, htotal, by decide, scenarioTable_amounts,
   available_within_bounds scenarioTotal scenarioTable (by decide) scenarioTable_fresh htotal
     (by decide) scenarioTable_amounts 9 _ (List.mem_cons_self _ _) 1⟩

/-! ## Enough fuel for the analyzer loops -/

/-- Once the fuel covers the length of the list, more fuel does not change
the result of the passes. -/
theorem scanLoop_fuel (ps : List Process) (n : Nat) :
    ∀ (m : Nat) (l : List Int) (t : Int → ResourceInfo), l.length ≤ n → l.length ≤ m →
      scanLoop ps n l t = scanLoop ps m l t := by
  induction n with
  | zero =>
    intro m l t hn _
    have : l = [] := List.length_eq_zero.1 (by omega)
    subst this
    cases m <;> simp [scanLoop]
  | succ n ih =>
    intro m l t hn hm
    cases m with
    | zero =>
      have : l = [] := List.length_eq_zero.1 (by omega)
      subst this
      simp [scanLoop]
    | succ m =>
      unfold scanLoop
      by_cases hl : l = []
      · simp [hl]
      · rw [if_neg hl, if_neg hl]
        by_cases hr : scanRemoved ps l t = []
        · rw [if_neg (by simpa using hr), if_neg (by simpa using hr)]
        · rw [if_pos hr, if_pos hr]
          have h1 := length_scan ps l t
          have h2 : 0 < (scanRemoved ps l t).length := List.length_pos.2 hr
          exact ih m _ _ (by omega) (by omega)

/-- The loop of `detectDeadlock` has converged after `inWaiting.length`
passes: any larger number of passes gives the same list. -/
theorem detectLoop_fuel (ps : List Process) (l : List Int) (t : Int → ResourceInfo)
    (hnd : l.Nodup) (n : Nat) (hn : l.length ≤ n) :
    detectLoop ps n l t = detectLoop ps l.length l t := by
  rw [detectLoop_eq_scanLoop ps n l t hnd, detectLoop_eq_scanLoop ps l.length l t hnd]
  exact scanLoop_fuel ps n l.length l t hn (le_refl _)

theorem foldl_findVisit_length (ps : List Process) (l : List Int) :
    ∀ (t : Int → ResourceInfo) (acc : List Int) (b : Bool),
      (l.foldl (Student.findVisit ps) (t, acc, b)).2.1.length ≤ acc.length + l.length ∧
      ((l.foldl (Student.findVisit ps) (t, acc, b)).2.2 = true → b = false →
        (l.foldl (Student.findVisit ps) (t, acc, b)).2.1.length < acc.length + l.length) := by
  induction l with
  | nil => intro t acc b; simp
  | cons x xs ih =>
    intro t acc b
    rw [List.foldl_cons]
    by_cases hc : Student.canGetResource ps x t = true
    · have hv : Student.findVisit ps (t, acc, b) x
          = (releaseAll t (procAt ps x).heldResources, acc, true) := by
        unfold Student.findVisit
        rw [if_pos hc]
      rw [hv]
      obtain ⟨h1, _⟩ := ih (releaseAll t (procAt ps x).heldResources) acc true
      simp only [List.length_cons]
      exact ⟨by omega, fun _ _ => by omega⟩
    · have hv : Student.findVisit ps (t, acc, b) x = (t, acc ++ [x], b) := by
        unfold Student.findVisit
        rw [if_neg hc]
      rw [hv]
      obtain ⟨h1, h2⟩ := ih t (acc ++ [x]) b
      simp only [List.length_append, List.length_singleton, List.length_cons, List.length_nil] at h1 h2 ⊢
      exact ⟨by omega, fun ha hb => by have := h2 ha hb; omega⟩

/-- The loop of `findDeadlock` has converged after `waitingQueue.length` passes. -/
theorem findLoop_fuel (ps : List Process) (n : Nat) :
    ∀ (m : Nat) (l : List Int) (t : Int → ResourceInfo), l.length ≤ n → l.length ≤ m →
      Student.findLoop ps n l t = Student.findLoop ps m l t := by
  induction n with
  | zero =>
    intro m l t hn _
    have : l = [] := List.length_eq_zero.1 (by omega)
    subst this
    cases m <;> simp [Student.findLoop]
  | succ n ih =>
    intro m l t hn hm
    cases m with
    | zero =>
      have : l = [] := List.length_eq_zero.1 (by omega)
      subst this
      simp [Student.findLoop]
    | succ m =>
      unfold Student.findLoop
      by_cases hl : l = []
      · simp [hl]
      · rw [if_neg hl, if_neg hl]
        simp only []
        split
        · rename_i hp
          have h := (foldl_findVisit_length ps l t [] false).2 hp rfl
          simp only [List.length_nil, Nat.zero_add] at h
          exact ih m _ _ (by omega) (by omega)
        · rfl

/-! ## The trace of a pass ends in the state the pass returns -/

theorem tick_mem_tickTrace (s : Sim) :
    tickBody s ∈ tickTrace s ∧ (tick s).1 ∈ tickTrace s := by
  unfold tickTrace tick tickBody
  simp

/-! ## The end-to-end scenario (C17, C18) -/

/-- Once the loop has been left, more fuel changes nothing. -/
theorem simulateLoop_exit (n : Nat) :
    ∀ (s : Sim) (m : Nat), (simulateLoop n s).2.isSome = true → n ≤ m →
      simulateLoop m s = simulateLoop n s := by
  induction n with
  | zero => intro s m h _; simp [simulateLoop] at h
  | succ n ih =>
    intro s m h hm
    obtain ⟨m', rfl⟩ : ∃ m', m = m' + 1 := ⟨m - 1, by omega⟩
    by_cases hx : (tick s).2.isSome = true
    · rw [simulateLoop, if_pos hx, simulateLoop, if_pos hx]
    · rw [simulateLoop, if_neg hx] at h
      rw [simulateLoop, if_neg hx, simulateLoop, if_neg hx]
      exact ih _ m' h (by omega)

theorem scenario_simulate : simulate scenarioSim = simulateLoop 14 scenarioSim := by
  unfold simulate
  exact simulateLoop_exit 14 scenarioSim 10001 (by decide) (by decide)

/-- C17. End-to-end scenario, first half: `P1` is dispatched first, in tick 0
(running slot 1, state RUNNING, `startTime` 0, while `P0` stays READY and
undispatched); its `Exec 2` is executed in ticks 0 and 1; in tick 2 it is
TERMINATED with `completionTime` 2, and so it stands when `simulate` returns
through the all-done exit. -/
theorem scenario_first_half :
    (scenarioAt 1).currentProcess = 1 ∧
    (procAt (scenarioAt 1).processes 1).state = ProcessState.RUNNING ∧
    (procAt (scenarioAt 1).processes 1).startTime = 0 ∧
    (procAt (scenarioAt 1).processes 1).remainingTime = 1 ∧
    (procAt (scenarioAt 1).processes 0).state = ProcessState.READY ∧
    (procAt (scenarioAt 1).processes 0).startTime = -1 ∧
    (scenarioAt 2).currentProcess = 1 ∧
    (procAt (scenarioAt 2).processes 1).state = ProcessState.RUNNING ∧
    (procAt (scenarioAt 2).processes 1).remainingTime = 0 ∧
    (procAt (scenarioAt 2).processes 1).currentOperationIndex = 1 ∧
    (scenarioAt 2).currentTime = 2 ∧
    (procAt (scenarioAt 3).processes 1).state = ProcessState.TERMINATED ∧
    (procAt (scenarioAt 3).processes 1).completionTime = 2 ∧
    (simulate scenarioSim).2 = some LoopExit.allDone ∧
    (procAt (simulate scenarioSim).1.processes 1).state = ProcessState.TERMINATED ∧
    (procAt (simulate scenarioSim).1.processes 1).startTime = 0 ∧
    (procAt (simulate scenarioSim).1.processes 1).completionTime = 2 := by
  rw [scenario_simulate]
  decide

/-- C18, as stated, fails: `P0` is not TERMINATED at time 10 (it is still
RUNNING in its second `Exec`), its finish time is 13, and the Request and the
Release each take a tick of their own (ticks 8 and 12 advance the operation
index and leave no `Exec` time consumed). -/
theorem scenario_finish_not_10 :
    (scenarioAt 10).currentTime = 10 ∧
    (procAt (scenarioAt 10).processes 0).state = ProcessState.RUNNING ∧
    (procAt (scenarioAt 11).processes 0).state = ProcessState.RUNNING ∧
    (procAt (simulate scenarioSim).1.processes 0).completionTime = 13 ∧
    (procAt (simulate scenarioSim).1.processes 0).completionTime ≠ 10 ∧
    (procAt (scenarioAt 8).processes 0).currentOperationIndex = 1 ∧
    (procAt (scenarioAt 8).processes 0).remainingTime = 0 ∧
    (procAt (scenarioAt 9).processes 0).currentOperationIndex = 2 ∧
    (procAt (scenarioAt 9).processes 0).remainingTime = 0 ∧
    (scenarioAt 9).currentTime = (scenarioAt 8).currentTime + 1 := by
  rw [scenario_simulate]
  decide

/-- C18, amended.  End-to-end scenario, second half: `P0` is dispatched in
tick 3, after the tick (2) in which the exhaustion of `P1` is detected; it
executes `Exec 5` in ticks 3..7, is granted `R1` in tick 8, executes `Exec 3`
in ticks 9..11, releases `R1` in tick 12 and is TERMINATED in tick 13 with
`completionTime` 13; it is never WAITING at any stage of any pass, and the
run ends through the all-done exit at time 13. -/
theorem scenario_second_half :
    (procAt (scenarioAt 3).processes 0).state = ProcessState.READY ∧
    (scenarioAt 4).currentProcess = 0 ∧
    (procAt (scenarioAt 4).processes 0).startTime = 3 ∧
    (procAt (scenarioAt 8).processes 0).currentOperationIndex = 1 ∧
    (procAt (scenarioAt 8).processes 0).heldResources 1 = 0 ∧
    (procAt (scenarioAt 9).processes 0).currentOperationIndex = 2 ∧
    (procAt (scenarioAt 9).processes 0).heldResources 1 = 1 ∧
    ((scenarioAt 9).resources 1).availableInstances = 0 ∧
    (procAt (scenarioAt 12).processes 0).currentOperationIndex = 3 ∧
    (procAt (scenarioAt 13).processes 0).currentOperationIndex = 4 ∧
    (procAt (scenarioAt 13).processes 0).heldResources 1 = 0 ∧
    ((scenarioAt 13).resources 1).availableInstances = 1 ∧
    (procAt (scenarioAt 13).processes 0).state = ProcessState.RUNNING ∧
    (∀ k ∈ List.range 15, ∀ t ∈ scenarioAt k :: tickTrace (scenarioAt k),
      (procAt t.processes 0).state ≠ ProcessState.WAITING ∧ t.waitingQueue = []) ∧
    (simulate scenarioSim).2 = some LoopExit.allDone ∧
    (simulate scenarioSim).1.currentTime = 13 ∧
    (procAt (simulate scenarioSim).1.processes 0).state = ProcessState.TERMINATED ∧
    (procAt (simulate scenarioSim).1.processes 0).startTime = 3 ∧
    (procAt (simulate scenarioSim).1.processes 0).completionTime = 13 := by
  rw [scenario_simulate]
  decide

/-! ## Deadlock recovery (C11) -/

theorem agingVisit_eq (ps : List Process) (pid : Int) :
    agingVisit ps pid = modifyAt ps pid ageOnce := rfl

theorem tickBody_eq (s : Sim) : tickBody s = preemptStage (afterExecute s) := rfl

/-- The aging loop over a queue without repeated entries visits each queued
process of the table once and no other. -/
theorem foldl_agingVisit_nodup (l : List Int) :
    ∀ ps : List Process, l.Nodup → ∀ i : Int,
      procAt (l.foldl agingVisit ps) i =
        if i ∈ l ∧ ValidPid ps i then ageOnce (procAt ps i) else procAt ps i := by
  induction l with
  | nil => intro ps _ i; simp
  | cons x xs ih =>
    intro ps hnd i
    rw [List.nodup_cons] at hnd
    rw [List.foldl_cons, ih _ hnd.2 i, agingVisit_eq]
    by_cases hix : i = x
    · subst hix
      by_cases hv : ValidPid ps i
      · rw [if_neg (fun h => hnd.1 h.1), if_pos ⟨List.mem_cons_self _ _, hv⟩,
          procAt_modifyAt_same _ _ _ hv]
      · rw [if_neg (fun h => hnd.1 h.1), if_neg (fun h => hv h.2), modifyAt_invalid _ _ _ hv]
    · rw [procAt_modifyAt_ne _ _ _ _ hix]
      by_cases hc : i ∈ xs ∧ ValidPid ps i
      · rw [if_pos ⟨hc.1, (validPid_modifyAt _ _ _ _).mpr hc.2⟩,
          if_pos ⟨List.mem_cons_of_mem _ hc.1, hc.2⟩]
      · rw [if_neg (fun h => hc ⟨h.1, (validPid_modifyAt _ _ _ _).mp h.2⟩),
          if_neg (fun h => hc ⟨(List.mem_cons.mp h.1).resolve_left hix, h.2⟩)]

theorem length_foldl_agingVisit (l : List Int) :
    ∀ ps : List Process, (l.foldl agingVisit ps).length = ps.length := by
  induction l with
  | nil => intro ps; rfl
  | cons x xs ih =>
    intro ps
    rw [List.foldl_cons, ih, agingVisit_eq, length_modifyAt]

/-- C12, as stated, fails: an input with two process lines of id 0 puts the
pid 0 twice into the ready queue, and the aging step of tick 0 then raises the
counter of process 0 by two. -/
theorem applyAging_duplicate :
    (beforeAging duplicateSim).readyQueue = [0, 0] ∧
    (procAt (beforeAging duplicateSim).processes 0).timeInReadyQueue = 0 ∧
    agingStage (beforeAging duplicateSim) = applyAging (beforeAging duplicateSim) ∧
    (procAt (applyAging (beforeAging duplicateSim)).processes 0).timeInReadyQueue = 2 ∧
    (procAt (applyAging (beforeAging duplicateSim)).processes 0).timeInReadyQueue ≠
      (procAt (beforeAging duplicateSim).processes 0).timeInReadyQueue + 1 := by
  refine ⟨by decide, by decide, rfl, by decide, by decide⟩

/-- C12, amended.  Aging step: for every ready queue without repeated entries,
`applyAging` increments `timeInReadyQueue` of each process of the table in the
ready queue by one; if the incremented counter is >= 10 and the priority is
> 0 it then decrements the priority by one and resets the counter to 0,
otherwise the priority is unchanged; nothing else of the process changes;
processes not in the ready queue are unchanged, and the ready queue (like
every other component of the state) is the same.  The sibling `ageProcesses`
does the same. -/
theorem applyAging_spec (s : Sim) (hnd : s.readyQueue.Nodup) :
    (∀ i ∈ s.readyQueue, ValidPid s.processes i →
      procAt (applyAging s).processes i = ageOnce (procAt s.processes i) ∧
      ((procAt s.processes i).timeInReadyQueue + 1 ≥ 10 ∧ (procAt s.processes i).priority > 0 →
        (procAt (applyAging s).processes i).priority = (procAt s.processes i).priority - 1 ∧
        (procAt (applyAging s).processes i).timeInReadyQueue = 0) ∧
      (¬ ((procAt s.processes i).timeInReadyQueue + 1 ≥ 10 ∧
            (procAt s.processes i).priority > 0) →
        (procAt (applyAging s).processes i).priority = (procAt s.processes i).priority ∧
        (procAt (applyAging s).processes i).timeInReadyQueue =
          (procAt s.processes i).timeInReadyQueue + 1) ∧
      procAt (applyAging s).processes i =
        { procAt s.processes i with
          priority := (procAt (applyAging s).processes i).priority
          timeInReadyQueue := (procAt (applyAging s).processes i).timeInReadyQueue }) ∧
    (∀ i, i ∉ s.readyQueue → procAt (applyAging s).processes i = procAt s.processes i) ∧
    (applyAging s).processes.length = s.processes.length ∧
    (applyAging s).readyQueue = s.readyQueue ∧
    applyAging s = { s with processes := (applyAging s).processes } ∧
    Student.ageProcesses s = applyAging s := by
  refine ⟨?_, ?_, length_foldl_agingVisit _ _, rfl, rfl, rfl⟩
  · intro i hi hv
    have h : procAt (applyAging s).processes i = ageOnce (procAt s.processes i) := by
      unfold applyAging
      simp only []
      rw [foldl_agingVisit_nodup _ _ hnd i, if_pos ⟨hi, hv⟩]
    rw [h]
    refine ⟨rfl, ?_, ?_, ?_⟩
    · intro hc
      unfold ageOnce
      rw [if_pos hc]
      exact ⟨rfl, rfl⟩
    · intro hc
      unfold ageOnce
      rw [if_neg hc]
      exact ⟨rfl, rfl⟩
    · unfold ageOnce
      split <;> rfl
  · intro i hi
    unfold applyAging
    simp only []
    rw [foldl_agingVisit_nodup _ _ hnd i, if_neg (fun h => hi h.1)]

theorem applyAging_spec_witness :
    (beforeAging scenarioSim).readyQueue.Nodup ∧
    (beforeAging scenarioSim).readyQueue = [0, 1] ∧
    (procAt (applyAging (beforeAging scenarioSim)).processes 0).timeInReadyQueue = 1 ∧
    (procAt (applyAging (beforeAging scenarioSim)).processes 0).priority = 1 := by
  have h := (applyAging_spec (beforeAging scenarioSim) (by decide)).1 0 (by decide) (by decide)
  exact ⟨by decide, by decide, by rw [h.1]; decide, by rw [h.1]; decide⟩

/-! ## The `EXEC` branch of `executeProcess` (C19) -/

theorem modifyAt_modifyAt (ps : List Process) (i : Int) (f g : Process → Process) :
    modifyAt (modifyAt ps i f) i g = modifyAt ps i (fun p => g (f p)) := by
  by_cases hv : ValidPid ps i
  · rw [modifyAt_eq_set _ _ g ((validPid_modifyAt ps i i f).mpr hv),
      procAt_modifyAt_same _ _ _ hv, modifyAt_eq_set _ _ f hv, List.set_set,
      modifyAt_eq_set _ _ _ hv]
  · rw [modifyAt_invalid _ _ f hv, modifyAt_invalid _ _ g hv, modifyAt_invalid _ _ _ hv]

theorem currentOp_congr (p q : Process) (h : execView p = execView q) :
    currentOp p = currentOp q := by
  unfold execView at h
  simp only [Prod.mk.injEq] at h
  obtain ⟨h1, h2, h3, h4, _⟩ := h
  unfold currentOp
  rw [h1, h2, h3, h4]

/-- A process with a current operation is an entry of the table. -/
theorem validPid_of_currentOp (ps : List Process) (i : Int) (op : Operation)
    (h : currentOp (procAt ps i) = some op) : ValidPid ps i := by
  by_contra hv
  have hd : procAt ps i = default := by
    unfold procAt
    unfold ValidPid at hv
    split
    · rename_i h0
      rw [List.getD_eq_default]
      omega
    · rfl
  have hnone : currentOp (default : Process) = none := by decide
  rw [hd, hnone] at h
  exact Option.noConfusion h

/-- One call of `executeProcess` at an `EXEC` operation applies `execTick` to the
running process and changes nothing else. -/
theorem executeProcess_exec (s : Sim) (op : Operation) (hcp : s.currentProcess ≠ -1)
    (hop : currentOp (procAt s.processes s.currentProcess) = some op)
    (hty : op.type = OperationType.EXEC) :
    executeProcess s =
      { s with processes := modifyAt s.processes s.currentProcess (execTick op.duration) } := by
  unfold currentOp at hop
  split at hop
  · rename_i hc
    obtain ⟨h1, h2, h3⟩ := hc
    simp only [Option.some.injEq] at hop
    unfold executeProcess
    rw [if_neg hcp]
    simp only []
    rw [if_neg (by omega), if_neg (by rw [h2]; simp), if_neg (by omega), hop, hty]
    simp only [modifyAt_modifyAt]
    rfl
  · exact absurd hop (by simp)

theorem execTick_seed (d : Int) (q : Process) (h0 : q.remainingTime = 0) :
    execTick d q =
      { q with remainingTime := d - 1
               currentOperationIndex :=
                 if d - 1 = 0 then q.currentOperationIndex + 1 else q.currentOperationIndex } := by
  unfold execTick
  simp only [h0, if_true]
  split <;> rfl

theorem execTick_run (d : Int) (q : Process) (h0 : q.remainingTime ≠ 0) :
    execTick d q =
      { q with remainingTime := q.remainingTime - 1
               currentOperationIndex :=
                 if q.remainingTime - 1 = 0 then q.currentOperationIndex + 1
                 else q.currentOperationIndex } := by
  unfold execTick
  simp only [h0, if_false]
  split <;> rfl

/-! ## The sibling `runProcess` -/

theorem allocateResource_eq (s : Sim) (pid r a : Int) :
    Student.allocateResource s pid r a = requestResource s pid r a := rfl

theorem freeResource_eq (s : Sim) (pid r a : Int) :
    Student.freeResource s pid r a = releaseResource s pid r a := rfl

/-- The two execution functions agree on every state. -/
theorem runProcess_eq (s : Sim) : Student.runProcess s = executeProcess s := by
  unfold Student.runProcess executeProcess
  split
  · rfl
  · simp only []
    split
    · rfl
    · split
      · rfl
      · split
        · rename_i hb hcpu hop
          by_cases hnb : (procAt s.processes s.currentProcess).currentBurstIndex + 1 <
              (procAt s.processes s.currentProcess).bursts.length
          · by_cases hio : (procAt s.processes s.currentProcess).isCPUBurst.getD
                ((procAt s.processes s.currentProcess).currentBurstIndex + 1) false = true
            · rw [if_pos hnb, if_neg (by rw [hio]; simp), if_neg (by rw [hio]; simp),
                if_neg (by omega)]
            · rw [if_pos hnb, if_pos hio, if_pos ⟨hnb, hio⟩]
              by_cases he : (procAt s.processes s.currentProcess).bursts.getD
                  ((procAt s.processes s.currentProcess).currentBurstIndex + 1) [] = []
              · rw [if_neg (by rw [he]; simp), he]
                simp only [modifyAt_modifyAt]
                rfl
              · rw [if_pos he]
          · rw [if_neg hnb, if_neg (fun h => hnb h.1), if_pos (by omega)]
        · rfl

/-! ## Termination on burst exhaustion (C20) -/

/-- The guard `if (!p.isCPUBurst[p.currentBurstIndex]) return;`: for a running
process whose current burst is an I/O burst, `executeProcess` changes nothing. -/
theorem executeProcess_io_burst (s : Sim)
    (hb : (procAt s.processes s.currentProcess).currentBurstIndex <
      (procAt s.processes s.currentProcess).bursts.length)
    (hio : (procAt s.processes s.currentProcess).isCPUBurst.getD
      (procAt s.processes s.currentProcess).currentBurstIndex false = false) :
    executeProcess s = s := by
  unfold executeProcess
  split
  · rfl
  · simp only []
    rw [if_neg (by omega), if_pos (by rw [hio]; simp)]

theorem procAt_of_not_valid (ps : List Process) (i : Int) (h : ¬ ValidPid ps i) :
    procAt ps i = default := by
  unfold procAt
  unfold ValidPid at h
  split
  · rw [List.getD_eq_default]
    omega
  · rfl

theorem shouldPreempt_iff (s : Sim) :
    shouldPreempt s = true ↔
      ∃ q ∈ s.readyQueue, (procAt s.processes q).priority ≤
        (procAt s.processes s.currentProcess).priority := by
  unfold shouldPreempt
  simp [List.any_eq_true]

/-- C16, as stated, fails: at the preemption check of pass 10 of the run of
`terminatedRunnerSim` the running slot is occupied (by 1), `timeSlice` is 10
and the ready queue holds process 2 whose priority equals that of process 1,
yet nothing is preempted: the slot, `timeSlice`, the ready queue and the state
of process 1 (TERMINATED, not RUNNING) stay as they are. -/
theorem preemptStage_terminated_runner :
    terminatedRunnerCheck.currentProcess = 1 ∧
    terminatedRunnerCheck.timeSlice = 10 ∧
    terminatedRunnerCheck.readyQueue = [2] ∧
    (procAt terminatedRunnerCheck.processes 2).priority ≤
      (procAt terminatedRunnerCheck.processes 1).priority ∧
    (procAt terminatedRunnerCheck.processes 1).state = ProcessState.TERMINATED ∧
    (preemptStage terminatedRunnerCheck).currentProcess = 1 ∧
    (preemptStage terminatedRunnerCheck).timeSlice = 10 ∧
    (preemptStage terminatedRunnerCheck).readyQueue = [2] ∧
    (procAt (preemptStage terminatedRunnerCheck).processes 1).state =
      ProcessState.TERMINATED := by
  decide

/-- C16, amended.  Quantum preemption rule: at the preemption check (after the
execute stage and the `timeSlice` increment) the running process is preempted
(state set to READY, appended to the back of the ready queue, running slot set
to -1, `timeSlice` reset to 0) if and only if the running slot is occupied,
`timeSlice >= 10`, some process in the ready queue has priority <= the running
process's priority, and the state of the process in the running slot is
RUNNING; preemption changes nothing of the process but its state (so
`timeInReadyQueue`, priority, `remainingTime` and the burst and operation
indices are unchanged) and no other process; in every other case, in
particular when no such ready process exists, the check changes nothing and
the process keeps running past its quantum. -/
theorem preemptStage_rule (s : Sim) :
    ((s.currentProcess ≠ -1 ∧ (preemptStage s).currentProcess = -1) ↔
      (s.currentProcess ≠ -1 ∧ s.timeSlice ≥ 10 ∧
        (∃ q ∈ s.readyQueue, (procAt s.processes q).priority ≤
          (procAt s.processes s.currentProcess).priority) ∧
        (procAt s.processes s.currentProcess).state = ProcessState.RUNNING)) ∧
    ((s.currentProcess ≠ -1 ∧ s.timeSlice ≥ 10 ∧
        (∃ q ∈ s.readyQueue, (procAt s.processes q).priority ≤
          (procAt s.processes s.currentProcess).priority) ∧
        (procAt s.processes s.currentProcess).state = ProcessState.RUNNING) →
      (procAt (preemptStage s).processes s.currentProcess).state = ProcessState.READY ∧
      (preemptStage s).readyQueue = s.readyQueue ++ [s.currentProcess] ∧
      (preemptStage s).currentProcess = -1 ∧
      (preemptStage s).timeSlice = 0 ∧
      procAt (preemptStage s).processes s.currentProcess =
        { procAt s.processes s.currentProcess with state := ProcessState.READY } ∧
      (procAt (preemptStage s).processes s.currentProcess).timeInReadyQueue =
        (procAt s.processes s.currentProcess).timeInReadyQueue ∧
      (procAt (preemptStage s).processes s.currentProcess).priority =
        (procAt s.processes s.currentProcess).priority ∧
      (procAt (preemptStage s).processes s.currentProcess).remainingTime =
        (procAt s.processes s.currentProcess).remainingTime ∧
      (procAt (preemptStage s).processes s.currentProcess).currentBurstIndex =
        (procAt s.processes s.currentProcess).currentBurstIndex ∧
      (procAt (preemptStage s).processes s.currentProcess).currentOperationIndex =
        (procAt s.processes s.currentProcess).currentOperationIndex ∧
      (∀ j, j ≠ s.currentProcess →
        procAt (preemptStage s).processes j = procAt s.processes j) ∧
      preemptStage s =
        { s with
          processes := (preemptStage s).processes
          readyQueue := s.readyQueue ++ [s.currentProcess]
          currentProcess := -1
          timeSlice := 0 }) ∧
    (¬ (s.currentProcess ≠ -1 ∧ s.timeSlice ≥ 10 ∧
        (∃ q ∈ s.readyQueue, (procAt s.processes q).priority ≤
          (procAt s.processes s.currentProcess).priority) ∧
        (procAt s.processes s.currentProcess).state = ProcessState.RUNNING) →
      preemptStage s = s) := by
  have hyes : (s.currentProcess ≠ -1 ∧ s.timeSlice ≥ 10 ∧
        (∃ q ∈ s.readyQueue, (procAt s.processes q).priority ≤
          (procAt s.processes s.currentProcess).priority) ∧
        (procAt s.processes s.currentProcess).state = ProcessState.RUNNING) →
      preemptStage s =
        { s with
          processes := modifyAt s.processes s.currentProcess
            (fun p => { p with state := ProcessState.READY })
          readyQueue := s.readyQueue ++ [s.currentProcess]
          currentProcess := -1
          timeSlice := 0 } := by
    intro hc
    unfold preemptStage
    rw [if_pos ⟨hc.1, hc.2.1⟩, if_pos ⟨(shouldPreempt_iff s).mpr hc.2.2.1, hc.2.2.2⟩]
  have hno : ¬ (s.currentProcess ≠ -1 ∧ s.timeSlice ≥ 10 ∧
        (∃ q ∈ s.readyQueue, (procAt s.processes q).priority ≤
          (procAt s.processes s.currentProcess).priority) ∧
        (procAt s.processes s.currentProcess).state = ProcessState.RUNNING) →
      preemptStage s = s := by
    intro hc
    unfold preemptStage
    split
    · rename_i h1
      split
      · rename_i h2
        exact absurd ⟨h1.1, h1.2, (shouldPreempt_iff s).mp h2.1, h2.2⟩ hc
      · rfl
    · rfl
  refine ⟨⟨?_, ?_⟩, ?_, hno⟩
  · intro h
    by_contra hc
    rw [hno hc] at h
    exact h.1 h.2
  · intro hc
    rw [hyes hc]
    exact ⟨hc.1, rfl⟩
  · intro hc
    have hv : ValidPid s.processes s.currentProcess := by
      by_contra hv
      have hs := hc.2.2.2
      rw [procAt_of_not_valid _ _ hv] at hs
      exact absurd hs (by decide)
    have hp : procAt (preemptStage s).processes s.currentProcess =
        { procAt s.processes s.currentProcess with state := ProcessState.READY } := by
      rw [hyes hc]
      simp only []
      rw [procAt_modifyAt_same _ _ _ hv]
    refine ⟨by rw [hp], by rw [hyes hc], by rw [hyes hc], by rw [hyes hc], hp, by rw [hp],
      by rw [hp], by rw [hp], by rw [hp], by rw [hp], ?_, ?_⟩
    · intro j hj
      rw [hyes hc]
      simp only []
      exact procAt_modifyAt_ne _ _ _ _ hj
    · rw [hyes hc]

/-! ## What the stages leave alone -/

theorem stable_step (σ : List (Int × Int × Int × Int × List (List Operation) × List Bool ×
      Int × Int × Int))
    (ps : List Process) (i : Int) (f : Process → Process)
    (h2 : ps.map stableSig = σ) (h : ∀ p, stableSig (f p) = stableSig p) :
    (modifyAt ps i f).map stableSig = σ :=
  (map_modifyAt_of_eq stableSig ps i f h).trans h2

theorem kept_refl (s : Sim) : Kept s s := ⟨rfl, rfl, rfl, rfl⟩

theorem kept_trans {a b c : Sim} (h1 : Kept a b) (h2 : Kept b c) : Kept a c :=
  ⟨h2.1.trans h1.1, h2.2.1.trans h1.2.1, h2.2.2.1.trans h1.2.2.1, h2.2.2.2.trans h1.2.2.2⟩

theorem kept_stable {a b : Sim} (h : Kept a b) : StableKept a b := ⟨h.1, h.2.2.2⟩

theorem stableKept_refl (s : Sim) : StableKept s s := ⟨rfl, rfl⟩

theorem stableKept_trans {a b c : Sim} (h1 : StableKept a b) (h2 : StableKept b c) :
    StableKept a c :=
  ⟨h2.1.trans h1.1, h2.2.trans h1.2⟩

/-- Tables with the same stable fields agree on them at every index. -/
theorem stableSig_procAt (ps qs : List Process) (h : qs.map stableSig = ps.map stableSig)
    (i : Int) : stableSig (procAt qs i) = stableSig (procAt ps i) := by
  have hlen : qs.length = ps.length := by
    have := congrArg List.length h
    simpa using this
  by_cases hv : ValidPid ps i
  · have hv' : ValidPid qs i := by
      unfold ValidPid at hv ⊢
      rw [hlen]; exact hv
    have hlt : i.toNat < ps.length := by
      have := hv.1; have := hv.2; omega
    have hlt' : i.toNat < qs.length := by rw [hlen]; exact hlt
    rw [procAt_eq_getElem _ _ hv hlt, procAt_eq_getElem _ _ hv' hlt']
    have h1 : (qs.map stableSig)[i.toNat]? = (ps.map stableSig)[i.toNat]? := by rw [h]
    simpa [List.getElem?_map, List.getElem?_eq_getElem hlt, List.getElem?_eq_getElem hlt']
      using h1
  · have hv' : ¬ ValidPid qs i := by
      unfold ValidPid at hv ⊢
      rw [hlen]; exact hv
    rw [procAt_of_not_valid _ _ hv, procAt_of_not_valid _ _ hv']

theorem checkNewArrivals_kept (s : Sim) : Kept s (checkNewArrivals s) := by
  refine ⟨?_, rfl, rfl, rfl⟩
  unfold checkNewArrivals
  simp only [List.map_map]
  apply List.map_congr_left
  intro p _
  simp only [Function.comp]
  split <;> rfl

theorem ioVisit_kept (a : Sim) (acc : Sim × List Int) (pid : Int) (h : Kept a acc.1) :
    Kept a (ioVisit acc pid).1 := by
  obtain ⟨h1, h2, h3, h4⟩ := h
  unfold ioVisit
  simp only []
  split
  · split
    · refine ⟨?_, h2, h3, h4⟩
      simp only []
      exact stable_step _ _ _ _ (stable_step _ _ _ _ (stable_step _ _ _ _ h1 (fun _ => rfl))
        (fun _ => rfl)) (fun _ => rfl)
    · refine ⟨?_, h2, h3, h4⟩
      simp only []
      exact stable_step _ _ _ _ (stable_step _ _ _ _ h1 (fun _ => rfl)) (fun _ => rfl)
  · refine ⟨?_, h2, h3, h4⟩
    simp only []
    exact stable_step _ _ _ _ h1 (fun _ => rfl)

theorem processIO_kept (s : Sim) : Kept s (Sched.processIO s) := by
  have hk := foldl_preserves (fun acc : Sim × List Int => Kept s acc.1) ioVisit
    (fun acc pid hK => ioVisit_kept s acc pid hK)
    s.ioQueue ({ s with ioQueue := [] }, []) ⟨rfl, rfl, rfl, rfl⟩
  exact hk

theorem waitingVisit_kept (a : Sim) (acc : Sim × List Int) (pid : Int) (h : Kept a acc.1) :
    Kept a (waitingVisit acc pid).1 := by
  obtain ⟨h1, h2, h3, h4⟩ := h
  unfold waitingVisit
  simp only []
  split
  · split
    · refine ⟨?_, h2, h3, h4⟩
      simp only []
      exact stable_step _ _ _ _ h1 (fun _ => rfl)
    · exact ⟨h1, h2, h3, h4⟩
  · exact ⟨h1, h2, h3, h4⟩

theorem processWaiting_kept (s : Sim) : Kept s (processWaiting s) := by
  have hk := foldl_preserves (fun acc : Sim × List Int => Kept s acc.1) waitingVisit
    (fun acc pid hK => waitingVisit_kept s acc pid hK)
    s.waitingQueue ({ s with waitingQueue := [] }, []) ⟨rfl, rfl, rfl, rfl⟩
  exact hk

theorem recoverFromDeadlock_kept (s : Sim) (dl : List Int) :
    Kept s (recoverFromDeadlock s dl) := by
  refine ⟨?_, rfl, rfl, rfl⟩
  unfold recoverFromDeadlock
  simp only []
  exact stable_step _ _ _ _ rfl (fun _ => rfl)

theorem recoveryStage_kept (s : Sim) : Kept s (recoveryStage s) := by
  unfold recoveryStage
  split
  · exact recoverFromDeadlock_kept _ _
  · exact kept_refl s

theorem deadlockStage_kept (s : Sim) : Kept s (deadlockStage s) := by
  unfold deadlockStage
  split
  · exact kept_trans (recoverFromDeadlock_kept _ _) (processWaiting_kept _)
  · exact kept_refl s

theorem beforeAging_kept (s : Sim) : Kept s (beforeAging s) :=
  kept_trans (kept_trans (kept_trans (checkNewArrivals_kept s) (processIO_kept _))
    (processWaiting_kept _)) (deadlockStage_kept _)

theorem agingStage_slot (s : Sim) :
    (agingStage s).currentProcess = s.currentProcess ∧
    (agingStage s).timeSlice = s.timeSlice ∧
    (agingStage s).currentTime = s.currentTime ∧
    (agingStage s).readyQueue = s.readyQueue := by
  unfold agingStage
  split
  · exact ⟨rfl, rfl, rfl, rfl⟩
  · exact ⟨rfl, rfl, rfl, rfl⟩

theorem selectNextProcess_table (s : Sim) :
    (selectNextProcess s).2.processes = s.processes ∧
    (selectNextProcess s).2.currentTime = s.currentTime := by
  unfold selectNextProcess
  split
  · exact ⟨rfl, rfl⟩
  · exact ⟨rfl, rfl⟩

theorem selectStage_stable (s : Sim) : StableKept s (selectStage s) := by
  unfold selectStage
  split
  · simp only []
    split
    · refine ⟨?_, (selectNextProcess_table s).2⟩
      simp only []
      exact stable_step _ _ _ _ (by rw [(selectNextProcess_table s).1]) (fun _ => rfl)
    · refine ⟨?_, (selectNextProcess_table s).2⟩
      simp only []
      rw [(selectNextProcess_table s).1]
  · exact stableKept_refl s

theorem selectStage_occupied (s : Sim) (h : s.currentProcess ≠ -1) : selectStage s = s := by
  unfold selectStage
  rw [if_neg h]

theorem ganttStage_kept (s : Sim) : Kept s (ganttStage s) := by
  unfold ganttStage
  split
  · split
    · exact ⟨rfl, rfl, rfl, rfl⟩
    · exact kept_refl s
  · exact kept_refl s

theorem requestResource_stable (s : Sim) (pid r a : Int) :
    (requestResource s pid r a).2.processes.map stableSig = s.processes.map stableSig ∧
    (requestResource s pid r a).2.currentTime = s.currentTime ∧
    (requestResource s pid r a).2.timeSlice = s.timeSlice := by
  unfold requestResource
  split
  · refine ⟨?_, rfl, rfl⟩
    simp only []
    exact stable_step _ _ _ _ rfl (fun _ => rfl)
  · refine ⟨?_, rfl, rfl⟩
    simp only []
    exact stable_step _ _ _ _ rfl (fun _ => rfl)

theorem releaseResource_stable (s : Sim) (pid r a : Int) :
    (releaseResource s pid r a).processes.map stableSig = s.processes.map stableSig ∧
    (releaseResource s pid r a).currentTime = s.currentTime ∧
    (releaseResource s pid r a).timeSlice = s.timeSlice := by
  unfold releaseResource
  split
  · refine ⟨?_, rfl, rfl⟩
    simp only []
    exact stable_step _ _ _ _ rfl (fun _ => rfl)
  · exact ⟨rfl, rfl, rfl⟩

/-- The function `executeProcess` writes no stable field of any table entry and
leaves `timeSlice` and the clock alone. -/
theorem executeProcess_stable (s : Sim) :
    (executeProcess s).processes.map stableSig = s.processes.map stableSig ∧
    (executeProcess s).currentTime = s.currentTime ∧
    (executeProcess s).timeSlice = s.timeSlice := by
  unfold executeProcess
  split
  · exact ⟨rfl, rfl, rfl⟩
  · simp only []
    split
    · refine ⟨?_, rfl, rfl⟩
      simp only []
      exact stable_step _ _ _ _ rfl (fun _ => rfl)
    · split
      · exact ⟨rfl, rfl, rfl⟩
      · split
        · split
          · refine ⟨?_, rfl, rfl⟩
            simp only []
            split
            · exact stable_step _ _ _ _ (stable_step _ _ _ _ (stable_step _ _ _ _ rfl
                (fun _ => rfl)) (fun _ => rfl)) (fun _ => rfl)
            · exact stable_step _ _ _ _ (stable_step _ _ _ _ rfl (fun _ => rfl)) (fun _ => rfl)
          · split
            · refine ⟨?_, rfl, rfl⟩
              simp only []
              exact stable_step _ _ _ _ (stable_step _ _ _ _ rfl (fun _ => rfl)) (fun _ => rfl)
            · refine ⟨?_, rfl, rfl⟩
              simp only []
              exact stable_step _ _ _ _ rfl (fun _ => rfl)
        · split
          · split
            · refine ⟨?_, (requestResource_stable _ _ _ _).2.1, (requestResource_stable _ _ _ _).2.2⟩
              simp only []
              exact stable_step _ _ _ _ (requestResource_stable _ _ _ _).1 (fun _ => rfl)
            · refine ⟨?_, (requestResource_stable _ _ _ _).2.1, (requestResource_stable _ _ _ _).2.2⟩
              simp only []
              exact stable_step _ _ _ _ (requestResource_stable _ _ _ _).1 (fun _ => rfl)
          · refine ⟨?_, (releaseResource_stable _ _ _ _).2.1, (releaseResource_stable _ _ _ _).2.2⟩
            simp only []
            exact stable_step _ _ _ _ (releaseResource_stable _ _ _ _).1 (fun _ => rfl)
          · refine ⟨?_, rfl, rfl⟩
            simp only []
            refine stable_step _ _ _ _ (stable_step _ _ _ _ (stable_step _ _ _ _ rfl ?_)
              (fun _ => rfl)) ?_
            · intro p; split <;> rfl
            · intro p; split <;> rfl

theorem executeStage_stable (s : Sim) : StableKept s (executeStage s) := by
  unfold executeStage
  split
  · exact ⟨(executeProcess_stable s).1, (executeProcess_stable s).2.1⟩
  · exact stableKept_refl s

theorem executeStage_timeSlice (s : Sim) (h : s.currentProcess ≠ -1) :
    (executeStage s).timeSlice = s.timeSlice + 1 := by
  unfold executeStage
  rw [if_pos h]
  simp only []
  rw [(executeProcess_stable s).2.2]

theorem preemptStage_stable (s : Sim) : StableKept s (preemptStage s) := by
  unfold preemptStage
  split
  · split
    · refine ⟨?_, rfl⟩
      simp only []
      exact stable_step _ _ _ _ rfl (fun _ => rfl)
    · exact stableKept_refl s
  · exact stableKept_refl s

theorem stuckStage_kept (s : Sim) : Kept s (stuckStage s) := by
  unfold stuckStage
  split
  · exact recoverFromDeadlock_kept _ _
  · exact kept_refl s

/-- The tail of a pass writes no stable field of any table entry. -/
theorem finishTick_stable (s : Sim) :
    (finishTick s).1.processes.map stableSig = s.processes.map stableSig := by
  unfold finishTick
  split
  · rfl
  · split
    · rfl
    · simp only []
      split
      · exact (stuckStage_kept s).1
      · exact (stuckStage_kept s).1

theorem preemptStage_quantumOpen (s : Sim) : QuantumOpen (preemptStage s) := by
  unfold preemptStage
  split
  · rename_i h1
    split
    · intro h; exact absurd rfl h
    · rename_i h2
      intro _ hp hr
      exact absurd ⟨hp, hr⟩ h2
  · rename_i h1
    intro hcp _ _
    by_contra hlt
    exact h1 ⟨hcp, by unfold TIME_QUANTUM; omega⟩

theorem stuckStage_occupied (s : Sim) (h : s.currentProcess ≠ -1) : stuckStage s = s := by
  unfold stuckStage
  have hn : noProgress s = false := by
    unfold noProgress
    simp [h]
  rw [hn]
  simp

theorem finishTick_quantumOpen (s : Sim) (h : QuantumOpen s) : QuantumOpen (finishTick s).1 := by
  unfold finishTick
  split
  · exact h
  · split
    · exact h
    · have hq : QuantumOpen { stuckStage s with currentTime := (stuckStage s).currentTime + 1 } := by
        by_cases hcp : s.currentProcess = -1
        · intro hc
          have := (stuckStage_kept s).2.1
          exact absurd (this.trans hcp) hc
        · rw [stuckStage_occupied s hcp]
          exact h
      simp only []
      split
      · exact hq
      · exact hq

theorem tick_quantumOpen (s : Sim) : QuantumOpen (tick s).1 :=
  finishTick_quantumOpen _ (preemptStage_quantumOpen _)

theorem simulateLoop_quantumOpen (n : Nat) :
    ∀ s : Sim, QuantumOpen s → QuantumOpen (simulateLoop n s).1 := by
  induction n with
  | zero => intro s h; exact h
  | succ n ih =>
    intro s _
    by_cases hx : (tick s).2.isSome = true
    · rw [simulateLoop, if_pos hx]
      exact tick_quantumOpen s
    · rw [simulateLoop, if_neg hx]
      exact ih _ (tick_quantumOpen s)

/-- With the running slot occupied at the head of a pass, the slot and
`timeSlice` reach `executeProcess()` unchanged and `timeSlice` is then
incremented. -/
theorem afterExecute_timeSlice (s : Sim) (h : s.currentProcess ≠ -1) :
    (afterExecute s).timeSlice = s.timeSlice + 1 ∧
    (beforeExecute s).currentProcess = s.currentProcess := by
  have h1 := beforeAging_kept s
  have h2 := agingStage_slot (beforeAging s)
  have hcp : (agingStage (beforeAging s)).currentProcess ≠ -1 := by
    rw [h2.1, h1.2.1]; exact h
  have h3 := ganttStage_kept (selectStage (agingStage (beforeAging s)))
  rw [selectStage_occupied _ hcp] at h3
  have hb : (beforeExecute s).currentProcess = s.currentProcess := by
    unfold beforeExecute
    rw [selectStage_occupied _ hcp, h3.2.1, h2.1, h1.2.1]
  have ht : (beforeExecute s).timeSlice = s.timeSlice := by
    unfold beforeExecute
    rw [selectStage_occupied _ hcp, h3.2.2.1, h2.2.1, h1.2.2.1]
  refine ⟨?_, hb⟩
  unfold afterExecute
  rw [executeStage_timeSlice _ (by rw [hb]; exact h), ht]

/-- C15, as stated, fails: in pass 15 of the run of `lateRivalSim` the RUNNING
process 0 executes while the ready queue contains process 1 of equal priority
(it arrived in this pass), and `timeSlice` after that execution is 16. -/
theorem quantum_exceeded_late_rival :
    (lateRivalAt 15).currentTime = 15 ∧
    (lateRivalAt 15).currentProcess = 0 ∧
    (lateRivalAt 15).readyQueue = [] ∧
    (beforeExecute (lateRivalAt 15)).currentProcess = 0 ∧
    (beforeExecute (lateRivalAt 15)).readyQueue = [1] ∧
    (procAt (beforeExecute (lateRivalAt 15)).processes 0).state = ProcessState.RUNNING ∧
    (procAt (beforeExecute (lateRivalAt 15)).processes 1).priority ≤
      (procAt (beforeExecute (lateRivalAt 15)).processes 0).priority ∧
    (procAt (beforeExecute (lateRivalAt 15)).processes 0).remainingTime = 5 ∧
    (afterExecute (lateRivalAt 15)).currentProcess = 0 ∧
    (afterExecute (lateRivalAt 15)).readyQueue = [1] ∧
    (procAt (afterExecute (lateRivalAt 15)).processes 0).state = ProcessState.RUNNING ∧
    (procAt (afterExecute (lateRivalAt 15)).processes 0).remainingTime = 4 ∧
    (afterExecute (lateRivalAt 15)).timeSlice = 16 ∧
    ¬ (afterExecute (lateRivalAt 15)).timeSlice ≤ 10 := by
  decide

/-- C15, amended.  Round-robin fairness bound: for every run and every tick,
if at the head of the tick (that is, as the previous preemption check left
things) the process in the running slot is RUNNING and the ready queue
contains at least one process with priority <= its own, then that process is
still in the running slot when `executeProcess()` is called in this tick, and
`timeSlice` after this tick's execution, which is one more than at the head
of the tick, is at most 10. -/
theorem quantum_bound (total : Int → Int) (ps : List Process) (fuel : Nat)
    (hcp : (simulateLoop fuel (initialSim total ps)).1.currentProcess ≠ -1)
    (hrun : (procAt (simulateLoop fuel (initialSim total ps)).1.processes
      (simulateLoop fuel (initialSim total ps)).1.currentProcess).state = ProcessState.RUNNING)
    (hrival : ∃ q ∈ (simulateLoop fuel (initialSim total ps)).1.readyQueue,
      (procAt (simulateLoop fuel (initialSim total ps)).1.processes q).priority ≤
        (procAt (simulateLoop fuel (initialSim total ps)).1.processes
          (simulateLoop fuel (initialSim total ps)).1.currentProcess).priority) :
    (afterExecute (simulateLoop fuel (initialSim total ps)).1).timeSlice ≤ 10 ∧
    (afterExecute (simulateLoop fuel (initialSim total ps)).1).timeSlice =
      (simulateLoop fuel (initialSim total ps)).1.timeSlice + 1 ∧
    (beforeExecute (simulateLoop fuel (initialSim total ps)).1).currentProcess =
      (simulateLoop fuel (initialSim total ps)).1.currentProcess := by
  have hJ : QuantumOpen (simulateLoop fuel (initialSim total ps)).1 :=
    simulateLoop_quantumOpen fuel _ (fun h => absurd rfl h)
  have hlt := hJ hcp ((shouldPreempt_iff _).mpr hrival) hrun
  have ht := afterExecute_timeSlice _ hcp
  exact ⟨by rw [ht.1]; omega, ht.1, ht.2⟩

theorem quantum_bound_witness :
    (lateRivalAt 17).currentProcess = 1 ∧
    (procAt (lateRivalAt 17).processes 1).state = ProcessState.RUNNING ∧
    (lateRivalAt 17).readyQueue = [0] ∧
    (afterExecute (lateRivalAt 17)).timeSlice ≤ 10 :=
  ⟨by decide, by decide, by decide,
   (quantum_bound (fun _ => 0)
      [loadProcess 0 0 0 [[Operation.mkExec OperationType.EXEC 20]] [true],
       loadProcess 1 15 0 [[Operation.mkExec OperationType.EXEC 1]] [true]] 17
      (by decide) (by decide) (by decide)).1⟩

/-! ## Priorities never rise (C13) -/

theorem priorityStep_refl (s : Sim) : PriorityStep s s :=
  fun _ => ⟨rfl, le_refl _, fun h => h⟩

theorem priorityStep_trans {a b c : Sim} (h1 : PriorityStep a b) (h2 : PriorityStep b c) :
    PriorityStep a c :=
  fun i => ⟨(h2 i).1.trans (h1 i).1, le_trans (h2 i).2.1 (h1 i).2.1,
    fun h => (h2 i).2.2 ((h1 i).2.2 h)⟩

/-- A stage that writes no stable field raises no priority. -/
theorem priorityStep_of_stable (a b : Sim)
    (h : b.processes.map stableSig = a.processes.map stableSig) : PriorityStep a b := by
  intro i
  have hs := stableSig_procAt a.processes b.processes h i
  unfold stableSig at hs
  simp only [Prod.mk.injEq] at hs
  obtain ⟨_, _, hp, ho, _⟩ := hs
  exact ⟨ho, le_of_eq hp, fun h0 => by rw [hp]; exact h0⟩

theorem ageOnce_priority (p : Process) :
    (ageOnce p).originalPriority = p.originalPriority ∧
    (ageOnce p).priority ≤ p.priority ∧ (0 ≤ p.priority → 0 ≤ (ageOnce p).priority) := by
  unfold ageOnce
  split
  · rename_i h
    refine ⟨rfl, ?_, fun _ => ?_⟩
    · simp only []; omega
    · simp only []; omega
  · exact ⟨rfl, le_refl _, fun h => h⟩

theorem procAt_modifyAt (ps : List Process) (i j : Int) (f : Process → Process) :
    procAt (modifyAt ps i f) j = procAt ps j ∨
      (ValidPid ps i ∧ j = i ∧ procAt (modifyAt ps i f) j = f (procAt ps j)) := by
  by_cases hj : j = i
  · by_cases hv : ValidPid ps i
    · right
      subst hj
      exact ⟨hv, rfl, procAt_modifyAt_same _ _ _ hv⟩
    · left
      rw [modifyAt_invalid _ _ _ hv]
  · left
    exact procAt_modifyAt_ne _ _ _ _ hj

theorem applyAging_priorityStep (s : Sim) : PriorityStep s (applyAging s) := by
  have hk := foldl_preserves
    (fun ps : List Process => PriorityStep s { s with processes := ps }) agingVisit
    (fun ps pid hK => by
      intro i
      have h0 := hK i
      simp only [] at h0 ⊢
      rw [agingVisit_eq]
      rcases procAt_modifyAt ps pid i ageOnce with h | ⟨_, _, h⟩
      · rw [h]; exact h0
      · rw [h]
        have ha := ageOnce_priority (procAt ps i)
        exact ⟨ha.1.trans h0.1, le_trans ha.2.1 h0.2.1, fun hn => ha.2.2 (h0.2.2 hn)⟩)
    s.readyQueue s.processes (priorityStep_refl s)
  exact hk

theorem agingStage_priorityStep (s : Sim) : PriorityStep s (agingStage s) := by
  unfold agingStage
  split
  · exact applyAging_priorityStep s
  · exact priorityStep_refl s

/-- The periodic check seen as recovery followed by the retry. -/
theorem deadlockStage_eq (s : Sim) :
    deadlockStage s = if deadlockCheck s then processWaiting (recoveryStage s) else s := by
  unfold deadlockStage recoveryStage
  split <;> rfl

theorem recovery_to_deadlock_kept (s : Sim) : Kept (recoveryStage s) (deadlockStage s) := by
  rw [deadlockStage_eq]
  split
  · exact processWaiting_kept _
  · rename_i h
    unfold recoveryStage
    rw [if_neg h]
    exact kept_refl s

/-- Every stage of a pass, taken in order, raises no priority. -/
theorem tickTrace_priority_chain (s : Sim) : List.Chain' PriorityStep (s :: tickTrace s) := by
  unfold tickTrace
  simp only [List.chain'_cons, List.chain'_singleton, and_true]
  refine ⟨?_, ?_, ?_, ?_, ?_, ?_, ?_, ?_, ?_, ?_, ?_, ?_⟩
  · exact priorityStep_of_stable _ _ (checkNewArrivals_kept _).1
  · exact priorityStep_of_stable _ _ (processIO_kept _).1
  · exact priorityStep_of_stable _ _ (processWaiting_kept _).1
  · exact priorityStep_of_stable _ _ (recoveryStage_kept _).1
  · exact priorityStep_of_stable _ _ (recovery_to_deadlock_kept _).1
  · exact agingStage_priorityStep _
  · exact priorityStep_of_stable _ _ (selectStage_stable _).1
  · exact priorityStep_of_stable _ _ (ganttStage_kept _).1
  · exact priorityStep_of_stable _ _ (executeStage_stable _).1
  · exact priorityStep_of_stable _ _ (preemptStage_stable _).1
  · exact priorityStep_of_stable _ _ (stuckStage_kept _).1
  · exact priorityStep_of_stable _ _
      ((finishTick_stable _).trans (stuckStage_kept _).1.symm)

/-- Every state of the trace of a pass follows the head of the pass with no
priority raised. -/
theorem tickTrace_priorityStep (s t : Sim) (ht : t ∈ s :: tickTrace s) : PriorityStep s t := by
  rcases List.mem_cons.mp ht with rfl | ht
  · exact priorityStep_refl _
  · have hc := tickTrace_priority_chain s
    have hp : List.Pairwise PriorityStep (s :: tickTrace s) :=
      (@List.chain'_iff_pairwise Sim PriorityStep ⟨fun _ _ _ h1 h2 => priorityStep_trans h1 h2⟩ _).mp hc
    exact (List.pairwise_cons.mp hp).1 t ht

theorem tick_priorityStep (s : Sim) : PriorityStep s (tick s).1 :=
  tickTrace_priorityStep s _ (List.mem_cons_of_mem _ (tick_mem_tickTrace s).2)

theorem simulateLoop_priorityStep (n : Nat) :
    ∀ s : Sim, PriorityStep s (simulateLoop n s).1 := by
  induction n with
  | zero => intro s; exact priorityStep_refl s
  | succ n ih =>
    intro s
    by_cases hx : (tick s).2.isSome = true
    · rw [simulateLoop, if_pos hx]
      exact tick_priorityStep s
    · rw [simulateLoop, if_neg hx]
      exact priorityStep_trans (tick_priorityStep s) (ih _)

/-- C13. Aging is monotonic over a whole run: for every input, every pass and
every process, the priority after any stage of the pass is less than or equal
to its value before that stage (the states of a pass, in order, from its head
to the head of the next pass, form a chain of `PriorityStep`), so no operation
of the engine ever increases a priority; the original priority never changes,
the priority never exceeds the loaded one, and for a process with
`originalPriority >= 0` the priority always stays within
`[0, originalPriority]`. -/
theorem priority_never_rises (total : Int → Int) (ps : List Process)
    (hload : ∀ p ∈ ps, p.priority = p.originalPriority) (fuel : Nat) :
    List.Chain' PriorityStep
      ((simulateLoop fuel (initialSim total ps)).1 ::
        tickTrace (simulateLoop fuel (initialSim total ps)).1) ∧
    ∀ t ∈ (simulateLoop fuel (initialSim total ps)).1 ::
        tickTrace (simulateLoop fuel (initialSim total ps)).1, ∀ i : Int,
      (procAt t.processes i).originalPriority = (procAt ps i).originalPriority ∧
      (procAt t.processes i).priority ≤ (procAt ps i).priority ∧
      (0 ≤ (procAt t.processes i).originalPriority →
        0 ≤ (procAt t.processes i).priority ∧
        (procAt t.processes i).priority ≤ (procAt t.processes i).originalPriority) := by
  refine ⟨tickTrace_priority_chain _, ?_⟩
  intro t ht i
  have h := priorityStep_trans (simulateLoop_priorityStep fuel (initialSim total ps))
    (tickTrace_priorityStep _ t ht) i
  have hl : (procAt ps i).priority = (procAt ps i).originalPriority := by
    by_cases hv : ValidPid ps i
    · exact hload _ (procAt_mem ps i hv)
    · rw [procAt_of_not_valid _ _ hv]
      rfl
  have h1 : (procAt t.processes i).originalPriority = (procAt ps i).originalPriority := h.1
  have h2 : (procAt t.processes i).priority ≤ (procAt ps i).priority := h.2.1
  have h3 : 0 ≤ (procAt ps i).priority → 0 ≤ (procAt t.processes i).priority := h.2.2
  refine ⟨h1, h2, fun h0 => ⟨h3 (by omega), by omega⟩⟩

theorem priority_never_rises_witness :
    (∀ p ∈ scenarioTable, p.priority = p.originalPriority) ∧
    (procAt (scenarioAt 3).processes 0).originalPriority = 1 ∧
    0 ≤ (procAt (scenarioAt 3).processes 0).priority ∧
    (procAt (scenarioAt 3).processes 0).priority ≤ 1 :=
  ⟨by decide,
   ((priority_never_rises scenarioTotal scenarioTable (by decide) 3).2 (scenarioAt 3)
      (List.mem_cons_self _ _) 0).1,
   (((priority_never_rises scenarioTotal scenarioTable (by decide) 3).2 (scenarioAt 3)
      (List.mem_cons_self _ _) 0).2.2 (by decide)).1,
   ((priority_never_rises scenarioTotal scenarioTable (by decide) 3).2 (scenarioAt 3)
      (List.mem_cons_self _ _) 0).2.1⟩

/-! ## Stages with nothing to do, and the starvation scenario (C14) -/

theorem processIO_idle (s : Sim) (h : s.ioQueue = []) : Sched.processIO s = s := by
  unfold Sched.processIO
  rw [h]
  simp only [List.foldl_nil]
  cases s
  simp_all

theorem processWaiting_idle (s : Sim) (h : s.waitingQueue = []) : processWaiting s = s := by
  unfold processWaiting
  rw [h]
  simp only [List.foldl_nil]
  cases s
  simp_all

theorem detectDeadlock_idle (s : Sim) (h : s.waitingQueue = []) :
    (detectDeadlock s []).1 = false := by
  unfold detectDeadlock
  rw [h]
  simp

theorem deadlockStage_idle (s : Sim) (h : s.waitingQueue = []) : deadlockStage s = s := by
  unfold deadlockStage deadlockCheck
  rw [detectDeadlock_idle s h]
  simp

theorem checkNewArrivals_idle (s : Sim) (h : ∀ p ∈ s.processes, p.state ≠ ProcessState.NEW) :
    checkNewArrivals s = s := by
  have hf : s.processes.filter (arrives s.currentTime) = [] := by
    rw [List.filter_eq_nil_iff]
    intro p hp
    simp [arrives, h p hp]
  have hm : s.processes.map
      (fun p => if arrives s.currentTime p then { p with state := ProcessState.READY } else p)
      = s.processes := by
    conv_rhs => rw [← List.map_id s.processes]
    apply List.map_congr_left
    intro p hp
    simp [arrives, h p hp]
  unfold checkNewArrivals
  rw [hf, hm]
  cases s
  simp

theorem beforeAging_idle (s : Sim) (hn : ∀ p ∈ s.processes, p.state ≠ ProcessState.NEW)
    (hio : s.ioQueue = []) (hw : s.waitingQueue = []) : beforeAging s = s := by
  unfold beforeAging
  rw [checkNewArrivals_idle s hn, processIO_idle s hio, processWaiting_idle s hw,
    deadlockStage_idle s hw]

theorem starve_beforeAging (p q c r t ts : Int) :
    beforeAging (starveState p q c r t ts) = starveState p q c r t ts := by
  apply beforeAging_idle
  · intro x hx
    simp only [starveState, List.mem_cons, List.mem_singleton, List.not_mem_nil, or_false] at hx
    rcases hx with h | h | h | h | h | h | h | h | h | h | h <;> rw [h] <;> simp
  · rfl
  · rfl
theorem starve_aging_wait (p q c r t ts : Int) (hc : c + 1 < 10) :
    agingStage (starveState p q c r t ts) = starveState p q (c + 1) r t ts := by
  have hn : ¬ (c + 1 ≥ 10 ∧ q > 0) := fun h => absurd h.1 (by omega)
  simp [agingStage, applyAging, starveState, agingVisit, modifyAt, procAt, hn]

theorem starve_aging_boost (p q c r t ts : Int) (hc : c + 1 ≥ 10) (hq : q > 0) :
    agingStage (starveState p q c r t ts) = starveState p (q - 1) 0 r t ts := by
  have hy : c + 1 ≥ 10 ∧ q > 0 := ⟨hc, hq⟩
  simp [agingStage, applyAging, starveState, agingVisit, modifyAt, procAt, hy]

theorem loadProcess_eq (pid arrivalTime priority : Int) (bursts : List (List Operation))
    (isCPUBurst : List Bool) :
    loadProcess pid arrivalTime priority bursts isCPUBurst =
      { pid := pid, arrivalTime := arrivalTime, priority := priority,
        originalPriority := priority, state := ProcessState.NEW, bursts := bursts,
        isCPUBurst := isCPUBurst, currentBurstIndex := 0, currentOperationIndex := 0,
        remainingTime := 0, timeInReadyQueue := 0, startTime := -1, completionTime := 0,
        waitingTime := 0, turnaroundTime := 0, heldResources := fun _ => 0,
        waitingForResource := -1, waitingForAmount := 0 } := rfl

theorem starve_afterAging_tail (p q c r t ts : Int) (hr : r ≠ 0) (hr1 : r - 1 ≠ 0)
    (hts : ts + 1 < 10) (ht : t + 1 ≤ 10000) :
    finishTick (preemptStage (executeStage (ganttStage (selectStage
      (starveState p q c r t ts))))) = (starveState p q c (r - 1) (t + 1) (ts + 1), none) := by
  rw [selectStage_occupied _ (by simp [starveState])]
  have hg : ganttStage (starveState p q c r t ts) = starveState p q c r t ts := by
    simp [ganttStage, starveState]
  have he : executeStage (starveState p q c r t ts) =
      starveState p q c (r - 1) t (ts + 1) := by
    simp [executeStage, executeProcess, starveState, modifyAt, procAt, boss, rival,
      loadProcess_eq, Operation.mkExec, hr, hr1]
  have hp : preemptStage (starveState p q c (r - 1) t (ts + 1)) =
      starveState p q c (r - 1) t (ts + 1) := by
    have : ¬ (ts + 1 ≥ 10) := by omega
    simp [preemptStage, starveState, TIME_QUANTUM, this]
  have hf : finishTick (starveState p q c (r - 1) t (ts + 1)) =
      (starveState p q c (r - 1) (t + 1) (ts + 1), none) := by
    have : ¬ (t + 1 > 10000) := by omega
    simp [finishTick, allDone, noProgress, stuckStage, starveState, this]
  rw [hg, he, hp, hf]

theorem starve_tick_wait (p q c r t ts : Int) (hc : c + 1 < 10) (hr : r ≠ 0) (hr1 : r - 1 ≠ 0)
    (hts : ts + 1 < 10) (ht : t + 1 ≤ 10000) :
    tick (starveState p q c r t ts) =
      (starveState p q (c + 1) (r - 1) (t + 1) (ts + 1), none) := by
  have h := starve_afterAging_tail p q (c + 1) r t ts hr hr1 hts ht
  rw [← starve_aging_wait p q c r t ts hc] at h
  conv at h => lhs; rw [← starve_beforeAging p q c r t ts]
  exact h

theorem starve_first_tick (p : Int) (hp : 0 < p) :
    tick (starveSim p) = (starveState p p 1 49 1 1, none) := by
  have h1 : beforeAging (starveSim p) =
      { starveSim p with
        processes := (starveTable p).map (fun x => { x with state := ProcessState.READY })
        readyQueue := [0, 1, 2, 3, 4, 5, 6, 7, 8, 9, 10] } := by
    simp [beforeAging, checkNewArrivals, Sched.processIO, processWaiting, deadlockStage,
      deadlockCheck, starveSim, initialSim, starveTable, arrives, boss, rival, loadProcess_eq]
  have h2 : agingStage { starveSim p with
        processes := (starveTable p).map (fun x => { x with state := ProcessState.READY })
        readyQueue := [0, 1, 2, 3, 4, 5, 6, 7, 8, 9, 10] } =
      { starveSim p with
        processes := (starveTable p).map
          (fun x => { x with state := ProcessState.READY, timeInReadyQueue := 1 })
        readyQueue := [0, 1, 2, 3, 4, 5, 6, 7, 8, 9, 10] } := by
    simp [agingStage, applyAging, agingVisit, modifyAt, procAt, starveSim, initialSim,
      starveTable, boss, rival, loadProcess_eq]
  have h3 : selectStage { starveSim p with
        processes := (starveTable p).map
          (fun x => { x with state := ProcessState.READY, timeInReadyQueue := 1 })
        readyQueue := [0, 1, 2, 3, 4, 5, 6, 7, 8, 9, 10] } =
      { starveState p p 1 0 0 0 with lastProcess := -1 } := by
    have hlt : ¬ p < 0 := by omega
    simp [selectStage, selectNextProcess, selectVisit, modifyAt, procAt, starveSim, initialSim,
      starveTable, starveState, boss, rival, loadProcess_eq, hlt]
  have h4 : ganttStage { starveState p p 1 0 0 0 with lastProcess := -1 } =
      starveState p p 1 0 0 0 := by
    simp [ganttStage, starveState]
  have h5 : executeStage (starveState p p 1 0 0 0) = starveState p p 1 49 0 1 := by
    simp [executeStage, executeProcess, starveState, modifyAt, procAt, boss, rival,
      loadProcess_eq, Operation.mkExec]
  have h6 : preemptStage (starveState p p 1 49 0 1) = starveState p p 1 49 0 1 := by
    simp [preemptStage, starveState, TIME_QUANTUM]
  have h7 : finishTick (starveState p p 1 49 0 1) = (starveState p p 1 49 1 1, none) := by
    simp [finishTick, allDone, noProgress, stuckStage, starveState]
  have ht : tick (starveSim p) = finishTick (preemptStage (executeStage (ganttStage
      (selectStage (agingStage (beforeAging (starveSim p))))))) := rfl
  rw [ht, h1, h2, h3, h4, h5, h6, h7]

theorem starve_run_wait (p q : Int) (n : Nat) :
    ∀ c r t ts : Int, c + n < 10 → (n : Int) < r → ts + n < 10 → t + n ≤ 10000 →
      simulateLoop n (starveState p q c r t ts) =
        (starveState p q (c + n) (r - n) (t + n) (ts + n), none) := by
  induction n with
  | zero =>
    intro c r t ts _ _ _ _
    simp [simulateLoop]
  | succ n ih =>
    intro c r t ts hc hr hts ht
    push_cast at hc hr hts ht
    have hstep := starve_tick_wait p q c r t ts (by omega) (by omega) (by omega) (by omega)
      (by omega)
    rw [simulateLoop, hstep]
    simp only [Option.isSome_none, Bool.false_eq_true, if_false]
    rw [ih (c + 1) (r - 1) (t + 1) (ts + 1) (by omega) (by omega) (by omega) (by omega)]
    have e1 : c + 1 + (n : Int) = c + ((n + 1 : Nat) : Int) := by push_cast; omega
    have e2 : r - 1 - (n : Int) = r - ((n + 1 : Nat) : Int) := by push_cast; omega
    have e3 : t + 1 + (n : Int) = t + ((n + 1 : Nat) : Int) := by push_cast; omega
    have e4 : ts + 1 + (n : Int) = ts + ((n + 1 : Nat) : Int) := by push_cast; omega
    rw [e1, e2, e3, e4]

/-- The starvation run up to the head of pass `k`, `1 ≤ k ≤ 9`, in closed form. -/
theorem starve_run (p : Int) (hp : 0 < p) (k : Nat) (h1 : 1 ≤ k) (h9 : k ≤ 9) :
    simulateLoop k (starveSim p) = (starveState p p k (50 - k) k k, none) := by
  obtain ⟨n, rfl⟩ : ∃ n, k = n + 1 := ⟨k - 1, by omega⟩
  rw [simulateLoop, starve_first_tick p hp]
  simp only [Option.isSome_none, Bool.false_eq_true, if_false]
  rw [starve_run_wait p p n 1 49 1 1 (by omega) (by omega) (by omega) (by omega)]
  have e1 : (1 : Int) + (n : Int) = ((n + 1 : Nat) : Int) := by push_cast; omega
  have e2 : (49 : Int) - (n : Int) = 50 - ((n + 1 : Nat) : Int) := by push_cast; omega
  rw [e1, e2]

theorem starveState_rival (p q c r t ts : Int) (i : Int)
    (hi : i ∈ [1, 2, 3, 4, 5, 6, 7, 8, 9, 10]) :
    (procAt (starveState p q c r t ts).processes i).priority = q ∧
    (procAt (starveState p q c r t ts).processes i).timeInReadyQueue = c ∧
    (procAt (starveState p q c r t ts).processes i).originalPriority = p ∧
    (procAt (starveState p q c r t ts).processes i).state = ProcessState.READY ∧
    (procAt (starveState p q c r t ts).processes i).pid = i := by
  simp only [List.mem_cons, List.mem_singleton, List.not_mem_nil, or_false] at hi
  rcases hi with h | h | h | h | h | h | h | h | h | h <;> subst h <;>
    simp [starveState, procAt, rival, loadProcess_eq]

/-- Ten visits of the aging loop to a process with counter 0 and priority
`> 0`: the first nine only count, the tenth improves the priority by one and
resets the counter. -/
theorem ageOnce_ten (x : Process) (h0 : x.timeInReadyQueue = 0) (hp : x.priority > 0) :
    (∀ j : Nat, j < 10 → Nat.iterate ageOnce j x = { x with timeInReadyQueue := j }) ∧
    Nat.iterate ageOnce 10 x = { x with priority := x.priority - 1, timeInReadyQueue := 0 } := by
  have hj : ∀ j : Nat, j < 10 → Nat.iterate ageOnce j x = { x with timeInReadyQueue := j } := by
    intro j
    induction j with
    | zero =>
      intro _
      cases x
      simp_all
    | succ j ih =>
      intro hlt
      rw [Function.iterate_succ_apply', ih (by omega)]
      unfold ageOnce
      rw [if_neg (by simp only []; omega)]
      simp
  refine ⟨hj, ?_⟩
  rw [Function.iterate_succ_apply', hj 9 (by omega)]
  unfold ageOnce
  rw [if_pos ⟨by simp, hp⟩]

/-- One more pass after `n` passes that did not leave the loop. -/
theorem simulateLoop_snoc (n : Nat) :
    ∀ s : Sim, (simulateLoop n s).2 = none →
      simulateLoop (n + 1) s = tick (simulateLoop n s).1 := by
  induction n with
  | zero =>
    intro s _
    have e : simulateLoop (0 + 1) s =
        if (tick s).2.isSome then tick s else ((tick s).1, none) := rfl
    rw [e]
    show _ = tick s
    by_cases hx : (tick s).2.isSome = true
    · rw [if_pos hx]
    · rw [if_neg hx]
      have hn : (tick s).2 = none := by
        cases h : (tick s).2 with
        | none => rfl
        | some e => rw [h] at hx; exact absurd rfl hx
      rw [← hn]
  | succ n ih =>
    intro s h
    by_cases hx : (tick s).2.isSome = true
    · rw [simulateLoop, if_pos hx] at h
      rw [h] at hx
      exact absurd hx (by simp)
    · rw [simulateLoop, if_neg hx] at h
      rw [simulateLoop, if_neg hx, ih _ h]
      congr 2
      rw [simulateLoop, if_neg hx]

/-- After the aging step of a pass no stable field of any process changes
until the head of the next pass. -/
theorem tick_stable_after_aging (s : Sim) :
    (tick s).1.processes.map stableSig =
      (agingStage (beforeAging s)).processes.map stableSig := by
  have h1 := selectStage_stable (agingStage (beforeAging s))
  have h2 := ganttStage_kept (selectStage (agingStage (beforeAging s)))
  have h3 := executeStage_stable (ganttStage (selectStage (agingStage (beforeAging s))))
  have h4 := preemptStage_stable
    (executeStage (ganttStage (selectStage (agingStage (beforeAging s)))))
  have h5 := finishTick_stable (preemptStage
    (executeStage (ganttStage (selectStage (agingStage (beforeAging s))))))
  exact h5.trans (h4.1.trans (h3.1.trans (h2.1.trans h1.1)))

/-- C14. Starvation scenario: with `boss` (priority 0) running its `Exec 50`
and ten processes of priority `p > 0`, all arriving at tick 0, waiting in the
ready queue, each of the ten has priority `p` and counter `k` at the head of
pass `k` for `1 ≤ k ≤ 9`, and priority exactly `p - 1` and `timeInReadyQueue`
0 after the aging step of tick 9, that is after the aging steps of ticks
0..9, and still so at the head of pass 10.  In general ten consecutive
visits of the aging loop to a process with counter 0 and priority `> 0`
improve its priority by exactly 1 (the first nine leave it unchanged), where
one aging step over a ready queue without repeated entries is one such visit
to every queued process of the table. -/
theorem starvation_aging (p : Int) (hp : 0 < p) :
    (∀ k : Nat, 1 ≤ k → k ≤ 9 →
      (simulateLoop k (starveSim p)).1.currentProcess = 0 ∧
      (simulateLoop k (starveSim p)).1.readyQueue = [1, 2, 3, 4, 5, 6, 7, 8, 9, 10] ∧
      ∀ i ∈ [1, 2, 3, 4, 5, 6, 7, 8, 9, 10],
        (procAt (simulateLoop k (starveSim p)).1.processes i).priority = p ∧
        (procAt (simulateLoop k (starveSim p)).1.processes i).timeInReadyQueue = k) ∧
    (∀ i ∈ [1, 2, 3, 4, 5, 6, 7, 8, 9, 10],
      (procAt (agingStage (beforeAging (simulateLoop 9 (starveSim p)).1)).processes i).priority
        = p - 1 ∧
      (procAt (agingStage (beforeAging
        (simulateLoop 9 (starveSim p)).1)).processes i).timeInReadyQueue = 0) ∧
    (∀ i ∈ [1, 2, 3, 4, 5, 6, 7, 8, 9, 10],
      (procAt (simulateLoop 10 (starveSim p)).1.processes i).priority = p - 1 ∧
      (procAt (simulateLoop 10 (starveSim p)).1.processes i).timeInReadyQueue = 0) ∧
    (∀ x : Process, x.timeInReadyQueue = 0 → x.priority > 0 →
      (∀ j : Nat, j < 10 → (Nat.iterate ageOnce j x).priority = x.priority) ∧
      (Nat.iterate ageOnce 10 x).priority = x.priority - 1 ∧
      (Nat.iterate ageOnce 10 x).timeInReadyQueue = 0) ∧
    (∀ (s : Sim) (i : Int), s.readyQueue.Nodup → i ∈ s.readyQueue → ValidPid s.processes i →
      procAt (applyAging s).processes i = ageOnce (procAt s.processes i)) := by
  have h9 := starve_run p hp 9 (by omega) (by omega)
  have hage : agingStage (beforeAging (simulateLoop 9 (starveSim p)).1) =
      starveState p (p - 1) 0 (50 - (9 : Nat)) (9 : Nat) (9 : Nat) := by
    rw [h9]
    simp only []
    rw [starve_beforeAging, starve_aging_boost _ _ _ _ _ _ (by norm_num) hp]
  refine ⟨?_, ?_, ?_, ?_, ?_⟩
  · intro k h1 hk
    rw [starve_run p hp k h1 hk]
    refine ⟨rfl, rfl, ?_⟩
    intro i hi
    have := starveState_rival p p k (50 - k) k k i hi
    exact ⟨this.1, this.2.1⟩
  · intro i hi
    rw [hage]
    have := starveState_rival p (p - 1) 0 (50 - (9 : Nat)) (9 : Nat) (9 : Nat) i hi
    exact ⟨this.1, this.2.1⟩
  · intro i hi
    have hs : simulateLoop 10 (starveSim p) = tick (simulateLoop 9 (starveSim p)).1 :=
      simulateLoop_snoc 9 _ (by rw [h9])
    have hst := stableSig_procAt _ _
      (tick_stable_after_aging (simulateLoop 9 (starveSim p)).1) i
    rw [← hs, hage] at hst
    unfold stableSig at hst
    simp only [Prod.mk.injEq] at hst
    obtain ⟨_, _, hpr, _, _, _, hc, _⟩ := hst
    have := starveState_rival p (p - 1) 0 (50 - (9 : Nat)) (9 : Nat) (9 : Nat) i hi
    exact ⟨hpr.trans this.1, hc.trans this.2.1⟩
  · intro x h0 hx
    have h := ageOnce_ten x h0 hx
    refine ⟨fun j hj => by rw [h.1 j hj], by rw [h.2], by rw [h.2]⟩
  · intro s i hnd hi hv
    unfold applyAging
    simp only []
    rw [foldl_agingVisit_nodup _ _ hnd i, if_pos ⟨hi, hv⟩]

theorem starvation_aging_witness :
    (procAt (simulateLoop 9 (starveSim 3)).1.processes 1).priority = 3 ∧
    (procAt (simulateLoop 9 (starveSim 3)).1.processes 1).timeInReadyQueue = 9 ∧
    (procAt (simulateLoop 10 (starveSim 3)).1.processes 1).priority = 3 - 1 ∧
    (procAt (simulateLoop 10 (starveSim 3)).1.processes 1).timeInReadyQueue = 0 :=
  ⟨(((starvation_aging 3 (by decide)).1 9 (by decide) (by decide)).2.2 1 (by decide)).1,
   (((starvation_aging 3 (by decide)).1 9 (by decide) (by decide)).2.2 1 (by decide)).2,
   ((starvation_aging 3 (by decide)).2.2.1 1 (by decide)).1,
   ((starvation_aging 3 (by decide)).2.2.1 1 (by decide)).2⟩

/-! ## Leaving the loop (C27, C28) -/

theorem tickBody_currentTime (s : Sim) : (tickBody s).currentTime = s.currentTime := by
  have h1 := beforeAging_kept s
  have h2 := agingStage_slot (beforeAging s)
  have h3 := selectStage_stable (agingStage (beforeAging s))
  have h4 := ganttStage_kept (selectStage (agingStage (beforeAging s)))
  have h5 := executeStage_stable (ganttStage (selectStage (agingStage (beforeAging s))))
  have h6 := preemptStage_stable
    (executeStage (ganttStage (selectStage (agingStage (beforeAging s)))))
  exact h6.2.trans (h5.2.trans (h4.2.2.2.trans (h3.2.trans (h2.2.2.1.trans h1.2.2.2))))

/-- The three ways `finishTick` leaves the loop, and the way it stays in it. -/
theorem finishTick_cases (s : Sim) :
    (allDone s = true ∧ (finishTick s).2 = some LoopExit.allDone ∧
      (finishTick s).1.currentTime = s.currentTime ∧
      (finishTick s).1.processes = s.processes) ∨
    (allDone s = false ∧ noProgress s = true ∧ (detectDeadlock s []).1 = false ∧
      finishTick s = (s, some LoopExit.stuck)) ∨
    (allDone s = false ∧ (noProgress s = false ∨ (detectDeadlock s []).1 = true) ∧
      (finishTick s).1 = { stuckStage s with currentTime := s.currentTime + 1 } ∧
      ((s.currentTime + 1 > 10000 ∧ (finishTick s).2 = some LoopExit.timeout) ∨
       (s.currentTime + 1 ≤ 10000 ∧ (finishTick s).2 = none))) := by
  have hst : (stuckStage s).currentTime = s.currentTime := (stuckStage_kept s).2.2.2
  unfold finishTick
  by_cases h1 : allDone s = true
  · left
    rw [if_pos h1]
    exact ⟨h1, rfl, rfl, rfl⟩
  · right
    have h1f : allDone s = false := by simpa using h1
    rw [if_neg h1]
    by_cases h2 : (noProgress s && !(detectDeadlock s []).1) = true
    · left
      rw [if_pos h2]
      simp only [Bool.and_eq_true, Bool.not_eq_true', ] at h2
      exact ⟨h1f, h2.1, h2.2, rfl⟩
    · right
      rw [if_neg h2]
      have h2' : noProgress s = false ∨ (detectDeadlock s []).1 = true := by
        cases hn : noProgress s <;> cases hd : (detectDeadlock s []).1 <;> simp_all
      simp only []
      by_cases h3 : (stuckStage s).currentTime + 1 > 10000
      · rw [if_pos h3]
        refine ⟨h1f, h2', by simp only []; rw [hst], Or.inl ⟨by omega, rfl⟩⟩
      · rw [if_neg h3]
        refine ⟨h1f, h2', by simp only []; rw [hst], Or.inr ⟨by omega, rfl⟩⟩
theorem allDone_false_iff (s : Sim) :
    allDone s = false ↔ ∃ p ∈ s.processes, p.state ≠ ProcessState.TERMINATED := by
  unfold allDone
  constructor
  · intro h
    by_contra hc
    push_neg at hc
    have : s.processes.all (fun p => decide (p.state = ProcessState.TERMINATED)) = true := by
      rw [List.all_eq_true]
      intro p hp
      simpa using hc p hp
    rw [this] at h
    exact absurd h (by simp)
  · rintro ⟨p, hp, hne⟩
    by_contra hc
    have ht : s.processes.all (fun p => decide (p.state = ProcessState.TERMINATED)) = true := by
      simpa using hc
    rw [List.all_eq_true] at ht
    have := ht p hp
    simp at this
    exact hne this

theorem noProgress_iff (s : Sim) :
    noProgress s = true ↔
      s.currentProcess = -1 ∧ s.readyQueue = [] ∧ s.ioQueue = [] ∧ s.waitingQueue ≠ [] := by
  unfold noProgress
  simp [and_assoc]

theorem stuckStage_of_progress (s : Sim) (h : noProgress s = false) : stuckStage s = s := by
  unfold stuckStage
  rw [h]
  simp

/-- An idle gap before an arrival does not halt the run: at the end of pass 0
of the run of `lateArrivalSim` no process is running, the ready, I/O and
waiting queues are all empty and process 0 is not TERMINATED (it has not
arrived yet); the pass ends without leaving the loop and with the clock
advanced to 1. -/
theorem empty_queues_do_not_halt :
    (tickBody lateArrivalSim).currentProcess = -1 ∧
    (tickBody lateArrivalSim).readyQueue = [] ∧
    (tickBody lateArrivalSim).ioQueue = [] ∧
    (tickBody lateArrivalSim).waitingQueue = [] ∧
    (procAt (tickBody lateArrivalSim).processes 0).state = ProcessState.NEW ∧
    allDone (tickBody lateArrivalSim) = false ∧
    (tick lateArrivalSim).2 = none ∧
    (tick lateArrivalSim).1.currentTime = 1 ∧
    (simulateLoop 3 lateArrivalSim).2 = none := by
  decide

/-- The rule of the stuck exit as the code has it: at the end of a pass the
loop is left with the stuck exit, the state and the clock left as they are, if
and only if not all processes are TERMINATED, no process is running, the ready
and I/O queues are empty, the waiting queue is not empty and the analyzer finds
no deadlock.  When some process is not TERMINATED and the waiting queue is
empty, whatever the other queues and the running slot hold, the pass does not
take the stuck exit: it advances the clock by one and changes nothing else. -/
theorem finishTick_stuck_rule (s : Sim) :
    ((finishTick s).2 = some LoopExit.stuck ↔
      ((∃ p ∈ s.processes, p.state ≠ ProcessState.TERMINATED) ∧
        s.currentProcess = -1 ∧ s.readyQueue = [] ∧ s.ioQueue = [] ∧ s.waitingQueue ≠ [] ∧
        (detectDeadlock s []).1 = false)) ∧
    ((finishTick s).2 = some LoopExit.stuck → (finishTick s).1 = s) ∧
    ((∃ p ∈ s.processes, p.state ≠ ProcessState.TERMINATED) → s.waitingQueue = [] →
      (finishTick s).2 ≠ some LoopExit.stuck ∧
      (finishTick s).2 ≠ some LoopExit.allDone ∧
      (finishTick s).1 = { s with currentTime := s.currentTime + 1 }) := by
  have hc := finishTick_cases s
  refine ⟨⟨?_, ?_⟩, ?_, ?_⟩
  · intro h
    rcases hc with ⟨_, h2, _⟩ | ⟨h1, h2, h3, _⟩ | ⟨_, _, _, h4⟩
    · rw [h2] at h; exact absurd h (by decide)
    · exact ⟨(allDone_false_iff s).mp h1, ((noProgress_iff s).mp h2).1,
        ((noProgress_iff s).mp h2).2.1, ((noProgress_iff s).mp h2).2.2.1,
        ((noProgress_iff s).mp h2).2.2.2, h3⟩
    · rcases h4 with ⟨_, h5⟩ | ⟨_, h5⟩ <;> rw [h5] at h <;> exact absurd h (by decide)
  · rintro ⟨h1, h2, h3, h4, h5, h6⟩
    have ha := (allDone_false_iff s).mpr h1
    have hn := (noProgress_iff s).mpr ⟨h2, h3, h4, h5⟩
    rcases hc with ⟨h7, _⟩ | ⟨_, _, _, h7⟩ | ⟨_, h7, _⟩
    · rw [ha] at h7; exact absurd h7 (by decide)
    · rw [h7]
    · rcases h7 with h7 | h7
      · rw [hn] at h7; exact absurd h7 (by decide)
      · rw [h6] at h7; exact absurd h7 (by decide)
  · intro h
    rcases hc with ⟨_, h2, _⟩ | ⟨_, _, _, h7⟩ | ⟨_, _, _, h4⟩
    · rw [h2] at h; exact absurd h (by decide)
    · rw [h7]
    · rcases h4 with ⟨_, h5⟩ | ⟨_, h5⟩ <;> rw [h5] at h <;> exact absurd h (by decide)
  · intro h1 hw
    have ha := (allDone_false_iff s).mpr h1
    have hn : noProgress s = false := by
      cases hnp : noProgress s
      · rfl
      · exact absurd hw ((noProgress_iff s).mp hnp).2.2.2
    rcases hc with ⟨h7, _⟩ | ⟨_, h7, _⟩ | ⟨_, _, h8, h9⟩
    · rw [ha] at h7; exact absurd h7 (by decide)
    · rw [hn] at h7; exact absurd h7 (by decide)
    · rw [stuckStage_of_progress s hn] at h8
      refine ⟨?_, ?_, h8⟩
      · rcases h9 with ⟨_, h5⟩ | ⟨_, h5⟩ <;> rw [h5] <;> decide
      · rcases h9 with ⟨_, h5⟩ | ⟨_, h5⟩ <;> rw [h5] <;> decide
/-- What a pass that leaves the loop leaves behind, by kind of exit, and what
a pass that stays in the loop does to the clock. -/
theorem tick_clock (s : Sim) :
    ((tick s).2 = none →
      (tick s).1.currentTime = s.currentTime + 1 ∧ (tick s).1.currentTime ≤ 10000) ∧
    ((tick s).2 = some LoopExit.allDone →
      (tick s).1.currentTime = s.currentTime ∧ allDone (tick s).1 = true) ∧
    ((tick s).2 = some LoopExit.stuck →
      (tick s).1.currentTime = s.currentTime ∧ allDone (tick s).1 = false ∧
      noProgress (tick s).1 = true ∧ (detectDeadlock (tick s).1 []).1 = false) ∧
    ((tick s).2 = some LoopExit.timeout →
      (tick s).1.currentTime = s.currentTime + 1 ∧ (tick s).1.currentTime > 10000) := by
  have hb := tickBody_currentTime s
  have hc := finishTick_cases (tickBody s)
  unfold tick
  rcases hc with ⟨h1, h2, h3, h4⟩ | ⟨h1, h2, h3, h4⟩ | ⟨h1, h2, h3, h4⟩
  · refine ⟨?_, ?_, ?_, ?_⟩
    · intro h; rw [h2] at h; exact absurd h (by decide)
    · intro _
      refine ⟨h3.trans hb, ?_⟩
      unfold allDone at h1 ⊢
      rw [h4]; exact h1
    · intro h; rw [h2] at h; exact absurd h (by decide)
    · intro h; rw [h2] at h; exact absurd h (by decide)
  · rw [h4]
    refine ⟨?_, ?_, ?_, ?_⟩
    · intro h; exact absurd h (by simp)
    · intro h; exact absurd h (by simp)
    · intro _; exact ⟨hb, h1, h2, h3⟩
    · intro h; exact absurd h (by simp)
  · have ht : (finishTick (tickBody s)).1.currentTime = s.currentTime + 1 := by
      rw [h3]
      simp only []
      rw [hb]
    rcases h4 with ⟨h5, h6⟩ | ⟨h5, h6⟩
    · refine ⟨?_, ?_, ?_, ?_⟩
      · intro h; rw [h6] at h; exact absurd h (by decide)
      · intro h; rw [h6] at h; exact absurd h (by decide)
      · intro h; rw [h6] at h; exact absurd h (by decide)
      · intro _; exact ⟨ht, by rw [ht, ← hb]; exact h5⟩
    · refine ⟨?_, ?_, ?_, ?_⟩
      · intro _; exact ⟨ht, by rw [ht, ← hb]; exact h5⟩
      · intro h; rw [h6] at h; exact absurd h (by decide)
      · intro h; rw [h6] at h; exact absurd h (by decide)
      · intro h; rw [h6] at h; exact absurd h (by decide)

/-- The loop started at a time `≤ 10000` with enough passes to reach the
ceiling leaves through one of its three exits, at a time `≤ 10001`. -/
theorem simulateLoop_leaves (n : Nat) :
    ∀ s : Sim, s.currentTime ≤ 10000 → s.currentTime + n ≥ 10001 →
      (simulateLoop n s).2.isSome = true ∧
      s.currentTime ≤ (simulateLoop n s).1.currentTime ∧
      (simulateLoop n s).1.currentTime ≤ 10001 ∧
      ((simulateLoop n s).2 = some LoopExit.allDone →
        allDone (simulateLoop n s).1 = true ∧ (simulateLoop n s).1.currentTime ≤ 10000) ∧
      ((simulateLoop n s).2 = some LoopExit.stuck →
        allDone (simulateLoop n s).1 = false ∧ noProgress (simulateLoop n s).1 = true ∧
        (detectDeadlock (simulateLoop n s).1 []).1 = false ∧
        (simulateLoop n s).1.currentTime ≤ 10000) ∧
      ((simulateLoop n s).2 = some LoopExit.timeout →
        (simulateLoop n s).1.currentTime = 10001) := by
  induction n with
  | zero =>
    intro s h1 h2
    simp only [Nat.cast_zero, add_zero] at h2
    omega
  | succ n ih =>
    intro s h1 h2
    push_cast at h2
    obtain ⟨c1, c2, c3, c4⟩ := tick_clock s
    by_cases hx : (tick s).2.isSome = true
    · rw [simulateLoop, if_pos hx]
      refine ⟨hx, ?_, ?_, ?_, ?_, ?_⟩
      · cases he : (tick s).2 with
        | none => rw [he] at hx; exact absurd hx (by simp)
        | some e =>
          cases e
          · rw [(c2 he).1]
          · rw [(c3 he).1]
          · rw [(c4 he).1]; omega
      · cases he : (tick s).2 with
        | none => rw [he] at hx; exact absurd hx (by simp)
        | some e =>
          cases e
          · rw [(c2 he).1]; omega
          · rw [(c3 he).1]; omega
          · rw [(c4 he).1]; omega
      · intro he
        exact ⟨(c2 he).2, by rw [(c2 he).1]; exact h1⟩
      · intro he
        exact ⟨(c3 he).2.1, (c3 he).2.2.1, (c3 he).2.2.2, by rw [(c3 he).1]; exact h1⟩
      · intro he
        have := c4 he
        omega
    · rw [simulateLoop, if_neg hx]
      have hn : (tick s).2 = none := by
        cases he : (tick s).2 with
        | none => rfl
        | some e => rw [he] at hx; exact absurd rfl hx
      obtain ⟨hn1, hn2⟩ := c1 hn
      obtain ⟨i1, i2, i3, i4⟩ := ih (tick s).1 hn2 (by omega)
      exact ⟨i1, by omega, i3, i4⟩

/-- The loop of the embedding is left within 10001 passes from every initial
state, at a time `≤ 10001`, through one of the three exits: all processes
TERMINATED, or the stuck warning (nothing running, ready and I/O queues empty,
waiting queue not empty, no deadlock found), both at a time `≤ 10000`, or the
clock exceeding 10000, at time 10001.  More passes than 10001 change nothing.
This speaks of the program only as far as no stage indexes the table outside
its bounds. -/
theorem simulate_leaves (total : Int → Int) (ps : List Process) :
    (simulate (initialSim total ps)).2.isSome = true ∧
    0 ≤ (simulate (initialSim total ps)).1.currentTime ∧
    (simulate (initialSim total ps)).1.currentTime ≤ 10001 ∧
    ((simulate (initialSim total ps)).2 = some LoopExit.allDone ∨
      (simulate (initialSim total ps)).2 = some LoopExit.stuck ∨
      (simulate (initialSim total ps)).2 = some LoopExit.timeout) ∧
    ((simulate (initialSim total ps)).2 = some LoopExit.allDone →
      (∀ p ∈ (simulate (initialSim total ps)).1.processes, p.state = ProcessState.TERMINATED) ∧
      (simulate (initialSim total ps)).1.currentTime ≤ 10000) ∧
    ((simulate (initialSim total ps)).2 = some LoopExit.stuck →
      (∃ p ∈ (simulate (initialSim total ps)).1.processes, p.state ≠ ProcessState.TERMINATED) ∧
      (simulate (initialSim total ps)).1.currentProcess = -1 ∧
      (simulate (initialSim total ps)).1.readyQueue = [] ∧
      (simulate (initialSim total ps)).1.ioQueue = [] ∧
      (simulate (initialSim total ps)).1.waitingQueue ≠ [] ∧
      (detectDeadlock (simulate (initialSim total ps)).1 []).1 = false ∧
      (simulate (initialSim total ps)).1.currentTime ≤ 10000) ∧
    ((simulate (initialSim total ps)).2 = some LoopExit.timeout →
      (simulate (initialSim total ps)).1.currentTime = 10001) ∧
    (∀ m : Nat, 10001 ≤ m →
      simulateLoop m (initialSim total ps) = simulate (initialSim total ps)) := by
  have h := simulateLoop_leaves 10001 (initialSim total ps) (by simp [initialSim])
    (by simp [initialSim])
  obtain ⟨h1, h2, h3, h4, h5, h6⟩ := h
  refine ⟨h1, h2, h3, ?_, ?_, ?_, h6, ?_⟩
  · cases he : (simulate (initialSim total ps)).2 with
    | none =>
      unfold simulate at he
      rw [he] at h1
      exact absurd h1 (by simp)
    | some e => cases e <;> simp
  · intro he
    obtain ⟨h7, h8⟩ := h4 he
    refine ⟨?_, h8⟩
    unfold allDone at h7
    rw [List.all_eq_true] at h7
    intro p hp
    simpa using h7 p hp
  · intro he
    obtain ⟨h7, h8, h9, h10⟩ := h5 he
    have hn := (noProgress_iff _).mp h8
    exact ⟨(allDone_false_iff _).mp h7, hn.1, hn.2.1, hn.2.2.1, hn.2.2.2, h9, h10⟩
  · intro m hm
    exact simulateLoop_exit 10001 _ m h1 hm

/-! ## Statistics (C29) -/

theorem procAt_map (ps : List Process) (f : Process → Process) (i : Int) :
    procAt (ps.map f) i = if ValidPid ps i then f (procAt ps i) else default := by
  by_cases hv : ValidPid ps i
  · rw [if_pos hv]
    have hlt : i.toNat < ps.length := by
      have := hv.1; have := hv.2; omega
    have hv' : ValidPid (ps.map f) i := by
      unfold ValidPid at hv ⊢
      rw [List.length_map]; exact hv
    rw [procAt_eq_getElem _ _ hv' (by rw [List.length_map]; exact hlt),
      procAt_eq_getElem _ _ hv hlt, List.getElem_map]
  · rw [if_neg hv]
    apply procAt_of_not_valid
    unfold ValidPid at hv ⊢
    rw [List.length_map]; exact hv

/-- The report on `statsExample`: turnaround 19, `Exec` time 5 + 3 + 2 = 10 (the
I/O burst of 4 and the Request and Release are not counted), waiting 9. -/
theorem statsExample_report :
    execSum (procAt statsExample.processes 0) = 10 ∧
    (printStatistics statsExample).2.1 =
      [{ pid := 0, arrival := 1, completion := 20, turnaround := 19, waiting := 9 }] ∧
    (printStatistics statsExample).2.2 = (9, 19, 1) := by
  decide

/-! ## The Gantt bookkeeping (C26) -/

theorem ganttKept_refl (s : Sim) : GanttKept s s := ⟨rfl, rfl, rfl⟩

theorem ganttKept_trans {a b c : Sim} (h1 : GanttKept a b) (h2 : GanttKept b c) :
    GanttKept a c :=
  ⟨h2.1.trans h1.1, h2.2.1.trans h1.2.1, h2.2.2.trans h1.2.2⟩

theorem ioVisit_gantt (a : Sim) (acc : Sim × List Int) (pid : Int) (h : GanttKept a acc.1) :
    GanttKept a (ioVisit acc pid).1 := by
  unfold ioVisit
  simp only []
  split
  · split
    · exact h
    · exact h
  · exact h

theorem processIO_gantt (s : Sim) : GanttKept s (Sched.processIO s) :=
  foldl_preserves (fun acc : Sim × List Int => GanttKept s acc.1) ioVisit
    (fun acc pid hK => ioVisit_gantt s acc pid hK)
    s.ioQueue ({ s with ioQueue := [] }, []) ⟨rfl, rfl, rfl⟩

theorem waitingVisit_gantt (a : Sim) (acc : Sim × List Int) (pid : Int)
    (h : GanttKept a acc.1) : GanttKept a (waitingVisit acc pid).1 := by
  unfold waitingVisit
  simp only []
  split
  · split
    · exact h
    · exact h
  · exact h

theorem processWaiting_gantt (s : Sim) : GanttKept s (processWaiting s) :=
  foldl_preserves (fun acc : Sim × List Int => GanttKept s acc.1) waitingVisit
    (fun acc pid hK => waitingVisit_gantt s acc pid hK)
    s.waitingQueue ({ s with waitingQueue := [] }, []) ⟨rfl, rfl, rfl⟩

theorem recoverFromDeadlock_gantt (s : Sim) (dl : List Int) :
    GanttKept s (recoverFromDeadlock s dl) := ⟨rfl, rfl, rfl⟩

theorem deadlockStage_gantt (s : Sim) : GanttKept s (deadlockStage s) := by
  unfold deadlockStage
  split
  · exact ganttKept_trans (recoverFromDeadlock_gantt _ _) (processWaiting_gantt _)
  · exact ganttKept_refl s

theorem agingStage_gantt (s : Sim) : GanttKept s (agingStage s) := by
  unfold agingStage
  split
  · exact ⟨rfl, rfl, rfl⟩
  · exact ganttKept_refl s

theorem selectStage_gantt (s : Sim) : GanttKept s (selectStage s) := by
  unfold selectStage selectNextProcess
  split
  · split
    · simp only []
      split <;> exact ⟨rfl, rfl, rfl⟩
    · simp only []
      split <;> exact ⟨rfl, rfl, rfl⟩
  · exact ganttKept_refl s

theorem atGantt_kept (s : Sim) :
    GanttKept s (atGantt s) ∧ (atGantt s).currentTime = s.currentTime := by
  have h0 : GanttKept s (checkNewArrivals s) := ⟨rfl, rfl, rfl⟩
  have h1 := processIO_gantt (checkNewArrivals s)
  have h2 := processWaiting_gantt (Sched.processIO (checkNewArrivals s))
  have h3 := deadlockStage_gantt (processWaiting (Sched.processIO (checkNewArrivals s)))
  have h4 := agingStage_gantt (beforeAging s)
  have h5 := selectStage_gantt (agingStage (beforeAging s))
  refine ⟨ganttKept_trans (ganttKept_trans (ganttKept_trans (ganttKept_trans
    (ganttKept_trans h0 h1) h2) h3) h4) h5, ?_⟩
  unfold atGantt
  rw [(selectStage_stable _).2, (agingStage_slot _).2.2.1, (beforeAging_kept s).2.2.2]

theorem requestResource_gantt (s : Sim) (pid r a : Int) :
    GanttKept s (requestResource s pid r a).2 := by
  unfold requestResource
  split <;> exact ⟨rfl, rfl, rfl⟩

theorem releaseResource_gantt (s : Sim) (pid r a : Int) :
    GanttKept s (releaseResource s pid r a) := by
  unfold releaseResource
  split <;> exact ⟨rfl, rfl, rfl⟩

theorem executeProcess_gantt (s : Sim) : GanttKept s (executeProcess s) := by
  unfold executeProcess
  split
  · exact ganttKept_refl s
  · simp only []
    split
    · exact ⟨rfl, rfl, rfl⟩
    · split
      · exact ganttKept_refl s
      · split
        · split
          · exact ⟨rfl, rfl, rfl⟩
          · split
            · exact ⟨rfl, rfl, rfl⟩
            · exact ⟨rfl, rfl, rfl⟩
        · split
          · split
            · exact requestResource_gantt _ _ _ _
            · exact requestResource_gantt _ _ _ _
          · exact releaseResource_gantt _ _ _ _
          · exact ⟨rfl, rfl, rfl⟩

theorem executeStage_gantt (s : Sim) : GanttKept s (executeStage s) := by
  unfold executeStage
  split
  · exact executeProcess_gantt s
  · exact ganttKept_refl s

theorem preemptStage_gantt (s : Sim) : GanttKept s (preemptStage s) := by
  unfold preemptStage
  split
  · split
    · exact ⟨rfl, rfl, rfl⟩
    · exact ganttKept_refl s
  · exact ganttKept_refl s

theorem stuckStage_gantt (s : Sim) : GanttKept s (stuckStage s) := by
  unfold stuckStage
  split
  · exact recoverFromDeadlock_gantt _ _
  · exact ganttKept_refl s
/-- What one pass up to the preemption check does to the Gantt bookkeeping. -/
theorem tickBody_gantt (s : Sim) :
    (tickBody s).ganttChart =
      (if (atGantt s).currentProcess ≠ -1 ∧ s.lastProcess ≠ (atGantt s).currentProcess ∧
          s.lastProcess ≠ -1 then
        s.ganttChart ++ [{ pid := s.lastProcess, startTime := s.ganttStartTime,
                           endTime := s.currentTime }]
      else s.ganttChart) ∧
    (tickBody s).ganttStartTime =
      (if (atGantt s).currentProcess ≠ -1 ∧ s.lastProcess ≠ (atGantt s).currentProcess then
        s.currentTime
      else s.ganttStartTime) ∧
    (tickBody s).lastProcess =
      (if (atGantt s).currentProcess ≠ -1 then (atGantt s).currentProcess
      else s.lastProcess) := by
  obtain ⟨⟨g1, g2, g3⟩, gt⟩ := atGantt_kept s
  have hk : GanttKept (ganttStage (atGantt s)) (tickBody s) :=
    ganttKept_trans (executeStage_gantt _) (preemptStage_gantt _)
  obtain ⟨k1, k2, k3⟩ := hk
  rw [k1, k2, k3]
  unfold ganttStage
  by_cases hcp : (atGantt s).currentProcess ≠ -1
  · rw [if_pos hcp]
    by_cases hl : (atGantt s).lastProcess ≠ (atGantt s).currentProcess
    · rw [if_pos hl]
      simp only []
      rw [g1, g2, g3, gt] at *
      refine ⟨?_, ?_, ?_⟩
      · by_cases hn : s.lastProcess ≠ -1
        · rw [if_pos hn, if_pos ⟨hcp, hl, hn⟩]
        · rw [if_neg hn, if_neg (fun h => hn h.2.2)]
      · rw [if_pos ⟨hcp, hl⟩]
      · rw [if_pos hcp]
    · rw [if_neg hl]
      rw [g1, g2, g3]
      rw [g3] at hl
      refine ⟨?_, ?_, ?_⟩
      · rw [if_neg (fun h => hl h.2.1)]
      · rw [if_neg (fun h => hl h.2)]
      · rw [if_pos hcp]
        exact not_not.mp hl
  · rw [if_neg hcp, g1, g2, g3]
    refine ⟨?_, ?_, ?_⟩
    · rw [if_neg (fun h => hcp h.1)]
    · rw [if_neg (fun h => hcp h.1)]
    · rw [if_neg hcp]

/-- What the tail of a pass does to the Gantt bookkeeping. -/
theorem finishTick_gantt (s : Sim) :
    (finishTick s).1.ganttChart =
      (if allDone s = true ∧ s.lastProcess ≠ -1 then
        s.ganttChart ++ [{ pid := s.lastProcess, startTime := s.ganttStartTime,
                           endTime := s.currentTime }]
      else s.ganttChart) ∧
    (finishTick s).1.ganttStartTime = s.ganttStartTime ∧
    (finishTick s).1.lastProcess = s.lastProcess := by
  obtain ⟨k1, k2, k3⟩ := stuckStage_gantt s
  unfold finishTick
  by_cases h1 : allDone s = true
  · rw [if_pos h1]
    refine ⟨?_, rfl, rfl⟩
    simp only []
    by_cases hn : s.lastProcess ≠ -1
    · rw [if_pos hn, if_pos ⟨h1, hn⟩]
    · rw [if_neg hn, if_neg (fun h => hn h.2)]
  · have hr : ¬ (allDone s = true ∧ s.lastProcess ≠ -1) := fun h => h1 h.1
    rw [if_neg h1, if_neg hr]
    split
    · exact ⟨rfl, rfl, rfl⟩
    · simp only []
      split
      · exact ⟨k1, k2, k3⟩
      · exact ⟨k1, k2, k3⟩

/-- A pass in which no other process than the last recorded one is in the
running slot at the bookkeeping, and which does not end the run, leaves the
open entry as it is. -/
theorem tick_gantt_open (s : Sim)
    (hslot : (atGantt s).currentProcess = -1 ∨ (atGantt s).currentProcess = s.lastProcess)
    (hgo : (tick s).2 = none) : GanttKept s (tick s).1 := by
  obtain ⟨b1, b2, b3⟩ := tickBody_gantt s
  obtain ⟨f1, f2, f3⟩ := finishTick_gantt (tickBody s)
  have hnd : ¬ (allDone (tickBody s) = true) := by
    intro hd
    rcases finishTick_cases (tickBody s) with ⟨_, h2, _⟩ | ⟨h1, _⟩ | ⟨h1, _⟩
    · unfold tick at hgo
      rw [h2] at hgo
      exact absurd hgo (by simp)
    · rw [hd] at h1; exact absurd h1 (by simp)
    · rw [hd] at h1; exact absurd h1 (by simp)
  unfold tick
  refine ⟨?_, ?_, ?_⟩
  · rw [f1, if_neg (fun h => hnd h.1), b1]
    rcases hslot with h | h
    · rw [if_neg (fun hc => hc.1 h)]
    · rw [if_neg (fun hc => hc.2.1 h.symm)]
  · rw [f2, b2]
    rcases hslot with h | h
    · rw [if_neg (fun hc => hc.1 h)]
    · rw [if_neg (fun hc => hc.2 h.symm)]
  · rw [f3, b3]
    rcases hslot with h | h
    · rw [if_neg (fun hc => hc h)]
    · by_cases hc : (atGantt s).currentProcess ≠ -1
      · rw [if_pos hc, h]
      · rw [if_neg hc]

/-- Any number of such passes leaves the open entry as it is. -/
theorem simulateLoop_gantt_open (n : Nat) (s : Sim)
    (h : ∀ k : Nat, k < n →
      ((atGantt (simulateLoop k s).1).currentProcess = -1 ∨
        (atGantt (simulateLoop k s).1).currentProcess = s.lastProcess) ∧
      (tick (simulateLoop k s).1).2 = none) :
    (simulateLoop n s).2 = none ∧ GanttKept s (simulateLoop n s).1 := by
  induction n with
  | zero => exact ⟨rfl, ganttKept_refl s⟩
  | succ n ih =>
    obtain ⟨i1, i2⟩ := ih (fun k hk => h k (by omega))
    obtain ⟨h1, h2⟩ := h n (by omega)
    rw [simulateLoop_snoc n s i1]
    refine ⟨h2, ganttKept_trans i2 (tick_gantt_open _ ?_ h2)⟩
    rw [i2.2.2]
    exact h1
/-- C26. Timeline merging: in a pass a Gantt entry is appended only when the
pid in the running slot at the bookkeeping differs from the last recorded pid
(the entry of that last pid is then closed with end = the current tick, and a
new one is opened at this tick) and at overall completion (the open entry is
closed at the tick of the all-done exit); no other stage touches the chart,
the open entry's start or the last recorded pid.  Therefore passes in which
the slot is empty or holds the last recorded pid again leave the open entry
as it is, however many they are: when a process is preempted or blocked and
later resumes with no other process having run in between, its spans form
one entry covering the gap.  So it is in the run of `gapSim`, where process 0
is away for its I/O burst in passes 3 and 4 and the chart is the single entry
from 0 to 6. -/
theorem gantt_merging (s : Sim) (n : Nat) :
    ((tick s).1.ganttChart =
      s.ganttChart ++
        (if (atGantt s).currentProcess ≠ -1 ∧ s.lastProcess ≠ (atGantt s).currentProcess ∧
            s.lastProcess ≠ -1 then
          [{ pid := s.lastProcess, startTime := s.ganttStartTime, endTime := s.currentTime }]
        else []) ++
        (if allDone (tickBody s) = true ∧ (tickBody s).lastProcess ≠ -1 then
          [{ pid := (tickBody s).lastProcess, startTime := (tickBody s).ganttStartTime,
             endTime := s.currentTime }]
        else [])) ∧
    ((tick s).1.ganttStartTime =
      (if (atGantt s).currentProcess ≠ -1 ∧ s.lastProcess ≠ (atGantt s).currentProcess then
        s.currentTime
      else s.ganttStartTime)) ∧
    ((tick s).1.lastProcess =
      (if (atGantt s).currentProcess ≠ -1 then (atGantt s).currentProcess
      else s.lastProcess)) ∧
    (GanttKept s (atGantt s) ∧ GanttKept (ganttStage (atGantt s)) (tickBody s) ∧
      tickBody s = preemptStage (executeStage (ganttStage (atGantt s)))) ∧
    ((∀ k : Nat, k < n →
        ((atGantt (simulateLoop k s).1).currentProcess = -1 ∨
          (atGantt (simulateLoop k s).1).currentProcess = s.lastProcess) ∧
        (tick (simulateLoop k s).1).2 = none) →
      (simulateLoop n s).1.ganttChart = s.ganttChart ∧
      (simulateLoop n s).1.ganttStartTime = s.ganttStartTime ∧
      (simulateLoop n s).1.lastProcess = s.lastProcess) ∧
    ((simulateLoop 3 gapSim).1.currentProcess = -1 ∧
      (atGantt (simulateLoop 3 gapSim).1).currentProcess = -1 ∧
      (atGantt (simulateLoop 4 gapSim).1).currentProcess = -1 ∧
      (atGantt (simulateLoop 5 gapSim).1).currentProcess = 0 ∧
      (simulate gapSim).2 = some LoopExit.allDone ∧
      (simulate gapSim).1.ganttChart = [{ pid := 0, startTime := 0, endTime := 6 }]) := by
  obtain ⟨b1, b2, b3⟩ := tickBody_gantt s
  obtain ⟨f1, f2, f3⟩ := finishTick_gantt (tickBody s)
  have ht : (tickBody s).currentTime = s.currentTime := tickBody_currentTime s
  refine ⟨?_, ?_, ?_, ⟨(atGantt_kept s).1,
    ganttKept_trans (executeStage_gantt _) (preemptStage_gantt _), rfl⟩, ?_, ?_⟩
  · show (finishTick (tickBody s)).1.ganttChart = _
    rw [f1, b1, ht]
    by_cases hd : allDone (tickBody s) = true ∧ (tickBody s).lastProcess ≠ -1
    · rw [if_pos hd, if_pos hd]
      by_cases hsw : (atGantt s).currentProcess ≠ -1 ∧
          s.lastProcess ≠ (atGantt s).currentProcess ∧ s.lastProcess ≠ -1
      · rw [if_pos hsw, if_pos hsw]
      · rw [if_neg hsw, if_neg hsw, List.append_nil]
    · rw [if_neg hd, if_neg hd, List.append_nil]
      by_cases hsw : (atGantt s).currentProcess ≠ -1 ∧
          s.lastProcess ≠ (atGantt s).currentProcess ∧ s.lastProcess ≠ -1
      · rw [if_pos hsw, if_pos hsw]
      · rw [if_neg hsw, if_neg hsw, List.append_nil]
  · show (finishTick (tickBody s)).1.ganttStartTime = _
    rw [f2, b2]
  · show (finishTick (tickBody s)).1.lastProcess = _
    rw [f3, b3]
  · intro h
    exact (simulateLoop_gantt_open n s h).2
  · have hs : simulate gapSim = simulateLoop 8 gapSim :=
      simulateLoop_exit 8 gapSim 10001 (by decide) (by decide)
    rw [hs]
    decide

/-! ## The I/O stage (C24) -/

theorem modifyAt_congr (ps : List Process) (i : Int) (f g : Process → Process)
    (h : f (procAt ps i) = g (procAt ps i)) : modifyAt ps i f = modifyAt ps i g := by
  by_cases hv : ValidPid ps i
  · rw [modifyAt_eq_set _ _ _ hv, modifyAt_eq_set _ _ _ hv, h]
  · rw [modifyAt_invalid _ _ _ hv, modifyAt_invalid _ _ _ hv]

/-- One visit of the loop of `processIO` to a pid of the table. -/
theorem ioVisit_spec (acc : Sim × List Int) (x : Int) (hv : ValidPid acc.1.processes x) :
    ioVisit acc x =
      ({ acc.1 with
         processes := modifyAt acc.1.processes x ioStep
         readyQueue := acc.1.readyQueue ++
           (if ioBack (procAt acc.1.processes x) then [x] else []) },
       acc.2 ++ (if ioDone (procAt acc.1.processes x) then [] else [x])) := by
  have hv1 : ValidPid (modifyAt acc.1.processes x
      (fun p => { p with remainingTime := p.remainingTime - 1 })) x :=
    (validPid_modifyAt _ _ _ _).mpr hv
  unfold ioVisit
  simp only []
  rw [procAt_modifyAt_same _ _ _ hv]
  by_cases h0 : (procAt acc.1.processes x).remainingTime - 1 = 0
  · have hd : ioDone (procAt acc.1.processes x) = true := by simp [ioDone, h0]
    rw [if_pos (by simpa using h0), procAt_modifyAt_same _ _ _ hv1,
      procAt_modifyAt_same _ _ _ hv]
    simp only []
    by_cases hb : (procAt acc.1.processes x).currentBurstIndex + 1 <
        (procAt acc.1.processes x).bursts.length
    · have hbk : ioBack (procAt acc.1.processes x) = true := by simp [ioBack, hd, hb]
      rw [if_pos hb, hbk, hd]
      simp only [if_true, modifyAt_modifyAt, List.append_nil]
      rw [modifyAt_congr _ _ _ ioStep (by simp [ioStep, h0, hb])]
    · have hbk : ioBack (procAt acc.1.processes x) = false := by simp [ioBack, hb]
      rw [if_neg hb, hbk, hd]
      simp only [if_true, Bool.false_eq_true, if_false, modifyAt_modifyAt, List.append_nil]
      rw [modifyAt_congr _ _ _ ioStep (by simp [ioStep, h0, hb])]
  · have hd : ioDone (procAt acc.1.processes x) = false := by simp [ioDone, h0]
    have hbk : ioBack (procAt acc.1.processes x) = false := by simp [ioBack, hd]
    rw [if_neg (by simpa using h0), hbk, hd]
    simp only [Bool.false_eq_true, if_false, List.append_nil]
    rw [modifyAt_congr _ _ _ ioStep (by simp [ioStep, h0])]

/-- A loop that applies `f` to the table entry of each pid of a list without
repeated entries applies it once to each listed entry of the table. -/
theorem foldl_modifyAt_nodup (f : Process → Process) (l : List Int) :
    ∀ ps : List Process, l.Nodup → ∀ i : Int,
      procAt (l.foldl (fun ps q => modifyAt ps q f) ps) i =
        if i ∈ l ∧ ValidPid ps i then f (procAt ps i) else procAt ps i := by
  induction l with
  | nil => intro ps _ i; simp
  | cons x xs ih =>
    intro ps hnd i
    rw [List.nodup_cons] at hnd
    rw [List.foldl_cons, ih _ hnd.2 i]
    by_cases hix : i = x
    · subst hix
      by_cases hv : ValidPid ps i
      · rw [if_neg (fun h => hnd.1 h.1), if_pos ⟨List.mem_cons_self _ _, hv⟩,
          procAt_modifyAt_same _ _ _ hv]
      · rw [if_neg (fun h => hnd.1 h.1), if_neg (fun h => hv h.2), modifyAt_invalid _ _ _ hv]
    · rw [procAt_modifyAt_ne _ _ _ _ hix]
      by_cases hc : i ∈ xs ∧ ValidPid ps i
      · rw [if_pos ⟨hc.1, (validPid_modifyAt _ _ _ _).mpr hc.2⟩,
          if_pos ⟨List.mem_cons_of_mem _ hc.1, hc.2⟩]
      · rw [if_neg (fun h => hc ⟨h.1, (validPid_modifyAt _ _ _ _).mp h.2⟩),
          if_neg (fun h => hc ⟨(List.mem_cons.mp h.1).resolve_left hix, h.2⟩)]

/-- The loop of `processIO` over pids of the table none of which occurs twice. -/
theorem foldl_ioVisit_spec (l : List Int) :
    ∀ acc : Sim × List Int, l.Nodup → (∀ q ∈ l, ValidPid acc.1.processes q) →
      l.foldl ioVisit acc =
        ({ acc.1 with
           processes := l.foldl (fun ps q => modifyAt ps q ioStep) acc.1.processes
           readyQueue := acc.1.readyQueue ++
             l.filter (fun q => ioBack (procAt acc.1.processes q)) },
         acc.2 ++ l.filter (fun q => !ioDone (procAt acc.1.processes q))) := by
  induction l with
  | nil =>
    intro acc _ _
    simp
  | cons x xs ih =>
    intro acc hnd hval
    rw [List.nodup_cons] at hnd
    have hvx := hval x (List.mem_cons_self _ _)
    have hsame : ∀ q ∈ xs,
        procAt (modifyAt acc.1.processes x ioStep) q = procAt acc.1.processes q := by
      intro q hq
      exact procAt_modifyAt_ne _ _ _ _ (fun h => hnd.1 (h ▸ hq))
    have hf1 : xs.filter (fun q => !ioDone (procAt (modifyAt acc.1.processes x ioStep) q)) =
        xs.filter (fun q => !ioDone (procAt acc.1.processes q)) :=
      List.filter_congr (fun q hq => by rw [hsame q hq])
    have hf2 : xs.filter (fun q => ioBack (procAt (modifyAt acc.1.processes x ioStep) q)) =
        xs.filter (fun q => ioBack (procAt acc.1.processes q)) :=
      List.filter_congr (fun q hq => by rw [hsame q hq])
    rw [List.foldl_cons, ioVisit_spec acc x hvx, ih _ hnd.2 (by
      intro q hq
      exact (validPid_modifyAt _ _ _ _).mpr (hval q (List.mem_cons_of_mem _ hq)))]
    simp only []
    rw [hf1, hf2, List.foldl_cons, List.filter_cons, List.filter_cons]
    cases hd : ioDone (procAt acc.1.processes x) <;>
      cases hb : ioBack (procAt acc.1.processes x) <;> simp
/-- The function `processIO` on an I/O queue of pids of the table none of which
occurs twice, in closed form. -/
theorem processIO_eq (s : Sim) (hnd : s.ioQueue.Nodup)
    (hv : ∀ q ∈ s.ioQueue, ValidPid s.processes q) :
    Sched.processIO s =
      { s with
        processes := s.ioQueue.foldl (fun ps q => modifyAt ps q ioStep) s.processes
        readyQueue := s.readyQueue ++ s.ioQueue.filter (fun q => ioBack (procAt s.processes q))
        ioQueue := s.ioQueue.filter (fun q => !ioDone (procAt s.processes q)) } := by
  unfold Sched.processIO
  simp only []
  rw [foldl_ioVisit_spec s.ioQueue ({ s with ioQueue := [] }, []) hnd hv]
  simp

theorem ioStep_fields (p : Process) :
    (ioStep p).remainingTime = p.remainingTime - 1 ∧
    (p.remainingTime - 1 = 0 →
      (ioStep p).currentBurstIndex = p.currentBurstIndex + 1 ∧
      (ioStep p).currentOperationIndex = 0 ∧
      (p.currentBurstIndex + 1 < p.bursts.length → (ioStep p).state = ProcessState.READY) ∧
      (¬ p.currentBurstIndex + 1 < p.bursts.length → (ioStep p).state = p.state)) ∧
    (p.remainingTime - 1 ≠ 0 → ioStep p = { p with remainingTime := p.remainingTime - 1 }) ∧
    ioStep p =
      { p with remainingTime := (ioStep p).remainingTime
               currentBurstIndex := (ioStep p).currentBurstIndex
               currentOperationIndex := (ioStep p).currentOperationIndex
               state := (ioStep p).state } := by
  unfold ioStep
  by_cases h0 : p.remainingTime - 1 = 0
  · by_cases hb : p.currentBurstIndex + 1 < p.bursts.length
    · simp [h0, hb]
    · simp [h0, hb]
  · simp [h0]
/-- What `processIO` does to a queued process and where it leaves its pid. -/
theorem processIO_at (s : Sim) (hnd : s.ioQueue.Nodup)
    (hv : ∀ q ∈ s.ioQueue, ValidPid s.processes q) (i : Int) :
    (i ∈ s.ioQueue →
      procAt (Sched.processIO s).processes i = ioStep (procAt s.processes i) ∧
      (i ∈ (Sched.processIO s).ioQueue ↔ (procAt s.processes i).remainingTime - 1 ≠ 0) ∧
      (i ∈ (Sched.processIO s).readyQueue ↔
        (i ∈ s.readyQueue ∨ ((procAt s.processes i).remainingTime - 1 = 0 ∧
          (procAt s.processes i).currentBurstIndex + 1 <
            (procAt s.processes i).bursts.length)))) ∧
    (i ∉ s.ioQueue →
      procAt (Sched.processIO s).processes i = procAt s.processes i ∧
      i ∉ (Sched.processIO s).ioQueue ∧
      (i ∈ (Sched.processIO s).readyQueue ↔ i ∈ s.readyQueue)) := by
  rw [processIO_eq s hnd hv]
  simp only []
  constructor
  · intro hi
    refine ⟨?_, ?_, ?_⟩
    · rw [foldl_modifyAt_nodup _ _ _ hnd i, if_pos ⟨hi, hv i hi⟩]
    · simp [List.mem_filter, hi, ioDone]
    · simp [List.mem_filter, hi, ioBack, ioDone]
  · intro hi
    refine ⟨?_, ?_, ?_⟩
    · rw [foldl_modifyAt_nodup _ _ _ hnd i, if_neg (fun h => hi h.1)]
    · simp [List.mem_filter, hi]
    · simp [List.mem_filter, hi]

/-! ## The invariant of well-formed runs (C21, C22, C23, C25, C30) -/

theorem moves_refl (a : ProcessState) : Moves a a := Or.inl rfl

theorem valid_of_state (ps : List Process) (i : Int)
    (h : (procAt ps i).state ≠ ProcessState.NEW) : ValidPid ps i := by
  by_contra hv
  rw [procAt_of_not_valid _ _ hv] at h
  exact h rfl

/-- The state of a process in a queue or in the running slot cannot be that of
another place. -/
theorem locRaw_same {p : Process} {R I W C R2 I2 W2 C2 : Prop}
    (h : LocRaw p R I W C) (hR : R2 → R) (hI : I2 → I) (hW : W2 ↔ W) (hC : C2 → C) :
    LocRaw p R2 I2 W2 C2 := by
  obtain ⟨h1, h2, h3, h4, h5, h6, h7, h8⟩ := h
  exact ⟨fun x => h1 (hR x), fun x => h2 (hI x), fun x => h3 (hW.mp x), fun x => h4 (hC x),
    fun x => hW.mpr (h5 x), h6, h7, h8⟩

/-- A stage whose effect on every process is either nothing or a change of a
process within reach that fits its new places is a good stage. -/
theorem good_of_effect (a b : Sim) (hW : WF a) (hpid : PidOk b.processes)
    (hnI : b.ioQueue.Nodup) (hnW : b.waitingQueue.Nodup)
    (heff : ∀ i : Int, SameAt a b i ∨
      (¬ Idle a i ∧ Moves (procAt a.processes i).state (procAt b.processes i).state ∧
        Loc b i)) : Good a b := by
  refine ⟨⟨hpid, ?_, hnI, hnW⟩, ?_, ?_⟩
  · intro i
    rcases heff i with ⟨h1, h2, h3, h4, h5⟩ | ⟨_, _, h⟩
    · unfold Loc
      rw [h1]
      exact locRaw_same (hW.2.1 i) h2.mp h3.mp h4 (fun hc => ⟨h5 hc.1 hc.2, hc.2⟩)
    · exact h
  · intro i
    rcases heff i with ⟨h1, _⟩ | ⟨_, h, _⟩
    · rw [h1]; exact moves_refl _
    · exact h
  · intro i hidle
    rcases heff i with ⟨h1, h2, h3, h4, h5⟩ | ⟨h, _⟩
    · refine ⟨h1, fun x => hidle.1 (h2.mp x), fun x => hidle.2.1 (h3.mp x),
        fun x => hidle.2.2.1 (h4.mp x), ?_, by rw [h1]; exact hidle.2.2.2.2⟩
      intro hc
      have hne : i ≠ -1 := by
        intro hm
        have hv := valid_of_state _ _ hidle.2.2.2.2
        rw [hm] at hv
        exact absurd hv.1 (by decide)
      exact hidle.2.2.2.1 (h5 hc hne)
    · exact absurd hidle h

theorem good_refl (a : Sim) (hW : WF a) : Good a a :=
  good_of_effect a a hW hW.1 hW.2.2.1 hW.2.2.2
    (fun _ => Or.inl ⟨rfl, Iff.rfl, Iff.rfl, Iff.rfl, fun h _ => h⟩)

/-- A stage that changes neither the table, nor a queue, nor the running slot. -/
theorem good_of_frame (a b : Sim) (hW : WF a) (hp : b.processes = a.processes)
    (hr : b.readyQueue = a.readyQueue) (hi : b.ioQueue = a.ioQueue)
    (hw : b.waitingQueue = a.waitingQueue) (hc : b.currentProcess = a.currentProcess) :
    Good a b :=
  good_of_effect a b hW (by rw [hp]; exact hW.1) (by rw [hi]; exact hW.2.2.1)
    (by rw [hw]; exact hW.2.2.2)
    (fun _ => Or.inl ⟨by rw [hp], by rw [hr], by rw [hi], by rw [hw],
      fun h _ => by rw [← hc]; exact h⟩)
theorem map_procAt {β : Type} (g : Process → β) (ps qs : List Process)
    (h : qs.map g = ps.map g) (i : Int) : g (procAt qs i) = g (procAt ps i) := by
  have hlen : qs.length = ps.length := by
    have := congrArg List.length h
    simpa using this
  by_cases hv : ValidPid ps i
  · have hv2 : ValidPid qs i := by
      unfold ValidPid at hv ⊢
      rw [hlen]; exact hv
    have hlt : i.toNat < ps.length := by
      have := hv.1; have := hv.2; omega
    have hlt2 : i.toNat < qs.length := by rw [hlen]; exact hlt
    rw [procAt_eq_getElem _ _ hv hlt, procAt_eq_getElem _ _ hv2 hlt2]
    have h1 : (qs.map g)[i.toNat]? = (ps.map g)[i.toNat]? := by rw [h]
    simpa [List.getElem?_map, List.getElem?_eq_getElem hlt, List.getElem?_eq_getElem hlt2]
      using h1
  · have hv2 : ¬ ValidPid qs i := by
      unfold ValidPid at hv ⊢
      rw [hlen]; exact hv
    rw [procAt_of_not_valid _ _ hv, procAt_of_not_valid _ _ hv2]

/-- A stage that keeps the pid of every table entry keeps `PidOk`. -/
theorem pidOk_of_map {β : Type} (g : Process → β) (hg : ∀ p q, g p = g q → p.pid = q.pid)
    (ps qs : List Process) (h : qs.map g = ps.map g) (hp : PidOk ps) : PidOk qs := by
  intro i hv
  have hlen : qs.length = ps.length := by
    have := congrArg List.length h
    simpa using this
  have hv2 : ValidPid ps i := by
    unfold ValidPid at hv ⊢
    rw [← hlen]; exact hv
  rw [hg _ _ (map_procAt g ps qs h i)]
  exact hp i hv2

theorem pidOk_of_stable (ps qs : List Process) (h : qs.map stableSig = ps.map stableSig)
    (hp : PidOk ps) : PidOk qs :=
  pidOk_of_map stableSig (fun _ _ e => congrArg Prod.fst e) ps qs h hp

/-- What the state of a table entry excludes. -/
theorem loc_excl {s : Sim} {i : Int} (h : Loc s i) (st : ProcessState)
    (hst : (procAt s.processes i).state = st) :
    (st ≠ ProcessState.READY → i ∉ s.readyQueue) ∧
    (st ≠ ProcessState.IO_ → i ∉ s.ioQueue) ∧
    (st ≠ ProcessState.WAITING → i ∉ s.waitingQueue) ∧
    (st ≠ ProcessState.RUNNING → ¬ (s.currentProcess = i ∧ i ≠ -1)) ∧
    (st ≠ ProcessState.WAITING → st ≠ ProcessState.TERMINATED →
      (procAt s.processes i).waitingForResource = -1) := by
  obtain ⟨h1, h2, h3, h4, _, h6, _, _⟩ := h
  subst hst
  refine ⟨fun n x => n (h1 x), fun n x => n (h2 x).1, fun n x => n (h3 x).1,
    fun n x => n (h4 x), fun n m => ?_⟩
  by_contra hw
  rcases h6 hw with e | e
  · exact n e
  · exact m e

theorem moves_of (x y : ProcessState) {a b : ProcessState} (ha : a = x) (hb : b = y)
    (h : Moves x y) : Moves a b := by
  rw [ha, hb]; exact h

theorem indexOk_of_atOp (p : Process) (h : AtOp p) : IndexOk p :=
  ⟨Nat.le_of_lt h.1, fun _ => Nat.le_of_lt h.2⟩

theorem locRaw_ready (p : Process) {R I W C : Prop} (hs : p.state = ProcessState.READY)
    (hI : ¬ I) (hW : ¬ W) (hC : ¬ C) (hw : p.waitingForResource = -1) (hx : IndexOk p) :
    LocRaw p R I W C := by
  refine ⟨fun _ => hs, fun x => absurd x hI, fun x => absurd x hW, fun x => absurd x hC,
    ?_, fun x => absurd hw x, ?_, hx⟩
  · intro x; rw [hs] at x; exact absurd x (by decide)
  · intro x; rw [hs] at x; exact absurd x (by decide)

theorem locRaw_running (p : Process) {R I W C : Prop} (hs : p.state = ProcessState.RUNNING)
    (hR : ¬ R) (hI : ¬ I) (hW : ¬ W) (hw : p.waitingForResource = -1) (hx : IndexOk p) :
    LocRaw p R I W C := by
  refine ⟨fun x => absurd x hR, fun x => absurd x hI, fun x => absurd x hW, fun _ => hs,
    ?_, fun x => absurd hw x, ?_, hx⟩
  · intro x; rw [hs] at x; exact absurd x (by decide)
  · intro x; rw [hs] at x; exact absurd x (by decide)

theorem locRaw_io (p : Process) {R I W C : Prop} (hs : p.state = ProcessState.IO_)
    (hR : ¬ R) (hI : I → p.currentBurstIndex < p.bursts.length) (hW : ¬ W) (hC : ¬ C)
    (hw : p.waitingForResource = -1) (hx : IndexOk p) :
    LocRaw p R I W C := by
  refine ⟨fun x => absurd x hR, fun x => ⟨hs, hI x⟩, fun x => absurd x hW,
    fun x => absurd x hC, ?_, fun x => absurd hw x, ?_, hx⟩
  · intro x; rw [hs] at x; exact absurd x (by decide)
  · intro x; rw [hs] at x; exact absurd x (by decide)

theorem locRaw_waiting (p : Process) {R I W C : Prop} (hs : p.state = ProcessState.WAITING)
    (hR : ¬ R) (hI : ¬ I) (hW : W) (hat : AtOp p) (hC : ¬ C) :
    LocRaw p R I W C := by
  refine ⟨fun x => absurd x hR, fun x => absurd x hI, fun _ => ⟨hs, hat⟩,
    fun x => absurd x hC, fun _ => hW, fun _ => Or.inl hs, ?_, indexOk_of_atOp p hat⟩
  intro x; rw [hs] at x; exact absurd x (by decide)

theorem locRaw_terminated (p : Process) {R I W C : Prop}
    (hs : p.state = ProcessState.TERMINATED)
    (hR : ¬ R) (hI : ¬ I) (hW : ¬ W) (hC : ¬ C) (hh : ∀ r, p.heldResources r = 0)
    (hx : IndexOk p) : LocRaw p R I W C := by
  refine ⟨fun x => absurd x hR, fun x => absurd x hI, fun x => absurd x hW,
    fun x => absurd x hC, ?_, fun _ => Or.inr hs, fun _ => hh, hx⟩
  intro x; rw [hs] at x; exact absurd x (by decide)

theorem loc_valid {s : Sim} {i : Int} (st : ProcessState)
    (hst : (procAt s.processes i).state = st) (hn : st ≠ ProcessState.NEW) :
    ValidPid s.processes i :=
  valid_of_state _ _ (by rw [hst]; exact hn)

/-! ### The stages that touch no process -/

theorem ganttStage_good (s : Sim) (hW : WF s) : Good s (ganttStage s) := by
  unfold ganttStage
  split
  · split
    · exact good_of_frame _ _ hW rfl rfl rfl rfl rfl
    · exact good_refl s hW
  · exact good_refl s hW

theorem clock_good (s : Sim) (t : Int) (g : List GanttEntry) (hW : WF s) :
    Good s { s with currentTime := t, ganttChart := g } :=
  good_of_frame _ _ hW rfl rfl rfl rfl rfl
/-! ### Arrivals -/

theorem procAt_of_mem (ps : List Process) (p : Process) (h : p ∈ ps) :
    ∃ j : Int, ValidPid ps j ∧ procAt ps j = p := by
  obtain ⟨n, hn, e⟩ := List.getElem_of_mem h
  refine ⟨(n : Int), ⟨by omega, by exact_mod_cast hn⟩, ?_⟩
  have hv : ValidPid ps (n : Int) := ⟨by omega, by exact_mod_cast hn⟩
  rw [procAt_eq_getElem _ _ hv (by simpa using hn)]
  simpa using e

theorem mem_arrivals (ps : List Process) (t : Int) (hp : PidOk ps) (i : Int) :
    i ∈ (ps.filter (arrives t)).map (fun p => p.pid) ↔
      (ValidPid ps i ∧ arrives t (procAt ps i) = true) := by
  constructor
  · intro h
    obtain ⟨p, hpm, e⟩ := List.mem_map.mp h
    obtain ⟨hin, har⟩ := List.mem_filter.mp hpm
    obtain ⟨j, hv, hj⟩ := procAt_of_mem ps p hin
    have : j = i := by
      rw [← hp j hv, hj]; exact e
    subst this
    exact ⟨hv, by rw [hj]; exact har⟩
  · intro h
    exact List.mem_map.mpr ⟨procAt ps i, List.mem_filter.mpr ⟨procAt_mem ps i h.1, h.2⟩,
      hp i h.1⟩

theorem checkNewArrivals_good (s : Sim) (hW : WF s) : Good s (checkNewArrivals s) := by
  have hproc : ∀ i : Int, procAt (checkNewArrivals s).processes i =
      if ValidPid s.processes i ∧ arrives s.currentTime (procAt s.processes i) = true then
        { procAt s.processes i with state := ProcessState.READY }
      else procAt s.processes i := by
    intro i
    unfold checkNewArrivals
    simp only []
    rw [procAt_map]
    by_cases hv : ValidPid s.processes i
    · rw [if_pos hv]
      by_cases ha : arrives s.currentTime (procAt s.processes i) = true
      · rw [if_pos ha, if_pos ⟨hv, ha⟩]
      · rw [if_neg ha, if_neg (fun h => ha h.2)]
    · rw [if_neg hv, if_neg (fun h => hv h.1), procAt_of_not_valid _ _ hv]
  have hrq : ∀ i : Int, i ∈ (checkNewArrivals s).readyQueue ↔
      (i ∈ s.readyQueue ∨
        (ValidPid s.processes i ∧ arrives s.currentTime (procAt s.processes i) = true)) := by
    intro i
    unfold checkNewArrivals
    simp only [List.mem_append]
    rw [mem_arrivals _ _ hW.1]
  refine good_of_effect _ _ hW (pidOk_of_stable _ _ (checkNewArrivals_kept s).1 hW.1)
    hW.2.2.1 hW.2.2.2 ?_
  intro i
  by_cases h : ValidPid s.processes i ∧ arrives s.currentTime (procAt s.processes i) = true
  · right
    have hnew : (procAt s.processes i).state = ProcessState.NEW := by
      have := h.2
      unfold arrives at this
      simp only [Bool.and_eq_true, decide_eq_true_eq] at this
      exact this.1
    obtain ⟨_, e2, e3, e4, e5⟩ := loc_excl (hW.2.1 i) _ hnew
    have hidx := (hW.2.1 i).2.2.2.2.2.2.2
    refine ⟨fun hid => hid.2.2.2.2 hnew, ?_, ?_⟩
    · rw [hproc i, if_pos h]
      exact moves_of ProcessState.NEW ProcessState.READY hnew rfl (by decide)
    · unfold Loc
      rw [hproc i, if_pos h]
      exact locRaw_ready _ rfl (e2 (by decide)) (e3 (by decide)) (e4 (by decide))
        (e5 (by decide) (by decide)) hidx
  · left
    refine ⟨by rw [hproc i, if_neg h], ?_, Iff.rfl, Iff.rfl, fun hc _ => hc⟩
    rw [hrq i]
    exact ⟨fun x => x.resolve_right h, Or.inl⟩

/-! ### I/O completion -/

theorem processIO_frame (s : Sim) :
    (Sched.processIO s).waitingQueue = s.waitingQueue ∧
    (Sched.processIO s).currentProcess = s.currentProcess := by
  have h := processIO_kept s
  refine ⟨?_, h.2.1⟩
  unfold Sched.processIO
  simp only []
  exact foldl_preserves (fun acc : Sim × List Int => acc.1.waitingQueue = s.waitingQueue)
    ioVisit (fun acc x hk => by
      unfold ioVisit
      simp only []
      split
      · split <;> exact hk
      · exact hk) _ _ rfl

theorem processIO_good (s : Sim) (hW : WF s) : Good s (Sched.processIO s) := by
  have hv : ∀ q ∈ s.ioQueue, ValidPid s.processes q := fun q hq =>
    loc_valid _ ((hW.2.1 q).2.1 hq).1 (by decide)
  have hat := processIO_at s hW.2.2.1 hv
  have hfr := processIO_frame s
  have hnd : (Sched.processIO s).ioQueue.Nodup := by
    rw [processIO_eq s hW.2.2.1 hv]
    exact List.Nodup.filter _ hW.2.2.1
  refine good_of_effect _ _ hW (pidOk_of_stable _ _ (processIO_kept s).1 hW.1) hnd
    (by rw [hfr.1]; exact hW.2.2.2) ?_
  intro i
  by_cases hi : i ∈ s.ioQueue
  · right
    obtain ⟨hp, hio, hrq⟩ := (hat i).1 hi
    obtain ⟨hst, hbi⟩ := (hW.2.1 i).2.1 hi
    obtain ⟨e1, _, e3, e4, e5⟩ := loc_excl (hW.2.1 i) _ hst
    have hidx := (hW.2.1 i).2.2.2.2.2.2.2
    obtain ⟨f1, f2, f3, f4⟩ := ioStep_fields (procAt s.processes i)
    have hwfr : (ioStep (procAt s.processes i)).waitingForResource = -1 := by
      rw [f4]; exact e5 (by decide) (by decide)
    have hbursts : (ioStep (procAt s.processes i)).bursts = (procAt s.processes i).bursts := by
      rw [f4]
    refine ⟨fun hid => hid.2.1 hi, ?_, ?_⟩
    · rw [hp]
      by_cases hd : (procAt s.processes i).remainingTime - 1 = 0
      · by_cases hb : (procAt s.processes i).currentBurstIndex + 1 <
            (procAt s.processes i).bursts.length
        · exact moves_of ProcessState.IO_ ProcessState.READY hst ((f2 hd).2.2.1 hb) (by decide)
        · rw [(f2 hd).2.2.2 hb]; exact moves_refl _
      · rw [f3 hd]; exact moves_refl _
    · unfold Loc
      rw [hp, hfr.1, hfr.2]
      by_cases hd : (procAt s.processes i).remainingTime - 1 = 0
      · have hnio : i ∉ (Sched.processIO s).ioQueue := fun x => (hio.mp x) hd
        by_cases hb : (procAt s.processes i).currentBurstIndex + 1 <
            (procAt s.processes i).bursts.length
        · refine locRaw_ready _ ((f2 hd).2.2.1 hb) hnio (e3 (by decide)) (e4 (by decide))
            hwfr ⟨?_, fun _ => ?_⟩
          · rw [(f2 hd).1, hbursts]; exact Nat.le_of_lt hb
          · rw [(f2 hd).2.1]; exact Nat.zero_le _
        · refine locRaw_io _ (((f2 hd).2.2.2 hb).trans hst) ?_ (fun x => absurd x hnio)
            (e3 (by decide)) (e4 (by decide)) hwfr ⟨?_, fun _ => ?_⟩
          · intro x
            rcases hrq.mp x with y | y
            · exact e1 (by decide) y
            · exact hb y.2
          · rw [(f2 hd).1, hbursts]; exact hbi
          · rw [(f2 hd).2.1]; exact Nat.zero_le _
      · rw [f3 hd]
        refine locRaw_io _ hst ?_ (fun _ => hbi) (e3 (by decide)) (e4 (by decide))
          (e5 (by decide) (by decide)) hidx
        intro x
        rcases hrq.mp x with y | y
        · exact e1 (by decide) y
        · exact hd y.1
  · left
    obtain ⟨hp, hio, hrq⟩ := (hat i).2 hi
    exact ⟨hp, hrq, ⟨fun x => absurd x hio, fun x => absurd x hi⟩, by rw [hfr.1],
      fun hc _ => by rw [← hfr.2]; exact hc⟩
/-! ### Deadlock recovery -/

theorem recoverFromDeadlock_good (s : Sim) (dl : List Int) (hW : WF s)
    (hne : dl ≠ []) (hdl : ∀ q ∈ dl, q ∈ s.waitingQueue) :
    Good s (recoverFromDeadlock s dl) := by
  have hfirst : dl.getD 0 0 ∈ dl := by
    cases dl with
    | nil => exact absurd rfl hne
    | cons x xs => simp
  obtain ⟨v, hv⟩ : ∃ v, (dl.foldl (victimScan s.processes)
      (dl.getD 0 0, (procAt s.processes (dl.getD 0 0)).priority)).1 = v := ⟨_, rfl⟩
  have hvm : v ∈ s.waitingQueue := by
    rw [← hv]
    rcases foldl_victimScan_mem s.processes dl
      (dl.getD 0 0, (procAt s.processes (dl.getD 0 0)).priority) with h1 | h1
    · rw [h1]; exact hdl _ hfirst
    · exact hdl _ h1
  have hb : recoverFromDeadlock s dl =
      { s with
        resources := releaseAll s.resources (procAt s.processes v).heldResources
        processes := modifyAt s.processes v
          (fun p => { p with heldResources := fun _ => 0,
                             state := ProcessState.TERMINATED,
                             completionTime := s.currentTime })
        waitingQueue := s.waitingQueue.filter (fun pid => decide (pid ≠ v)) } := by
    rw [← hv]; rfl
  have hpid := pidOk_of_stable _ _ (recoverFromDeadlock_kept s dl).1 hW.1
  rw [hb] at hpid ⊢
  obtain ⟨hst, hat⟩ := (hW.2.1 v).2.2.1 hvm
  have hval : ValidPid s.processes v := loc_valid _ hst (by decide)
  refine good_of_effect _ _ hW hpid hW.2.2.1 (List.Nodup.filter _ hW.2.2.2) ?_
  intro i
  by_cases hi : i = v
  · subst hi
    right
    obtain ⟨e1, e2, _, e4, _⟩ := loc_excl (hW.2.1 i) _ hst
    refine ⟨fun hid => hid.2.2.1 hvm, ?_, ?_⟩
    · simp only []
      rw [procAt_modifyAt_same _ _ _ hval]
      exact moves_of ProcessState.WAITING ProcessState.TERMINATED hst rfl (by decide)
    · unfold Loc
      simp only []
      rw [procAt_modifyAt_same _ _ _ hval]
      exact locRaw_terminated _ rfl (e1 (by decide)) (e2 (by decide))
        (by simp [List.mem_filter]) (e4 (by decide)) (fun _ => rfl) (indexOk_of_atOp _ hat)
  · left
    refine ⟨?_, Iff.rfl, Iff.rfl, ?_, fun hc _ => hc⟩
    · simp only []
      exact procAt_modifyAt_ne _ _ _ _ hi
    · simp [List.mem_filter, hi]

theorem recoveryStage_good (s : Sim) (hW : WF s) : Good s (recoveryStage s) := by
  unfold recoveryStage
  split
  · rename_i hc
    unfold deadlockCheck at hc
    simp only [Bool.and_eq_true] at hc
    exact recoverFromDeadlock_good s _ hW ((detectDeadlock_reported s).2 hc.2)
      (detectDeadlock_reported s).1
  · exact good_refl s hW

theorem stuckStage_good (s : Sim) (hW : WF s) : Good s (stuckStage s) := by
  unfold stuckStage
  split
  · rename_i hc
    simp only [Bool.and_eq_true] at hc
    exact recoverFromDeadlock_good s _ hW ((detectDeadlock_reported s).2 hc.2)
      (detectDeadlock_reported s).1
  · exact good_refl s hW

/-! ### Aging -/

theorem foldl_agingVisit_fields (l : List Int) :
    ∀ (ps : List Process) (i : Int),
      (∃ pr t, procAt (l.foldl agingVisit ps) i =
        { procAt ps i with priority := pr, timeInReadyQueue := t }) ∧
      (i ∉ l → procAt (l.foldl agingVisit ps) i = procAt ps i) := by
  induction l with
  | nil => intro ps i; exact ⟨⟨_, _, rfl⟩, fun _ => rfl⟩
  | cons x xs ih =>
    intro ps i
    rw [List.foldl_cons]
    obtain ⟨⟨pr, t, h1⟩, h2⟩ := ih (agingVisit ps x) i
    have hx : ∃ pr t, procAt (agingVisit ps x) i =
        { procAt ps i with priority := pr, timeInReadyQueue := t } := by
      rw [agingVisit_eq]
      rcases procAt_modifyAt ps x i ageOnce with h | ⟨_, _, h⟩
      · rw [h]; exact ⟨_, _, rfl⟩
      · rw [h]; unfold ageOnce; split <;> exact ⟨_, _, rfl⟩
    refine ⟨?_, ?_⟩
    · obtain ⟨pr2, t2, h3⟩ := hx
      rw [h1, h3]
      exact ⟨_, _, rfl⟩
    · intro hi
      rw [h2 (fun h => hi (List.mem_cons_of_mem _ h)), agingVisit_eq,
        procAt_modifyAt_ne _ _ _ _ (fun h => hi (by rw [h]; exact List.mem_cons_self _ _))]

theorem agingStage_good (s : Sim) (hW : WF s) : Good s (agingStage s) := by
  unfold agingStage
  split
  · have hpid : PidOk (applyAging s).processes :=
      pidOk_of_map procSig (fun _ _ e => congrArg Prod.fst e) _ _
        (foldl_agingVisit_sig s.readyQueue s.processes) hW.1
    refine good_of_effect _ _ hW hpid hW.2.2.1 hW.2.2.2 ?_
    intro i
    obtain ⟨⟨pr, t, h1⟩, h2⟩ := foldl_agingVisit_fields s.readyQueue s.processes i
    by_cases hi : i ∈ s.readyQueue
    · right
      refine ⟨fun hid => hid.1 hi, ?_, ?_⟩
      · unfold applyAging
        simp only []
        rw [h1]
        exact moves_refl _
      · unfold Loc applyAging
        simp only []
        rw [h1]
        exact hW.2.1 i
    · left
      exact ⟨h2 hi, Iff.rfl, Iff.rfl, Iff.rfl, fun hc _ => hc⟩
  · exact good_refl s hW

/-! ### Dispatch and preemption -/

theorem selectNextProcess_ready (s : Sim) (i : Int) :
    i ∈ (selectNextProcess s).2.readyQueue ↔
      (i ∈ s.readyQueue ∧ (s.readyQueue ≠ [] → i ≠ (selectNextProcess s).1)) := by
  unfold selectNextProcess
  by_cases h : s.readyQueue = []
  · rw [if_pos h]
    simp [h]
  · rw [if_neg h]
    simp [List.mem_filter, h]

theorem selectNextProcess_slot (s : Sim) :
    (selectNextProcess s).2.currentProcess = s.currentProcess := by
  unfold selectNextProcess
  split <;> rfl

theorem selectStage_good (s : Sim) (hW : WF s) : Good s (selectStage s) := by
  have hpid := pidOk_of_stable _ _ (selectStage_stable s).1 hW.1
  have hm1 : (-1 : Int) ∉ s.readyQueue := by
    intro h
    have hv := loc_valid _ ((hW.2.1 (-1)).1 h) (by decide)
    exact absurd hv.1 (by decide)
  obtain ⟨f1, _, _, f4, f5⟩ := selectNextProcess_frame s
  unfold selectStage at hpid ⊢
  by_cases hc : s.currentProcess = -1
  · rw [if_pos hc] at hpid ⊢
    simp only [] at hpid ⊢
    by_cases hr : (selectNextProcess s).1 ≠ -1
    · rw [if_pos hr] at hpid ⊢
      have hmem : (selectNextProcess s).1 ∈ s.readyQueue :=
        (selectNextProcess_mem s).resolve_left hr
      have hst := (hW.2.1 _).1 hmem
      have hval : ValidPid s.processes (selectNextProcess s).1 := loc_valid _ hst (by decide)
      have hne : s.readyQueue ≠ [] := List.ne_nil_of_mem hmem
      refine good_of_effect _ _ hW hpid (by simp only []; rw [f4]; exact hW.2.2.1)
        (by simp only []; rw [f5]; exact hW.2.2.2) ?_
      intro i
      by_cases hi : i = (selectNextProcess s).1
      · right
        obtain ⟨_, e2, e3, _, e5⟩ := loc_excl (hW.2.1 _) _ hst
        have hidx := (hW.2.1 (selectNextProcess s).1).2.2.2.2.2.2.2
        rw [hi]
        refine ⟨fun hid => hid.1 hmem, ?_, ?_⟩
        · simp only []
          rw [f1, procAt_modifyAt_same _ _ _ hval]
          exact moves_of ProcessState.READY ProcessState.RUNNING hst rfl (by decide)
        · unfold Loc
          simp only []
          rw [f1, f4, f5, procAt_modifyAt_same _ _ _ hval]
          refine locRaw_running _ rfl ?_ (e2 (by decide)) (e3 (by decide))
            (e5 (by decide) (by decide)) hidx
          intro x
          exact ((selectNextProcess_ready s _).mp x).2 hne rfl
      · left
        refine ⟨?_, ?_, by simp only []; rw [f4], by simp only []; rw [f5], ?_⟩
        · simp only []
          rw [f1, procAt_modifyAt_ne _ _ _ _ hi]
        · simp only []
          rw [selectNextProcess_ready]
          exact ⟨fun x => x.1, fun x => ⟨x, fun _ => hi⟩⟩
        · intro hcp _
          exact absurd hcp.symm hi
    · rw [if_neg hr] at hpid ⊢
      have hr2 : (selectNextProcess s).1 = -1 := not_not.mp hr
      refine good_of_effect _ _ hW hpid (by simp only []; rw [f4]; exact hW.2.2.1)
        (by simp only []; rw [f5]; exact hW.2.2.2) ?_
      intro i
      left
      refine ⟨by simp only []; rw [f1], ?_, by simp only []; rw [f4],
        by simp only []; rw [f5], ?_⟩
      · simp only []
        rw [selectNextProcess_ready, hr2]
        refine ⟨fun x => x.1, fun x => ⟨x, fun _ hi => ?_⟩⟩
        rw [hi] at x
        exact hm1 x
      · intro hcp hne
        simp only [] at hcp
        rw [hr2] at hcp
        exact absurd hcp.symm hne
  · rw [if_neg hc]
    exact good_refl s hW

theorem preemptStage_good (s : Sim) (hW : WF s) : Good s (preemptStage s) := by
  have hpid := pidOk_of_stable _ _ (preemptStage_stable s).1 hW.1
  unfold preemptStage at hpid ⊢
  split
  · split
    · rename_i h1 h2
      rw [if_pos h1, if_pos h2] at hpid
      have hst := h2.2
      have hval : ValidPid s.processes s.currentProcess := loc_valid _ hst (by decide)
      obtain ⟨_, e2, e3, _, e5⟩ := loc_excl (hW.2.1 _) _ hst
      have hidx := (hW.2.1 s.currentProcess).2.2.2.2.2.2.2
      refine good_of_effect _ _ hW hpid hW.2.2.1 hW.2.2.2 ?_
      intro i
      by_cases hi : i = s.currentProcess
      · right
        rw [hi]
        refine ⟨fun hid => hid.2.2.2.1 rfl, ?_, ?_⟩
        · simp only []
          rw [procAt_modifyAt_same _ _ _ hval]
          exact moves_of ProcessState.RUNNING ProcessState.READY hst rfl (by decide)
        · unfold Loc
          simp only []
          rw [procAt_modifyAt_same _ _ _ hval]
          exact locRaw_ready _ rfl (e2 (by decide)) (e3 (by decide))
            (fun x => h1.1 x.1.symm) (e5 (by decide) (by decide)) hidx
      · left
        refine ⟨?_, ?_, Iff.rfl, Iff.rfl, ?_⟩
        · simp only []
          exact procAt_modifyAt_ne _ _ _ _ hi
        · simp only [List.mem_append, List.mem_singleton]
          exact ⟨fun x => x.resolve_right hi, Or.inl⟩
        · intro hcp hne
          simp only [] at hcp
          exact absurd hcp.symm hne
    · exact good_refl s hW
  · exact good_refl s hW
/-! ### The retry of waiting processes -/

theorem sameAt_trans {a b c : Sim} {i : Int} (h1 : SameAt a b i) (h2 : SameAt b c i) :
    SameAt a c i :=
  ⟨h2.1.trans h1.1, h2.2.1.trans h1.2.1, h2.2.2.1.trans h1.2.2.1,
    h2.2.2.2.1.trans h1.2.2.2.1, fun hc hn => h1.2.2.2.2 (h2.2.2.2.2 hc hn) hn⟩

/-- One visit of the loop of `processWaiting`, seen on the state whose waiting
queue is `tempQueue` followed by the entries still to visit. -/
theorem waitingVisit_pass (s : Sim) (acc : Sim × List Int) (x : Int) (xs : List Int)
    (h : WaitingPass s { acc.1 with waitingQueue := acc.2 ++ x :: xs }) :
    WaitingPass s { (waitingVisit acc x).1 with waitingQueue := (waitingVisit acc x).2 ++ xs } := by
  have hrest : ({ acc.1 with waitingQueue := (acc.2 ++ [x]) ++ xs } : Sim) =
      { acc.1 with waitingQueue := acc.2 ++ x :: xs } := by
    rw [List.append_assoc, List.singleton_append]
  obtain ⟨hW, hall⟩ := h
  have hxm : x ∈ acc.2 ++ x :: xs := by simp
  obtain ⟨hst, hat⟩ := (hW.2.1 x).2.2.1 hxm
  have hst2 : (procAt acc.1.processes x).state = ProcessState.WAITING := hst
  have hval : ValidPid acc.1.processes x := loc_valid _ hst (by decide)
  have hnd : (acc.2 ++ x :: xs).Nodup := hW.2.2.2
  have hnx : x ∉ acc.2 ++ xs := by
    have h1 := List.nodup_append.mp hnd
    have h2 := List.nodup_cons.mp h1.2.1
    intro hx
    rcases List.mem_append.mp hx with hx | hx
    · exact h1.2.2 hx (List.mem_cons_self _ _)
    · exact h2.1 hx
  have hnd2 : (acc.2 ++ xs).Nodup := by
    have h1 := List.nodup_append.mp hnd
    refine List.nodup_append.mpr ⟨h1.1, (List.nodup_cons.mp h1.2.1).2, ?_⟩
    intro a ha hb
    exact h1.2.2 ha (List.mem_cons_of_mem _ hb)
  have hv : waitingVisit acc x =
      if (procAt acc.1.processes x).waitingForResource ≠ -1 then
        if (acc.1.resources (procAt acc.1.processes x).waitingForResource).availableInstances ≥
            (procAt acc.1.processes x).waitingForAmount then
          ({ acc.1 with
             resources := addAvailable acc.1.resources
               (procAt acc.1.processes x).waitingForResource
               (-(procAt acc.1.processes x).waitingForAmount)
             processes := modifyAt acc.1.processes x
               (fun q => { q with
                 heldResources := addHeld q.heldResources
                   (procAt acc.1.processes x).waitingForResource
                   (procAt acc.1.processes x).waitingForAmount,
                 waitingForResource := -1,
                 waitingForAmount := 0,
                 currentOperationIndex := q.currentOperationIndex + 1,
                 state := ProcessState.READY })
             readyQueue := acc.1.readyQueue ++ [x] }, acc.2)
        else (acc.1, acc.2 ++ [x])
      else (acc.1, acc.2 ++ [x]) := rfl
  rw [hv]
  by_cases hw : (procAt acc.1.processes x).waitingForResource ≠ -1
  · rw [if_pos hw]
    by_cases hg : (acc.1.resources (procAt acc.1.processes x).waitingForResource).availableInstances
        ≥ (procAt acc.1.processes x).waitingForAmount
    · rw [if_pos hg]
      simp only []
      obtain ⟨e1, e2, _, e4, _⟩ := loc_excl (hW.2.1 x) _ hst
      have hgood : Good { acc.1 with waitingQueue := acc.2 ++ x :: xs }
          { acc.1 with
             resources := addAvailable acc.1.resources
               (procAt acc.1.processes x).waitingForResource
               (-(procAt acc.1.processes x).waitingForAmount)
             processes := modifyAt acc.1.processes x
               (fun q => { q with
                 heldResources := addHeld q.heldResources
                   (procAt acc.1.processes x).waitingForResource
                   (procAt acc.1.processes x).waitingForAmount,
                 waitingForResource := -1,
                 waitingForAmount := 0,
                 currentOperationIndex := q.currentOperationIndex + 1,
                 state := ProcessState.READY })
             readyQueue := acc.1.readyQueue ++ [x]
             waitingQueue := acc.2 ++ xs } := by
        refine good_of_effect _ _ hW ?_ hW.2.2.1 hnd2 ?_
        · refine pidOk_of_stable _ _ ?_ hW.1
          simp only []
          exact stable_step _ _ _ _ rfl (fun _ => rfl)
        · intro i
          by_cases hi : i = x
          · right
            rw [hi]
            refine ⟨fun hid => hid.2.2.1 hxm, ?_, ?_⟩
            · simp only []
              rw [procAt_modifyAt_same _ _ _ hval]
              exact moves_of ProcessState.WAITING ProcessState.READY hst2 rfl (by decide)
            · unfold Loc
              simp only []
              rw [procAt_modifyAt_same _ _ _ hval]
              refine locRaw_ready _ rfl (e2 (by decide)) hnx (e4 (by decide)) rfl
                ⟨Nat.le_of_lt hat.1, fun _ => hat.2⟩
          · left
            refine ⟨?_, ?_, Iff.rfl, ?_, fun hc _ => hc⟩
            · simp only []
              exact procAt_modifyAt_ne _ _ _ _ hi
            · simp only [List.mem_append, List.mem_singleton]
              exact ⟨fun y => y.resolve_right hi, Or.inl⟩
            · simp only [List.mem_append, List.mem_cons]
              constructor
              · rintro (y | y)
                · exact Or.inl y
                · exact Or.inr (Or.inr y)
              · rintro (y | y | y)
                · exact Or.inl y
                · exact absurd y hi
                · exact Or.inr y
      refine ⟨hgood.1, ?_⟩
      intro i
      by_cases hi : i = x
      · right
        rw [hi]
        rcases hall x with hs | hs
        · refine ⟨hnx, fun hid => hid.2.2.1 (hs.2.2.2.1.mp hxm), ?_⟩
          have h1 := hgood.2.1 x
          have h2 : (procAt s.processes x).state = (procAt acc.1.processes x).state := by
            rw [← hs.1]
          rw [h2]
          exact h1
        · exact absurd hxm hs.1
      · have hsame : SameAt { acc.1 with waitingQueue := acc.2 ++ x :: xs }
            { acc.1 with
               resources := addAvailable acc.1.resources
                 (procAt acc.1.processes x).waitingForResource
                 (-(procAt acc.1.processes x).waitingForAmount)
               processes := modifyAt acc.1.processes x
                 (fun q => { q with
                   heldResources := addHeld q.heldResources
                     (procAt acc.1.processes x).waitingForResource
                     (procAt acc.1.processes x).waitingForAmount,
                   waitingForResource := -1,
                   waitingForAmount := 0,
                   currentOperationIndex := q.currentOperationIndex + 1,
                   state := ProcessState.READY })
               readyQueue := acc.1.readyQueue ++ [x]
               waitingQueue := acc.2 ++ xs } i := by
          refine ⟨?_, ?_, Iff.rfl, ?_, fun hc _ => hc⟩
          · simp only []
            exact procAt_modifyAt_ne _ _ _ _ hi
          · simp only [List.mem_append, List.mem_singleton]
            exact ⟨fun y => y.resolve_right hi, Or.inl⟩
          · simp only [List.mem_append, List.mem_cons]
            constructor
            · rintro (y | y)
              · exact Or.inl y
              · exact Or.inr (Or.inr y)
            · rintro (y | y | y)
              · exact Or.inl y
              · exact absurd y hi
              · exact Or.inr y
        rcases hall i with hs | hs
        · exact Or.inl (sameAt_trans hs hsame)
        · right
          refine ⟨fun y => hs.1 (hsame.2.2.2.1.mp y), hs.2.1, ?_⟩
          rw [hsame.1]
          exact hs.2.2
    · rw [if_neg hg]
      simp only []
      rw [hrest]
      exact ⟨hW, hall⟩
  · rw [if_neg hw]
    simp only []
    rw [hrest]
    exact ⟨hW, hall⟩

theorem foldl_waitingVisit_pass (s : Sim) (l : List Int) :
    ∀ acc : Sim × List Int, WaitingPass s { acc.1 with waitingQueue := acc.2 ++ l } →
      WaitingPass s { (l.foldl waitingVisit acc).1 with
        waitingQueue := (l.foldl waitingVisit acc).2 } := by
  induction l with
  | nil =>
    intro acc h
    rw [List.append_nil] at h
    exact h
  | cons x xs ih =>
    intro acc h
    rw [List.foldl_cons]
    exact ih _ (waitingVisit_pass s acc x xs h)

theorem processWaiting_good (s : Sim) (hW : WF s) : Good s (processWaiting s) := by
  have h0 : WaitingPass s
      { ({ s with waitingQueue := [] }, ([] : List Int)).1 with
        waitingQueue := ({ s with waitingQueue := [] }, ([] : List Int)).2 ++ s.waitingQueue } :=
    ⟨hW, fun i => Or.inl ⟨rfl, Iff.rfl, Iff.rfl, Iff.rfl, fun hc _ => hc⟩⟩
  have h1 := foldl_waitingVisit_pass s s.waitingQueue _ h0
  have h2 : WaitingPass s (processWaiting s) := h1
  refine good_of_effect _ _ hW h2.1.1 h2.1.2.2.1 h2.1.2.2.2 ?_
  intro i
  rcases h2.2 i with h | h
  · exact Or.inl h
  · exact Or.inr ⟨h.2.1, h.2.2, h2.1.2.1 i⟩
/-! ### Execution -/

theorem mem_snoc_ne {i c : Int} (l : List Int) (h : i ≠ c) : i ∈ l ++ [c] ↔ i ∈ l := by
  simp only [List.mem_append, List.mem_singleton]
  exact ⟨fun y => y.resolve_right h, Or.inl⟩

/-- A stage that touches only the running process `c`, leaving it running,
or moving it to the I/O queue, to the waiting queue or to termination. -/
theorem good_of_run (a b : Sim) (c : Int) (hW : WF a) (hc : a.currentProcess = c)
    (hn : c ≠ -1) (hpid : PidOk b.processes) (hr : b.readyQueue = a.readyQueue)
    (hp : ∀ i : Int, i ≠ c → procAt b.processes i = procAt a.processes i)
    (hnew :
      ((procAt b.processes c).state = ProcessState.RUNNING ∧ b.currentProcess = c ∧
        b.ioQueue = a.ioQueue ∧ b.waitingQueue = a.waitingQueue ∧
        (procAt b.processes c).waitingForResource = -1 ∧ IndexOk (procAt b.processes c)) ∨
      ((procAt b.processes c).state = ProcessState.IO_ ∧ b.currentProcess = -1 ∧
        b.ioQueue = a.ioQueue ++ [c] ∧ b.waitingQueue = a.waitingQueue ∧
        (procAt b.processes c).waitingForResource = -1 ∧
        (procAt b.processes c).currentBurstIndex < (procAt b.processes c).bursts.length ∧
        IndexOk (procAt b.processes c)) ∨
      ((procAt b.processes c).state = ProcessState.WAITING ∧ b.currentProcess = -1 ∧
        b.ioQueue = a.ioQueue ∧ b.waitingQueue = a.waitingQueue ++ [c] ∧
        AtOp (procAt b.processes c)) ∨
      ((procAt b.processes c).state = ProcessState.TERMINATED ∧ b.currentProcess = -1 ∧
        b.ioQueue = a.ioQueue ∧ b.waitingQueue = a.waitingQueue ∧
        (∀ r, (procAt b.processes c).heldResources r = 0) ∧
        IndexOk (procAt b.processes c))) : Good a b := by
  have hst : (procAt a.processes c).state = ProcessState.RUNNING :=
    (hW.2.1 c).2.2.2.1 ⟨hc, hn⟩
  obtain ⟨e1, e2, e3, _, _⟩ := loc_excl (hW.2.1 c) _ hst
  have e1 := e1 (by decide)
  have e2 := e2 (by decide)
  have e3 := e3 (by decide)
  have hio : b.ioQueue = a.ioQueue ∨ b.ioQueue = a.ioQueue ++ [c] := by
    rcases hnew with h | h | h | h
    · exact Or.inl h.2.2.1
    · exact Or.inr h.2.2.1
    · exact Or.inl h.2.2.1
    · exact Or.inl h.2.2.1
  have hwq : b.waitingQueue = a.waitingQueue ∨ b.waitingQueue = a.waitingQueue ++ [c] := by
    rcases hnew with h | h | h | h
    · exact Or.inl h.2.2.2.1
    · exact Or.inl h.2.2.2.1
    · exact Or.inr h.2.2.2.1
    · exact Or.inl h.2.2.2.1
  have hcp : b.currentProcess = c ∨ b.currentProcess = -1 := by
    rcases hnew with h | h | h | h
    · exact Or.inl h.2.1
    · exact Or.inr h.2.1
    · exact Or.inr h.2.1
    · exact Or.inr h.2.1
  have hsnoc : ∀ l : List Int, l.Nodup → c ∉ l → (l ++ [c]).Nodup := by
    intro l hl hcl
    refine List.nodup_append.mpr ⟨hl, List.nodup_singleton c, ?_⟩
    intro x hx hx2
    rw [List.mem_singleton] at hx2
    rw [hx2] at hx
    exact hcl hx
  have hnI : b.ioQueue.Nodup := by
    rcases hio with h | h
    · rw [h]; exact hW.2.2.1
    · rw [h]; exact hsnoc _ hW.2.2.1 e2
  have hnW : b.waitingQueue.Nodup := by
    rcases hwq with h | h
    · rw [h]; exact hW.2.2.2
    · rw [h]; exact hsnoc _ hW.2.2.2 e3
  refine good_of_effect _ _ hW hpid hnI hnW ?_
  intro i
  by_cases hi : i = c
  · right
    rw [hi]
    refine ⟨fun hid => hid.2.2.2.1 hc, ?_, ?_⟩
    · rcases hnew with h | h | h | h
      · exact moves_of ProcessState.RUNNING ProcessState.RUNNING hst h.1 (by decide)
      · exact moves_of ProcessState.RUNNING ProcessState.IO_ hst h.1 (by decide)
      · exact moves_of ProcessState.RUNNING ProcessState.WAITING hst h.1 (by decide)
      · exact moves_of ProcessState.RUNNING ProcessState.TERMINATED hst h.1 (by decide)
    · unfold Loc
      rw [hr]
      rcases hnew with h | h | h | h
      · rw [h.2.2.1, h.2.2.2.1]
        exact locRaw_running _ h.1 e1 e2 e3 h.2.2.2.2.1 h.2.2.2.2.2
      · rw [h.2.2.2.1, h.2.1]
        exact locRaw_io _ h.1 e1 (fun _ => h.2.2.2.2.2.1) e3 (fun x => hn x.1.symm)
          h.2.2.2.2.1 h.2.2.2.2.2.2
      · rw [h.2.2.1, h.2.1, h.2.2.2.1]
        exact locRaw_waiting _ h.1 e1 e2 (by simp) h.2.2.2.2 (fun x => hn x.1.symm)
      · rw [h.2.2.1, h.2.1, h.2.2.2.1]
        exact locRaw_terminated _ h.1 e1 e2 e3 (fun x => hn x.1.symm) h.2.2.2.2.1
          h.2.2.2.2.2
  · left
    refine ⟨hp i hi, by rw [hr], ?_, ?_, ?_⟩
    · rcases hio with h | h
      · rw [h]
      · rw [h]; exact mem_snoc_ne _ hi
    · rcases hwq with h | h
      · rw [h]
      · rw [h]; exact mem_snoc_ne _ hi
    · intro hb hne
      rcases hcp with h | h
      · rw [h] at hb; exact absurd hb.symm hi
      · rw [h] at hb; exact absurd hb.symm hne
theorem executeProcess_good (s : Sim) (hW : WF s) (hn : s.currentProcess ≠ -1) :
    Good s (executeProcess s) := by
  have hst : (procAt s.processes s.currentProcess).state = ProcessState.RUNNING :=
    (hW.2.1 _).2.2.2.1 ⟨rfl, hn⟩
  have hval : ValidPid s.processes s.currentProcess := loc_valid _ hst (by decide)
  have hpidc : (procAt s.processes s.currentProcess).pid = s.currentProcess := hW.1 _ hval
  have hwfr : (procAt s.processes s.currentProcess).waitingForResource = -1 :=
    (loc_excl (hW.2.1 _) _ hst).2.2.2.2 (by decide) (by decide)
  have hidx : IndexOk (procAt s.processes s.currentProcess) := (hW.2.1 _).2.2.2.2.2.2.2
  obtain ⟨b, hb⟩ : ∃ b, b = executeProcess s := ⟨_, rfl⟩
  rw [← hb]
  have hpid : PidOk b.processes := by
    rw [hb]; exact pidOk_of_stable _ _ (executeProcess_stable s).1 hW.1
  unfold executeProcess at hb
  rw [if_neg hn] at hb
  simp only [] at hb
  rw [hpidc] at hb
  split at hb
  · -- the bursts are exhausted
    subst hb
    refine good_of_run _ _ s.currentProcess hW rfl hn hpid rfl ?_ (Or.inr (Or.inr (Or.inr ?_)))
    · intro i hi
      simp only []
      exact procAt_modifyAt_ne _ _ _ _ hi
    · simp only []
      rw [procAt_modifyAt_same _ _ _ hval]
      exact ⟨by trivial, by trivial, by trivial, by trivial, fun _ => rfl, hidx⟩
  · rename_i hbi
    have hbi2 : (procAt s.processes s.currentProcess).currentBurstIndex <
        (procAt s.processes s.currentProcess).bursts.length := by omega
    split at hb
    · -- the guard for an I/O burst
      rw [hb]
      exact good_refl s hW
    · split at hb
      · -- the burst is finished
        rename_i hop
        split at hb
        · -- next burst is an I/O burst
          rename_i hnext
          subst hb
          refine good_of_run _ _ s.currentProcess hW rfl hn hpid rfl ?_ (Or.inr (Or.inl ?_))
          · intro i hi
            simp only []
            split
            · rw [procAt_modifyAt_ne _ _ _ _ hi, procAt_modifyAt_ne _ _ _ _ hi,
                procAt_modifyAt_ne _ _ _ _ hi]
            · rw [procAt_modifyAt_ne _ _ _ _ hi, procAt_modifyAt_ne _ _ _ _ hi]
          · simp only []
            split
            · simp only [modifyAt_modifyAt]
              rw [procAt_modifyAt_same _ _ _ hval]
              exact ⟨by trivial, by trivial, by trivial, by trivial, hwfr, hnext.1, Nat.le_of_lt hnext.1,
                fun _ => Nat.zero_le _⟩
            · simp only [modifyAt_modifyAt]
              rw [procAt_modifyAt_same _ _ _ hval]
              exact ⟨by trivial, by trivial, by trivial, by trivial, hwfr, hnext.1, Nat.le_of_lt hnext.1,
                fun _ => Nat.zero_le _⟩
        · split at hb
          · -- no burst is left
            rename_i hlast
            subst hb
            refine good_of_run _ _ s.currentProcess hW rfl hn hpid rfl ?_
              (Or.inr (Or.inr (Or.inr ?_)))
            · intro i hi
              simp only []
              rw [procAt_modifyAt_ne _ _ _ _ hi, procAt_modifyAt_ne _ _ _ _ hi]
            · simp only [modifyAt_modifyAt]
              rw [procAt_modifyAt_same _ _ _ hval]
              refine ⟨by trivial, by trivial, by trivial, by trivial, fun _ => rfl, ?_, fun h => ?_⟩
              · exact hbi2
              · exact absurd h (by simp only []; omega)
          · -- next burst is a CPU burst
            rename_i hlast
            subst hb
            refine good_of_run _ _ s.currentProcess hW rfl hn hpid rfl ?_ (Or.inl ?_)
            · intro i hi
              simp only []
              rw [procAt_modifyAt_ne _ _ _ _ hi]
            · simp only []
              rw [procAt_modifyAt_same _ _ _ hval]
              exact ⟨hst, by trivial, by trivial, by trivial, hwfr, hbi2, fun _ => Nat.zero_le _⟩
      · -- an operation of the burst
        rename_i hop
        have hop2 : (procAt s.processes s.currentProcess).currentOperationIndex <
            ((procAt s.processes s.currentProcess).bursts.getD
              (procAt s.processes s.currentProcess).currentBurstIndex []).length := by omega
        split at hb
        · -- REQUEST
          unfold requestResource at hb
          split at hb
          · simp only [if_true] at hb
            subst hb
            refine good_of_run _ _ s.currentProcess hW rfl hn hpid rfl ?_ (Or.inl ?_)
            · intro i hi
              simp only []
              rw [procAt_modifyAt_ne _ _ _ _ hi, procAt_modifyAt_ne _ _ _ _ hi]
            · simp only [modifyAt_modifyAt]
              rw [procAt_modifyAt_same _ _ _ hval]
              exact ⟨hst, by trivial, by trivial, by trivial, hwfr, hidx.1,
                fun _ => hop2⟩
          · simp only [Bool.false_eq_true, if_false] at hb
            subst hb
            refine good_of_run _ _ s.currentProcess hW rfl hn hpid rfl ?_
              (Or.inr (Or.inr (Or.inl ?_)))
            · intro i hi
              simp only []
              rw [procAt_modifyAt_ne _ _ _ _ hi, procAt_modifyAt_ne _ _ _ _ hi]
            · simp only [modifyAt_modifyAt]
              rw [procAt_modifyAt_same _ _ _ hval]
              exact ⟨by trivial, by trivial, by trivial, by trivial, hbi2, hop2⟩
        · -- RELEASE
          unfold releaseResource at hb
          split at hb
          · subst hb
            refine good_of_run _ _ s.currentProcess hW rfl hn hpid rfl ?_ (Or.inl ?_)
            · intro i hi
              simp only []
              rw [procAt_modifyAt_ne _ _ _ _ hi, procAt_modifyAt_ne _ _ _ _ hi]
            · simp only [modifyAt_modifyAt]
              rw [procAt_modifyAt_same _ _ _ hval]
              exact ⟨hst, by trivial, by trivial, by trivial, hwfr, hidx.1,
                fun _ => hop2⟩
          · subst hb
            refine good_of_run _ _ s.currentProcess hW rfl hn hpid rfl ?_ (Or.inl ?_)
            · intro i hi
              simp only []
              rw [procAt_modifyAt_ne _ _ _ _ hi]
            · simp only []
              rw [procAt_modifyAt_same _ _ _ hval]
              exact ⟨hst, by trivial, by trivial, by trivial, hwfr, hidx.1,
                fun _ => hop2⟩
        · -- EXEC
          subst hb
          refine good_of_run _ _ s.currentProcess hW rfl hn hpid rfl ?_ (Or.inl ?_)
          · intro i hi
            simp only []
            rw [procAt_modifyAt_ne _ _ _ _ hi, procAt_modifyAt_ne _ _ _ _ hi,
              procAt_modifyAt_ne _ _ _ _ hi]
          · simp only [modifyAt_modifyAt]
            rw [procAt_modifyAt_same _ _ _ hval]
            split <;> split <;>
              exact ⟨hst, by trivial, by trivial, by trivial, hwfr, hidx.1,
                fun _ => by first | exact hop2 | exact Nat.le_of_lt hop2⟩

theorem executeStage_good (s : Sim) (hW : WF s) : Good s (executeStage s) := by
  unfold executeStage
  split
  · rename_i hn
    have h := executeProcess_good s hW hn
    exact ⟨⟨h.1.1, h.1.2.1, h.1.2.2.1, h.1.2.2.2⟩, h.2.1, h.2.2⟩
  · exact good_refl s hW
/-! ### A whole pass and a whole run -/

theorem recovery_to_deadlock_good (s : Sim) (hW : WF (recoveryStage s)) :
    Good (recoveryStage s) (deadlockStage s) := by
  rw [deadlockStage_eq]
  split
  · exact processWaiting_good _ hW
  · rename_i h
    have e : recoveryStage s = s := by
      unfold recoveryStage
      rw [if_neg h]
    rw [e] at hW ⊢
    exact good_refl s hW

theorem allDone_waiting (s : Sim) (hW : WF s) (h : allDone s = true) : noProgress s = false := by
  by_contra hn
  have hn2 : noProgress s = true := by simpa using hn
  obtain ⟨_, _, _, hw⟩ := (noProgress_iff s).mp hn2
  obtain ⟨q, hq⟩ := List.exists_mem_of_ne_nil _ hw
  obtain ⟨hst, _⟩ := (hW.2.1 q).2.2.1 hq
  have hv : ValidPid s.processes q := loc_valid _ hst (by decide)
  have hf : allDone s = false :=
    (allDone_false_iff s).mpr ⟨procAt s.processes q, procAt_mem _ _ hv, by rw [hst]; decide⟩
  rw [h] at hf
  exact absurd hf (by decide)

theorem finishTick_tail_good (s : Sim) (hW : WF s) :
    Good (stuckStage s) (finishTick s).1 := by
  have hS := (stuckStage_good s hW).1
  rcases finishTick_cases s with ⟨h1, _, _, _⟩ | ⟨_, h2, h3, h4⟩ | ⟨_, _, h3, _⟩
  · have e : stuckStage s = s := stuckStage_of_progress s (allDone_waiting s hW h1)
    rw [e]
    unfold finishTick
    rw [if_pos h1]
    exact good_of_frame _ _ hW rfl rfl rfl rfl rfl
  · have e : stuckStage s = s := by
      unfold stuckStage
      rw [h3]
      simp
    rw [e, h4]
    exact good_refl s hW
  · rw [h3]
    exact good_of_frame _ _ hS rfl rfl rfl rfl rfl

/-- The stages of a pass that starts in a state satisfying the invariant form
a chain of good steps. -/
theorem tickTrace_step_chain (s : Sim) (hW : WF s) : List.Chain' Step (s :: tickTrace s) := by
  have g1 := checkNewArrivals_good s hW
  have g2 := processIO_good _ g1.1
  have g3 := processWaiting_good _ g2.1
  have g4 := recoveryStage_good _ g3.1
  have g5 := recovery_to_deadlock_good _ g4.1
  have g6 := agingStage_good _ g5.1
  have g7 := selectStage_good _ g6.1
  have g8 := ganttStage_good _ g7.1
  have g9 := executeStage_good _ g8.1
  have g10 := preemptStage_good _ g9.1
  have g11 := stuckStage_good _ g10.1
  have g12 := finishTick_tail_good _ g10.1
  unfold tickTrace
  simp only [List.chain'_cons, List.chain'_singleton, and_true]
  exact ⟨⟨hW, g1⟩, ⟨g1.1, g2⟩, ⟨g2.1, g3⟩, ⟨g3.1, g4⟩, ⟨g4.1, g5⟩, ⟨g5.1, g6⟩, ⟨g6.1, g7⟩,
    ⟨g7.1, g8⟩, ⟨g8.1, g9⟩, ⟨g9.1, g10⟩, ⟨g10.1, g11⟩, ⟨g11.1, g12⟩⟩

theorem tickTrace_wf (s : Sim) (hW : WF s) : ∀ t ∈ s :: tickTrace s, WF t := by
  have hc := tickTrace_step_chain s hW
  unfold tickTrace at hc ⊢
  simp only [List.chain'_cons, List.chain'_singleton, and_true] at hc
  obtain ⟨c1, c2, c3, c4, c5, c6, c7, c8, c9, c10, c11, c12⟩ := hc
  intro t ht
  simp only [List.mem_cons, List.mem_singleton, List.not_mem_nil, or_false] at ht
  rcases ht with rfl | rfl | rfl | rfl | rfl | rfl | rfl | rfl | rfl | rfl | rfl | rfl | rfl
  · exact hW
  · exact c1.2.1
  · exact c2.2.1
  · exact c3.2.1
  · exact c4.2.1
  · exact c5.2.1
  · exact c6.2.1
  · exact c7.2.1
  · exact c8.2.1
  · exact c9.2.1
  · exact c10.2.1
  · exact c11.2.1
  · exact c12.2.1

theorem tick_wf (s : Sim) (hW : WF s) : WF (tick s).1 :=
  tickTrace_wf s hW _ (List.mem_cons_of_mem _ (tick_mem_tickTrace s).2)

theorem simulateLoop_wf (n : Nat) : ∀ s : Sim, WF s → WF (simulateLoop n s).1 := by
  induction n with
  | zero => intro s h; exact h
  | succ k ih =>
    intro s h
    by_cases hx : (tick s).2.isSome = true
    · rw [show simulateLoop (k + 1) s = tick s by rw [simulateLoop, if_pos hx]]
      exact tick_wf s h
    · rw [show simulateLoop (k + 1) s = simulateLoop k (tick s).1 by
        rw [simulateLoop, if_neg hx]]
      exact ih _ (tick_wf s h)

theorem loaded_procAt (ps : List Process) (hl : Loaded ps) (i : Int) :
    (ValidPid ps i → (procAt ps i).pid = i) ∧
    (procAt ps i).state = ProcessState.NEW ∧
    (procAt ps i).currentBurstIndex = 0 ∧
    (procAt ps i).currentOperationIndex = 0 ∧
    (procAt ps i).waitingForResource = -1 := by
  by_cases hv : ValidPid ps i
  · have hlt : i.toNat < ps.length := by
      have := hv.1; have := hv.2; omega
    have h := hl i.toNat (List.mem_range.mpr hlt)
    have e : procAt ps i = ps.getD i.toNat default := by
      unfold procAt
      rw [if_pos hv.1]
    rw [e]
    refine ⟨fun _ => ?_, h.2.1, h.2.2.1, h.2.2.2.1, h.2.2.2.2⟩
    rw [h.1]
    exact Int.toNat_of_nonneg hv.1
  · rw [procAt_of_not_valid _ _ hv]
    exact ⟨fun h => absurd h hv, rfl, rfl, rfl, rfl⟩

theorem initialSim_wf (total : Int → Int) (ps : List Process) (hl : Loaded ps) :
    WF (initialSim total ps) := by
  refine ⟨fun i hv => (loaded_procAt ps hl i).1 hv, ?_, List.nodup_nil, List.nodup_nil⟩
  intro i
  obtain ⟨_, h2, h3, h4, h5⟩ := loaded_procAt ps hl i
  have h2a : (procAt (initialSim total ps).processes i).state = ProcessState.NEW := h2
  have h3a : (procAt (initialSim total ps).processes i).currentBurstIndex = 0 := h3
  have h4a : (procAt (initialSim total ps).processes i).currentOperationIndex = 0 := h4
  have h5a : (procAt (initialSim total ps).processes i).waitingForResource = -1 := h5
  refine ⟨fun x => ?_, fun x => ?_, fun x => ?_, fun x => ?_, fun x => ?_, fun x => absurd h5a x,
    fun x => ?_, ?_, ?_⟩
  · exact absurd x (List.not_mem_nil i)
  · exact absurd x (List.not_mem_nil i)
  · exact absurd x (List.not_mem_nil i)
  · exact absurd x.1.symm x.2
  · rw [h2a] at x; exact absurd x (by decide)
  · rw [h2a] at x; exact absurd x (by decide)
  · rw [h3a]; exact Nat.zero_le _
  · intro _; rw [h4a]; exact Nat.zero_le _

/-- Every state of every pass of a run on a loaded table satisfies the
invariant, and the stages of every pass form a chain of good steps. -/
theorem run_wf (total : Int → Int) (ps : List Process) (hl : Loaded ps) (fuel : Nat) :
    WF (simulateLoop fuel (initialSim total ps)).1 :=
  simulateLoop_wf fuel _ (initialSim_wf total ps hl)

/-! ### Processes out of reach -/

/-- Along a chain of the stages of a pass, a reflexive and transitive relation
links the head of the pass to every state of the pass, every state to the end
of the pass, and the state after `processIO` to every later state. -/
theorem trace_ends (R : Sim → Sim → Prop) (hr : ∀ a, R a a)
    (htr : ∀ a b c, R a b → R b c → R a c) (s : Sim)
    (hc : List.Chain' R (s :: tickTrace s)) :
    (∀ t ∈ s :: tickTrace s, R s t ∧ R t (tick s).1) ∧
    (∀ u ∈ (tickTrace s).drop 1, R (Sched.processIO (checkNewArrivals s)) u) := by
  unfold tickTrace at hc ⊢
  simp only [List.chain'_cons, List.chain'_singleton, and_true] at hc
  obtain ⟨c1, c2, c3, c4, c5, c6, c7, c8, c9, c10, c11, c12⟩ := hc
  have f2 := htr _ _ _ c1 c2
  have f3 := htr _ _ _ f2 c3
  have f4 := htr _ _ _ f3 c4
  have f5 := htr _ _ _ f4 c5
  have f6 := htr _ _ _ f5 c6
  have f7 := htr _ _ _ f6 c7
  have f8 := htr _ _ _ f7 c8
  have f9 := htr _ _ _ f8 c9
  have f10 := htr _ _ _ f9 c10
  have f11 := htr _ _ _ f10 c11
  have f12 := htr _ _ _ f11 c12
  have e11 := c12
  have e10 := htr _ _ _ c11 e11
  have e9 := htr _ _ _ c10 e10
  have e8 := htr _ _ _ c9 e9
  have e7 := htr _ _ _ c8 e8
  have e6 := htr _ _ _ c7 e7
  have e5 := htr _ _ _ c6 e6
  have e4 := htr _ _ _ c5 e5
  have e3 := htr _ _ _ c4 e4
  have e2 := htr _ _ _ c3 e3
  have e1 := htr _ _ _ c2 e2
  have g4 := htr _ _ _ c3 c4
  have g5 := htr _ _ _ g4 c5
  have g6 := htr _ _ _ g5 c6
  have g7 := htr _ _ _ g6 c7
  have g8 := htr _ _ _ g7 c8
  have g9 := htr _ _ _ g8 c9
  have g10 := htr _ _ _ g9 c10
  have g11 := htr _ _ _ g10 c11
  constructor
  · intro t ht
    simp only [List.mem_cons, List.mem_singleton, List.not_mem_nil, or_false] at ht
    unfold tick tickBody
    rcases ht with rfl | rfl | rfl | rfl | rfl | rfl | rfl | rfl | rfl | rfl | rfl | rfl | rfl
    · exact ⟨hr _, f12⟩
    · exact ⟨c1, e1⟩
    · exact ⟨f2, e2⟩
    · exact ⟨f3, e3⟩
    · exact ⟨f4, e4⟩
    · exact ⟨f5, e5⟩
    · exact ⟨f6, e6⟩
    · exact ⟨f7, e7⟩
    · exact ⟨f8, e8⟩
    · exact ⟨f9, e9⟩
    · exact ⟨f10, e10⟩
    · exact ⟨f11, e11⟩
    · exact ⟨f12, hr _⟩
  · intro u hu
    simp only [List.drop_succ_cons, List.drop_zero, List.mem_cons, List.mem_singleton,
      List.not_mem_nil, or_false] at hu
    rcases hu with rfl | rfl | rfl | rfl | rfl | rfl | rfl | rfl | rfl | rfl | rfl
    · exact hr _
    · exact c3
    · exact g4
    · exact g5
    · exact g6
    · exact g7
    · exact g8
    · exact g9
    · exact g10
    · exact g11
    · exact e2

theorem frozen_refl (a : Sim) : Frozen a a := fun _ h => ⟨rfl, h⟩

theorem frozen_trans (a b c : Sim) (h1 : Frozen a b) (h2 : Frozen b c) : Frozen a c := by
  intro i hi
  obtain ⟨e1, i1⟩ := h1 i hi
  obtain ⟨e2, i2⟩ := h2 i i1
  exact ⟨e2.trans e1, i2⟩

theorem tickTrace_frozen (s : Sim) (hW : WF s) :
    (∀ t ∈ s :: tickTrace s, Frozen s t ∧ Frozen t (tick s).1) ∧
    (∀ u ∈ (tickTrace s).drop 1, Frozen (Sched.processIO (checkNewArrivals s)) u) :=
  trace_ends Frozen frozen_refl frozen_trans s
    (List.Chain'.imp (fun _ _ h => h.2.2.2) (tickTrace_step_chain s hW))

theorem simulateLoop_frozen (n : Nat) : ∀ s : Sim, WF s → Frozen s (simulateLoop n s).1 := by
  induction n with
  | zero => intro s _; exact frozen_refl s
  | succ k ih =>
    intro s h
    have ht := ((tickTrace_frozen s h).1 s (List.mem_cons_self _ _)).2
    by_cases hx : (tick s).2.isSome = true
    · rw [show simulateLoop (k + 1) s = tick s by rw [simulateLoop, if_pos hx]]
      exact ht
    · rw [show simulateLoop (k + 1) s = simulateLoop k (tick s).1 by
        rw [simulateLoop, if_neg hx]]
      exact frozen_trans _ _ _ ht (ih _ (tick_wf s h))

/-- A process frozen from some state of a pass on keeps its record in every
state of every later pass. -/
theorem frozen_later (s t : Sim) (hW : WF s) (ht : t ∈ s :: tickTrace s) (m : Nat) :
    ∀ u ∈ (simulateLoop m (tick s).1).1 :: tickTrace (simulateLoop m (tick s).1).1,
      Frozen t u := by
  intro u hu
  have h1 := ((tickTrace_frozen s hW).1 t ht).2
  have h2 := simulateLoop_frozen m _ (tick_wf s hW)
  have h3 := ((tickTrace_frozen _ (simulateLoop_wf m _ (tick_wf s hW))).1 u hu).1
  exact frozen_trans _ _ _ h1 (frozen_trans _ _ _ h2 h3)

theorem idle_of_terminated (s : Sim) (hW : WF s) (i : Int)
    (h : (procAt s.processes i).state = ProcessState.TERMINATED) : Idle s i := by
  obtain ⟨e1, e2, e3, e4, _⟩ := loc_excl (hW.2.1 i) _ h
  refine ⟨e1 (by decide), e2 (by decide), e3 (by decide), ?_, by rw [h]; decide⟩
  intro hc
  refine e4 (by decide) ⟨hc, ?_⟩
  intro hm
  have hv := loc_valid _ h (by decide)
  rw [hm] at hv
  exact absurd hv.1 (by decide)

theorem termKept_of_frozen (a b : Sim) (hW : WF a) (h : Frozen a b) : TermKept a b :=
  fun i hi => (h i (idle_of_terminated a hW i hi)).1

theorem termOut_of_wf (t : Sim) (hW : WF t) : TermOut t := by
  intro i hi
  have h := idle_of_terminated t hW i hi
  exact ⟨(hW.2.1 i).2.2.2.2.2.2.1 hi, h.1, h.2.1, h.2.2.1, h.2.2.2.1⟩
/-! ## The state machine (C21) -/

/-- C21, as stated, fails: on the input `swappedSim`, whose process lines carry
the ids 1 and 0 in this order, the table entry 0 is still NEW after the aging
stage of pass 0 (sixth state of the trace of the pass) and RUNNING after the
selection stage (seventh state), and NEW to RUNNING is none of the edges. -/
theorem new_process_dispatched :
    (tickTrace swappedSim).getD 5 swappedSim = agingStage (beforeAging swappedSim) ∧
    (tickTrace swappedSim).getD 6 swappedSim = selectStage (agingStage (beforeAging swappedSim)) ∧
    (procAt (agingStage (beforeAging swappedSim)).processes 0).state = ProcessState.NEW ∧
    (procAt (selectStage (agingStage (beforeAging swappedSim))).processes 0).state
      = ProcessState.RUNNING ∧
    ¬ Moves ProcessState.NEW ProcessState.RUNNING ∧
    ¬ StateStep (agingStage (beforeAging swappedSim))
        (selectStage (agingStage (beforeAging swappedSim))) :=
  ⟨rfl, rfl, by decide, by decide, by decide, fun h => absurd (h 0) (by decide)⟩

/-- C21, amended: the process table is assumed to be loaded with every pid
equal to its position in the table (and with the fields the constructor
sets).  Then in every pass of every run the states of the pass, taken in
order from its head through the stages (arrivals, I/O, retry of waiters,
deadlock recovery and its retry, aging, selection, Gantt bookkeeping,
execution, preemption, the recovery of the "no progress" check, the end of
the pass), form a chain in which the state of every process either does not
change or changes along one of the edges NEW->READY, READY->RUNNING,
RUNNING->READY, RUNNING->WAITING, RUNNING->IO, RUNNING->TERMINATED,
WAITING->READY, WAITING->TERMINATED, IO->READY. -/
theorem state_machine (total : Int → Int) (ps : List Process) (hl : Loaded ps) (fuel : Nat) :
    List.Chain' StateStep
      ((simulateLoop fuel (initialSim total ps)).1 ::
        tickTrace (simulateLoop fuel (initialSim total ps)).1) :=
  List.Chain'.imp (fun _ _ h => h.2.2.1) (tickTrace_step_chain _ (run_wf total ps hl fuel))

theorem state_machine_witness :
    Loaded scenarioTable ∧
    List.Chain' StateStep (scenarioAt 3 :: tickTrace (scenarioAt 3)) ∧
    (procAt (agingStage (beforeAging (scenarioAt 3))).processes 0).state = ProcessState.READY ∧
    (procAt (selectStage (agingStage (beforeAging (scenarioAt 3)))).processes 0).state
      = ProcessState.RUNNING :=
  ⟨by decide, state_machine scenarioTotal scenarioTable (by decide) 3, by decide, by decide⟩
/-! ## TERMINATED is absorbing (C22) -/

/-- C22, as stated, fails: on the input `reusedPidSim`, with two process lines
of id 0, the table entry 0 is TERMINATED with completion time 1 at the head of
pass 3; the arrival stage of that pass puts the id 0 into the ready queue,
the selection stage makes the entry RUNNING and puts it into the running slot,
and the pass ends with the entry TERMINATED again, with completion time 3. -/
theorem terminated_entry_redispatched :
    (procAt (simulateLoop 3 reusedPidSim).1.processes 0).state = ProcessState.TERMINATED ∧
    (procAt (simulateLoop 3 reusedPidSim).1.processes 0).completionTime = 1 ∧
    (checkNewArrivals (simulateLoop 3 reusedPidSim).1).readyQueue = [0] ∧
    (procAt (atGantt (simulateLoop 3 reusedPidSim).1).processes 0).state
      = ProcessState.RUNNING ∧
    (atGantt (simulateLoop 3 reusedPidSim).1).currentProcess = 0 ∧
    (procAt (simulateLoop 4 reusedPidSim).1.processes 0).state = ProcessState.TERMINATED ∧
    (procAt (simulateLoop 4 reusedPidSim).1.processes 0).completionTime = 3 := by
  decide

/-- C22, amended: the process table is assumed to be loaded with every pid
equal to its position in the table.  Then in every pass of every run, (1) from
each state of the pass to the next (the head of the pass, then the state after
each stage) the whole record of every TERMINATED process, its state, its
completion time and its holdings included, is unchanged; (2) in every state
`t` of the pass a TERMINATED process holds no resource and is neither in the
ready, I/O or waiting queue nor in the running slot; and (3) the record a
TERMINATED process has in `t` is the one it has in every state of every later
pass. -/
theorem terminated_absorbing (total : Int → Int) (ps : List Process) (hl : Loaded ps)
    (fuel : Nat) :
    List.Chain' TermKept
      ((simulateLoop fuel (initialSim total ps)).1 ::
        tickTrace (simulateLoop fuel (initialSim total ps)).1) ∧
    ∀ t ∈ (simulateLoop fuel (initialSim total ps)).1 ::
        tickTrace (simulateLoop fuel (initialSim total ps)).1,
      TermOut t ∧
      ∀ (m : Nat),
        ∀ u ∈ (simulateLoop m (tick (simulateLoop fuel (initialSim total ps)).1).1).1 ::
          tickTrace (simulateLoop m (tick (simulateLoop fuel (initialSim total ps)).1).1).1,
        TermKept t u := by
  have hW := run_wf total ps hl fuel
  refine ⟨List.Chain'.imp (fun a b h => termKept_of_frozen a b h.1 h.2.2.2)
    (tickTrace_step_chain _ hW), ?_⟩
  intro t ht
  have hWt := tickTrace_wf _ hW t ht
  exact ⟨termOut_of_wf t hWt, fun m u hu =>
    termKept_of_frozen t u hWt (frozen_later _ t hW ht m u hu)⟩

theorem terminated_absorbing_witness :
    Loaded scenarioTable ∧
    (procAt (scenarioAt 3).processes 1).state = ProcessState.TERMINATED ∧
    (procAt (scenarioAt 3).processes 1).completionTime = 2 ∧
    TermOut (scenarioAt 3) ∧
    procAt (simulateLoop 5 (tick (scenarioAt 3)).1).1.processes 1
      = procAt (scenarioAt 3).processes 1 :=
  ⟨by decide, by decide, by decide,
   ((terminated_absorbing scenarioTotal scenarioTable (by decide) 3).2 (scenarioAt 3)
      (List.mem_cons_self _ _)).1,
   ((terminated_absorbing scenarioTotal scenarioTable (by decide) 3).2 (scenarioAt 3)
      (List.mem_cons_self _ _)).2 5 _ (List.mem_cons_self _ _) 1 (by decide)⟩
/-! ## The waiting fields (C23) -/

/-- C23, as stated, fails.  On the input `overAskSim` the process blocks in
pass 0 and the "no progress" check of that pass recovers with it as victim:
after `recoverFromDeadlock` it is TERMINATED and out of the waiting queue, and
`waitingForResource` is still 1.  On the input `swappedAskSim`, whose process
lines carry the ids 1 and 0 in this order, the execution stage of pass 0
leaves the table entry 1 READY, in the ready queue, with `waitingForResource`
equal to 1. -/
theorem waiting_field_outside_waiting :
    ((procAt (afterExecute overAskSim).processes 0).state = ProcessState.WAITING ∧
      (afterExecute overAskSim).waitingQueue = [0] ∧
      stuckStage (tickBody overAskSim) =
        recoverFromDeadlock (tickBody overAskSim) (detectDeadlock (tickBody overAskSim) []).2 ∧
      (procAt (stuckStage (tickBody overAskSim)).processes 0).state
        = ProcessState.TERMINATED ∧
      (procAt (stuckStage (tickBody overAskSim)).processes 0).waitingForResource = 1 ∧
      (stuckStage (tickBody overAskSim)).waitingQueue = []) ∧
    ((procAt (afterExecute swappedAskSim).processes 1).state = ProcessState.READY ∧
      (procAt (afterExecute swappedAskSim).processes 1).waitingForResource = 1 ∧
      (afterExecute swappedAskSim).readyQueue = [1] ∧
      (afterExecute swappedAskSim).waitingQueue = [1]) := by
  refine ⟨⟨by decide, by decide, ?_, by decide, by decide, by decide⟩,
    by decide, by decide, by decide, by decide⟩
  unfold stuckStage
  rw [if_pos (by decide)]

/-- C23, amended: the process table is assumed to be loaded with every pid
equal to its position in the table.  Then at the head of every pass and after
every stage of every pass, for every process, `waitingForResource != -1`
implies that the process has state WAITING and is in the waiting queue, or
that it has state TERMINATED; this holds again after `recoverFromDeadlock`
run from such a state on a non-empty list of waiting processes, whose victim
(the process it turns from WAITING to TERMINATED) is out of the waiting queue
and keeps the `waitingForResource` it had. -/
theorem waiting_field_invariant (total : Int → Int) (ps : List Process) (hl : Loaded ps)
    (fuel : Nat) :
    ∀ t ∈ (simulateLoop fuel (initialSim total ps)).1 ::
        tickTrace (simulateLoop fuel (initialSim total ps)).1,
      (∀ i : Int, (procAt t.processes i).waitingForResource ≠ -1 →
        ((procAt t.processes i).state = ProcessState.WAITING ∧ i ∈ t.waitingQueue) ∨
        (procAt t.processes i).state = ProcessState.TERMINATED) ∧
      (∀ dl : List Int, dl ≠ [] → (∀ q ∈ dl, q ∈ t.waitingQueue) →
        (∀ i : Int, (procAt (recoverFromDeadlock t dl).processes i).waitingForResource ≠ -1 →
          ((procAt (recoverFromDeadlock t dl).processes i).state = ProcessState.WAITING ∧
            i ∈ (recoverFromDeadlock t dl).waitingQueue) ∨
          (procAt (recoverFromDeadlock t dl).processes i).state = ProcessState.TERMINATED) ∧
        (∀ i : Int, (procAt t.processes i).state = ProcessState.WAITING →
          (procAt (recoverFromDeadlock t dl).processes i).state = ProcessState.TERMINATED →
          i ∉ (recoverFromDeadlock t dl).waitingQueue ∧
          (procAt (recoverFromDeadlock t dl).processes i).waitingForResource
            = (procAt t.processes i).waitingForResource)) := by
  have hW := run_wf total ps hl fuel
  have hall : ∀ v : Sim, WF v → ∀ i : Int, (procAt v.processes i).waitingForResource ≠ -1 →
      ((procAt v.processes i).state = ProcessState.WAITING ∧ i ∈ v.waitingQueue) ∨
      (procAt v.processes i).state = ProcessState.TERMINATED := by
    intro v hv i hi
    rcases (hv.2.1 i).2.2.2.2.2.1 hi with h | h
    · exact Or.inl ⟨h, (hv.2.1 i).2.2.2.2.1 h⟩
    · exact Or.inr h
  intro t ht
  have hWt := tickTrace_wf _ hW t ht
  refine ⟨hall t hWt, ?_⟩
  intro dl hne hdl
  have hg := recoverFromDeadlock_good t dl hWt hne hdl
  refine ⟨hall _ hg.1, ?_⟩
  intro i h1 h2
  refine ⟨(loc_excl (hg.1.2.1 i) _ h2).2.2.1 (by decide), ?_⟩
  unfold recoverFromDeadlock at h2 ⊢
  simp only [] at h2 ⊢
  rcases procAt_modifyAt t.processes _ i _ with h | ⟨_, _, h⟩
  · rw [h] at h2
    rw [h1] at h2
    exact absurd h2 (by decide)
  · rw [h]

theorem waiting_field_invariant_witness :
    Loaded overAskSim.processes ∧
    (procAt (afterExecute overAskSim).processes 0).waitingForResource = 1 ∧
    (((procAt (afterExecute overAskSim).processes 0).state = ProcessState.WAITING ∧
        0 ∈ (afterExecute overAskSim).waitingQueue) ∨
      (procAt (afterExecute overAskSim).processes 0).state = ProcessState.TERMINATED) :=
  ⟨by decide, by decide,
   ((waiting_field_invariant (fun r => if r = 1 then 1 else 0) overAskSim.processes
      (by decide) 0) (afterExecute overAskSim)
      (List.Mem.tail _ (List.Mem.tail _ (List.Mem.tail _ (List.Mem.tail _ (List.Mem.tail _
        (List.Mem.tail _ (List.Mem.tail _ (List.Mem.tail _ (List.Mem.tail _
          (List.Mem.head _))))))))))).1 0 (by decide)⟩
/-! ## The dangling trailing I/O burst (C25) -/

theorem simulateLoop_add (n : Nat) :
    ∀ (s : Sim) (m : Nat), (simulateLoop n s).2 = none →
      simulateLoop (n + m) s = simulateLoop m (simulateLoop n s).1 := by
  induction n with
  | zero =>
    intro s m _
    rw [Nat.zero_add]
    rfl
  | succ n ih =>
    intro s m h
    by_cases hx : (tick s).2.isSome = true
    · rw [simulateLoop, if_pos hx] at h
      rw [h] at hx
      exact absurd hx (by simp)
    · rw [simulateLoop, if_neg hx] at h
      have e1 : simulateLoop (n + 1 + m) s = simulateLoop (n + m) (tick s).1 := by
        rw [show n + 1 + m = (n + m) + 1 by omega, simulateLoop, if_neg hx]
      have e2 : simulateLoop (n + 1) s = simulateLoop n (tick s).1 := by
        rw [simulateLoop, if_neg hx]
      rw [e1, e2]
      exact ih _ m h

theorem allDone_blocked (s : Sim) (i : Int)
    (hst : (procAt s.processes i).state ≠ ProcessState.TERMINATED)
    (hn : (procAt s.processes i).state ≠ ProcessState.NEW) : allDone s = false :=
  (allDone_false_iff s).mpr ⟨procAt s.processes i, procAt_mem _ _ (valid_of_state _ _ hn), hst⟩

theorem tick_allDone (s : Sim) (h : (tick s).2 = some LoopExit.allDone) :
    allDone (tickBody s) = true := by
  unfold tick at h
  rcases finishTick_cases (tickBody s) with ⟨h1, _, _, _⟩ | ⟨_, _, _, h4⟩ | ⟨_, _, _, h4⟩
  · exact h1
  · rw [h4] at h
    exact absurd h (by simp)
  · rcases h4 with ⟨_, h5⟩ | ⟨_, h5⟩
    · rw [h5] at h; exact absurd h (by simp)
    · rw [h5] at h; exact absurd h (by simp)

theorem simulateLoop_allDone (n : Nat) :
    ∀ s : Sim, (simulateLoop n s).2 = some LoopExit.allDone →
      allDone (simulateLoop n s).1 = true := by
  induction n with
  | zero => intro s h; exact absurd h (by simp [simulateLoop])
  | succ n ih =>
    intro s h
    by_cases hx : (tick s).2.isSome = true
    · rw [simulateLoop, if_pos hx] at h ⊢
      exact ((tick_clock s).2.1 h).2
    · rw [simulateLoop, if_neg hx] at h ⊢
      exact ih _ h

theorem tickBody_mem_tickTrace (s : Sim) : tickBody s ∈ s :: tickTrace s :=
  List.mem_cons_of_mem _ (tick_mem_tickTrace s).1

/-- A process out of reach that is not TERMINATED keeps the loop from leaving
through the exit `allDone`. -/
theorem simulateLoop_not_allDone (i : Int) (n : Nat) :
    ∀ s : Sim, WF s → Idle s i → (procAt s.processes i).state ≠ ProcessState.TERMINATED →
      (simulateLoop n s).2 ≠ some LoopExit.allDone := by
  induction n with
  | zero => intro s _ _ _; simp [simulateLoop]
  | succ n ih =>
    intro s hW hid hst
    have hf := (tickTrace_frozen s hW).1
    by_cases hx : (tick s).2.isSome = true
    · rw [simulateLoop, if_pos hx]
      intro h
      have h1 := tick_allDone s h
      obtain ⟨e, hid2⟩ := (hf _ (tickBody_mem_tickTrace s)).1 i hid
      have h2 := allDone_blocked (tickBody s) i (by rw [e]; exact hst) hid2.2.2.2.2
      rw [h1] at h2
      exact absurd h2 (by decide)
    · rw [simulateLoop, if_neg hx]
      obtain ⟨e, hid2⟩ := (hf s (List.mem_cons_self _ _)).2 i hid
      exact ih _ (tick_wf s hW) hid2 (by rw [e]; exact hst)
theorem drop_mem_tickTrace (s : Sim) :
    Sched.processIO (checkNewArrivals s) ∈ s :: tickTrace s ∧
    tickBody s ∈ (tickTrace s).drop 1 ∧ (tick s).1 ∈ (tickTrace s).drop 1 := by
  unfold tickTrace tick tickBody
  simp

/-- C25, as stated, fails: on the input `reusedDanglingSim`, with two process
lines of id 0, the table entry 0 has the I/O burst as its last burst and
`processIO` completes that burst in pass 2, leaving the entry in state IO and
in no queue; when the id 0 is pushed again at time 10 the entry is dispatched
and terminates, so at the head of pass 11 it is TERMINATED, with completion
time 10. -/
theorem dangling_entry_terminates :
    reusedDanglingCall.ioQueue = [0] ∧
    (procAt reusedDanglingCall.processes 0).isCPUBurst = [true, false] ∧
    (procAt reusedDanglingCall.processes 0).currentBurstIndex = 1 ∧
    (procAt reusedDanglingCall.processes 0).remainingTime = 1 ∧
    (procAt (Sched.processIO reusedDanglingCall).processes 0).state = ProcessState.IO_ ∧
    (procAt (Sched.processIO reusedDanglingCall).processes 0).currentBurstIndex = 2 ∧
    (Sched.processIO reusedDanglingCall).readyQueue = [] ∧
    (Sched.processIO reusedDanglingCall).ioQueue = [] ∧
    (Sched.processIO reusedDanglingCall).waitingQueue = [] ∧
    (Sched.processIO reusedDanglingCall).currentProcess = -1 ∧
    (procAt (simulateLoop 10 reusedDanglingSim).1.processes 0).state = ProcessState.IO_ ∧
    (procAt (simulateLoop 11 reusedDanglingSim).1.processes 0).state
      = ProcessState.TERMINATED ∧
    (procAt (simulateLoop 11 reusedDanglingSim).1.processes 0).completionTime = 10 := by
  decide

/-- C25, amended: the process table is assumed to be loaded with every pid
equal to its position in the table.  Let `processIO` be called in some pass
of the run with process `i` in the I/O queue, in its last burst, with one
tick of the burst left.  Then after `processIO` the process has state IO, is
in none of the ready, I/O and waiting queues and not in the running slot, and
holds what it held; its record stays the same (so it stays in state IO, never
TERMINATED, with the same holdings) in every later state of that pass and in
every state of every later pass; and the run never leaves the loop through
the exit "all processes terminated", whatever the number of passes, so
`simulate` does not either. -/
theorem trailing_io_dangles (total : Int → Int) (ps : List Process) (hl : Loaded ps)
    (fuel : Nat) (i : Int)
    (hq : i ∈ (checkNewArrivals (simulateLoop fuel (initialSim total ps)).1).ioQueue)
    (hdone : (procAt (checkNewArrivals (simulateLoop fuel (initialSim total ps)).1).processes
      i).remainingTime - 1 = 0)
    (hlast : (procAt (checkNewArrivals (simulateLoop fuel (initialSim total ps)).1).processes
        i).currentBurstIndex + 1 =
      (procAt (checkNewArrivals (simulateLoop fuel (initialSim total ps)).1).processes
        i).bursts.length) :
    ((procAt (Sched.processIO (checkNewArrivals
        (simulateLoop fuel (initialSim total ps)).1)).processes i).state = ProcessState.IO_ ∧
      i ∉ (Sched.processIO (checkNewArrivals
        (simulateLoop fuel (initialSim total ps)).1)).readyQueue ∧
      i ∉ (Sched.processIO (checkNewArrivals
        (simulateLoop fuel (initialSim total ps)).1)).ioQueue ∧
      i ∉ (Sched.processIO (checkNewArrivals
        (simulateLoop fuel (initialSim total ps)).1)).waitingQueue ∧
      (Sched.processIO (checkNewArrivals
        (simulateLoop fuel (initialSim total ps)).1)).currentProcess ≠ i ∧
      (procAt (Sched.processIO (checkNewArrivals
        (simulateLoop fuel (initialSim total ps)).1)).processes i).heldResources =
        (procAt (checkNewArrivals
          (simulateLoop fuel (initialSim total ps)).1).processes i).heldResources) ∧
    (∀ u ∈ (tickTrace (simulateLoop fuel (initialSim total ps)).1).drop 1,
      procAt u.processes i = procAt (Sched.processIO (checkNewArrivals
        (simulateLoop fuel (initialSim total ps)).1)).processes i) ∧
    (∀ (m : Nat),
      ∀ u ∈ (simulateLoop m (tick (simulateLoop fuel (initialSim total ps)).1).1).1 ::
        tickTrace (simulateLoop m (tick (simulateLoop fuel (initialSim total ps)).1).1).1,
      procAt u.processes i = procAt (Sched.processIO (checkNewArrivals
        (simulateLoop fuel (initialSim total ps)).1)).processes i) ∧
    (∀ k : Nat, (simulateLoop k (initialSim total ps)).2 ≠ some LoopExit.allDone) ∧
    (simulate (initialSim total ps)).2 ≠ some LoopExit.allDone := by
  have hW := run_wf total ps hl fuel
  obtain ⟨h, hh⟩ : ∃ h, (simulateLoop fuel (initialSim total ps)).1 = h := ⟨_, rfl⟩
  rw [hh] at hq hdone hlast hW ⊢
  have g1 := checkNewArrivals_good h hW
  have g2 := processIO_good _ g1.1
  have hv : ∀ q ∈ (checkNewArrivals h).ioQueue, ValidPid (checkNewArrivals h).processes q :=
    fun q hq => loc_valid _ ((g1.1.2.1 q).2.1 hq).1 (by decide)
  obtain ⟨hp, hio, _⟩ := (processIO_at (checkNewArrivals h) g1.1.2.2.1 hv i).1 hq
  obtain ⟨hst1, _⟩ := (g1.1.2.1 i).2.1 hq
  obtain ⟨_, f2, _, f4⟩ := ioStep_fields (procAt (checkNewArrivals h).processes i)
  have hst2 : (procAt (Sched.processIO (checkNewArrivals h)).processes i).state
      = ProcessState.IO_ := by
    rw [hp, (f2 hdone).2.2.2 (by omega)]
    exact hst1
  have hheld : (procAt (Sched.processIO (checkNewArrivals h)).processes i).heldResources =
      (procAt (checkNewArrivals h).processes i).heldResources := by
    rw [hp, f4]
  obtain ⟨e1, _, e3, e4, _⟩ := loc_excl (g2.1.2.1 i) _ hst2
  have hval : ValidPid (Sched.processIO (checkNewArrivals h)).processes i :=
    loc_valid _ hst2 (by decide)
  have hnio : i ∉ (Sched.processIO (checkNewArrivals h)).ioQueue := fun x => hio.mp x hdone
  have hcp : (Sched.processIO (checkNewArrivals h)).currentProcess ≠ i := by
    intro hc
    refine e4 (by decide) ⟨hc, ?_⟩
    intro hm
    rw [hm] at hval
    exact absurd hval.1 (by decide)
  have hidle : Idle (Sched.processIO (checkNewArrivals h)) i :=
    ⟨e1 (by decide), hnio, e3 (by decide), hcp, by rw [hst2]; decide⟩
  have hnt : (procAt (Sched.processIO (checkNewArrivals h)).processes i).state
      ≠ ProcessState.TERMINATED := by rw [hst2]; decide
  obtain ⟨m1, m2, m3⟩ := drop_mem_tickTrace h
  have hfz := (tickTrace_frozen h hW).2
  -- no pass run from `h` leaves through `allDone`
  have hX : ∀ m : Nat, (simulateLoop m h).2 ≠ some LoopExit.allDone := by
    intro m
    cases m with
    | zero => simp [simulateLoop]
    | succ m =>
      by_cases hx : (tick h).2.isSome = true
      · rw [simulateLoop, if_pos hx]
        intro hk
        obtain ⟨e, hid⟩ := hfz _ m2 i hidle
        have h2 := allDone_blocked (tickBody h) i (by rw [e]; exact hnt) hid.2.2.2.2
        rw [tick_allDone h hk] at h2
        exact absurd h2 (by decide)
      · rw [simulateLoop, if_neg hx]
        obtain ⟨e, hid⟩ := hfz _ m3 i hidle
        exact simulateLoop_not_allDone i m _ (tick_wf h hW) hid (by rw [e]; exact hnt)
  have hsth : (procAt h.processes i).state = ProcessState.IO_ :=
    ((hW.2.1 i).2.1 hq).1
  have hnot : allDone h = false :=
    allDone_blocked h i (by rw [hsth]; decide) (by rw [hsth]; decide)
  have hall : ∀ k : Nat, (simulateLoop k (initialSim total ps)).2 ≠ some LoopExit.allDone := by
    intro k hk
    have hsome : (simulateLoop k (initialSim total ps)).2.isSome = true := by rw [hk]; rfl
    by_cases hle : k ≤ fuel
    · have e := simulateLoop_exit k (initialSim total ps) fuel hsome hle
      have h1 := simulateLoop_allDone k _ hk
      rw [← e, hh, hnot] at h1
      exact absurd h1 (by decide)
    · by_cases hex : (simulateLoop fuel (initialSim total ps)).2 = none
      · have e := simulateLoop_add fuel (initialSim total ps) (k - fuel) hex
        rw [show fuel + (k - fuel) = k by omega, hh] at e
        rw [e] at hk
        exact hX _ hk
      · have hs2 : (simulateLoop fuel (initialSim total ps)).2.isSome = true := by
          cases hc : (simulateLoop fuel (initialSim total ps)).2 with
          | none => exact absurd hc hex
          | some x => rfl
        have e := simulateLoop_exit fuel (initialSim total ps) k hs2 (by omega)
        rw [e] at hk
        have h1 := simulateLoop_allDone fuel _ hk
        rw [hh, hnot] at h1
        exact absurd h1 (by decide)
  refine ⟨⟨hst2, e1 (by decide), hnio, e3 (by decide), hcp, hheld⟩, ?_, ?_, hall, hall 10001⟩
  · intro u hu
    exact (hfz u hu i hidle).1
  · intro m u hu
    exact (frozen_later h _ hW m1 m u hu i hidle).1

theorem trailing_io_dangles_witness :
    Loaded trailingIoSim.processes ∧
    (0 : Int) ∈ (checkNewArrivals (simulateLoop 3 trailingIoSim).1).ioQueue ∧
    (procAt (checkNewArrivals (simulateLoop 3 trailingIoSim).1).processes 0).remainingTime = 1 ∧
    (procAt (Sched.processIO (checkNewArrivals
      (simulateLoop 3 trailingIoSim).1)).processes 0).state = ProcessState.IO_ ∧
    (simulate trailingIoSim).2 ≠ some LoopExit.allDone :=
  ⟨by decide, by decide, by decide,
   (trailing_io_dangles (fun _ => 0) trailingIoSim.processes (by decide) 3 0
      (by decide) (by decide) (by decide)).1.1,
   (trailing_io_dangles (fun _ => 0) trailingIoSim.processes (by decide) 3 0
      (by decide) (by decide) (by decide)).2.2.2.2⟩
/-! ## Index bounds (C30) -/

theorem burstAccesses_in_range (s : Sim) : ∀ a ∈ burstAccesses s, a.1 < a.2 := by
  intro a ha
  unfold burstAccesses at ha
  split at ha
  · exact absurd ha (List.not_mem_nil a)
  · simp only [] at ha
    split at ha
    · exact absurd ha (List.not_mem_nil a)
    · rename_i hbi
      split at ha
      · exact absurd ha (List.not_mem_nil a)
      · rcases List.mem_cons.mp ha with rfl | ha
        · simp only []
          omega
        · split at ha
          · split at ha
            · rename_i hnb
              rcases List.mem_cons.mp ha with rfl | ha
              · exact hnb.1
              · split at ha
                · rename_i hne
                  simp only [List.mem_cons, List.mem_singleton, List.not_mem_nil,
                    or_false] at ha
                  rcases ha with rfl | rfl
                  · exact hnb.1
                  · exact List.length_pos.mpr hne
                · exact absurd ha (List.not_mem_nil a)
            · exact absurd ha (List.not_mem_nil a)
          · rename_i hop
            rw [List.mem_singleton] at ha
            rw [ha]
            simp only []
            omega

/-- C30. Index bounds.  The process table is assumed to be loaded with every
pid equal to its position in the table (and with the fields the constructor
of `Process` sets: state NEW, both indices 0, no pending request).  Then in
every state `t` at the head of a pass or after a stage of a pass of the run,
every process has `currentBurstIndex <= bursts.size()` and, whenever
`currentBurstIndex < bursts.size()`, `currentOperationIndex` at most the
number of operations of that burst; and every access into `bursts` or into a
burst made by `executeProcess` called in `t` uses an index below the size of
the vector indexed (`processIO` and `processWaiting` make no such access). -/
theorem index_bounds (total : Int → Int) (ps : List Process) (hl : Loaded ps) (fuel : Nat) :
    ∀ t ∈ (simulateLoop fuel (initialSim total ps)).1 ::
        tickTrace (simulateLoop fuel (initialSim total ps)).1,
      (∀ i : Int,
        (procAt t.processes i).currentBurstIndex ≤ (procAt t.processes i).bursts.length ∧
        ((procAt t.processes i).currentBurstIndex < (procAt t.processes i).bursts.length →
          (procAt t.processes i).currentOperationIndex ≤
            ((procAt t.processes i).bursts.getD
              (procAt t.processes i).currentBurstIndex []).length)) ∧
      (∀ a ∈ burstAccesses t, a.1 < a.2) := by
  intro t ht
  have hWt := tickTrace_wf _ (run_wf total ps hl fuel) t ht
  exact ⟨fun i => (hWt.2.1 i).2.2.2.2.2.2.2, burstAccesses_in_range t⟩

theorem index_bounds_witness :
    Loaded scenarioTable ∧
    (procAt (scenarioAt 9).processes 0).currentBurstIndex = 0 ∧
    (procAt (scenarioAt 9).processes 0).currentOperationIndex = 2 ∧
    ((procAt (scenarioAt 9).processes 0).currentBurstIndex <
        (procAt (scenarioAt 9).processes 0).bursts.length →
      (procAt (scenarioAt 9).processes 0).currentOperationIndex ≤
        ((procAt (scenarioAt 9).processes 0).bursts.getD
          (procAt (scenarioAt 9).processes 0).currentBurstIndex []).length) ∧
    burstAccesses (beforeExecute (scenarioAt 9)) = [(0, 1), (2, 4)] :=
  ⟨by decide, by decide, by decide,
   (((index_bounds scenarioTotal scenarioTable (by decide) 9) (scenarioAt 9)
      (List.mem_cons_self _ _)).1 0).2,
   by decide⟩

/-! ## The analyzer and the holders outside the waiting queue (C37) -/

theorem detectDeadlock_lone (s : Sim) (p : Int) (hw : s.waitingQueue = [p])
    (hlt : (s.resources (procAt s.processes p).waitingForResource).availableInstances
      < (procAt s.processes p).waitingForAmount) :
    detectDeadlock s [] = (true, [p]) := by
  have hn : ¬ (s.resources (procAt s.processes p).waitingForResource).availableInstances
      ≥ (procAt s.processes p).waitingForAmount := by omega
  unfold detectDeadlock
  rw [hw]
  simp [setInsert, detectLoop, detectVisit, setErase, hn]

theorem findDeadlock_lone (s : Sim) (p : Int) (hw : s.waitingQueue = [p])
    (hr : (procAt s.processes p).waitingForResource ≠ -1)
    (hlt : (s.resources (procAt s.processes p).waitingForResource).availableInstances
      < (procAt s.processes p).waitingForAmount) :
    Student.findDeadlock s [] = (true, [p]) := by
  have hn : ¬ (s.resources (procAt s.processes p).waitingForResource).availableInstances
      ≥ (procAt s.processes p).waitingForAmount := by omega
  unfold Student.findDeadlock
  rw [hw]
  simp [Student.findLoop, Student.findVisit, Student.canGetResource, hr, hn]
/-- C37. The analyzer looks at the waiting queue only.  For every state whose
waiting queue is `[p]` with `p` waiting for more of its resource than is
available, `detectDeadlock` returns true and reports exactly `[p]`: no other
entry of the process table is consulted, whatever the READY, RUNNING or I/O
processes hold (and the sibling `findDeadlock` does the same when the pending
resource id is not -1).  On the input `holderSim`, `P0` takes the only
instance of resource 1 in pass 0 and computes; `P1` gets the processor in
pass 10, asks for resource 1 and waits from then on; at the periodic check of
pass 15 the waiting queue is `[1]`, `P0` is RUNNING, waits for nothing and
holds the instance, the check reports `[1]` and `recoverFromDeadlock`
terminates `P1` with completion time 15; `P0` releases the instance in pass
22 and the run ends with all processes terminated at time 23. -/
theorem analyzer_ignores_holders :
    (∀ (s : Sim) (p : Int), s.waitingQueue = [p] →
      (s.resources (procAt s.processes p).waitingForResource).availableInstances
        < (procAt s.processes p).waitingForAmount →
      detectDeadlock s [] = (true, [p]) ∧
      ((procAt s.processes p).waitingForResource ≠ -1 →
        Student.findDeadlock s [] = (true, [p]))) ∧
    ((procAt (simulateLoop 1 holderSim).1.processes 0).heldResources 1 = 1 ∧
      ((simulateLoop 1 holderSim).1.resources 1).availableInstances = 0) ∧
    ((simulateLoop 10 holderSim).1.waitingQueue = [] ∧
      (simulateLoop 11 holderSim).1.waitingQueue = [1] ∧
      (procAt (simulateLoop 11 holderSim).1.processes 1).state = ProcessState.WAITING) ∧
    (holderCheck.currentTime = 15 ∧ holderCheck.waitingQueue = [1] ∧
      holderCheck.currentProcess = 0 ∧
      (procAt holderCheck.processes 0).state = ProcessState.RUNNING ∧
      (procAt holderCheck.processes 0).waitingForResource = -1 ∧
      (procAt holderCheck.processes 0).heldResources 1 = 1 ∧
      (procAt holderCheck.processes 1).state = ProcessState.WAITING ∧
      (procAt holderCheck.processes 1).waitingForResource = 1 ∧
      (procAt holderCheck.processes 1).waitingForAmount = 1 ∧
      (holderCheck.resources 1).availableInstances = 0) ∧
    (deadlockCheck holderCheck = true ∧ detectDeadlock holderCheck [] = (true, [1]) ∧
      (procAt (recoveryStage holderCheck).processes 1).state = ProcessState.TERMINATED ∧
      (procAt (recoveryStage holderCheck).processes 1).completionTime = 15 ∧
      (procAt (simulateLoop 16 holderSim).1.processes 1).state = ProcessState.TERMINATED) ∧
    (((simulateLoop 22 holderSim).1.resources 1).availableInstances = 0 ∧
      ((simulateLoop 23 holderSim).1.resources 1).availableInstances = 1 ∧
      (procAt (simulateLoop 23 holderSim).1.processes 0).heldResources 1 = 0 ∧
      (simulate holderSim).2 = some LoopExit.allDone ∧
      (simulate holderSim).1.currentTime = 23 ∧
      (procAt (simulate holderSim).1.processes 0).completionTime = 23 ∧
      (procAt (simulate holderSim).1.processes 1).completionTime = 15) := by
  have hsim : simulate holderSim = simulateLoop 24 holderSim :=
    simulateLoop_exit 24 holderSim 10001 (by decide) (by decide)
  refine ⟨fun s p hw hlt => ⟨detectDeadlock_lone s p hw hlt,
    fun hr => findDeadlock_lone s p hw hr hlt⟩, by decide, by decide, by decide, by decide, ?_⟩
  rw [hsim]
  decide

/-! ## The two selectors (C34) -/

/-- The scan of `selectNextProcess` and the scan of `pickNextProcess`, started
from the same best entry, end at the same entry. -/
theorem selectVisit_pickScan (ps : List Process) :
    ∀ (rest pre : List Int) (bi : Nat) (bp : Int), bi < pre.length →
      rest.foldl (selectVisit ps) ((pre ++ rest).getD bi 0, bp) =
        ((pre ++ rest).getD (Student.pickScan ps rest pre.length (bi, bp)).1 0,
          (Student.pickScan ps rest pre.length (bi, bp)).2) ∧
      (Student.pickScan ps rest pre.length (bi, bp)).1 < (pre ++ rest).length := by
  intro rest
  induction rest with
  | nil =>
    intro pre bi bp hbi
    simp only [List.foldl_nil, Student.pickScan, List.append_nil]
    exact ⟨by trivial, hbi⟩
  | cons x xs ih =>
    intro pre bi bp hbi
    have hlen : (pre ++ [x]).length = pre.length + 1 := by simp
    have happ : pre ++ x :: xs = (pre ++ [x]) ++ xs := by simp
    have hx : ((pre ++ [x]) ++ xs).getD pre.length 0 = x := by
      rw [List.getD_eq_getElem?_getD, List.getElem?_append_left (by rw [hlen]; omega),
        List.getElem?_append_right (le_refl _)]
      simp
    rw [List.foldl_cons, happ]
    unfold selectVisit Student.pickScan
    simp only []
    by_cases hlt : (procAt ps x).priority < bp
    · rw [if_pos hlt, if_pos hlt, ← hlen]
      have h := ih (pre ++ [x]) pre.length (procAt ps x).priority (by rw [hlen]; omega)
      rw [hx] at h
      exact h
    · rw [if_neg hlt, if_neg hlt, ← hlen]
      exact ih (pre ++ [x]) bi bp (by rw [hlen]; omega)

theorem filter_ne_getD (l : List Int) :
    ∀ k : Nat, l.Nodup → k < l.length →
      l.filter (fun y => decide (y ≠ l.getD k 0)) = l.eraseIdx k := by
  induction l with
  | nil => intro k _ hk; simp at hk
  | cons a l ih =>
    intro k hnd hk
    rw [List.nodup_cons] at hnd
    cases k with
    | zero =>
      simp only [List.getD_cons_zero, List.eraseIdx_cons_zero]
      rw [List.filter_cons_of_neg (by simp)]
      rw [List.filter_eq_self]
      intro y hy
      simp only [ne_eq, decide_eq_true_eq]
      intro h
      rw [h] at hy
      exact hnd.1 hy
    | succ k =>
      have hk2 : k < l.length := by simpa using hk
      have hmem : l.getD k 0 ∈ l := by
        rw [List.getD_eq_getElem _ _ hk2]
        exact List.getElem_mem _
      have hne : a ≠ l.getD k 0 := fun h => hnd.1 (h ▸ hmem)
      simp only [List.getD_cons_succ, List.eraseIdx_cons_succ]
      rw [List.filter_cons_of_pos (by simpa using hne), ih k hnd.2 hk2]

/-- C34. The two selectors agree on small priorities: for every state whose
ready queue holds no pid twice and only processes of priority less than 100,
`selectNextProcess` and `pickNextProcess` return the same pid and leave the
same ready queue (and the same state otherwise); on the empty queue both
return -1 and change nothing. -/
theorem selectors_agree (s : Sim) (hnd : s.readyQueue.Nodup)
    (hp : ∀ q ∈ s.readyQueue, (procAt s.processes q).priority < 100) :
    selectNextProcess s = Student.pickNextProcess s ∧
    (selectNextProcess s).1 = (Student.pickNextProcess s).1 ∧
    (selectNextProcess s).2.readyQueue = (Student.pickNextProcess s).2.readyQueue ∧
    (s.readyQueue = [] → selectNextProcess s = (-1, s)) := by
  have hmain : selectNextProcess s = Student.pickNextProcess s := by
    cases hq : s.readyQueue with
    | nil =>
      unfold selectNextProcess Student.pickNextProcess
      rw [hq]
      rfl
    | cons first rest =>
      rw [pickNextProcess_cons s first rest hq]
      have h0 := selectVisit_pickScan s.processes rest [first] 0
        (procAt s.processes first).priority (by simp)
      have hfirst : (first :: rest).foldl (selectVisit s.processes) (-1, 100) =
          rest.foldl (selectVisit s.processes) (first, (procAt s.processes first).priority) := by
        rw [List.foldl_cons]
        unfold selectVisit
        rw [if_pos (hp first (by rw [hq]; exact List.mem_cons_self _ _))]
      have h1 : ([first] ++ rest) = first :: rest := rfl
      rw [h1] at h0
      simp only [List.getD_cons_zero, List.length_singleton] at h0
      unfold selectNextProcess
      rw [hq, if_neg (by simp)]
      simp only []
      rw [hfirst, h0.1]
      simp only []
      rw [filter_ne_getD _ _ (by rw [← hq]; exact hnd) h0.2]
  refine ⟨hmain, by rw [hmain], by rw [hmain], ?_⟩
  intro h
  unfold selectNextProcess
  rw [if_pos h]

theorem selectors_agree_witness :
    pickSim.readyQueue = [0, 1, 2] ∧
    selectNextProcess pickSim = Student.pickNextProcess pickSim ∧
    (selectNextProcess pickSim).1 = 1 ∧
    (selectNextProcess pickSim).2.readyQueue = [0, 2] :=
  ⟨by decide, (selectors_agree pickSim (by decide) (by decide)).1, by decide, by decide⟩

/-! ## The retry of the waiting queue (C36) -/

/-- One visit of the loop of `processWaiting`. -/
theorem waitingVisit_spec (acc : Sim × List Int) (x : Int) :
    waitingVisit acc x =
      if satisfiable acc.1.processes acc.1.resources x then
        ({ acc.1 with
           resources := addAvailable acc.1.resources
             (procAt acc.1.processes x).waitingForResource
             (-(procAt acc.1.processes x).waitingForAmount)
           processes := modifyAt acc.1.processes x grantStep
           readyQueue := acc.1.readyQueue ++ [x] }, acc.2)
      else (acc.1, acc.2 ++ [x]) := by
  unfold waitingVisit satisfiable
  simp only []
  by_cases hw : (procAt acc.1.processes x).waitingForResource ≠ -1
  · by_cases hg : (acc.1.resources (procAt acc.1.processes x).waitingForResource).availableInstances
        ≥ (procAt acc.1.processes x).waitingForAmount
    · rw [if_pos hw, if_pos hg, if_pos (by simp [hw, hg])]
      rw [modifyAt_congr _ _ _ grantStep (by rfl)]
    · rw [if_pos hw, if_neg hg, if_neg (by simp [hg])]
  · rw [if_neg hw, if_neg (by simp [hw])]

/-- The loop of `processWaiting` is the retry pass of the specification. -/
theorem foldl_waitingVisit_spec (l : List Int) :
    ∀ acc : Sim × List Int,
      l.foldl waitingVisit acc =
        ({ acc.1 with
           resources := (retryPass l acc.1.resources acc.1.processes).1
           processes := (retryPass l acc.1.resources acc.1.processes).2.1
           readyQueue := acc.1.readyQueue ++
             (retryPass l acc.1.resources acc.1.processes).2.2.1 },
         acc.2 ++ (retryPass l acc.1.resources acc.1.processes).2.2.2) := by
  induction l with
  | nil => intro acc; simp [retryPass]
  | cons x xs ih =>
    intro acc
    rw [List.foldl_cons, waitingVisit_spec, retryPass]
    by_cases h : satisfiable acc.1.processes acc.1.resources x = true
    · rw [if_pos h, if_pos h, ih]
      simp
    · rw [if_neg h, if_neg h, ih]
      simp

theorem processWaiting_eq (s : Sim) :
    processWaiting s =
      { s with
        resources := (retryPass s.waitingQueue s.resources s.processes).1
        processes := (retryPass s.waitingQueue s.resources s.processes).2.1
        readyQueue := s.readyQueue ++ (retryPass s.waitingQueue s.resources s.processes).2.2.1
        waitingQueue := (retryPass s.waitingQueue s.resources s.processes).2.2.2 } := by
  unfold processWaiting
  simp only []
  rw [foldl_waitingVisit_spec]
  simp

theorem retryPass_sublist (l : List Int) :
    ∀ (t : Int → ResourceInfo) (ps : List Process),
      (retryPass l t ps).2.2.1.Sublist l ∧ (retryPass l t ps).2.2.2.Sublist l ∧
      (∀ y, y ∈ l ↔ y ∈ (retryPass l t ps).2.2.1 ∨ y ∈ (retryPass l t ps).2.2.2) ∧
      l.length = (retryPass l t ps).2.2.1.length + (retryPass l t ps).2.2.2.length := by
  induction l with
  | nil => intro t ps; simp [retryPass]
  | cons x xs ih =>
    intro t ps
    rw [retryPass]
    by_cases h : satisfiable ps t x = true
    · rw [if_pos h]
      obtain ⟨h1, h2, h3, h4⟩ := ih
        (addAvailable t (procAt ps x).waitingForResource (-(procAt ps x).waitingForAmount))
        (modifyAt ps x grantStep)
      refine ⟨h1.cons₂ x, h2.cons x, ?_, ?_⟩
      · intro y
        simp only [List.mem_cons]
        rw [h3 y]
        tauto
      · simp only [List.length_cons]
        omega
    · rw [if_neg h]
      obtain ⟨h1, h2, h3, h4⟩ := ih t ps
      refine ⟨h1.cons x, h2.cons₂ x, ?_, ?_⟩
      · intro y
        simp only [List.mem_cons]
        rw [h3 y]
        tauto
      · simp only [List.length_cons]
        omega

/-- The table after the retry pass differs from the one before at the visited
pids only. -/
theorem retryPass_other (l : List Int) :
    ∀ (t : Int → ResourceInfo) (ps : List Process) (i : Int), i ∉ l →
      procAt (retryPass l t ps).2.1 i = procAt ps i := by
  induction l with
  | nil => intro t ps i _; rfl
  | cons x xs ih =>
    intro t ps i hi
    have hix : i ≠ x := fun e => hi (e ▸ List.mem_cons_self _ _)
    have hixs : i ∉ xs := fun e => hi (List.mem_cons_of_mem _ e)
    rw [retryPass]
    by_cases h : satisfiable ps t x = true
    · rw [if_pos h]
      simp only []
      rw [ih _ _ i hixs, procAt_modifyAt_ne _ _ _ _ hix]
    · rw [if_neg h]
      simp only []
      exact ih _ _ i hixs

theorem executeProcess_readyQueue (s : Sim) : (executeProcess s).readyQueue = s.readyQueue := by
  unfold executeProcess
  split
  · rfl
  · simp only []
    split
    · rfl
    · split
      · rfl
      · split
        · split
          · rfl
          · split <;> rfl
        · split
          · split
            · exact (requestResource_frame _ _ _ _).1
            · exact (requestResource_frame _ _ _ _).1
          · simp only []
            unfold releaseResource
            split <;> rfl
          · rfl

theorem pids_of_pidOk (ps : List Process) (hp : PidOk ps) :
    ps.map (fun p => p.pid) = (List.range ps.length).map Int.ofNat := by
  apply List.ext_getElem
  · simp
  · intro n h1 h2
    have hn : n < ps.length := by simpa using h1
    have hv : ValidPid ps (n : Int) := ⟨by omega, by exact_mod_cast hn⟩
    have h := hp (n : Int) hv
    rw [procAt_eq_getElem _ _ hv (by simpa using hn)] at h
    simp only [List.getElem_map, List.getElem_range]
    simpa using h

theorem pids_nodup (ps : List Process) (hp : PidOk ps) : (ps.map (fun p => p.pid)).Nodup := by
  rw [pids_of_pidOk ps hp]
  exact List.Nodup.map (fun a b h => Int.ofNat.inj h) (List.nodup_range _)

theorem nodup_append_of (l1 l2 : List Int) (h1 : l1.Nodup) (h2 : l2.Nodup)
    (hd : ∀ x ∈ l1, x ∉ l2) : (l1 ++ l2).Nodup :=
  List.nodup_append.mpr ⟨h1, h2, fun _ ha hb => hd _ ha hb⟩

theorem checkNewArrivals_ready (s : Sim) (hW : WF s) (hn : s.readyQueue.Nodup) :
    (checkNewArrivals s).readyQueue.Nodup := by
  unfold checkNewArrivals
  simp only []
  refine nodup_append_of _ _ hn ?_ ?_
  · exact ((List.filter_sublist _).map _).nodup (pids_nodup _ hW.1)
  · intro x hx hx2
    have h1 := (hW.2.1 x).1 hx
    have h2 := ((mem_arrivals s.processes s.currentTime hW.1 x).mp hx2).2
    unfold arrives at h2
    simp only [Bool.and_eq_true, decide_eq_true_eq] at h2
    rw [h1] at h2
    exact absurd h2.1 (by decide)

theorem processIO_ready (s : Sim) (hW : WF s) (hn : s.readyQueue.Nodup) :
    (Sched.processIO s).readyQueue.Nodup := by
  have hv : ∀ q ∈ s.ioQueue, ValidPid s.processes q := fun q hq =>
    loc_valid _ ((hW.2.1 q).2.1 hq).1 (by decide)
  rw [processIO_eq s hW.2.2.1 hv]
  simp only []
  refine nodup_append_of _ _ hn (hW.2.2.1.filter _) ?_
  intro x hx hx2
  have h1 := (hW.2.1 x).1 hx
  have h2 := ((hW.2.1 x).2.1 (List.mem_filter.mp hx2).1).1
  rw [h1] at h2
  exact absurd h2 (by decide)

theorem processWaiting_ready (s : Sim) (hW : WF s) (hn : s.readyQueue.Nodup) :
    (processWaiting s).readyQueue.Nodup := by
  rw [processWaiting_eq]
  simp only []
  have hsub := (retryPass_sublist s.waitingQueue s.resources s.processes).1
  refine nodup_append_of _ _ hn (hsub.nodup hW.2.2.2) ?_
  intro x hx hx2
  have h1 := (hW.2.1 x).1 hx
  have h2 := ((hW.2.1 x).2.2.1 (hsub.subset hx2)).1
  rw [h1] at h2
  exact absurd h2 (by decide)

theorem recoverFromDeadlock_readyQueue (s : Sim) (dl : List Int) :
    (recoverFromDeadlock s dl).readyQueue = s.readyQueue := rfl

theorem recoveryStage_readyQueue (s : Sim) : (recoveryStage s).readyQueue = s.readyQueue := by
  unfold recoveryStage
  split <;> rfl

theorem stuckStage_readyQueue (s : Sim) : (stuckStage s).readyQueue = s.readyQueue := by
  unfold stuckStage
  split <;> rfl

theorem selectStage_ready (s : Sim) (hn : s.readyQueue.Nodup) :
    (selectStage s).readyQueue.Nodup := by
  have h : (selectNextProcess s).2.readyQueue.Nodup := by
    unfold selectNextProcess
    split
    · exact hn
    · exact hn.filter _
  unfold selectStage
  split
  · simp only []
    split
    · exact h
    · exact h
  · exact hn

theorem ganttStage_readyQueue (s : Sim) : (ganttStage s).readyQueue = s.readyQueue := by
  unfold ganttStage
  split
  · split <;> rfl
  · rfl

theorem executeStage_readyQueue (s : Sim) : (executeStage s).readyQueue = s.readyQueue := by
  unfold executeStage
  split
  · exact executeProcess_readyQueue s
  · rfl

theorem preemptStage_ready (s : Sim) (hW : WF s) (hn : s.readyQueue.Nodup) :
    (preemptStage s).readyQueue.Nodup := by
  unfold preemptStage
  split
  · split
    · rename_i h1 h2
      simp only []
      refine nodup_append_of _ _ hn (List.nodup_singleton _) ?_
      intro x hx hx2
      rw [List.mem_singleton] at hx2
      have h3 := (hW.2.1 x).1 hx
      rw [hx2, h2.2] at h3
      exact absurd h3 (by decide)
    · exact hn
  · exact hn

theorem finishTick_readyQueue (s : Sim) :
    (finishTick s).1.readyQueue = s.readyQueue := by
  unfold finishTick
  split
  · rfl
  · split
    · rfl
    · simp only []
      split <;> exact stuckStage_readyQueue s

/-- The ready queue holds no pid twice in any state of a pass that starts in a
state satisfying the invariant with such a ready queue. -/
theorem tickTrace_ready (s : Sim) (hW : WF s) (hn : s.readyQueue.Nodup) :
    ∀ t ∈ s :: tickTrace s, t.readyQueue.Nodup := by
  have hc := tickTrace_step_chain s hW
  unfold tickTrace at hc ⊢
  simp only [List.chain'_cons, List.chain'_singleton, and_true] at hc
  obtain ⟨c1, c2, c3, c4, c5, c6, c7, c8, c9, c10, c11, c12⟩ := hc
  have n1 := checkNewArrivals_ready s hW hn
  have n2 := processIO_ready _ c2.1 n1
  have n3 := processWaiting_ready _ c3.1 n2
  have n4 : (recoveryStage (processWaiting (Sched.processIO
      (checkNewArrivals s)))).readyQueue.Nodup := by
    rw [recoveryStage_readyQueue]; exact n3
  have n5 : (deadlockStage (processWaiting (Sched.processIO
      (checkNewArrivals s)))).readyQueue.Nodup := by
    rw [deadlockStage_eq]
    split
    · exact processWaiting_ready _ c5.1 n4
    · exact n3
  have n6 : (agingStage (deadlockStage (processWaiting (Sched.processIO
      (checkNewArrivals s))))).readyQueue.Nodup := by
    rw [(agingStage_slot _).2.2.2]; exact n5
  have n7 := selectStage_ready _ n6
  have n8 : (ganttStage (selectStage (agingStage (deadlockStage (processWaiting
      (Sched.processIO (checkNewArrivals s))))))).readyQueue.Nodup := by
    rw [ganttStage_readyQueue]; exact n7
  have n9 : (executeStage (ganttStage (selectStage (agingStage (deadlockStage
      (processWaiting (Sched.processIO (checkNewArrivals s)))))))).readyQueue.Nodup := by
    rw [executeStage_readyQueue]; exact n8
  have n10 := preemptStage_ready _ c10.1 n9
  intro t ht
  simp only [List.mem_cons, List.mem_singleton, List.not_mem_nil, or_false] at ht
  rcases ht with rfl | rfl | rfl | rfl | rfl | rfl | rfl | rfl | rfl | rfl | rfl | rfl | rfl
  · exact hn
  · exact n1
  · exact n2
  · exact n3
  · exact n4
  · exact n5
  · exact n6
  · exact n7
  · exact n8
  · exact n9
  · exact n10
  · rw [stuckStage_readyQueue]; exact n10
  · rw [finishTick_readyQueue]; exact n10

theorem simulateLoop_ready (n : Nat) :
    ∀ s : Sim, WF s → s.readyQueue.Nodup → (simulateLoop n s).1.readyQueue.Nodup := by
  induction n with
  | zero => intro s _ h; exact h
  | succ k ih =>
    intro s hW h
    have ht := tickTrace_ready s hW h _ (List.mem_cons_of_mem _ (tick_mem_tickTrace s).2)
    by_cases hx : (tick s).2.isSome = true
    · rw [show simulateLoop (k + 1) s = tick s by rw [simulateLoop, if_pos hx]]
      exact ht
    · rw [show simulateLoop (k + 1) s = simulateLoop k (tick s).1 by
        rw [simulateLoop, if_neg hx]]
      exact ih _ (tick_wf s hW) ht

/-- C35. Queue/state consistency.  The process table is assumed to be loaded
with every pid equal to its position in the table (and with the fields the
constructor of `Process` sets).  Then in every state at the head of a pass or
after a stage of a pass of the run: each pid occurs at most once in total
across the ready, I/O and waiting queues; every pid in the ready queue has
state READY, every pid in the I/O queue has state IO, every pid in the waiting
queue has state WAITING; and the running slot, when not -1, names a process
with state RUNNING that is in none of the queues. -/
theorem queues_consistent (total : Int → Int) (ps : List Process) (hl : Loaded ps)
    (fuel : Nat) :
    ∀ t ∈ (simulateLoop fuel (initialSim total ps)).1 ::
        tickTrace (simulateLoop fuel (initialSim total ps)).1,
      (t.readyQueue ++ t.ioQueue ++ t.waitingQueue).Nodup ∧
      (∀ q ∈ t.readyQueue, (procAt t.processes q).state = ProcessState.READY) ∧
      (∀ q ∈ t.ioQueue, (procAt t.processes q).state = ProcessState.IO_) ∧
      (∀ q ∈ t.waitingQueue, (procAt t.processes q).state = ProcessState.WAITING) ∧
      (t.currentProcess ≠ -1 →
        (procAt t.processes t.currentProcess).state = ProcessState.RUNNING ∧
        t.currentProcess ∉ t.readyQueue ∧ t.currentProcess ∉ t.ioQueue ∧
        t.currentProcess ∉ t.waitingQueue) := by
  have hW := run_wf total ps hl fuel
  have hn : (simulateLoop fuel (initialSim total ps)).1.readyQueue.Nodup :=
    simulateLoop_ready fuel _ (initialSim_wf total ps hl) List.nodup_nil
  intro t ht
  have hWt := tickTrace_wf _ hW t ht
  have hnt := tickTrace_ready _ hW hn t ht
  have hR : ∀ q ∈ t.readyQueue, (procAt t.processes q).state = ProcessState.READY :=
    fun q hq => (hWt.2.1 q).1 hq
  have hI : ∀ q ∈ t.ioQueue, (procAt t.processes q).state = ProcessState.IO_ :=
    fun q hq => ((hWt.2.1 q).2.1 hq).1
  have hQ : ∀ q ∈ t.waitingQueue, (procAt t.processes q).state = ProcessState.WAITING :=
    fun q hq => ((hWt.2.1 q).2.2.1 hq).1
  refine ⟨?_, hR, hI, hQ, ?_⟩
  · refine nodup_append_of _ _ (nodup_append_of _ _ hnt hWt.2.2.1 ?_) hWt.2.2.2 ?_
    · intro x hx hx2
      have h1 := hR x hx
      rw [hI x hx2] at h1
      exact absurd h1 (by decide)
    · intro x hx hx2
      have h3 := hQ x hx2
      rcases List.mem_append.mp hx with h | h
      · rw [hR x h] at h3; exact absurd h3 (by decide)
      · rw [hI x h] at h3; exact absurd h3 (by decide)
  · intro hc
    have hst := (hWt.2.1 t.currentProcess).2.2.2.1 ⟨rfl, hc⟩
    obtain ⟨e1, e2, e3, _, _⟩ := loc_excl (hWt.2.1 t.currentProcess) _ hst
    exact ⟨hst, e1 (by decide), e2 (by decide), e3 (by decide)⟩

theorem queues_consistent_witness :
    Loaded holderSim.processes ∧
    (simulateLoop 12 holderSim).1.waitingQueue = [1] ∧
    (simulateLoop 12 holderSim).1.currentProcess = 0 ∧
    ((simulateLoop 12 holderSim).1.readyQueue ++ (simulateLoop 12 holderSim).1.ioQueue ++
      (simulateLoop 12 holderSim).1.waitingQueue).Nodup ∧
    (procAt (simulateLoop 12 holderSim).1.processes 1).state = ProcessState.WAITING ∧
    (procAt (simulateLoop 12 holderSim).1.processes 0).state = ProcessState.RUNNING :=
  ⟨by decide, by decide, by decide,
   ((queues_consistent (fun r => if r = 1 then 1 else 0) holderSim.processes (by decide) 12)
      _ (List.mem_cons_self _ _)).1,
   ((queues_consistent (fun r => if r = 1 then 1 else 0) holderSim.processes (by decide) 12)
      _ (List.mem_cons_self _ _)).2.2.2.1 1 (by decide),
   (((queues_consistent (fun r => if r = 1 then 1 else 0) holderSim.processes (by decide) 12)
      _ (List.mem_cons_self _ _)).2.2.2.2 (by decide)).1⟩

/-! ## A running process at an I/O burst (C39) -/

theorem checkNewArrivals_other (s : Sim) (i : Int)
    (h : (procAt s.processes i).state ≠ ProcessState.NEW) :
    procAt (checkNewArrivals s).processes i = procAt s.processes i := by
  unfold checkNewArrivals
  simp only []
  rw [procAt_map]
  by_cases hv : ValidPid s.processes i
  · rw [if_pos hv, if_neg]
    unfold arrives
    simp [h]
  · rw [if_neg hv, procAt_of_not_valid _ _ hv]

theorem processWaiting_other (s : Sim) (i : Int) (h : i ∉ s.waitingQueue) :
    procAt (processWaiting s).processes i = procAt s.processes i := by
  rw [processWaiting_eq]
  exact retryPass_other _ _ _ i h

theorem recoverFromDeadlock_other (s : Sim) (dl : List Int) (i : Int)
    (hne : dl ≠ []) (hdl : ∀ q ∈ dl, q ∈ s.waitingQueue) (h : i ∉ s.waitingQueue) :
    procAt (recoverFromDeadlock s dl).processes i = procAt s.processes i ∧
    i ∉ (recoverFromDeadlock s dl).waitingQueue := by
  have hfirst : dl.getD 0 0 ∈ dl := by
    cases dl with
    | nil => exact absurd rfl hne
    | cons x xs => simp
  have hvm : (dl.foldl (victimScan s.processes)
      (dl.getD 0 0, (procAt s.processes (dl.getD 0 0)).priority)).1 ∈ s.waitingQueue := by
    rcases foldl_victimScan_mem s.processes dl
      (dl.getD 0 0, (procAt s.processes (dl.getD 0 0)).priority) with h1 | h1
    · rw [h1]; exact hdl _ hfirst
    · exact hdl _ h1
  unfold recoverFromDeadlock
  simp only []
  refine ⟨procAt_modifyAt_ne _ _ _ _ (fun e => h (e ▸ hvm)), ?_⟩
  intro hm
  exact h (List.mem_filter.mp hm).1

theorem deadlockStage_other (s : Sim) (i : Int) (h : i ∉ s.waitingQueue) :
    procAt (recoveryStage s).processes i = procAt s.processes i ∧
    procAt (deadlockStage s).processes i = procAt s.processes i := by
  unfold recoveryStage deadlockStage
  by_cases hc : deadlockCheck s = true
  · have hc2 := hc
    unfold deadlockCheck at hc2
    simp only [Bool.and_eq_true] at hc2
    have hr := recoverFromDeadlock_other s _ i ((detectDeadlock_reported s).2 hc2.2)
      (detectDeadlock_reported s).1 h
    rw [if_pos hc, if_pos hc]
    exact ⟨hr.1, (processWaiting_other _ i hr.2).trans hr.1⟩
  · rw [if_neg hc, if_neg hc]
    exact ⟨rfl, rfl⟩

theorem agingStage_other (s : Sim) (i : Int) (h : i ∉ s.readyQueue) :
    procAt (agingStage s).processes i = procAt s.processes i := by
  unfold agingStage
  split
  · exact (foldl_agingVisit_fields s.readyQueue s.processes i).2 h
  · rfl

/-- The stages of a pass before the selection leave the running process and
its record alone. -/
theorem runner_before_select (s : Sim) (hW : WF s) (c : Int) (hc : s.currentProcess = c)
    (hn : c ≠ -1) :
    ∀ t ∈ [s, checkNewArrivals s, Sched.processIO (checkNewArrivals s),
        processWaiting (Sched.processIO (checkNewArrivals s)),
        recoveryStage (processWaiting (Sched.processIO (checkNewArrivals s))),
        beforeAging s, agingStage (beforeAging s), atGantt s],
      t.currentProcess = c ∧ procAt t.processes c = procAt s.processes c := by
  have hst : (procAt s.processes c).state = ProcessState.RUNNING :=
    (hW.2.1 c).2.2.2.1 ⟨hc, hn⟩
  have hall := tickTrace_wf s hW
  unfold tickTrace at hall
  simp only [List.mem_cons, List.mem_singleton, forall_eq_or_imp, forall_eq] at hall
  obtain ⟨_, w1, w2, w3, w4, w5, w6, _⟩ := hall
  -- arrivals
  have p1 : procAt (checkNewArrivals s).processes c = procAt s.processes c :=
    checkNewArrivals_other s c (by rw [hst]; decide)
  have c1 : (checkNewArrivals s).currentProcess = c := hc
  have x1 := loc_excl (w1.2.1 c) _ (p1 ▸ hst)
  -- I/O
  have hv1 : ∀ q ∈ (checkNewArrivals s).ioQueue, ValidPid (checkNewArrivals s).processes q :=
    fun q hq => loc_valid _ ((w1.2.1 q).2.1 hq).1 (by decide)
  have p2 : procAt (Sched.processIO (checkNewArrivals s)).processes c = procAt s.processes c :=
    (((processIO_at _ w1.2.2.1 hv1 c).2 (x1.2.1 (by decide))).1).trans p1
  have c2 : (Sched.processIO (checkNewArrivals s)).currentProcess = c :=
    (processIO_kept _).2.1.trans c1
  have x2 := loc_excl (w2.2.1 c) _ (p2 ▸ hst)
  -- retry of the waiters
  have p3 : procAt (processWaiting (Sched.processIO (checkNewArrivals s))).processes c
      = procAt s.processes c :=
    (processWaiting_other _ c (x2.2.2.1 (by decide))).trans p2
  have c3 : (processWaiting (Sched.processIO (checkNewArrivals s))).currentProcess = c :=
    (processWaiting_kept _).2.1.trans c2
  have x3 := loc_excl (w3.2.1 c) _ (p3 ▸ hst)
  -- the periodic check
  have hd := deadlockStage_other (processWaiting (Sched.processIO (checkNewArrivals s))) c
    (x3.2.2.1 (by decide))
  have p4 := hd.1.trans p3
  have c4 : (recoveryStage (processWaiting (Sched.processIO
      (checkNewArrivals s)))).currentProcess = c := (recoveryStage_kept _).2.1.trans c3
  have p5 : procAt (beforeAging s).processes c = procAt s.processes c := hd.2.trans p3
  have c5 : (beforeAging s).currentProcess = c := (beforeAging_kept s).2.1.trans hc
  have w5b : WF (beforeAging s) := w5
  have x5 := loc_excl (w5b.2.1 c) _ (p5 ▸ hst)
  -- aging
  have p6 : procAt (agingStage (beforeAging s)).processes c = procAt s.processes c :=
    (agingStage_other _ c (x5.1 (by decide))).trans p5
  have c6 : (agingStage (beforeAging s)).currentProcess = c :=
    (agingStage_slot _).1.trans c5
  -- selection
  have e7 : atGantt s = agingStage (beforeAging s) :=
    selectStage_occupied _ (by rw [c6]; exact hn)
  intro t ht
  simp only [List.mem_cons, List.mem_singleton, List.not_mem_nil, or_false] at ht
  rcases ht with rfl | rfl | rfl | rfl | rfl | rfl | rfl | rfl
  · exact ⟨hc, rfl⟩
  · exact ⟨c1, p1⟩
  · exact ⟨c2, p2⟩
  · exact ⟨c3, p3⟩
  · exact ⟨c4, p4⟩
  · exact ⟨c5, p5⟩
  · exact ⟨c6, p6⟩
  · rw [e7]; exact ⟨c6, p6⟩
theorem finishTick_frame (s : Sim) (hnd : allDone s = false) (hs : stuckStage s = s) :
    (finishTick s).1.processes = s.processes ∧
    (finishTick s).1.currentProcess = s.currentProcess ∧
    (finishTick s).1.readyQueue = s.readyQueue := by
  rcases finishTick_cases s with ⟨h1, _, _, _⟩ | ⟨_, _, _, h4⟩ | ⟨_, _, h3, _⟩
  · rw [hnd] at h1
    exact absurd h1 (by decide)
  · rw [h4]
    exact ⟨rfl, rfl, rfl⟩
  · rw [h3, hs]
    exact ⟨rfl, rfl, rfl⟩

/-- One pass with the process `c` in the running slot at an I/O burst. -/
theorem runner_pass (s : Sim) (hW : WF s) (c : Int) (hc : s.currentProcess = c) (hn : c ≠ -1)
    (hb : (procAt s.processes c).currentBurstIndex < (procAt s.processes c).bursts.length)
    (hio : (procAt s.processes c).isCPUBurst.getD (procAt s.processes c).currentBurstIndex false
      = false) :
    executeProcess (beforeExecute s) = beforeExecute s ∧
    (beforeExecute s).currentProcess = c ∧
    procAt (beforeExecute s).processes c = procAt s.processes c ∧
    afterExecute s =
      { beforeExecute s with timeSlice := (beforeExecute s).timeSlice + 1 } ∧
    (¬ ((afterExecute s).timeSlice ≥ TIME_QUANTUM ∧ shouldPreempt (afterExecute s) = true) →
      tickBody s = afterExecute s ∧ (tick s).1.currentProcess = c ∧
      procAt (tick s).1.processes c = procAt s.processes c) ∧
    (((afterExecute s).timeSlice ≥ TIME_QUANTUM ∧ shouldPreempt (afterExecute s) = true) →
      (tick s).1.currentProcess = -1 ∧
      procAt (tick s).1.processes c =
        { procAt s.processes c with state := ProcessState.READY } ∧
      c ∈ (tick s).1.readyQueue) := by
  have hst : (procAt s.processes c).state = ProcessState.RUNNING :=
    (hW.2.1 c).2.2.2.1 ⟨hc, hn⟩
  have hval : ValidPid s.processes c := loc_valid _ hst (by decide)
  obtain ⟨cg, pg⟩ := runner_before_select s hW c hc hn (atGantt s) (by simp)
  have hbe : (beforeExecute s).processes = (atGantt s).processes ∧
      (beforeExecute s).currentProcess = (atGantt s).currentProcess := by
    have e : beforeExecute s = ganttStage (atGantt s) := rfl
    rw [e]
    unfold ganttStage
    split
    · split <;> exact ⟨rfl, rfl⟩
    · exact ⟨rfl, rfl⟩
  have cb : (beforeExecute s).currentProcess = c := hbe.2.trans cg
  have pb : procAt (beforeExecute s).processes c = procAt s.processes c := by
    rw [hbe.1]; exact pg
  have hex : executeProcess (beforeExecute s) = beforeExecute s :=
    executeProcess_io_burst _ (by rw [cb, pb]; exact hb) (by rw [cb, pb]; exact hio)
  have hae : afterExecute s =
      { beforeExecute s with timeSlice := (beforeExecute s).timeSlice + 1 } := by
    have e : afterExecute s = executeStage (beforeExecute s) := rfl
    rw [e]
    unfold executeStage
    rw [if_pos (by rw [cb]; exact hn), hex]
  have ca : (afterExecute s).currentProcess = c := by rw [hae]; exact cb
  have pa : (afterExecute s).processes = (beforeExecute s).processes := by rw [hae]
  have hsta : (procAt (afterExecute s).processes (afterExecute s).currentProcess).state
      = ProcessState.RUNNING := by
    rw [ca, pa, pb]; exact hst
  have hvala : ValidPid (afterExecute s).processes c := loc_valid _ (ca ▸ hsta) (by decide)
  have htb : tickBody s = preemptStage (afterExecute s) := rfl
  have htk : tick s = finishTick (tickBody s) := rfl
  refine ⟨hex, cb, pb, hae, ?_, ?_⟩
  · intro hpre
    have e : tickBody s = afterExecute s := by
      rw [htb]
      unfold preemptStage
      by_cases h1 : (afterExecute s).currentProcess ≠ -1 ∧
          (afterExecute s).timeSlice ≥ TIME_QUANTUM
      · rw [if_pos h1, if_neg (fun h2 => hpre ⟨h1.2, h2.1⟩)]
      · rw [if_neg h1]
    have hnd : allDone (tickBody s) = false := by
      rw [e]
      exact allDone_blocked _ c (by rw [pa, pb, hst]; decide) (by rw [pa, pb, hst]; decide)
    have hs : stuckStage (tickBody s) = tickBody s :=
      stuckStage_occupied _ (by rw [e, ca]; exact hn)
    obtain ⟨f1, f2, _⟩ := finishTick_frame _ hnd hs
    rw [htk]
    refine ⟨e, by rw [f2, e]; exact ca, by rw [f1, e, pa]; exact pb⟩
  · intro hpre
    have e : tickBody s =
        { afterExecute s with
          processes := modifyAt (afterExecute s).processes (afterExecute s).currentProcess
            (fun p => { p with state := ProcessState.READY })
          readyQueue := (afterExecute s).readyQueue ++ [(afterExecute s).currentProcess]
          currentProcess := -1
          timeSlice := 0 } := by
      rw [htb]
      unfold preemptStage
      rw [if_pos ⟨by rw [ca]; exact hn, hpre.1⟩, if_pos ⟨hpre.2, hsta⟩]
    have hp : procAt (tickBody s).processes c =
        { procAt s.processes c with state := ProcessState.READY } := by
      rw [e]
      simp only []
      rw [ca, procAt_modifyAt_same _ _ _ hvala, pa, pb]
    have hrq : c ∈ (tickBody s).readyQueue := by
      rw [e]
      simp only []
      rw [ca]
      simp
    have hsr : (procAt (tickBody s).processes c).state = ProcessState.READY := by
      rw [hp]
    have hnd : allDone (tickBody s) = false :=
      allDone_blocked _ c (by rw [hsr]; decide) (by rw [hsr]; decide)
    have hs : stuckStage (tickBody s) = tickBody s := by
      apply stuckStage_of_progress
      by_contra hnp
      have hnp2 : noProgress (tickBody s) = true := by simpa using hnp
      have := ((noProgress_iff _).mp hnp2).2.1
      rw [this] at hrq
      exact absurd hrq (List.not_mem_nil c)
    obtain ⟨f1, f2, f3⟩ := finishTick_frame _ hnd hs
    rw [htk]
    refine ⟨by rw [f2, e], by rw [f1]; exact hp, by rw [f3]; exact hrq⟩

/-- As long as no pass finds the quantum expired with a rival in the ready
queue, the process stays in the running slot with the record it had. -/
theorem runner_parked (c : Int) (hn : c ≠ -1) (n : Nat) :
    ∀ s : Sim, WF s → s.currentProcess = c →
      (procAt s.processes c).currentBurstIndex < (procAt s.processes c).bursts.length →
      (procAt s.processes c).isCPUBurst.getD (procAt s.processes c).currentBurstIndex false
        = false →
      (∀ m : Nat, m < n →
        ¬ ((afterExecute (simulateLoop m s).1).timeSlice ≥ TIME_QUANTUM ∧
            shouldPreempt (afterExecute (simulateLoop m s).1) = true)) →
      (simulateLoop n s).1.currentProcess = c ∧
      procAt (simulateLoop n s).1.processes c = procAt s.processes c := by
  induction n with
  | zero => intro s _ hc _ _ _; exact ⟨hc, rfl⟩
  | succ k ih =>
    intro s hW hc hb hio hno
    obtain ⟨_, _, _, _, h5, _⟩ := runner_pass s hW c hc hn hb hio
    obtain ⟨_, t1, t2⟩ := h5 (hno 0 (Nat.succ_pos k))
    by_cases hx : (tick s).2.isSome = true
    · rw [show simulateLoop (k + 1) s = tick s by rw [simulateLoop, if_pos hx]]
      exact ⟨t1, t2⟩
    · have e : ∀ m : Nat, simulateLoop (m + 1) s = simulateLoop m (tick s).1 := by
        intro m
        rw [simulateLoop, if_neg hx]
      rw [e k]
      have h := ih (tick s).1 (tick_wf s hW) t1 (by rw [t2]; exact hb) (by rw [t2]; exact hio)
        (by
          intro m hm
          have := hno (m + 1) (by omega)
          rw [e m] at this
          exact this)
      exact ⟨h.1, h.2.trans t2⟩
theorem finishTick_unstuck (s : Sim) (hs : stuckStage s = s) :
    (finishTick s).1.processes = s.processes ∧
    (finishTick s).1.currentProcess = s.currentProcess ∧
    (finishTick s).1.readyQueue = s.readyQueue := by
  unfold finishTick
  split
  · exact ⟨rfl, rfl, rfl⟩
  · split
    · exact ⟨rfl, rfl, rfl⟩
    · simp only []
      rw [hs]
      split <;> exact ⟨rfl, rfl, rfl⟩

/-- The running slot of any state is left alone by every stage of a pass up to
the call of `executeProcess`; when the running process is then at an I/O
burst, the slot is emptied in that pass by the preemption stage or not at
all. -/
theorem runner_slot (s : Sim) (c : Int) (hc : s.currentProcess = c) (hn : c ≠ -1)
    (hb : (procAt (beforeExecute s).processes c).currentBurstIndex <
      (procAt (beforeExecute s).processes c).bursts.length)
    (hio : (procAt (beforeExecute s).processes c).isCPUBurst.getD
      (procAt (beforeExecute s).processes c).currentBurstIndex false = false) :
    (beforeExecute s).currentProcess = c ∧
    executeProcess (beforeExecute s) = beforeExecute s ∧
    afterExecute s =
      { beforeExecute s with timeSlice := (beforeExecute s).timeSlice + 1 } ∧
    (¬ ((afterExecute s).timeSlice ≥ TIME_QUANTUM ∧ shouldPreempt (afterExecute s) = true ∧
        (procAt (beforeExecute s).processes c).state = ProcessState.RUNNING) →
      (tick s).1.currentProcess = c ∧ (tick s).1.processes = (beforeExecute s).processes) ∧
    (((afterExecute s).timeSlice ≥ TIME_QUANTUM ∧ shouldPreempt (afterExecute s) = true ∧
        (procAt (beforeExecute s).processes c).state = ProcessState.RUNNING) →
      (tick s).1.currentProcess = -1 ∧
      (tick s).1.processes = modifyAt (beforeExecute s).processes c
        (fun p => { p with state := ProcessState.READY }) ∧
      (tick s).1.readyQueue = (beforeExecute s).readyQueue ++ [c]) := by
  have c5 : (beforeAging s).currentProcess = c := (beforeAging_kept s).2.1.trans hc
  have c6 : (agingStage (beforeAging s)).currentProcess = c :=
    (agingStage_slot _).1.trans c5
  have e7 : atGantt s = agingStage (beforeAging s) :=
    selectStage_occupied _ (by rw [c6]; exact hn)
  have cb : (beforeExecute s).currentProcess = c := by
    have e : beforeExecute s = ganttStage (atGantt s) := rfl
    rw [e, (ganttStage_kept _).2.1, e7]
    exact c6
  have hex : executeProcess (beforeExecute s) = beforeExecute s :=
    executeProcess_io_burst _ (by rw [cb]; exact hb) (by rw [cb]; exact hio)
  have hae : afterExecute s =
      { beforeExecute s with timeSlice := (beforeExecute s).timeSlice + 1 } := by
    have e : afterExecute s = executeStage (beforeExecute s) := rfl
    rw [e]
    unfold executeStage
    rw [if_pos (by rw [cb]; exact hn), hex]
  have ca : (afterExecute s).currentProcess = c := by rw [hae]; exact cb
  have pa : (afterExecute s).processes = (beforeExecute s).processes := by rw [hae]
  have qa : (afterExecute s).readyQueue = (beforeExecute s).readyQueue := by rw [hae]
  have htb : tickBody s = preemptStage (afterExecute s) := rfl
  have htk : tick s = finishTick (tickBody s) := rfl
  refine ⟨cb, hex, hae, ?_, ?_⟩
  · intro hpre
    have e : tickBody s = afterExecute s := by
      rw [htb]
      unfold preemptStage
      by_cases h1 : (afterExecute s).currentProcess ≠ -1 ∧
          (afterExecute s).timeSlice ≥ TIME_QUANTUM
      · rw [if_pos h1, if_neg (fun h2 => hpre ⟨h1.2, h2.1, by
          have := h2.2
          rw [ca, pa] at this
          exact this⟩)]
      · rw [if_neg h1]
    have hs : stuckStage (tickBody s) = tickBody s :=
      stuckStage_occupied _ (by rw [e, ca]; exact hn)
    obtain ⟨f1, f2, _⟩ := finishTick_unstuck _ hs
    rw [htk]
    exact ⟨by rw [f2, e]; exact ca, by rw [f1, e, pa]⟩
  · intro hpre
    have e : tickBody s =
        { afterExecute s with
          processes := modifyAt (afterExecute s).processes (afterExecute s).currentProcess
            (fun p => { p with state := ProcessState.READY })
          readyQueue := (afterExecute s).readyQueue ++ [(afterExecute s).currentProcess]
          currentProcess := -1
          timeSlice := 0 } := by
      rw [htb]
      unfold preemptStage
      rw [if_pos ⟨by rw [ca]; exact hn, hpre.1⟩,
        if_pos ⟨hpre.2.1, by rw [ca, pa]; exact hpre.2.2⟩]
    have hrq : (tickBody s).readyQueue = (beforeExecute s).readyQueue ++ [c] := by
      rw [e]
      simp only []
      rw [ca, qa]
    have hs : stuckStage (tickBody s) = tickBody s := by
      apply stuckStage_of_progress
      by_contra hnp
      have hnp2 : noProgress (tickBody s) = true := by simpa using hnp
      have := ((noProgress_iff _).mp hnp2).2.1
      rw [hrq] at this
      exact absurd this (by simp)
    obtain ⟨f1, f2, f3⟩ := finishTick_unstuck _ hs
    rw [htk]
    refine ⟨by rw [f2, e], ?_, by rw [f3]; exact hrq⟩
    rw [f1, e]
    simp only []
    rw [ca, pa]
/-- C39. Dispatching a process whose current burst is an I/O burst makes no
progress.  For every state whose running process has a current burst that is
an I/O burst, `executeProcess` (and the sibling `runProcess`) returns the state
unchanged: no field of any process, no queue and no resource changes.  For
every state with a process `k` in the running slot that is at an I/O burst when
`executeProcess` is called in the pass started there, the call changes
nothing, and the pass ends with `k` still in the slot and the table as it was
at the call, unless the preemption stage finds the quantum expired, a rival in
the ready queue and `k` RUNNING: only then is the slot emptied, `k` being made
READY and appended to the ready queue.  In a
run on a table loaded with every pid equal to its position, let such a process
`c` be in the running slot at the head of a pass.  Then it is RUNNING, and up
to the call of `executeProcess` (head of the pass, arrivals, I/O, retry of
waiters, deadlock recovery and its retry, aging, selection, Gantt
bookkeeping) it stays in the slot with its record unchanged; the call changes
nothing and `timeSlice` is incremented; unless the preemption stage then finds
the quantum expired and a rival in the ready queue, the pass ends with `c` in
the slot and its record unchanged, and otherwise `c` is preempted: the slot
is emptied and `c` is put back into the ready queue, READY, its record
otherwise unchanged.  Hence over any number of passes in none of which the
preemption stage finds the quantum expired with a rival ready, `c` stays in
the running slot with the same record. -/
theorem io_burst_dispatch (total : Int → Int) (ps : List Process) (hl : Loaded ps)
    (fuel : Nat) (c : Int)
    (hc : (simulateLoop fuel (initialSim total ps)).1.currentProcess = c) (hn : c ≠ -1)
    (hb : (procAt (simulateLoop fuel (initialSim total ps)).1.processes c).currentBurstIndex <
      (procAt (simulateLoop fuel (initialSim total ps)).1.processes c).bursts.length)
    (hio : (procAt (simulateLoop fuel (initialSim total ps)).1.processes c).isCPUBurst.getD
      (procAt (simulateLoop fuel (initialSim total ps)).1.processes c).currentBurstIndex false
      = false) :
    (∀ s : Sim,
      (procAt s.processes s.currentProcess).currentBurstIndex <
        (procAt s.processes s.currentProcess).bursts.length →
      (procAt s.processes s.currentProcess).isCPUBurst.getD
        (procAt s.processes s.currentProcess).currentBurstIndex false = false →
      executeProcess s = s ∧ Student.runProcess s = s) ∧
    (∀ (s : Sim) (k : Int), s.currentProcess = k → k ≠ -1 →
      (procAt (beforeExecute s).processes k).currentBurstIndex <
        (procAt (beforeExecute s).processes k).bursts.length →
      (procAt (beforeExecute s).processes k).isCPUBurst.getD
        (procAt (beforeExecute s).processes k).currentBurstIndex false = false →
      (beforeExecute s).currentProcess = k ∧
      executeProcess (beforeExecute s) = beforeExecute s ∧
      afterExecute s =
        { beforeExecute s with timeSlice := (beforeExecute s).timeSlice + 1 } ∧
      (¬ ((afterExecute s).timeSlice ≥ TIME_QUANTUM ∧ shouldPreempt (afterExecute s) = true ∧
          (procAt (beforeExecute s).processes k).state = ProcessState.RUNNING) →
        (tick s).1.currentProcess = k ∧ (tick s).1.processes = (beforeExecute s).processes) ∧
      (((afterExecute s).timeSlice ≥ TIME_QUANTUM ∧ shouldPreempt (afterExecute s) = true ∧
          (procAt (beforeExecute s).processes k).state = ProcessState.RUNNING) →
        (tick s).1.currentProcess = -1 ∧
        (tick s).1.processes = modifyAt (beforeExecute s).processes k
          (fun p => { p with state := ProcessState.READY }) ∧
        (tick s).1.readyQueue = (beforeExecute s).readyQueue ++ [k])) ∧
    (procAt (simulateLoop fuel (initialSim total ps)).1.processes c).state
      = ProcessState.RUNNING ∧
    (∀ t ∈ ((simulateLoop fuel (initialSim total ps)).1 ::
        tickTrace (simulateLoop fuel (initialSim total ps)).1).take 9,
      t.currentProcess = c ∧
      procAt t.processes c = procAt (simulateLoop fuel (initialSim total ps)).1.processes c) ∧
    executeProcess (beforeExecute (simulateLoop fuel (initialSim total ps)).1)
      = beforeExecute (simulateLoop fuel (initialSim total ps)).1 ∧
    afterExecute (simulateLoop fuel (initialSim total ps)).1 =
      { beforeExecute (simulateLoop fuel (initialSim total ps)).1 with
        timeSlice := (beforeExecute (simulateLoop fuel (initialSim total ps)).1).timeSlice + 1 } ∧
    (¬ ((afterExecute (simulateLoop fuel (initialSim total ps)).1).timeSlice ≥ TIME_QUANTUM ∧
        shouldPreempt (afterExecute (simulateLoop fuel (initialSim total ps)).1) = true) →
      (tick (simulateLoop fuel (initialSim total ps)).1).1.currentProcess = c ∧
      procAt (tick (simulateLoop fuel (initialSim total ps)).1).1.processes c =
        procAt (simulateLoop fuel (initialSim total ps)).1.processes c) ∧
    (((afterExecute (simulateLoop fuel (initialSim total ps)).1).timeSlice ≥ TIME_QUANTUM ∧
        shouldPreempt (afterExecute (simulateLoop fuel (initialSim total ps)).1) = true) →
      (tick (simulateLoop fuel (initialSim total ps)).1).1.currentProcess = -1 ∧
      procAt (tick (simulateLoop fuel (initialSim total ps)).1).1.processes c =
        { procAt (simulateLoop fuel (initialSim total ps)).1.processes c with
          state := ProcessState.READY } ∧
      c ∈ (tick (simulateLoop fuel (initialSim total ps)).1).1.readyQueue) ∧
    (∀ n : Nat,
      (∀ m : Nat, m < n →
        ¬ ((afterExecute (simulateLoop m
              (simulateLoop fuel (initialSim total ps)).1).1).timeSlice ≥ TIME_QUANTUM ∧
            shouldPreempt (afterExecute (simulateLoop m
              (simulateLoop fuel (initialSim total ps)).1).1) = true)) →
      (simulateLoop n (simulateLoop fuel (initialSim total ps)).1).1.currentProcess = c ∧
      procAt (simulateLoop n (simulateLoop fuel (initialSim total ps)).1).1.processes c =
        procAt (simulateLoop fuel (initialSim total ps)).1.processes c) := by
  have hW := run_wf total ps hl fuel
  obtain ⟨h, hh⟩ : ∃ h, (simulateLoop fuel (initialSim total ps)).1 = h := ⟨_, rfl⟩
  rw [hh] at hc hb hio hW ⊢
  obtain ⟨r1, r2, r3, r4, r5, r6⟩ := runner_pass h hW c hc hn hb hio
  have hbs := runner_before_select h hW c hc hn
  refine ⟨fun s h1 h2 => ?_, fun s k h1 h2 h3 h4 => runner_slot s k h1 h2 h3 h4,
    (hW.2.1 c).2.2.2.1 ⟨hc, hn⟩, ?_, r1, r4,
    fun hp => (r5 hp).2, r6, fun n hno => runner_parked c hn n h hW hc hb hio hno⟩
  · have e := executeProcess_io_burst s h1 h2
    exact ⟨e, (runProcess_eq s).trans e⟩
  · intro t ht
    unfold tickTrace at ht
    simp only [List.take_succ_cons, List.take_zero, List.mem_cons, List.mem_singleton,
      List.not_mem_nil, or_false] at ht
    rcases ht with rfl | rfl | rfl | rfl | rfl | rfl | rfl | rfl | rfl
    · exact hbs _ (by simp)
    · exact hbs _ (by simp)
    · exact hbs _ (by simp)
    · exact hbs _ (by simp)
    · exact hbs _ (by simp)
    · exact hbs (beforeAging h) (by simp)
    · exact hbs (agingStage (beforeAging h)) (by simp)
    · exact hbs (atGantt h) (by simp)
    · exact ⟨r2, r3⟩

theorem io_burst_dispatch_witness :
    Loaded ioAfterIoSim.processes ∧ Loaded ioFirstSim.processes ∧
    ((simulateLoop 1 ioFirstSim).1.currentProcess = 0 ∧
      (procAt (simulateLoop 1 ioFirstSim).1.processes 0).currentBurstIndex = 0 ∧
      (procAt (simulateLoop 40 ioFirstSim).1.processes 0).state = ProcessState.RUNNING ∧
      (procAt (simulateLoop 40 ioFirstSim).1.processes 0).currentBurstIndex = 0) ∧
    ((simulateLoop 3 ioAfterIoSim).1.currentProcess = 0 ∧
      (procAt (simulateLoop 3 ioAfterIoSim).1.processes 0).currentBurstIndex = 2 ∧
      (procAt (simulateLoop 3 ioAfterIoSim).1.processes 0).state = ProcessState.RUNNING) ∧
    (tick (simulateLoop 3 ioAfterIoSim).1).1.currentProcess = 0 ∧
    procAt (tick (simulateLoop 3 ioAfterIoSim).1).1.processes 0 =
      procAt (simulateLoop 3 ioAfterIoSim).1.processes 0 ∧
    procAt (tick (simulateLoop 1 ioFirstSim).1).1.processes 0 =
      procAt (simulateLoop 1 ioFirstSim).1.processes 0 :=
  ⟨by decide, by decide, by decide, by decide,
   ((io_burst_dispatch (fun _ => 0) ioAfterIoSim.processes (by decide) 3 0 (by decide)
      (by decide) (by decide) (by decide)).2.2.2.2.2.2.1 (by decide)).1,
   ((io_burst_dispatch (fun _ => 0) ioAfterIoSim.processes (by decide) 3 0 (by decide)
      (by decide) (by decide) (by decide)).2.2.2.2.2.2.1 (by decide)).2,
   ((io_burst_dispatch (fun _ => 0) ioFirstSim.processes (by decide) 1 0 (by decide)
      (by decide) (by decide) (by decide)).2.2.2.2.2.2.1 (by decide)).2⟩

/-! ## The two analyzers agree (C33) -/

theorem canGetResource_eq (ps : List Process) (t : Int → ResourceInfo) (q : Int)
    (h : (procAt ps q).waitingForResource ≠ -1) :
    Student.canGetResource ps q t = satisfiable ps t q := by
  unfold Student.canGetResource satisfiable
  simp [h]

/-- One pass of `findDeadlock` over waiters that all wait for a resource, in
terms of the three scans. -/
theorem foldl_findVisit (ps : List Process) (l : List Int) :
    ∀ (t : Int → ResourceInfo) (K : List Int) (b : Bool),
      (∀ q ∈ l, (procAt ps q).waitingForResource ≠ -1) →
      l.foldl (Student.findVisit ps) (t, K, b)
        = (scanTemp ps l t, K ++ scanKept ps l t, b || !(scanRemoved ps l t).isEmpty) := by
  induction l with
  | nil => intro t K b _; simp [scanTemp, scanRemoved, scanKept]
  | cons q l ih =>
    intro t K b hw
    have hq := hw q (List.mem_cons_self _ _)
    have hl : ∀ y ∈ l, (procAt ps y).waitingForResource ≠ -1 :=
      fun y hy => hw y (List.mem_cons_of_mem _ hy)
    rw [List.foldl_cons]
    by_cases hs : satisfiable ps t q = true
    · have hv : Student.findVisit ps (t, K, b) q
          = (releaseAll t (procAt ps q).heldResources, K, true) := by
        unfold Student.findVisit
        rw [if_pos (by rw [canGetResource_eq ps t q hq]; exact hs)]
      rw [hv, ih _ _ _ hl]
      simp [scanTemp, scanRemoved, scanKept, hs]
    · have hv : Student.findVisit ps (t, K, b) q = (t, K ++ [q], b) := by
        unfold Student.findVisit
        rw [if_neg (by rw [canGetResource_eq ps t q hq]; exact hs)]
      rw [hv, ih _ _ _ hl]
      simp [scanTemp, scanRemoved, scanKept, hs]

theorem findLoop_eq_scanLoop (ps : List Process) (n : Nat) :
    ∀ l t, (∀ q ∈ l, (procAt ps q).waitingForResource ≠ -1) →
      Student.findLoop ps n l t = scanLoop ps n l t := by
  induction n with
  | zero => intro l t _; rfl
  | succ n ih =>
    intro l t hw
    unfold Student.findLoop scanLoop
    by_cases hl : l = []
    · simp [hl]
    · simp only [hl, if_false]
      rw [foldl_findVisit ps l t [] false hw]
      simp only [Bool.false_or, List.nil_append]
      by_cases hr : scanRemoved ps l t = []
      · simp [hr, (scanRemoved_nil ps l t hr).1]
      · have hne : (!(scanRemoved ps l t).isEmpty) = true := by
          cases h : scanRemoved ps l t with
          | nil => exact absurd h hr
          | cons _ _ => rfl
        simp only [hne, if_true, hr, ne_eq, not_false_eq_true]
        exact ih _ _ (fun y hy => hw y ((scanKept_sublist ps l t).subset hy))

/-- The list left by the passes does not depend on the order of the scan:
every waiter left when the passes run over `l1` is left when they run over any
duplicate-free list `l2` with the same members. -/
theorem scanLoop_order (ps : List Process) (l1 l2 : List Int) (t : Int → ResourceInfo)
    (h1 : l1.Nodup) (h2 : l2.Nodup) (hm : ∀ y, y ∈ l1 ↔ y ∈ l2)
    (hheld : ∀ q ∈ l1, ∀ r, 0 ≤ (procAt ps q).heldResources r)
    (hwait : ∀ q ∈ l1, (procAt ps q).waitingForResource ≠ -1) :
    ∀ y ∈ scanLoop ps l1.length l1 t, y ∈ scanLoop ps l2.length l2 t := by
  intro y hy
  have hsub := scanLoop_sublist ps l1.length l1 t
  have hndD := hsub.nodup h1
  have hDW : (scanLoop ps l1.length l1 t).toFinset ⊆ l1.toFinset := by
    intro z hz
    rw [List.mem_toFinset] at hz ⊢
    exact hsub.subset hz
  apply scanLoop_greatest ps (scanLoop ps l1.length l1 t).toFinset l2.length l2 t
    _ _ y (List.mem_toFinset.2 hy) ((hm y).1 (hsub.subset hy))
  · intro q hq
    exact hheld q ((hm q).2 hq)
  · intro p hp
    rw [List.mem_toFinset] at hp
    have h := scanLoop_final ps l1.length l1 t (le_refl _) p hp (hwait p (hsub.subset hp))
    rw [heldSum_eq_sum _ _ _ h1, heldSum_eq_sum _ _ _ hndD] at h
    rw [heldSum_eq_sum _ _ _ (h2.filter _)]
    have hset : (l2.filter (fun y => decide (y ∉ (scanLoop ps l1.length l1 t).toFinset))).toFinset
        = l1.toFinset \ (scanLoop ps l1.length l1 t).toFinset := by
      ext z
      simp [List.mem_filter, hm z]
    rw [hset]
    have hsd := Finset.sum_sdiff (f := fun q =>
      (procAt ps q).heldResources (procAt ps p).waitingForResource) hDW
    beta_reduce at hsd
    omega

theorem scanLoop_toFinset (ps : List Process) (l1 l2 : List Int) (t : Int → ResourceInfo)
    (h1 : l1.Nodup) (h2 : l2.Nodup) (hm : ∀ y, y ∈ l1 ↔ y ∈ l2)
    (hheld : ∀ q ∈ l1, ∀ r, 0 ≤ (procAt ps q).heldResources r)
    (hwait : ∀ q ∈ l1, (procAt ps q).waitingForResource ≠ -1) :
    (scanLoop ps l1.length l1 t).toFinset = (scanLoop ps l2.length l2 t).toFinset := by
  ext y
  rw [List.mem_toFinset, List.mem_toFinset]
  exact ⟨scanLoop_order ps l1 l2 t h1 h2 hm hheld hwait y,
    scanLoop_order ps l2 l1 t h2 h1 (fun z => (hm z).symm)
      (fun q hq => hheld q ((hm q).2 hq)) (fun q hq => hwait q ((hm q).2 hq)) y⟩

/-- The result of `detectDeadlock` for any output vector, in terms of the scans. -/
theorem detectDeadlock_scan (s : Sim) (dl : List Int) :
    detectDeadlock s dl
      = if scanLoop s.processes (waitingSet s).length (waitingSet s) s.resources ≠ []
        then (true, scanLoop s.processes (waitingSet s).length (waitingSet s) s.resources)
        else (false, dl) := by
  unfold detectDeadlock
  simp only []
  rw [show s.waitingQueue.foldl (fun acc pid => setInsert pid acc) [] = waitingSet s from rfl]
  by_cases h : waitingSet s = []
  · rw [if_pos h, h]
    simp [scanLoop]
  · rw [if_neg h, detectLoop_eq_scanLoop _ _ _ _ (waitingSet_nodup s)]

/-- The result of `findDeadlock` for any output vector, in terms of the scans. -/
theorem findDeadlock_scan (s : Sim) (dl : List Int)
    (hwait : ∀ q ∈ s.waitingQueue, (procAt s.processes q).waitingForResource ≠ -1) :
    Student.findDeadlock s dl
      = if scanLoop s.processes s.waitingQueue.length s.waitingQueue s.resources ≠ []
        then (true, scanLoop s.processes s.waitingQueue.length s.waitingQueue s.resources)
        else (false, dl) := by
  unfold Student.findDeadlock
  simp only []
  by_cases h : s.waitingQueue = []
  · rw [if_pos h, h]
    simp [scanLoop]
  · rw [if_neg h, findLoop_eq_scanLoop _ _ _ _ hwait]

theorem report_agree (A B dl : List Int) (h : A.toFinset = B.toFinset) :
    (if A ≠ [] then (true, A) else (false, dl)).1
      = (if B ≠ [] then (true, B) else (false, dl)).1 ∧
    (if A ≠ [] then (true, A) else (false, dl)).2.toFinset
      = (if B ≠ [] then (true, B) else (false, dl)).2.toFinset := by
  by_cases hA : A = []
  · have hB : B = [] := by
      rw [hA] at h
      exact (List.toFinset_eq_empty_iff B).1 (by simpa using h.symm)
    simp [hA, hB]
  · have hB : B ≠ [] := by
      intro hB
      rw [hB] at h
      exact hA ((List.toFinset_eq_empty_iff A).1 (by simpa using h))
    simp [hA, hB, h]

/-- C33. For every state in which the waiters have non-negative holdings,
every process in the waiting queue waits for a resource
(`waitingForResource ≠ -1`) and the queue has no duplicates, and for every
output vector passed in, `detectDeadlock` (scanning a pid-sorted set) and the
student's `findDeadlock` (scanning in queue order) return the same boolean and
leave the same set of pids in the output vector.  The scan order does not
matter: on any state with the same table and pool whose waiting queue is a
rearrangement of this one, `findDeadlock` returns that same boolean and that
same set. -/
theorem detectors_agree (s : Sim) (dl : List Int)
    (hheld : ∀ q ∈ s.waitingQueue, ∀ r, 0 ≤ (procAt s.processes q).heldResources r)
    (hwait : ∀ q ∈ s.waitingQueue, (procAt s.processes q).waitingForResource ≠ -1)
    (hnd : s.waitingQueue.Nodup) :
    (Student.findDeadlock s dl).1 = (detectDeadlock s dl).1 ∧
    (Student.findDeadlock s dl).2.toFinset = (detectDeadlock s dl).2.toFinset ∧
    ∀ s2 : Sim, s2.processes = s.processes → s2.resources = s.resources →
      s2.waitingQueue.Perm s.waitingQueue →
      (Student.findDeadlock s2 dl).1 = (detectDeadlock s dl).1 ∧
      (Student.findDeadlock s2 dl).2.toFinset = (detectDeadlock s dl).2.toFinset := by
  have key : ∀ s2 : Sim, s2.processes = s.processes → s2.resources = s.resources →
      s2.waitingQueue.Perm s.waitingQueue →
      (Student.findDeadlock s2 dl).1 = (detectDeadlock s dl).1 ∧
      (Student.findDeadlock s2 dl).2.toFinset = (detectDeadlock s dl).2.toFinset := by
    intro s2 hp hr hq
    have hw2 : ∀ q ∈ s2.waitingQueue, (procAt s2.processes q).waitingForResource ≠ -1 := by
      intro q hq2
      rw [hp]
      exact hwait q (hq.subset hq2)
    have hh2 : ∀ q ∈ s2.waitingQueue, ∀ r, 0 ≤ (procAt s2.processes q).heldResources r := by
      intro q hq2
      rw [hp]
      exact hheld q (hq.subset hq2)
    rw [findDeadlock_scan s2 dl hw2, detectDeadlock_scan s dl]
    apply report_agree
    rw [hp, hr] at *
    exact scanLoop_toFinset s.processes s2.waitingQueue (waitingSet s) s.resources
      (hq.nodup_iff.2 hnd) (waitingSet_nodup s)
      (fun y => by rw [mem_waitingSet]; exact hq.mem_iff)
      (fun q hq2 => hheld q (hq.subset hq2)) (fun q hq2 => hwait q (hq.subset hq2))
  exact ⟨(key s rfl rfl (List.Perm.refl _)).1, (key s rfl rfl (List.Perm.refl _)).2, key⟩

theorem detectors_agree_witness :
    (Student.findDeadlock circularSim []).1 = (detectDeadlock circularSim []).1 ∧
    (Student.findDeadlock circularSim []).2.toFinset
      = (detectDeadlock circularSim []).2.toFinset ∧
    (Student.findDeadlock circularSim []).1 = true := by
  have h1 : ∀ q ∈ circularSim.waitingQueue, ∀ r,
      0 ≤ (procAt circularSim.processes q).heldResources r := by
    intro q hq r
    have hq2 : q = 0 ∨ q = 1 := by simpa [circularSim] using hq
    rcases hq2 with rfl | rfl
    · show 0 ≤ (if r = 1 then (1 : Int) else 0)
      split <;> omega
    · show 0 ≤ (if r = 2 then (1 : Int) else 0)
      split <;> omega
  have h2 : ∀ q ∈ circularSim.waitingQueue,
      (procAt circularSim.processes q).waitingForResource ≠ -1 := by
    intro q hq
    have hq2 : q = 0 ∨ q = 1 := by simpa [circularSim] using hq
    rcases hq2 with rfl | rfl <;> decide
  have h := detectors_agree circularSim [] h1 h2 (by decide)
  exact ⟨h.1, h.2.1, by decide⟩

/-! ## The timeline is ordered (C32) -/

/-- Closing the open entry keeps the chart in order. -/
theorem chartOk_close (s : Sim) (h : GanttOpen s) :
    ChartOk (s.ganttChart ++ [{ pid := s.lastProcess, startTime := s.ganttStartTime,
                                endTime := s.currentTime }]) := by
  obtain ⟨⟨h1, h2⟩, h3, h4, _⟩ := h
  refine ⟨?_, ?_⟩
  · intro e he
    rcases List.mem_append.1 he with he | he
    · exact h1 e he
    · rw [List.mem_singleton] at he
      rw [he]
      exact h4
  · rw [List.chain'_append]
    refine ⟨h2, List.chain'_singleton _, ?_⟩
    intro x hx y hy
    simp only [List.head?_cons, Option.mem_def, Option.some.injEq] at hy
    rw [← hy]
    exact ⟨(h3 x hx).1, (h3 x hx).2⟩

theorem tickBody_ganttOpen (s : Sim) (h : GanttOpen s) : GanttOpen (tickBody s) := by
  obtain ⟨b1, b2, b3⟩ := tickBody_gantt s
  have bt := tickBody_currentTime s
  have hclose := chartOk_close s h
  obtain ⟨h1, h3, h4, h5⟩ := h
  unfold GanttOpen
  rw [b1, b2, b3, bt]
  by_cases hcp : (atGantt s).currentProcess ≠ -1
  · by_cases hl : s.lastProcess ≠ (atGantt s).currentProcess
    · by_cases hn : s.lastProcess ≠ -1
      · rw [if_pos ⟨hcp, hl, hn⟩, if_pos ⟨hcp, hl⟩, if_pos hcp]
        refine ⟨hclose, ?_, le_refl _, fun h => absurd h hcp⟩
        intro e he
        rw [List.getLast?_append, List.getLast?_singleton] at he
        simp only [Option.or, Option.mem_def, Option.some.injEq] at he
        rw [← he]
        exact ⟨rfl, hl⟩
      · rw [if_neg (fun h => hn h.2.2), if_pos ⟨hcp, hl⟩, if_pos hcp]
        have he : s.ganttChart = [] := h5 (not_not.mp hn)
        rw [he]
        refine ⟨⟨fun e h => absurd h (List.not_mem_nil e), List.chain'_nil⟩, ?_, le_refl _,
          fun _ => rfl⟩
        intro e h
        simp at h
    · rw [if_neg (fun h => hl h.2.1), if_neg (fun h => hl h.2), if_pos hcp,
        ← not_not.mp hl]
      exact ⟨h1, h3, h4, h5⟩
  · rw [if_neg (fun h => hcp h.1), if_neg (fun h => hcp h.1), if_neg hcp]
    exact ⟨h1, h3, h4, h5⟩

/-- One pass keeps the chart in order, and the bookkeeping too when the loop
goes on. -/
theorem tick_ganttOpen (s : Sim) (h : GanttOpen s) :
    ChartOk (tick s).1.ganttChart ∧ ((tick s).2 = none → GanttOpen (tick s).1) := by
  have hb := tickBody_ganttOpen s h
  obtain ⟨f1, f2, f3⟩ := finishTick_gantt (tickBody s)
  have hc := finishTick_cases (tickBody s)
  have hchart : ChartOk (tick s).1.ganttChart := by
    show ChartOk (finishTick (tickBody s)).1.ganttChart
    rw [f1]
    split
    · exact chartOk_close _ hb
    · exact hb.1
  refine ⟨hchart, ?_⟩
  intro hgo
  change (finishTick (tickBody s)).2 = none at hgo
  rcases hc with ⟨_, c2, _⟩ | ⟨_, _, _, c4⟩ | ⟨c1, _, c3, c4⟩
  · rw [c2] at hgo; exact absurd hgo (by simp)
  · rw [c4] at hgo; exact absurd hgo (by simp)
  · have hnd : ¬ (allDone (tickBody s) = true ∧ (tickBody s).lastProcess ≠ -1) := by
      intro hh
      rw [c1] at hh
      exact absurd hh.1 (by simp)
    rw [if_neg hnd] at f1
    show GanttOpen (finishTick (tickBody s)).1
    unfold GanttOpen
    rw [f1, f2, f3]
    have ht : (finishTick (tickBody s)).1.currentTime = (tickBody s).currentTime + 1 := by
      rw [c3]
    rw [ht]
    exact ⟨hb.1, hb.2.1, by have := hb.2.2.1; omega, hb.2.2.2⟩

theorem simulateLoop_chartOk (n : Nat) :
    ∀ s, GanttOpen s → ChartOk (simulateLoop n s).1.ganttChart := by
  induction n with
  | zero => intro s h; exact h.1
  | succ n ih =>
    intro s h
    by_cases hx : (tick s).2.isSome = true
    · have e : simulateLoop (n + 1) s = tick s := by
        rw [simulateLoop, if_pos hx]
      rw [e]
      exact (tick_ganttOpen s h).1
    · have e : simulateLoop (n + 1) s = simulateLoop n (tick s).1 := by
        rw [simulateLoop, if_neg hx]
      rw [e]
      apply ih
      apply (tick_ganttOpen s h).2
      cases hh : (tick s).2 with
      | none => rfl
      | some x => rw [hh] at hx; exact absurd rfl hx

theorem initialSim_ganttOpen (total : Int → Int) (ps : List Process) :
    GanttOpen (initialSim total ps) :=
  ⟨⟨fun e h => absurd h (List.not_mem_nil e), List.chain'_nil⟩,
   fun e h => by simp [initialSim] at h, le_refl _, fun _ => rfl⟩

/-- Two entries next to each other in a chart that is in order are linked. -/
theorem chartOk_consecutive (c : List GanttEntry) (h : ChartOk c)
    (l1 l2 : List GanttEntry) (e f : GanttEntry) (hc : c = l1 ++ e :: f :: l2) :
    e.endTime = f.startTime ∧ e.pid ≠ f.pid := by
  have h2 := h.2
  rw [hc, List.chain'_split] at h2
  exact (List.chain'_cons.1 h2.2).1
/-- C32. In the Gantt chart of a run of `simulate` from the state `parseInput`
builds, stopped after any number of passes of the loop or run to its end, every
entry has `startTime ≤ endTime`, and any two entries `e`, `f` next to each
other in the chart satisfy `e.endTime ≤ f.startTime`, in fact
`e.endTime = f.startTime`, and `e.pid ≠ f.pid`.  On the two-process input
`holderSim` the chart is `[(0, 0, 10), (1, 10, 11), (0, 11, 23)]`. -/
theorem gantt_ordered (total : Int → Int) (ps : List Process) :
    (∀ fuel : Nat,
      (∀ e ∈ (simulateLoop fuel (initialSim total ps)).1.ganttChart,
        e.startTime ≤ e.endTime) ∧
      (∀ (l1 l2 : List GanttEntry) (e f : GanttEntry),
        (simulateLoop fuel (initialSim total ps)).1.ganttChart = l1 ++ e :: f :: l2 →
        e.endTime ≤ f.startTime ∧ e.endTime = f.startTime ∧ e.pid ≠ f.pid)) ∧
    (∀ e ∈ (simulate (initialSim total ps)).1.ganttChart, e.startTime ≤ e.endTime) ∧
    (∀ (l1 l2 : List GanttEntry) (e f : GanttEntry),
      (simulate (initialSim total ps)).1.ganttChart = l1 ++ e :: f :: l2 →
      e.endTime ≤ f.startTime ∧ e.endTime = f.startTime ∧ e.pid ≠ f.pid) ∧
    (simulateLoop 24 holderSim).1.ganttChart
      = [{ pid := 0, startTime := 0, endTime := 10 },
         { pid := 1, startTime := 10, endTime := 11 },
         { pid := 0, startTime := 11, endTime := 23 }] := by
  have key : ∀ fuel : Nat,
      (∀ e ∈ (simulateLoop fuel (initialSim total ps)).1.ganttChart,
        e.startTime ≤ e.endTime) ∧
      (∀ (l1 l2 : List GanttEntry) (e f : GanttEntry),
        (simulateLoop fuel (initialSim total ps)).1.ganttChart = l1 ++ e :: f :: l2 →
        e.endTime ≤ f.startTime ∧ e.endTime = f.startTime ∧ e.pid ≠ f.pid) := by
    intro fuel
    have h := simulateLoop_chartOk fuel _ (initialSim_ganttOpen total ps)
    refine ⟨h.1, ?_⟩
    intro l1 l2 e f hc
    have hl := chartOk_consecutive _ h l1 l2 e f hc
    exact ⟨le_of_eq hl.1, hl.1, hl.2⟩
  exact ⟨key, (key 10001).1, (key 10001).2, by decide⟩

/-! ## The premature halt (C38) -/

/-- Once the student loop has been left, more fuel changes nothing. -/
theorem runLoop_exit (n : Nat) :
    ∀ (s : Sim) (m : Nat), (Student.runLoop n s).2.isSome = true → n ≤ m →
      Student.runLoop m s = Student.runLoop n s := by
  induction n with
  | zero => intro s m h _; simp [Student.runLoop] at h
  | succ n ih =>
    intro s m h hm
    obtain ⟨k, rfl⟩ : ∃ k, m = k + 1 := ⟨m - 1, by omega⟩
    by_cases hx : (Student.loopTail (Student.loopBody s)).2.isSome = true
    · rw [Student.runLoop, if_pos hx, Student.runLoop, if_pos hx]
    · rw [Student.runLoop, if_neg hx] at h
      rw [Student.runLoop, if_neg hx, Student.runLoop, if_neg hx]
      exact ih _ k h (by omega)

/-- While the loop of `simulate` has not been left, every pass has advanced
the clock by one, and the clock has not passed 10000. -/
theorem simulateLoop_open_clock (n : Nat) :
    ∀ s : Sim, (simulateLoop n s).2 = none →
      (simulateLoop n s).1.currentTime = s.currentTime + n ∧
      (0 < n → (simulateLoop n s).1.currentTime ≤ 10000) := by
  induction n with
  | zero =>
    intro s _
    exact ⟨by simp [simulateLoop], fun h => absurd h (by decide)⟩
  | succ n ih =>
    intro s h
    by_cases hx : (tick s).2.isSome = true
    · rw [simulateLoop, if_pos hx] at h
      rw [h] at hx
      exact absurd hx (by simp)
    · have e : simulateLoop (n + 1) s = simulateLoop n (tick s).1 := by
        rw [simulateLoop, if_neg hx]
      rw [e] at h ⊢
      have hn : (tick s).2 = none := by
        cases hh : (tick s).2 with
        | none => rfl
        | some x => rw [hh] at hx; exact absurd rfl hx
      obtain ⟨c1, c2⟩ := (tick_clock s).1 hn
      obtain ⟨i1, i2⟩ := ih _ h
      refine ⟨by rw [i1, c1]; push_cast; omega, fun _ => ?_⟩
      by_cases h0 : n = 0
      · subst h0
        exact c2
      · exact i2 (by omega)

/-- The stuck exit: some process is not TERMINATED, nothing is running, the
ready and I/O queues are empty, the waiting queue is not, and the analyzer
finds no deadlock. -/
theorem finishTick_stuck (s : Sim) (hd : allDone s = false) (hcp : s.currentProcess = -1)
    (hr : s.readyQueue = []) (hio : s.ioQueue = []) (hw : s.waitingQueue ≠ [])
    (hdet : (detectDeadlock s []).1 = false) :
    finishTick s = (s, some LoopExit.stuck) := by
  have hn := (noProgress_iff s).mpr ⟨hcp, hr, hio, hw⟩
  rcases finishTick_cases s with ⟨h7, _⟩ | ⟨_, _, _, h7⟩ | ⟨_, h7, _⟩
  · rw [hd] at h7; exact absurd h7 (by decide)
  · exact h7
  · rcases h7 with h7 | h7
    · rw [hn] at h7; exact absurd h7 (by decide)
    · rw [hdet] at h7; exact absurd h7 (by decide)

/-- C38. Premature halt in `scheduler_simulation.cpp`.  In a run on a table
loaded with pids equal to the positions, if at the end of a pass (after the
preemption check) the running slot is empty, the ready and I/O queues are
empty, the waiting queue is not empty and `detectDeadlock` finds no deadlock,
then `simulate` leaves the loop in that pass with the stuck exit, returning the
state as it is at the end of that pass: every process in the waiting queue is
left WAITING, not TERMINATED.  For every state at all, the tail of the pass
takes the stuck exit and changes nothing when the five conditions hold and the
queued waiters are table entries in state WAITING.  On the input `haltSim`
(resource 1 with one instance; `P0`, priority 0: `CPU{R[1,1]} IO{2} CPU{1}`;
`P1`, priority 1: `CPU{R[1,1],1}`) `simulate` stops with the stuck exit at
time 4, in its fifth pass, `P0` TERMINATED at 4 with the instance returned to
the pool and `P1` WAITING in the waiting queue, whereas `runSimulation` of
`student_scheduler.cpp`, which has no such check, goes on, runs `P1` to
TERMINATED at time 6 and leaves through the all-done exit. -/
theorem premature_halt (total : Int → Int) (ps : List Process) (hl : Loaded ps) (fuel : Nat)
    (hopen : (simulateLoop fuel (initialSim total ps)).2 = none)
    (hcp : (tickBody (simulateLoop fuel (initialSim total ps)).1).currentProcess = -1)
    (hready : (tickBody (simulateLoop fuel (initialSim total ps)).1).readyQueue = [])
    (hio : (tickBody (simulateLoop fuel (initialSim total ps)).1).ioQueue = [])
    (hwait : (tickBody (simulateLoop fuel (initialSim total ps)).1).waitingQueue ≠ [])
    (hdet : (detectDeadlock (tickBody (simulateLoop fuel (initialSim total ps)).1) []).1
      = false) :
    simulate (initialSim total ps)
      = (tickBody (simulateLoop fuel (initialSim total ps)).1, some LoopExit.stuck) ∧
    (∀ m : Nat, fuel + 1 ≤ m → simulateLoop m (initialSim total ps)
      = (tickBody (simulateLoop fuel (initialSim total ps)).1, some LoopExit.stuck)) ∧
    (∀ q ∈ (simulate (initialSim total ps)).1.waitingQueue,
      (procAt (simulate (initialSim total ps)).1.processes q).state = ProcessState.WAITING ∧
      (procAt (simulate (initialSim total ps)).1.processes q).state
        ≠ ProcessState.TERMINATED) ∧
    (∀ s : Sim, s.currentProcess = -1 → s.readyQueue = [] → s.ioQueue = [] →
      s.waitingQueue ≠ [] → (detectDeadlock s []).1 = false →
      (∀ q ∈ s.waitingQueue, ValidPid s.processes q ∧
        (procAt s.processes q).state = ProcessState.WAITING) →
      finishTick s = (s, some LoopExit.stuck)) ∧
    (simulate haltSim).2 = some LoopExit.stuck ∧
    (simulate haltSim).1.currentTime = 4 ∧
    simulate haltSim = simulateLoop 5 haltSim ∧
    (simulateLoop 4 haltSim).2 = none ∧
    (simulate haltSim).1.waitingQueue = [1] ∧
    (procAt (simulate haltSim).1.processes 1).state = ProcessState.WAITING ∧
    (procAt (simulate haltSim).1.processes 0).state = ProcessState.TERMINATED ∧
    (procAt (simulate haltSim).1.processes 0).completionTime = 4 ∧
    ((simulate haltSim).1.resources 1).availableInstances = 1 ∧
    (Student.runSimulation haltSim).2 = some LoopExit.allDone ∧
    (Student.runSimulation haltSim).1.currentTime = 6 ∧
    (procAt (Student.runSimulation haltSim).1.processes 1).state = ProcessState.TERMINATED ∧
    (procAt (Student.runSimulation haltSim).1.processes 1).completionTime = 6 ∧
    (procAt (Student.runLoop 5 haltSim).1.processes 1).state = ProcessState.WAITING ∧
    (Student.runLoop 5 haltSim).2 = none := by
  have hW0 := run_wf total ps hl fuel
  have hW : WF (tickBody (simulateLoop fuel (initialSim total ps)).1) :=
    tickTrace_wf _ hW0 _ (tickBody_mem_tickTrace _)
  have hn := (noProgress_iff _).mpr ⟨hcp, hready, hio, hwait⟩
  have hd : allDone (tickBody (simulateLoop fuel (initialSim total ps)).1) = false := by
    cases hh : allDone (tickBody (simulateLoop fuel (initialSim total ps)).1) with
    | false => rfl
    | true =>
      have := allDone_waiting _ hW hh
      rw [hn] at this
      exact absurd this (by decide)
  have hf := finishTick_stuck _ hd hcp hready hio hwait hdet
  have hstep : simulateLoop (fuel + 1) (initialSim total ps)
      = (tickBody (simulateLoop fuel (initialSim total ps)).1, some LoopExit.stuck) := by
    rw [simulateLoop_snoc fuel _ hopen]
    exact hf
  have hall : ∀ m : Nat, fuel + 1 ≤ m → simulateLoop m (initialSim total ps)
      = (tickBody (simulateLoop fuel (initialSim total ps)).1, some LoopExit.stuck) := by
    intro m hm
    rw [simulateLoop_exit (fuel + 1) _ m (by rw [hstep]; rfl) hm, hstep]
  have hfuel : fuel + 1 ≤ 10001 := by
    obtain ⟨c1, c2⟩ := simulateLoop_open_clock fuel _ hopen
    by_cases h0 : fuel = 0
    · omega
    · have h3 := c2 (by omega)
      rw [c1] at h3
      have h4 : (initialSim total ps).currentTime = 0 := rfl
      rw [h4] at h3
      omega
  have hsim : simulate (initialSim total ps)
      = (tickBody (simulateLoop fuel (initialSim total ps)).1, some LoopExit.stuck) :=
    hall 10001 hfuel
  have e1 : simulate haltSim = simulateLoop 5 haltSim :=
    simulateLoop_exit 5 haltSim 10001 (by decide) (by decide)
  have e2 : Student.runSimulation haltSim = Student.runLoop 7 haltSim :=
    runLoop_exit 7 haltSim 10001 (by decide) (by decide)
  refine ⟨hsim, hall, ?_, ?_, by rw [e1]; decide, by rw [e1]; decide, e1, ?_⟩
  · rw [hsim]
    intro q hq
    have hst := ((hW.2.1 q).2.2.1 hq).1
    exact ⟨hst, by rw [hst]; decide⟩
  · intro s h1 h2 h3 h4 h5 h6
    apply finishTick_stuck s _ h1 h2 h3 h4 h5
    obtain ⟨q, hq⟩ := List.exists_mem_of_ne_nil _ h4
    obtain ⟨hv, hst⟩ := h6 q hq
    exact (allDone_false_iff s).mpr ⟨procAt s.processes q, procAt_mem _ _ hv,
      by rw [hst]; decide⟩
  · rw [e1, e2]
    decide

theorem premature_halt_witness :
    Loaded haltSim.processes ∧
    (simulateLoop 4 haltSim).2 = none ∧
    (tickBody (simulateLoop 4 haltSim).1).currentProcess = -1 ∧
    (tickBody (simulateLoop 4 haltSim).1).waitingQueue = [1] ∧
    simulate haltSim = (tickBody (simulateLoop 4 haltSim).1, some LoopExit.stuck) :=
  ⟨by decide, by decide, by decide, by decide,
   (premature_halt (fun r => if r = 1 then 1 else 0) haltSim.processes (by decide) 4
      (by decide) (by decide) (by decide) (by decide) (by decide) (by decide)).1⟩

/-! ## The analyzers write nothing but their output (C31) -/

theorem foldl_drainVisit (l : List Int) :
    ∀ v : DetectVars, v.tempQueue = l →
      (l.foldl drainVisit v).globals = v.globals ∧
      (l.foldl drainVisit v).deadlockedProcesses = v.deadlockedProcesses ∧
      (l.foldl drainVisit v).inWaiting
        = l.foldl (fun acc pid => setInsert pid acc) v.inWaiting := by
  induction l with
  | nil => intro v _; exact ⟨rfl, rfl, rfl⟩
  | cons x l ih =>
    intro v hv
    rw [List.foldl_cons, List.foldl_cons]
    have h := ih (drainVisit v x) (by simp [drainVisit, hv])
    refine ⟨h.1, h.2.1, ?_⟩
    rw [h.2.2]
    simp [drainVisit, hv]

theorem foldl_detectVisitRun (l : List Int) :
    ∀ v : DetectVars,
      (l.foldl detectVisitRun v).globals = v.globals ∧
      (l.foldl detectVisitRun v).deadlockedProcesses = v.deadlockedProcesses ∧
      (l.foldl detectVisitRun v).inWaiting = v.inWaiting ∧
      ((l.foldl detectVisitRun v).tempAvailable, (l.foldl detectVisitRun v).toRemove,
        (l.foldl detectVisitRun v).progress)
        = l.foldl (detectVisit v.globals.processes) (v.tempAvailable, v.toRemove, v.progress) := by
  induction l with
  | nil => intro v; exact ⟨rfl, rfl, rfl, rfl⟩
  | cons x l ih =>
    intro v
    rw [List.foldl_cons, List.foldl_cons]
    have h := ih (detectVisitRun v x)
    have hg : (detectVisitRun v x).globals = v.globals := by
      unfold detectVisitRun
      simp only []
      split
      · split <;> rfl
      · rfl
    have hd : (detectVisitRun v x).deadlockedProcesses = v.deadlockedProcesses := by
      unfold detectVisitRun
      simp only []
      split
      · split <;> rfl
      · rfl
    have hi : (detectVisitRun v x).inWaiting = v.inWaiting := by
      unfold detectVisitRun
      simp only []
      split
      · split <;> rfl
      · rfl
    have hs : ((detectVisitRun v x).tempAvailable, (detectVisitRun v x).toRemove,
        (detectVisitRun v x).progress)
        = detectVisit v.globals.processes (v.tempAvailable, v.toRemove, v.progress) x := by
      unfold detectVisitRun detectVisit
      simp only []
      split
      · split <;> rfl
      · rfl
    obtain ⟨h1, h2, h3, h4⟩ := h
    rw [hg] at h4
    refine ⟨h1.trans hg, h2.trans hd, h3.trans hi, ?_⟩
    rw [h4, hs]

theorem foldl_eraseVisit (l : List Int) :
    ∀ v : DetectVars,
      (l.foldl eraseVisit v).globals = v.globals ∧
      (l.foldl eraseVisit v).deadlockedProcesses = v.deadlockedProcesses ∧
      (l.foldl eraseVisit v).tempAvailable = v.tempAvailable ∧
      (l.foldl eraseVisit v).progress = v.progress ∧
      (l.foldl eraseVisit v).inWaiting
        = l.foldl (fun acc pid => setErase pid acc) v.inWaiting := by
  induction l with
  | nil => intro v; exact ⟨rfl, rfl, rfl, rfl, rfl⟩
  | cons x l ih =>
    intro v
    rw [List.foldl_cons, List.foldl_cons]
    exact ih (eraseVisit v x)

/-- The loop of `detectDeadlock` over all the variables: the globals and the
output vector are not written, and the set left is the one `detectLoop`
computes. -/
theorem detectWhile_spec (n : Nat) :
    ∀ v : DetectVars,
      (detectWhile n v).globals = v.globals ∧
      (detectWhile n v).deadlockedProcesses = v.deadlockedProcesses ∧
      (v.progress = true → (detectWhile n v).inWaiting
        = detectLoop v.globals.processes n v.inWaiting v.tempAvailable) ∧
      (v.progress = false → (detectWhile n v).inWaiting = v.inWaiting) := by
  induction n with
  | zero => intro v; exact ⟨rfl, rfl, fun _ => rfl, fun _ => rfl⟩
  | succ n ih =>
    intro v
    unfold detectWhile
    by_cases hc : v.progress = true ∧ v.inWaiting ≠ []
    · rw [if_pos hc]
      simp only []
      obtain ⟨f1, f2, f3, f4⟩ := foldl_detectVisitRun v.inWaiting
        { v with progress := false, toRemove := [] }
      obtain ⟨e1, e2, e3, e4, e5⟩ := foldl_eraseVisit
        (v.inWaiting.foldl detectVisitRun { v with progress := false, toRemove := [] }).toRemove
        (v.inWaiting.foldl detectVisitRun { v with progress := false, toRemove := [] })
      obtain ⟨i1, i2, i3, i4⟩ := ih
        ((v.inWaiting.foldl detectVisitRun { v with progress := false, toRemove := [] }).toRemove.foldl
          eraseVisit
          (v.inWaiting.foldl detectVisitRun { v with progress := false, toRemove := [] }))
      simp only [] at f1 f2 f3 f4
      have g1 := congrArg (fun x => x.1) f4
      have g2 := congrArg (fun x => x.2.1) f4
      have g3 := congrArg (fun x => x.2.2) f4
      simp only [] at g1 g2 g3
      refine ⟨i1.trans (e1.trans f1), i2.trans (e2.trans f2), fun _ => ?_,
        fun h => absurd hc.1 (by rw [h]; decide)⟩
      have hl : detectLoop v.globals.processes (n + 1) v.inWaiting v.tempAvailable
          = (if (v.inWaiting.foldl (detectVisit v.globals.processes)
                (v.tempAvailable, [], false)).2.2 = true then
              detectLoop v.globals.processes n
                ((v.inWaiting.foldl (detectVisit v.globals.processes)
                  (v.tempAvailable, [], false)).2.1.foldl (fun acc pid => setErase pid acc)
                  v.inWaiting)
                (v.inWaiting.foldl (detectVisit v.globals.processes)
                  (v.tempAvailable, [], false)).1
            else (v.inWaiting.foldl (detectVisit v.globals.processes)
                  (v.tempAvailable, [], false)).2.1.foldl (fun acc pid => setErase pid acc)
                  v.inWaiting) := by
        rw [detectLoop, if_neg hc.2]
      rw [hl, ← g1, ← g2, ← g3]
      rw [e1, f1] at i3
      rw [e4] at i3 i4
      rw [e5, e3, f3] at i3
      rw [e5, f3] at i4
      cases hp : (v.inWaiting.foldl detectVisitRun
          { v with progress := false, toRemove := [] }).progress with
      | true =>
        rw [if_pos rfl]
        exact i3 hp
      | false =>
        rw [if_neg (by decide)]
        exact i4 hp
    · rw [if_neg hc]
      refine ⟨rfl, rfl, fun hp => ?_, fun _ => rfl⟩
      have hnil : v.inWaiting = [] := by
        by_contra hne
        exact hc ⟨hp, hne⟩
      rw [hnil, detectLoop, if_pos rfl]
theorem foldl_findVisitRun (l : List Int) :
    ∀ v : Student.FindVars,
      (l.foldl Student.findVisitRun v).globals = v.globals ∧
      (l.foldl Student.findVisitRun v).deadlockedProcesses = v.deadlockedProcesses ∧
      (l.foldl Student.findVisitRun v).stillWaiting = v.stillWaiting ∧
      ((l.foldl Student.findVisitRun v).tempResources,
        (l.foldl Student.findVisitRun v).newWaiting,
        (l.foldl Student.findVisitRun v).madeProgress)
        = l.foldl (Student.findVisit v.globals.processes)
            (v.tempResources, v.newWaiting, v.madeProgress) := by
  induction l with
  | nil => intro v; exact ⟨rfl, rfl, rfl, rfl⟩
  | cons x l ih =>
    intro v
    rw [List.foldl_cons, List.foldl_cons]
    have hg : (Student.findVisitRun v x).globals = v.globals := by
      unfold Student.findVisitRun
      split <;> rfl
    have hd : (Student.findVisitRun v x).deadlockedProcesses = v.deadlockedProcesses := by
      unfold Student.findVisitRun
      split <;> rfl
    have hi : (Student.findVisitRun v x).stillWaiting = v.stillWaiting := by
      unfold Student.findVisitRun
      split <;> rfl
    have hs : ((Student.findVisitRun v x).tempResources, (Student.findVisitRun v x).newWaiting,
        (Student.findVisitRun v x).madeProgress)
        = Student.findVisit v.globals.processes
            (v.tempResources, v.newWaiting, v.madeProgress) x := by
      unfold Student.findVisitRun Student.findVisit
      simp only []
      split <;> rfl
    obtain ⟨h1, h2, h3, h4⟩ := ih (Student.findVisitRun v x)
    rw [hg] at h4
    refine ⟨h1.trans hg, h2.trans hd, h3.trans hi, ?_⟩
    rw [h4, hs]

/-- The loop of `findDeadlock` over all the variables: the globals and the
output vector are not written, and the list left is the one `findLoop`
computes. -/
theorem findWhile_spec (n : Nat) :
    ∀ v : Student.FindVars,
      (Student.findWhile n v).globals = v.globals ∧
      (Student.findWhile n v).deadlockedProcesses = v.deadlockedProcesses ∧
      (v.madeProgress = true → (Student.findWhile n v).stillWaiting
        = Student.findLoop v.globals.processes n v.stillWaiting v.tempResources) ∧
      (v.madeProgress = false → (Student.findWhile n v).stillWaiting = v.stillWaiting) := by
  induction n with
  | zero => intro v; exact ⟨rfl, rfl, fun _ => rfl, fun _ => rfl⟩
  | succ n ih =>
    intro v
    by_cases hc : v.madeProgress = true ∧ v.stillWaiting ≠ []
    · obtain ⟨F, hF⟩ : ∃ F, F = v.stillWaiting.foldl Student.findVisitRun
          { v with madeProgress := false, newWaiting := [] } := ⟨_, rfl⟩
      obtain ⟨W, hW⟩ : ∃ W : Student.FindVars, W = { F with stillWaiting := F.newWaiting } :=
        ⟨_, rfl⟩
      have key : Student.findWhile (n + 1) v = Student.findWhile n W := by
        rw [Student.findWhile, if_pos hc, hW, hF]
      have hWg : W.globals = F.globals := by rw [hW]
      have hWd : W.deadlockedProcesses = F.deadlockedProcesses := by rw [hW]
      have hWs : W.stillWaiting = F.newWaiting := by rw [hW]
      have hWt : W.tempResources = F.tempResources := by rw [hW]
      have hWm : W.madeProgress = F.madeProgress := by rw [hW]
      obtain ⟨f1, f2, _, f4⟩ := foldl_findVisitRun v.stillWaiting
        { v with madeProgress := false, newWaiting := [] }
      rw [← hF] at f1 f2 f4
      simp only [] at f1 f2 f4
      have g1 := congrArg (fun x => x.1) f4
      have g2 := congrArg (fun x => x.2.1) f4
      have g3 := congrArg (fun x => x.2.2) f4
      simp only [] at g1 g2 g3
      obtain ⟨i1, i2, i3, i4⟩ := ih W
      rw [hWg, f1] at i1 i3
      rw [hWd, f2] at i2
      rw [hWs, hWt] at i3
      rw [hWs] at i4
      rw [hWm] at i3 i4
      rw [key]
      refine ⟨i1, i2, fun _ => ?_, fun h => absurd hc.1 (by rw [h]; decide)⟩
      have hl : Student.findLoop v.globals.processes (n + 1) v.stillWaiting v.tempResources
          = (if (v.stillWaiting.foldl (Student.findVisit v.globals.processes)
                (v.tempResources, [], false)).2.2 = true then
              Student.findLoop v.globals.processes n
                (v.stillWaiting.foldl (Student.findVisit v.globals.processes)
                  (v.tempResources, [], false)).2.1
                (v.stillWaiting.foldl (Student.findVisit v.globals.processes)
                  (v.tempResources, [], false)).1
            else (v.stillWaiting.foldl (Student.findVisit v.globals.processes)
                  (v.tempResources, [], false)).2.1) := by
        rw [Student.findLoop, if_neg hc.2]
      rw [hl, ← g1, ← g2, ← g3]
      by_cases hp : F.madeProgress = true
      · rw [if_pos hp]
        exact i3 hp
      · rw [if_neg hp]
        exact i4 (by simpa using hp)
    · have key : Student.findWhile (n + 1) v = v := by
        rw [Student.findWhile, if_neg hc]
      rw [key]
      refine ⟨rfl, rfl, fun hp => ?_, fun _ => rfl⟩
      have hnil : v.stillWaiting = [] := by
        by_contra hne
        exact hc ⟨hp, hne⟩
      rw [hnil, Student.findLoop, if_pos rfl]

/-- The statement-by-statement `detectDeadlock` returns with the globals as
they were, and with the result and the output vector of `detectDeadlock`. -/
theorem detectDeadlockRun_spec (s : Sim) (dl : List Int) :
    (detectDeadlockRun s dl).2.globals = s ∧
    ((detectDeadlockRun s dl).1, (detectDeadlockRun s dl).2.deadlockedProcesses)
      = detectDeadlock s dl := by
  obtain ⟨V1, hV1⟩ : ∃ V1, V1 = s.waitingQueue.foldl drainVisit
      { globals := s, deadlockedProcesses := dl, inWaiting := [],
        tempQueue := s.waitingQueue, tempAvailable := fun _ => default,
        progress := false, toRemove := [] } := ⟨_, rfl⟩
  obtain ⟨d1, d2, d3⟩ := foldl_drainVisit s.waitingQueue
    { globals := s, deadlockedProcesses := dl, inWaiting := [],
      tempQueue := s.waitingQueue, tempAvailable := fun _ => default,
      progress := false, toRemove := [] } rfl
  rw [← hV1] at d1 d2 d3
  simp only [] at d1 d2 d3
  obtain ⟨V2, hV2⟩ : ∃ V2 : DetectVars,
      V2 = { V1 with tempAvailable := V1.globals.resources, progress := true } := ⟨_, rfl⟩
  obtain ⟨V3, hV3⟩ : ∃ V3, V3 = detectWhile V2.inWaiting.length V2 := ⟨_, rfl⟩
  have key : detectDeadlockRun s dl
      = if V1.inWaiting = [] then (false, V1)
        else if V3.inWaiting ≠ [] then (true, { V3 with deadlockedProcesses := V3.inWaiting })
        else (false, V3) := by
    rw [hV3, hV2, hV1]
    rfl
  have hd : detectDeadlock s dl
      = if V1.inWaiting = [] then (false, dl)
        else if detectLoop s.processes V1.inWaiting.length V1.inWaiting s.resources ≠ []
          then (true, detectLoop s.processes V1.inWaiting.length V1.inWaiting s.resources)
          else (false, dl) := by
    rw [d3]
    rfl
  have e1 : V2.globals = V1.globals := by rw [hV2]
  have e2 : V2.deadlockedProcesses = V1.deadlockedProcesses := by rw [hV2]
  have e3 : V2.inWaiting = V1.inWaiting := by rw [hV2]
  have e4 : V2.tempAvailable = V1.globals.resources := by rw [hV2]
  have e5 : V2.progress = true := by rw [hV2]
  obtain ⟨w1, w2, w3, _⟩ := detectWhile_spec V2.inWaiting.length V2
  rw [← hV3] at w1 w2 w3
  have w4 := w3 e5
  rw [e1, d1] at w1 w4
  rw [e2, d2] at w2
  rw [e3, e4, d1] at w4
  rw [key, hd]
  by_cases h1 : V1.inWaiting = []
  · rw [if_pos h1, if_pos h1]
    exact ⟨d1, by rw [d2]⟩
  · rw [if_neg h1, if_neg h1, ← w4]
    by_cases h2 : V3.inWaiting ≠ []
    · rw [if_pos h2, if_pos h2]
      exact ⟨w1, rfl⟩
    · rw [if_neg h2, if_neg h2]
      exact ⟨w1, by rw [w2]⟩

/-- The statement-by-statement `findDeadlock` returns with the globals as they
were, and with the result and the output vector of `findDeadlock`. -/
theorem findDeadlockRun_spec (s : Sim) (dl : List Int) :
    (Student.findDeadlockRun s dl).2.globals = s ∧
    ((Student.findDeadlockRun s dl).1, (Student.findDeadlockRun s dl).2.deadlockedProcesses)
      = Student.findDeadlock s dl := by
  obtain ⟨V0, hV0⟩ : ∃ V0 : Student.FindVars, V0 =
      { globals := s, deadlockedProcesses := dl,
        tempResources := fun _ => default, stillWaiting := [], madeProgress := false,
        newWaiting := [] } := ⟨_, rfl⟩
  obtain ⟨V1, hV1⟩ : ∃ V1 : Student.FindVars, V1 =
      { V0 with tempResources := V0.globals.resources, stillWaiting := V0.globals.waitingQueue,
                madeProgress := true } := ⟨_, rfl⟩
  obtain ⟨V2, hV2⟩ : ∃ V2, V2 = Student.findWhile V1.stillWaiting.length V1 := ⟨_, rfl⟩
  have key : Student.findDeadlockRun s dl
      = if s.waitingQueue = [] then (false, V0)
        else if V2.stillWaiting ≠ [] then (true, { V2 with deadlockedProcesses := V2.stillWaiting })
        else (false, V2) := by
    rw [hV2, hV1, hV0]
    rfl
  have hd : Student.findDeadlock s dl
      = if s.waitingQueue = [] then (false, dl)
        else if Student.findLoop s.processes s.waitingQueue.length s.waitingQueue s.resources ≠ []
          then (true,
            Student.findLoop s.processes s.waitingQueue.length s.waitingQueue s.resources)
          else (false, dl) := rfl
  have c1 : V0.globals = s := by rw [hV0]
  have c2 : V0.deadlockedProcesses = dl := by rw [hV0]
  have e1 : V1.globals = s := by rw [hV1, hV0]
  have e2 : V1.deadlockedProcesses = dl := by rw [hV1, hV0]
  have e3 : V1.stillWaiting = s.waitingQueue := by rw [hV1, hV0]
  have e4 : V1.tempResources = s.resources := by rw [hV1, hV0]
  have e5 : V1.madeProgress = true := by rw [hV1]
  obtain ⟨w1, w2, w3, _⟩ := findWhile_spec V1.stillWaiting.length V1
  rw [← hV2] at w1 w2 w3
  have w4 := w3 e5
  rw [e1] at w1 w4
  rw [e2] at w2
  rw [e3, e4] at w4
  rw [key, hd]
  by_cases h1 : s.waitingQueue = []
  · rw [if_pos h1, if_pos h1]
    exact ⟨c1, by rw [c2]⟩
  · rw [if_neg h1, if_neg h1, ← w4]
    by_cases h2 : V2.stillWaiting ≠ []
    · rw [if_pos h2, if_pos h2]
      exact ⟨w1, rfl⟩
    · rw [if_neg h2, if_neg h2]
      exact ⟨w1, by rw [w2]⟩

/-- C31. The deadlock analyzer works on a scratch snapshot only.  For every
state and every output vector passed in, `detectDeadlock`, run statement by
statement over all the variables in its reach, returns with the globals exactly
as they were: the resource pool (total and available counts of every
resource), the waiting queue, and every field of every process are unchanged,
and so are the other queues, the running slot and the clock.  Only the output
vector is written, and only when the function returns true; the value returned
and the vector are those of `detectDeadlock` above.  The same holds for
`findDeadlock` of `student_scheduler.cpp`.  On `chainSim`, where both waiters
can finish one after the other, both analyzers return false with the output
vector as passed in, their scratch pools end with 1 and 2 free units of `R1`
and `R2`, and the real pool still has 0 and 1; on `circularSim` both return
true and write `[0, 1]`. -/
theorem analyzer_frame (s : Sim) (dl : List Int) :
    (detectDeadlockRun s dl).2.globals = s ∧
    (∀ r, (detectDeadlockRun s dl).2.globals.resources r = s.resources r) ∧
    (detectDeadlockRun s dl).2.globals.waitingQueue = s.waitingQueue ∧
    (detectDeadlockRun s dl).2.globals.processes = s.processes ∧
    ((detectDeadlockRun s dl).1, (detectDeadlockRun s dl).2.deadlockedProcesses)
      = detectDeadlock s dl ∧
    ((detectDeadlockRun s dl).1 = false →
      (detectDeadlockRun s dl).2.deadlockedProcesses = dl) ∧
    (Student.findDeadlockRun s dl).2.globals = s ∧
    (∀ r, (Student.findDeadlockRun s dl).2.globals.resources r = s.resources r) ∧
    (Student.findDeadlockRun s dl).2.globals.waitingQueue = s.waitingQueue ∧
    (Student.findDeadlockRun s dl).2.globals.processes = s.processes ∧
    ((Student.findDeadlockRun s dl).1, (Student.findDeadlockRun s dl).2.deadlockedProcesses)
      = Student.findDeadlock s dl ∧
    ((Student.findDeadlockRun s dl).1 = false →
      (Student.findDeadlockRun s dl).2.deadlockedProcesses = dl) ∧
    ((detectDeadlockRun chainSim [7]).1 = false ∧
      (detectDeadlockRun chainSim [7]).2.deadlockedProcesses = [7] ∧
      ((detectDeadlockRun chainSim [7]).2.tempAvailable 1).availableInstances = 1 ∧
      ((detectDeadlockRun chainSim [7]).2.tempAvailable 2).availableInstances = 2 ∧
      ((detectDeadlockRun chainSim [7]).2.globals.resources 1).availableInstances = 0 ∧
      ((detectDeadlockRun chainSim [7]).2.globals.resources 2).availableInstances = 1 ∧
      (Student.findDeadlockRun chainSim [7]).1 = false ∧
      (Student.findDeadlockRun chainSim [7]).2.deadlockedProcesses = [7] ∧
      ((Student.findDeadlockRun chainSim [7]).2.tempResources 1).availableInstances = 1 ∧
      ((Student.findDeadlockRun chainSim [7]).2.tempResources 2).availableInstances = 2 ∧
      ((Student.findDeadlockRun chainSim [7]).2.globals.resources 1).availableInstances = 0 ∧
      ((Student.findDeadlockRun chainSim [7]).2.globals.resources 2).availableInstances = 1 ∧
      (detectDeadlockRun circularSim [7]).1 = true ∧
      (detectDeadlockRun circularSim [7]).2.deadlockedProcesses = [0, 1] ∧
      (Student.findDeadlockRun circularSim [7]).1 = true ∧
      (Student.findDeadlockRun circularSim [7]).2.deadlockedProcesses = [0, 1]) := by
  obtain ⟨a1, a2⟩ := detectDeadlockRun_spec s dl
  obtain ⟨b1, b2⟩ := findDeadlockRun_spec s dl
  have a3 : (detectDeadlockRun s dl).1 = (detectDeadlock s dl).1 := congrArg Prod.fst a2
  have a4 : (detectDeadlockRun s dl).2.deadlockedProcesses = (detectDeadlock s dl).2 :=
    congrArg Prod.snd a2
  have b3 : (Student.findDeadlockRun s dl).1 = (Student.findDeadlock s dl).1 :=
    congrArg Prod.fst b2
  have b4 : (Student.findDeadlockRun s dl).2.deadlockedProcesses
      = (Student.findDeadlock s dl).2 := congrArg Prod.snd b2
  refine ⟨a1, fun r => by rw [a1], by rw [a1], by rw [a1], a2, ?_,
    b1, fun r => by rw [b1], by rw [b1], by rw [b1], b2, ?_, by decide⟩
  · intro h
    rw [a3] at h
    rw [a4]
    unfold detectDeadlock at h ⊢
    simp only [] at h ⊢
    split
    · rfl
    · rename_i h1
      rw [if_neg h1] at h
      split
      · rename_i h2
        rw [if_pos h2] at h
        exact absurd h (by simp)
      · rfl
  · intro h
    rw [b3] at h
    rw [b4]
    unfold Student.findDeadlock at h ⊢
    simp only [] at h ⊢
    split
    · rfl
    · rename_i h1
      rw [if_neg h1] at h
      split
      · rename_i h2
        rw [if_pos h2] at h
        exact absurd h (by simp)
      · rfl

/-! ## The stuck state without waiters (C27) -/

/-- A pass from a state in which nothing is running, the three queues are
empty, every process has arrived and some process is not TERMINATED changes
nothing but the clock. -/
theorem idle_tick (s : Sim) (hcp : s.currentProcess = -1) (hr : s.readyQueue = [])
    (hio : s.ioQueue = []) (hw : s.waitingQueue = [])
    (hn : ∀ p ∈ s.processes, p.state ≠ ProcessState.NEW) (hd : allDone s = false)
    (hts : s.timeSlice = 0) :
    tickBody s = s ∧
    tick s = ({ s with currentTime := s.currentTime + 1 },
      if s.currentTime + 1 > 10000 then some LoopExit.timeout else none) := by
  have hb : tickBody s = s := by
    unfold tickBody
    rw [checkNewArrivals_idle s hn, processIO_idle s hio, processWaiting_idle s hw,
      deadlockStage_idle s hw]
    have h1 : agingStage s = s := by
      unfold agingStage
      rw [if_neg (fun h => h.2 hr)]
    have h2 : selectStage s = s := by
      unfold selectStage selectNextProcess
      rw [if_pos hcp, if_pos hr]
      simp only [ne_eq, not_true_eq_false, if_false]
      cases s
      simp_all
    have h3 : ganttStage s = s := by
      unfold ganttStage
      rw [if_neg (fun h => h hcp)]
    have h4 : executeStage s = s := by
      unfold executeStage
      rw [if_neg (fun h => h hcp)]
    have h5 : preemptStage s = s := by
      unfold preemptStage
      rw [if_neg (fun h => h.1 hcp)]
    rw [h1, h2, h3, h4, h5]
  refine ⟨hb, ?_⟩
  have hnp : noProgress s = false := by
    unfold noProgress
    simp [hw]
  unfold tick
  rw [hb]
  unfold finishTick
  rw [hd, hnp]
  simp only [Bool.false_eq_true, if_false, Bool.false_and, stuckStage_of_progress s hnp]
  split <;> rfl

/-- From such a state the loop only counts: after `n` passes, as long as the
clock stays within 10000, nothing but the clock has changed and the loop has
not been left. -/
theorem idle_loop (n : Nat) :
    ∀ s : Sim, s.currentProcess = -1 → s.readyQueue = [] → s.ioQueue = [] →
      s.waitingQueue = [] → (∀ p ∈ s.processes, p.state ≠ ProcessState.NEW) →
      allDone s = false → s.timeSlice = 0 → s.currentTime + n ≤ 10000 →
      simulateLoop n s = ({ s with currentTime := s.currentTime + n }, none) := by
  induction n with
  | zero =>
    intro s _ _ _ _ _ _ _ _
    show (s, none) = _
    cases s
    simp
  | succ n ih =>
    intro s hcp hr hio hw hn hd hts ht
    have h := (idle_tick s hcp hr hio hw hn hd hts).2
    rw [if_neg (by omega)] at h
    have hx : ¬ (tick s).2.isSome = true := by rw [h]; simp
    rw [simulateLoop, if_neg hx, h]
    simp only []
    have hd2 : allDone { s with currentTime := s.currentTime + 1 } = false := hd
    rw [ih { s with currentTime := s.currentTime + 1 } hcp hr hio hw hn hd2 hts
      (by simp only []; push_cast at ht ⊢; omega)]
    simp only []
    congr 2
    push_cast
    omega

/-- Started within the ceiling, that loop ends only at the tick ceiling. -/
theorem idle_loop_timeout (n : Nat) (s : Sim) (hcp : s.currentProcess = -1)
    (hr : s.readyQueue = []) (hio : s.ioQueue = []) (hw : s.waitingQueue = [])
    (hn : ∀ p ∈ s.processes, p.state ≠ ProcessState.NEW) (hd : allDone s = false)
    (hts : s.timeSlice = 0) (ht : s.currentTime + n = 10000) :
    simulateLoop (n + 1) s = ({ s with currentTime := 10001 }, some LoopExit.timeout) := by
  have h := idle_loop n s hcp hr hio hw hn hd hts (by omega)
  rw [simulateLoop_snoc n s (by rw [h]), h]
  simp only []
  have hd2 : allDone { s with currentTime := s.currentTime + n } = false := hd
  have h2 := (idle_tick { s with currentTime := s.currentTime + n } hcp hr hio hw hn hd2 hts).2
  simp only [] at h2
  rw [h2, if_pos (by omega)]
  congr 2
  omega

/-- C27. The stuck state without waiters is not halted.  On the input
`0 0 0 CPU{1} IO{2}` (no resource) the process ends its trailing I/O burst in
pass 3 and is left in state IO in no queue.  At the end of that pass no
process is running, the ready, I/O and waiting queues are all empty and the
process is not TERMINATED, yet the pass does not leave the loop: the "no
progress" check asks for a non-empty waiting queue.  The clock advances, every
later pass changes nothing but the clock, and `simulate` leaves the loop only
through the tick ceiling, at time 10001, the process still in state IO.  The
same holds from every state in which nothing is running, the three queues are
empty, every process has arrived and some process is not TERMINATED: as long
as the clock stays within 10000 the loop is not left and only the clock
changes. -/
theorem stuck_without_waiters_loops :
    (tickBody (simulateLoop 3 trailingIoSim).1).currentProcess = -1 ∧
    (tickBody (simulateLoop 3 trailingIoSim).1).readyQueue = [] ∧
    (tickBody (simulateLoop 3 trailingIoSim).1).ioQueue = [] ∧
    (tickBody (simulateLoop 3 trailingIoSim).1).waitingQueue = [] ∧
    (procAt (tickBody (simulateLoop 3 trailingIoSim).1).processes 0).state = ProcessState.IO_ ∧
    allDone (tickBody (simulateLoop 3 trailingIoSim).1) = false ∧
    (tickBody (simulateLoop 3 trailingIoSim).1).currentTime = 3 ∧
    (simulateLoop 4 trailingIoSim).2 = none ∧
    (simulateLoop 4 trailingIoSim).1.currentTime = 4 ∧
    (simulate trailingIoSim).2 = some LoopExit.timeout ∧
    (simulate trailingIoSim).1.currentTime = 10001 ∧
    (procAt (simulate trailingIoSim).1.processes 0).state = ProcessState.IO_ ∧
    (simulate trailingIoSim).1.waitingQueue = [] ∧
    (∀ s : Sim, s.currentProcess = -1 → s.readyQueue = [] → s.ioQueue = [] →
      s.waitingQueue = [] → (∀ p ∈ s.processes, p.state ≠ ProcessState.NEW) →
      allDone s = false → s.timeSlice = 0 →
      ∀ n : Nat, s.currentTime + n ≤ 10000 →
        simulateLoop n s = ({ s with currentTime := s.currentTime + n }, none)) := by
  have e : simulate trailingIoSim
      = ({ (simulateLoop 4 trailingIoSim).1 with currentTime := 10001 },
          some LoopExit.timeout) := by
    have h1 : simulate trailingIoSim = simulateLoop (4 + 9997) trailingIoSim := rfl
    rw [h1, simulateLoop_add 4 trailingIoSim 9997 (by decide)]
    exact idle_loop_timeout 9996 _ (by decide) (by decide) (by decide) (by decide)
      (by decide) (by decide) (by decide) (by decide)
  refine ⟨by decide, by decide, by decide, by decide, by decide, by decide, by decide,
    by decide, by decide, ?_, ?_, ?_, ?_, ?_⟩
  · rw [e]
  · rw [e]
  · rw [e]
    decide
  · rw [e]
    decide
  · intro s hcp hr hio hw hn hd hts n ht
    exact idle_loop n s hcp hr hio hw hn hd hts ht

/-! ## The tick ceiling on tables whose pids index the table (C28) -/

/-- Under the invariant of the loop every index used on the table is an index
of the table. -/
theorem inv_tableAccesses (b : Bool) (n : Nat) (s : Sim) (h : Inv b n s) :
    ∀ q ∈ tableAccesses s, ValidPid s.processes q := by
  obtain ⟨hlen, ⟨hp, _, _⟩, hq1, hq2, hq3, hq4⟩ := h
  intro q hq
  unfold tableAccesses at hq
  unfold ValidPid
  rw [hlen]
  simp only [List.mem_append] at hq
  rcases hq with ((hq | hq) | hq) | hq
  · exact hq1 q hq
  · exact hq2 q hq
  · exact hq3 q hq
  · by_cases hc : s.currentProcess ≠ -1
    · rw [if_pos hc] at hq
      have hv : ValidPid s.processes s.currentProcess := by
        unfold ValidPid
        rw [hlen]
        rcases hq4 with h4 | h4
        · exact absurd h4 hc
        · exact h4
      simp only [List.mem_cons, List.mem_singleton, List.not_mem_nil, or_false] at hq
      rcases hq with rfl | rfl
      · rw [← hlen]; exact hv
      · have := hp _ (procAt_mem _ _ hv)
        unfold ValidPid at this
        rw [hlen] at this
        exact this
    · rw [if_neg hc] at hq
      exact absurd hq (List.not_mem_nil q)

/-- C28, as stated, fails: not every input keeps the loop inside the table.  On
the input `5 0 0 CPU{1}` the table has one entry, the arrival stage of pass 0
pushes the pid 5 on the ready queue, and the aging stage of that pass calls
`applyAging`, which indexes `processes[5]` for that entry: an access outside
the table, on which the program does not reach any of the three exits. -/
theorem stray_pid_leaves_table :
    strayPidSim.processes.length = 1 ∧
    (checkNewArrivals strayPidSim).readyQueue = [5] ∧
    (beforeAging strayPidSim).readyQueue = [5] ∧
    (beforeAging strayPidSim).processes.length = 1 ∧
    agingStage (beforeAging strayPidSim) = applyAging (beforeAging strayPidSim) ∧
    5 ∈ tableAccesses (beforeAging strayPidSim) ∧
    ¬ ValidPid (beforeAging strayPidSim).processes 5 := by
  refine ⟨by decide, by decide, by decide, by decide, ?_, by decide, by decide⟩
  unfold agingStage
  rw [if_pos (by decide)]

/-- C28, amended.  Tick ceiling: for every input in which every pid indexes the
process table (nothing being held at the start, as `parseInput` leaves it),
every index with which any stage of any pass indexes `processes[...]` is an
index of the table, `simulate` leaves its loop (10001 passes always suffice),
and on exit `0 ≤ currentTime ≤ 10001`; the loop is left either because all
processes are TERMINATED, or with the stuck warning (nothing running, ready
and I/O queues empty, waiting queue not empty, no deadlock found), both at a
time `≤ 10000`, or because the clock exceeded 10000, at time 10001.  More
passes than 10001 change nothing. -/
theorem simulate_terminates (total : Int → Int) (ps : List Process)
    (hpids : ∀ p ∈ ps, ValidPid ps p.pid)
    (hnone : ∀ p ∈ ps, ∀ r, p.heldResources r = 0) :
    (∀ fuel : Nat, ∀ t ∈ (simulateLoop fuel (initialSim total ps)).1
        :: tickTrace (simulateLoop fuel (initialSim total ps)).1,
      t.processes.length = ps.length ∧
      (∀ p ∈ t.processes, ValidPid t.processes p.pid) ∧
      ∀ q ∈ tableAccesses t, ValidPid t.processes q) ∧
    (simulate (initialSim total ps)).2.isSome = true ∧
    0 ≤ (simulate (initialSim total ps)).1.currentTime ∧
    (simulate (initialSim total ps)).1.currentTime ≤ 10001 ∧
    ((simulate (initialSim total ps)).2 = some LoopExit.allDone ∨
      (simulate (initialSim total ps)).2 = some LoopExit.stuck ∨
      (simulate (initialSim total ps)).2 = some LoopExit.timeout) ∧
    ((simulate (initialSim total ps)).2 = some LoopExit.allDone →
      (∀ p ∈ (simulate (initialSim total ps)).1.processes, p.state = ProcessState.TERMINATED) ∧
      (simulate (initialSim total ps)).1.currentTime ≤ 10000) ∧
    ((simulate (initialSim total ps)).2 = some LoopExit.stuck →
      (∃ p ∈ (simulate (initialSim total ps)).1.processes, p.state ≠ ProcessState.TERMINATED) ∧
      (simulate (initialSim total ps)).1.currentProcess = -1 ∧
      (simulate (initialSim total ps)).1.readyQueue = [] ∧
      (simulate (initialSim total ps)).1.ioQueue = [] ∧
      (simulate (initialSim total ps)).1.waitingQueue ≠ [] ∧
      (detectDeadlock (simulate (initialSim total ps)).1 []).1 = false ∧
      (simulate (initialSim total ps)).1.currentTime ≤ 10000) ∧
    ((simulate (initialSim total ps)).2 = some LoopExit.timeout →
      (simulate (initialSim total ps)).1.currentTime = 10001) ∧
    (∀ m : Nat, 10001 ≤ m →
      simulateLoop m (initialSim total ps) = simulate (initialSim total ps)) := by
  refine ⟨?_, simulate_leaves total ps⟩
  intro fuel
  have h0 := initialSim_inv false total ps hpids hnone (fun hb => by cases hb)
  have h1 := simulateLoop_inv false ps.length fuel _ h0
  have hall : ∀ t, Inv false ps.length t →
      t.processes.length = ps.length ∧
      (∀ p ∈ t.processes, ValidPid t.processes p.pid) ∧
      ∀ q ∈ tableAccesses t, ValidPid t.processes q :=
    fun t ht => ⟨ht.1, ht.2.1.1, inv_tableAccesses false _ t ht⟩
  intro t ht
  rcases List.mem_cons.1 ht with rfl | ht
  · exact hall _ h1
  · exact hall t (tickTrace_inv false ps.length _ h1 t ht)

theorem simulate_terminates_witness :
    (∀ p ∈ scenarioTable, ValidPid scenarioTable p.pid) ∧
    (∀ p ∈ scenarioTable, ∀ r, p.heldResources r = 0) ∧
    (simulate (initialSim scenarioTotal scenarioTable)).2.isSome = true ∧
    (simulate (initialSim scenarioTotal scenarioTable)).1.currentTime ≤ 10001 :=
  ⟨by decide, scenarioTable_fresh,
   (simulate_terminates scenarioTotal scenarioTable (by decide) scenarioTable_fresh).2.1,
   (simulate_terminates scenarioTotal scenarioTable (by decide) scenarioTable_fresh).2.2.2.1⟩

/-! ## Conservation and the range of the counts (C1) -/

theorem wrapInt_exact (x : Int) (h1 : -2147483648 ≤ x) (h2 : x ≤ 2147483647) :
    wrapInt x = x := by
  unfold wrapInt
  omega

/-- With both results inside the 32-bit range the wrapping allocator is
`requestResource`. -/
theorem requestResource32_exact (s : Sim) (pid r a : Int)
    (h1 : -2147483648 ≤ (s.resources r).availableInstances - a)
    (h2 : (s.resources r).availableInstances - a ≤ 2147483647)
    (h3 : -2147483648 ≤ (procAt s.processes pid).heldResources r + a)
    (h4 : (procAt s.processes pid).heldResources r + a ≤ 2147483647) :
    requestResource32 s pid r a = requestResource s pid r a := by
  unfold requestResource32 requestResource
  split
  · have e1 : (fun x => if x = r then
          { s.resources x with
            availableInstances := wrapInt ((s.resources x).availableInstances - a) }
          else s.resources x) = addAvailable s.resources r (-a) := by
      funext x
      unfold addAvailable
      by_cases hx : x = r
      · subst hx
        rw [if_pos rfl, if_pos rfl, wrapInt_exact _ h1 h2]
        rfl
      · rw [if_neg hx, if_neg hx]
    have e2 : modifyAt s.processes pid
          (fun p => { p with heldResources := fun x =>
            if x = r then wrapInt (p.heldResources x + a) else p.heldResources x })
        = modifyAt s.processes pid
          (fun p => { p with heldResources := addHeld p.heldResources r a }) := by
      apply modifyAt_congr
      have e3 : (fun x => if x = r then wrapInt ((procAt s.processes pid).heldResources x + a)
          else (procAt s.processes pid).heldResources x)
          = addHeld (procAt s.processes pid).heldResources r a := by
        funext x
        unfold addHeld
        by_cases hx : x = r
        · subst hx
          rw [if_pos rfl, if_pos rfl, wrapInt_exact _ h3 h4]
        · rw [if_neg hx, if_neg hx]
      simp only [e3]
    rw [e1, e2]
  · rfl

theorem held_le_heldTotal (ps : List Process) (r : Int)
    (h : ∀ p ∈ ps, 0 ≤ p.heldResources r) :
    ∀ p ∈ ps, p.heldResources r ≤ heldTotal ps r := by
  induction ps with
  | nil => intro p hp; exact absurd hp (List.not_mem_nil p)
  | cons q qs ih =>
    intro p hp
    have h1 := h q (List.mem_cons_self _ _)
    have h2 := heldTotal_nonneg qs r (fun x hx => h x (List.mem_cons_of_mem _ hx))
    have e : heldTotal (q :: qs) r = q.heldResources r + heldTotal qs r := by
      simp [heldTotal]
    rw [e]
    rcases List.mem_cons.1 hp with rfl | hp
    · omega
    · have := ih (fun x hx => h x (List.mem_cons_of_mem _ hx)) p hp
      omega

/-- C1, as stated, fails: conservation is an identity over the integers and
the counts are 32-bit.  On the input `[1,1]` /
`0 0 0 CPU{R[1,-2147483647],2}` the call of `executeProcess` in pass 0 executes
the request of process 0 for `-2147483647` units of resource 1, which is
granted (`1 ≥ -2147483647`).  The exact result of `availableInstances -= amount`
is 2147483648, outside the 32-bit range; the program is left with
`availableInstances = -2147483648` and `heldResources[1] = -2147483647`, and
their sum is not the total 1. -/
theorem conservation_lost_on_overflow :
    (beforeExecute overflowSim).currentProcess = 0 ∧
    (procAt (beforeExecute overflowSim).processes 0).currentOperationIndex = 0 ∧
    ((procAt (beforeExecute overflowSim).processes 0).bursts.getD 0 []).getD 0
        (Operation.mkExec OperationType.EXEC 0)
      = Operation.mkRes OperationType.REQUEST 1 (-2147483647) ∧
    ((beforeExecute overflowSim).resources 1).availableInstances = 1 ∧
    ((executeProcess (beforeExecute overflowSim)).resources 1).availableInstances
      = ((requestResource (beforeExecute overflowSim) 0 1 (-2147483647)).2.resources 1
          ).availableInstances ∧
    ((requestResource (beforeExecute overflowSim) 0 1 (-2147483647)).2.resources 1
      ).availableInstances = 2147483648 ∧
    ((requestResource32 (beforeExecute overflowSim) 0 1 (-2147483647)).2.resources 1
      ).availableInstances = -2147483648 ∧
    (procAt (requestResource32 (beforeExecute overflowSim) 0 1 (-2147483647)).2.processes 0
      ).heldResources 1 = -2147483647 ∧
    ((requestResource32 (beforeExecute overflowSim) 0 1 (-2147483647)).2.resources 1
      ).totalInstances = 1 ∧
    ¬ Conserved (requestResource32 (beforeExecute overflowSim) 0 1 (-2147483647)).2 := by
  refine ⟨by decide, by decide, by decide, by decide, by decide, by decide, by decide,
    by decide, by decide, ?_⟩
  intro h
  have h1 := h 1
  revert h1
  decide

/-- C1, amended.  Resource conservation.  Start `simulate` with every resource
fully available (`available = total`, of any sign) and a table in which every
pid indexes the table, nothing is held, no pending amount is negative and
every Request and Release operation has a non-negative amount.  Then in every
state `t` at the head of a pass of the loop or after a stage of a pass
(arrivals, I/O, retry of waiters, deadlock recovery and its retry, aging,
selection, Gantt bookkeeping, execution, preemption, the recovery of the "no
progress" check, the end of the pass), for every resource id,
`availableInstances` plus the sum of `heldResources[id]` over all processes
equals `totalInstances`, which is the total of the resource line.  No count
leaves the range between 0 and that total: the available count is at most the
total and is non-negative or equal to the total, every holding is non-negative
and is at most the total or zero.  Hence a request that is granted computes the
same state with 32-bit arithmetic as with exact arithmetic when the total is a
32-bit number; and conservation holds again after each of `requestResource`
and `releaseResource` (for a non-negative amount), `processWaiting`,
`executeProcess` (with its terminations) and `recoverFromDeadlock` run from
`t`. -/
theorem conservation_every_stage (total : Int → Int) (ps : List Process)
    (hpids : ∀ p ∈ ps, ValidPid ps p.pid)
    (hnone : ∀ p ∈ ps, ∀ r, p.heldResources r = 0)
    (hpend : ∀ p ∈ ps, 0 ≤ p.waitingForAmount)
    (hamt : ∀ p ∈ ps, AmountsNonneg p) (fuel : Nat) :
    ∀ t ∈ (simulateLoop fuel (initialSim total ps)).1
        :: tickTrace (simulateLoop fuel (initialSim total ps)).1,
      Conserved t ∧
      (∀ r, (t.resources r).totalInstances = total r ∧
        (t.resources r).availableInstances ≤ total r ∧
        (0 ≤ (t.resources r).availableInstances ∨
          (t.resources r).availableInstances = total r)) ∧
      (∀ p ∈ t.processes, ∀ r, 0 ≤ p.heldResources r ∧
        (p.heldResources r ≤ total r ∨ p.heldResources r = 0)) ∧
      (∀ pid r a, ValidPid t.processes pid → 0 ≤ a →
        (t.resources r).availableInstances ≥ a →
        -2147483648 ≤ total r → total r ≤ 2147483647 →
        requestResource32 t pid r a = requestResource t pid r a) ∧
      (∀ pid r a, ValidPid t.processes pid → 0 ≤ a →
        Conserved (requestResource t pid r a).2 ∧ Conserved (releaseResource t pid r a)) ∧
      Conserved (processWaiting t) ∧
      Conserved (executeProcess t) ∧
      (∀ dl, dl ≠ [] → (∀ q ∈ dl, q ∈ t.waitingQueue) →
        Conserved (recoverFromDeadlock t dl)) := by
  have h0 := initialSim_inv true total ps hpids hnone
    (fun _ p hp => ⟨hpend p hp, hamt p hp⟩)
  have h1 := simulateLoop_inv true ps.length fuel _ h0
  have hall : ∀ t, Inv true ps.length t → (∀ r, (t.resources r).totalInstances = total r) →
      Conserved t ∧
      (∀ r, (t.resources r).totalInstances = total r ∧
        (t.resources r).availableInstances ≤ total r ∧
        (0 ≤ (t.resources r).availableInstances ∨
          (t.resources r).availableInstances = total r)) ∧
      (∀ p ∈ t.processes, ∀ r, 0 ≤ p.heldResources r ∧
        (p.heldResources r ≤ total r ∨ p.heldResources r = 0)) ∧
      (∀ pid r a, ValidPid t.processes pid → 0 ≤ a →
        (t.resources r).availableInstances ≥ a →
        -2147483648 ≤ total r → total r ≤ 2147483647 →
        requestResource32 t pid r a = requestResource t pid r a) ∧
      (∀ pid r a, ValidPid t.processes pid → 0 ≤ a →
        Conserved (requestResource t pid r a).2 ∧ Conserved (releaseResource t pid r a)) ∧
      Conserved (processWaiting t) ∧
      Conserved (executeProcess t) ∧
      (∀ dl, dl ≠ [] → (∀ q ∈ dl, q ∈ t.waitingQueue) →
        Conserved (recoverFromDeadlock t dl)) := by
    intro t ht hT
    have hc : Conserved t := ht.2.1.2.1
    have hnn := ht.2.1.2.2 rfl
    have hheld : ∀ p ∈ t.processes, ∀ r, 0 ≤ p.heldResources r ∧
        p.heldResources r ≤ heldTotal t.processes r := by
      intro p hp r
      exact ⟨(hnn.1 p hp).1 r,
        held_le_heldTotal t.processes r (fun q hq => (hnn.1 q hq).1 r) p hp⟩
    refine ⟨hc, ?_, ?_, ?_, ?_, (processWaiting_inv true _ t ht).2.1.2.1,
      (executeProcess_inv true _ t ht).2.1.2.1, ?_⟩
    · intro r
      have hh := heldTotal_nonneg t.processes r (fun p hp => (hnn.1 p hp).1 r)
      have := hc r
      have := hnn.2 r
      have := hT r
      omega
    · intro p hp r
      have := hheld p hp r
      have := hc r
      have := hnn.2 r
      have := hT r
      omega
    · intro pid r a hv ha hge hlo hhi
      have := hheld _ (procAt_mem t.processes pid hv) r
      have := hc r
      have := hnn.2 r
      have := hT r
      exact requestResource32_exact t pid r a (by omega) (by omega) (by omega) (by omega)
    · intro pid r a hv ha
      exact ⟨(requestResource_inv true _ t pid r a ht hv (fun _ => ha)).2.1.2.1,
        (releaseResource_inv true _ t pid r a ht hv (fun _ => ha)).2.1.2.1⟩
    · intro dl hne hdl
      exact (recoverFromDeadlock_inv true _ t dl ht hne hdl).2.1.2.1
  intro t ht
  have hT := run_totals total ps fuel t ht
  rcases List.mem_cons.1 ht with rfl | ht
  · exact hall _ h1 hT
  · exact hall t (tickTrace_inv true ps.length _ h1 t ht) hT

theorem conservation_every_stage_witness :
    (∀ p ∈ scenarioTable, ValidPid scenarioTable p.pid) ∧
    (∀ p ∈ scenarioTable, ∀ r, p.heldResources r = 0) ∧
    (∀ p ∈ scenarioTable, 0 ≤ p.waitingForAmount) ∧
    (∀ p ∈ scenarioTable, AmountsNonneg p) ∧
    Conserved (simulateLoop 9 (initialSim scenarioTotal scenarioTable)).1 ∧
    (procAt (simulateLoop 9 (initialSim scenarioTotal scenarioTable)).1.processes 0).heldResources 1
      = 1 :=
  ⟨by decide, scenarioTable_fresh, by decide, scenarioTable_amounts,
   (conservation_every_stage scenarioTotal scenarioTable (by decide) scenarioTable_fresh
     (by decide) scenarioTable_amounts 9 _ (List.mem_cons_self _ _)).1,
   by decide⟩

/-! ## The execution view of a process along the passes of a run -/

theorem active_not (p : Process) (h : Active p) :
    p.state ≠ ProcessState.IO_ ∧ p.state ≠ ProcessState.WAITING ∧
    p.state ≠ ProcessState.TERMINATED := by
  rcases h with h | h | h <;> rw [h] <;> decide

/-- Under the invariant `executeProcess` writes no record but that of the
running process. -/
theorem executeProcess_other (s : Sim) (hW : WF s) (i : Int) (hi : i ≠ s.currentProcess) :
    procAt (executeProcess s).processes i = procAt s.processes i := by
  by_cases hn : s.currentProcess = -1
  · unfold executeProcess
    rw [if_pos hn]
  · have hst : (procAt s.processes s.currentProcess).state = ProcessState.RUNNING :=
      (hW.2.1 _).2.2.2.1 ⟨rfl, hn⟩
    have hval : ValidPid s.processes s.currentProcess := loc_valid _ hst (by decide)
    have hpidc : (procAt s.processes s.currentProcess).pid = s.currentProcess := hW.1 _ hval
    obtain ⟨b, hb⟩ : ∃ b, b = executeProcess s := ⟨_, rfl⟩
    rw [← hb]
    unfold executeProcess at hb
    rw [if_neg hn] at hb
    simp only [] at hb
    rw [hpidc] at hb
    split at hb
    · subst hb
      simp only []
      exact procAt_modifyAt_ne _ _ _ _ hi
    · split at hb
      · rw [hb]
      · split at hb
        · split at hb
          · subst hb
            simp only []
            split
            · rw [procAt_modifyAt_ne _ _ _ _ hi, procAt_modifyAt_ne _ _ _ _ hi,
                procAt_modifyAt_ne _ _ _ _ hi]
            · rw [procAt_modifyAt_ne _ _ _ _ hi, procAt_modifyAt_ne _ _ _ _ hi]
          · split at hb
            · subst hb
              simp only []
              rw [procAt_modifyAt_ne _ _ _ _ hi, procAt_modifyAt_ne _ _ _ _ hi]
            · subst hb
              simp only []
              rw [procAt_modifyAt_ne _ _ _ _ hi]
        · split at hb
          · unfold requestResource at hb
            split at hb
            · simp only [if_true] at hb
              subst hb
              simp only []
              rw [procAt_modifyAt_ne _ _ _ _ hi, procAt_modifyAt_ne _ _ _ _ hi]
            · simp only [Bool.false_eq_true, if_false] at hb
              subst hb
              simp only []
              rw [procAt_modifyAt_ne _ _ _ _ hi, procAt_modifyAt_ne _ _ _ _ hi]
          · unfold releaseResource at hb
            split at hb
            · subst hb
              simp only []
              rw [procAt_modifyAt_ne _ _ _ _ hi, procAt_modifyAt_ne _ _ _ _ hi]
            · subst hb
              simp only []
              rw [procAt_modifyAt_ne _ _ _ _ hi]
          · subst hb
            simp only []
            rw [procAt_modifyAt_ne _ _ _ _ hi, procAt_modifyAt_ne _ _ _ _ hi,
              procAt_modifyAt_ne _ _ _ _ hi]

theorem executeStage_other (s : Sim) (hW : WF s) (i : Int) (hi : i ≠ s.currentProcess) :
    procAt (executeStage s).processes i = procAt s.processes i := by
  unfold executeStage
  split
  · exact executeProcess_other s hW i hi
  · rfl

/-- The arrival stage writes the state of a process only: NEW becomes READY. -/
theorem checkNewArrivals_view (s : Sim) (i : Int) :
    execView (procAt (checkNewArrivals s).processes i) = execView (procAt s.processes i) ∧
    (Active (procAt s.processes i) → Active (procAt (checkNewArrivals s).processes i)) := by
  unfold checkNewArrivals
  simp only []
  rw [procAt_map]
  by_cases hv : ValidPid s.processes i
  · rw [if_pos hv]
    split
    · exact ⟨rfl, fun _ => Or.inr (Or.inl rfl)⟩
    · exact ⟨rfl, fun h => h⟩
  · rw [if_neg hv, procAt_of_not_valid _ _ hv]
    exact ⟨rfl, fun h => h⟩

theorem agingStage_view (s : Sim) (i : Int) :
    execView (procAt (agingStage s).processes i) = execView (procAt s.processes i) ∧
    (procAt (agingStage s).processes i).state = (procAt s.processes i).state := by
  unfold agingStage
  split
  · obtain ⟨pr, t, h⟩ := (foldl_agingVisit_fields s.readyQueue s.processes i).1
    unfold applyAging
    simp only []
    rw [h]
    exact ⟨rfl, rfl⟩
  · exact ⟨rfl, rfl⟩

theorem selectStage_view (s : Sim) (i : Int) :
    execView (procAt (selectStage s).processes i) = execView (procAt s.processes i) ∧
    (Active (procAt s.processes i) → Active (procAt (selectStage s).processes i)) := by
  obtain ⟨f1, _⟩ := selectNextProcess_table s
  unfold selectStage
  split
  · simp only []
    split
    · simp only []
      rw [f1]
      rcases procAt_modifyAt s.processes (selectNextProcess s).1 i _ with h | ⟨_, _, h⟩
      · rw [h]
        exact ⟨rfl, fun h => h⟩
      · rw [h]
        exact ⟨rfl, fun _ => Or.inr (Or.inr rfl)⟩
    · simp only []
      rw [f1]
      exact ⟨rfl, fun h => h⟩
  · exact ⟨rfl, fun h => h⟩

theorem ganttStage_processes (s : Sim) : (ganttStage s).processes = s.processes ∧
    (ganttStage s).currentProcess = s.currentProcess := by
  unfold ganttStage
  split
  · split
    · exact ⟨rfl, rfl⟩
    · exact ⟨rfl, rfl⟩
  · exact ⟨rfl, rfl⟩

theorem preemptStage_view (s : Sim) (i : Int) :
    execView (procAt (preemptStage s).processes i) = execView (procAt s.processes i) ∧
    (Active (procAt s.processes i) → Active (procAt (preemptStage s).processes i)) := by
  unfold preemptStage
  split
  · split
    · simp only []
      rcases procAt_modifyAt s.processes s.currentProcess i
        (fun p => { p with state := ProcessState.READY }) with h | ⟨_, _, h⟩
      · rw [h]
        exact ⟨rfl, fun h => h⟩
      · rw [h]
        exact ⟨rfl, fun _ => Or.inr (Or.inl rfl)⟩
    · exact ⟨rfl, fun h => h⟩
  · exact ⟨rfl, fun h => h⟩

theorem stuckStage_other (s : Sim) (i : Int) (h : i ∉ s.waitingQueue) :
    procAt (stuckStage s).processes i = procAt s.processes i := by
  unfold stuckStage
  split
  · rename_i hc
    simp only [Bool.and_eq_true] at hc
    exact (recoverFromDeadlock_other s _ i ((detectDeadlock_reported s).2 hc.2)
      (detectDeadlock_reported s).1 h).1
  · rfl

theorem finishTick_other (s : Sim) (i : Int) (h : i ∉ s.waitingQueue) :
    procAt (finishTick s).1.processes i = procAt s.processes i := by
  rcases finishTick_cases s with ⟨_, _, _, h4⟩ | ⟨_, _, _, h4⟩ | ⟨_, _, h3, _⟩
  · rw [h4]
  · rw [h4]
  · rw [h3]
    exact stuckStage_other s i h

/-- The stages of a pass before the call of `executeProcess` leave the
execution view of a process that is NEW, READY or RUNNING as it is, and the
process is still NEW, READY or RUNNING at the call. -/
theorem view_before_execute (s : Sim) (hW : WF s) (i : Int)
    (ha : Active (procAt s.processes i)) :
    WF (beforeExecute s) ∧
    execView (procAt (beforeExecute s).processes i) = execView (procAt s.processes i) ∧
    Active (procAt (beforeExecute s).processes i) := by
  have hall := tickTrace_wf s hW
  unfold tickTrace at hall
  simp only [List.mem_cons, List.mem_singleton, forall_eq_or_imp, forall_eq] at hall
  obtain ⟨_, w1, w2, w3, _, w5, w6, w7, w8, _⟩ := hall
  -- arrivals
  obtain ⟨v1, a1⟩ := checkNewArrivals_view s i
  have a1 := a1 ha
  have x1 := loc_excl (w1.2.1 i) _ rfl
  -- I/O
  have hv1 : ∀ q ∈ (checkNewArrivals s).ioQueue, ValidPid (checkNewArrivals s).processes q :=
    fun q hq => loc_valid _ ((w1.2.1 q).2.1 hq).1 (by decide)
  have p2 : procAt (Sched.processIO (checkNewArrivals s)).processes i
      = procAt (checkNewArrivals s).processes i :=
    ((processIO_at _ w1.2.2.1 hv1 i).2 (x1.2.1 (active_not _ a1).1)).1
  have a2 : Active (procAt (Sched.processIO (checkNewArrivals s)).processes i) := by
    rw [p2]; exact a1
  have x2 := loc_excl (w2.2.1 i) _ rfl
  -- retry of the waiters
  have p3 := processWaiting_other (Sched.processIO (checkNewArrivals s)) i
    (x2.2.2.1 (active_not _ a2).2.1)
  have a3 : Active (procAt (processWaiting (Sched.processIO
      (checkNewArrivals s))).processes i) := by
    rw [p3]; exact a2
  have x3 := loc_excl (w3.2.1 i) _ rfl
  -- the periodic check
  have p5 := (deadlockStage_other (processWaiting (Sched.processIO (checkNewArrivals s))) i
    (x3.2.2.1 (active_not _ a3).2.1)).2
  have e5 : procAt (beforeAging s).processes i = procAt (checkNewArrivals s).processes i :=
    p5.trans (p3.trans p2)
  have a5 : Active (procAt (beforeAging s).processes i) := by
    rw [e5]; exact a1
  -- aging, selection, Gantt bookkeeping
  obtain ⟨v6, s6⟩ := agingStage_view (beforeAging s) i
  have a6 : Active (procAt (agingStage (beforeAging s)).processes i) := by
    unfold Active at a5 ⊢
    rw [s6]; exact a5
  obtain ⟨v7, a7⟩ := selectStage_view (agingStage (beforeAging s)) i
  have a7 := a7 a6
  have e8 : (beforeExecute s).processes = (selectStage (agingStage (beforeAging s))).processes :=
    (ganttStage_processes _).1
  refine ⟨w8, ?_, ?_⟩
  · rw [e8, v7, v6, e5, v1]
  · rw [e8]; exact a7
theorem execView_fields (p q : Process) (h : execView p = execView q) :
    p.bursts = q.bursts ∧ p.isCPUBurst = q.isCPUBurst ∧
    p.currentBurstIndex = q.currentBurstIndex ∧
    p.currentOperationIndex = q.currentOperationIndex ∧
    p.remainingTime = q.remainingTime := by
  unfold execView at h
  simp only [Prod.mk.injEq] at h
  exact h

theorem currentOp_of_fields (p q : Process) (h1 : p.bursts = q.bursts)
    (h2 : p.isCPUBurst = q.isCPUBurst) (h3 : p.currentBurstIndex = q.currentBurstIndex)
    (h4 : p.currentOperationIndex = q.currentOperationIndex) :
    currentOp p = currentOp q := by
  unfold currentOp
  rw [h1, h2, h3, h4]

/-- The `EXEC` branch field by field: with `need` the seed (the duration when
`remainingTime` is 0, `remainingTime` otherwise), `remainingTime` becomes
`need - 1` and the operation index advances exactly when that is 0. -/
theorem execTick_fields (d : Int) (q : Process) :
    (execTick d q).bursts = q.bursts ∧ (execTick d q).isCPUBurst = q.isCPUBurst ∧
    (execTick d q).currentBurstIndex = q.currentBurstIndex ∧
    (execTick d q).state = q.state ∧
    (execTick d q).remainingTime = (if q.remainingTime = 0 then d else q.remainingTime) - 1 ∧
    (execTick d q).currentOperationIndex =
      (if (if q.remainingTime = 0 then d else q.remainingTime) - 1 = 0
        then q.currentOperationIndex + 1 else q.currentOperationIndex) ∧
    execTick d q =
      { q with remainingTime := (execTick d q).remainingTime
               currentOperationIndex := (execTick d q).currentOperationIndex } := by
  unfold execTick
  by_cases h0 : q.remainingTime = 0
  · by_cases h1 : d - 1 = 0
    · simp [h0, h1]
    · simp [h0, h1]
  · by_cases h1 : q.remainingTime - 1 = 0
    · simp [h0, h1]
    · simp [h0, h1]

theorem execView_execTick (d : Int) (p q : Process) (h : execView p = execView q) :
    execView (execTick d p) = execView (execTick d q) := by
  obtain ⟨h1, h2, h3, h4, h5⟩ := execView_fields p q h
  obtain ⟨a1, a2, a3, _, a5, a6, _⟩ := execTick_fields d p
  obtain ⟨b1, b2, b3, _, b5, b6, _⟩ := execTick_fields d q
  unfold execView
  rw [a1, a2, a3, a5, a6, b1, b2, b3, b5, b6, h1, h2, h3, h4, h5]

/-- One pass and the execution view of a process that is NEW, READY or RUNNING:
a pass that does not call `executeProcess` on it leaves the view alone, and a
pass that calls it on an `Exec` operation does to the view what the three
statements of the `EXEC` branch do, whatever the other stages do to the
process (dispatch, preemption).  The process is still NEW, READY or RUNNING
at the end of the pass. -/
theorem pass_view (s : Sim) (hW : WF s) (i : Int) (ha : Active (procAt s.processes i)) :
    WF (tick s).1 ∧
    ((beforeExecute s).currentProcess ≠ i →
      execView (procAt (tick s).1.processes i) = execView (procAt s.processes i) ∧
      Active (procAt (tick s).1.processes i)) ∧
    ((beforeExecute s).currentProcess = i → ∀ op : Operation,
      currentOp (procAt s.processes i) = some op → op.type = OperationType.EXEC →
      executeProcess (beforeExecute s) =
        { beforeExecute s with
          processes := modifyAt (beforeExecute s).processes i (execTick op.duration) } ∧
      procAt (executeProcess (beforeExecute s)).processes i =
        execTick op.duration (procAt (beforeExecute s).processes i) ∧
      execView (procAt (tick s).1.processes i) =
        execView (execTick op.duration (procAt s.processes i)) ∧
      Active (procAt (tick s).1.processes i)) := by
  obtain ⟨wb, vb, ab⟩ := view_before_execute s hW i ha
  have hall := tickTrace_wf s hW
  have w10 : WF (tickBody s) := hall _ (tickBody_mem_tickTrace s)
  have wt : WF (tick s).1 := tick_wf s hW
  have hbody : tickBody s = preemptStage (executeStage (beforeExecute s)) := rfl
  have htick : (tick s).1 = (finishTick (tickBody s)).1 := rfl
  -- from the state after the execution stage to the end of the pass
  have htail : ∀ q : Process, procAt (executeStage (beforeExecute s)).processes i = q →
      Active q →
      execView (procAt (tick s).1.processes i) = execView q ∧
      Active (procAt (tick s).1.processes i) := by
    intro q hq haq
    obtain ⟨v1, a1⟩ := preemptStage_view (executeStage (beforeExecute s)) i
    rw [hq] at v1 a1
    have a1 := a1 haq
    rw [← hbody] at v1 a1
    have x := loc_excl (w10.2.1 i) _ rfl
    have hf := finishTick_other (tickBody s) i (x.2.2.1 (active_not _ a1).2.1)
    rw [htick, hf]
    exact ⟨v1, a1⟩
  refine ⟨wt, ?_, ?_⟩
  · intro hc
    have hst := executeStage_other (beforeExecute s) wb i (fun h => hc h.symm)
    obtain ⟨t1, t2⟩ := htail _ hst ab
    exact ⟨t1.trans vb, t2⟩
  · intro hc op hop hty
    have hopb : currentOp (procAt (beforeExecute s).processes i) = some op := by
      rw [currentOp_congr _ _ vb]; exact hop
    have hval : ValidPid (beforeExecute s).processes i := validPid_of_currentOp _ _ _ hopb
    have hne : (beforeExecute s).currentProcess ≠ -1 := by
      rw [hc]
      intro h
      rw [h] at hval
      exact absurd hval.1 (by decide)
    have he := executeProcess_exec (beforeExecute s) op hne (by rw [hc]; exact hopb) hty
    have hm : modifyAt (beforeExecute s).processes (beforeExecute s).currentProcess
        (execTick op.duration)
        = modifyAt (beforeExecute s).processes i (execTick op.duration) := by rw [hc]
    rw [hm] at he
    have hp : procAt (executeProcess (beforeExecute s)).processes i =
        execTick op.duration (procAt (beforeExecute s).processes i) := by
      rw [he]
      exact procAt_modifyAt_same _ _ _ hval
    have hst : procAt (executeStage (beforeExecute s)).processes i =
        execTick op.duration (procAt (beforeExecute s).processes i) := by
      unfold executeStage
      rw [if_pos hne]
      exact hp
    have hact : Active (execTick op.duration (procAt (beforeExecute s).processes i)) := by
      unfold Active at ab ⊢
      rw [(execTick_fields _ _).2.2.2.1]
      exact ab
    obtain ⟨t1, t2⟩ := htail _ hst hact
    exact ⟨he, hp, t1.trans (execView_execTick _ _ _ vb), t2⟩
theorem callCount_le (i : Int) (k : Nat) : ∀ s : Sim, callCount i k s ≤ k := by
  induction k with
  | zero => intro s; exact Nat.le_refl 0
  | succ k ih =>
    intro s
    have e : callCount i (k + 1) s =
        (if (beforeExecute s).currentProcess = i then 1 else 0) + callCount i k (tick s).1 := rfl
    rw [e]
    have := ih (tick s).1
    split <;> omega

/-- The count after one more pass. -/
theorem callCount_snoc (i : Int) (k : Nat) :
    ∀ s : Sim, (simulateLoop k s).2 = none →
      callCount i (k + 1) s = callCount i k s +
        (if (beforeExecute (simulateLoop k s).1).currentProcess = i then 1 else 0) := by
  induction k with
  | zero =>
    intro s _
    show (if (beforeExecute s).currentProcess = i then 1 else 0) + 0
      = 0 + (if (beforeExecute s).currentProcess = i then 1 else 0)
    omega
  | succ k ih =>
    intro s h
    by_cases hx : (tick s).2.isSome = true
    · rw [simulateLoop, if_pos hx] at h
      rw [h] at hx
      exact absurd hx (by simp)
    · have e : simulateLoop (k + 1) s = simulateLoop k (tick s).1 := by
        rw [simulateLoop, if_neg hx]
      rw [e] at h ⊢
      have e1 : callCount i (k + 1 + 1) s =
          (if (beforeExecute s).currentProcess = i then 1 else 0)
            + callCount i (k + 1) (tick s).1 := rfl
      have e2 : callCount i (k + 1) s =
          (if (beforeExecute s).currentProcess = i then 1 else 0)
            + callCount i k (tick s).1 := rfl
      rw [e1, e2, ih _ h]
      omega

/-- The execution view of a process standing at an `Exec` operation along the
passes of the loop, by the number `c` of calls of `executeProcess` made on it:
with `m` the seed at the start (the duration when `remainingTime` is 0,
`remainingTime` otherwise), as long as `c < m`, or for ever when `m ≤ 0`, the
process is still at that operation and `remainingTime` is `m - c` (its first
value while `c = 0`). -/
theorem exec_run (i : Int) (op : Operation) (hty : op.type = OperationType.EXEC) (j : Nat) :
    ∀ (k : Nat) (s : Sim) (m : Int), WF s → (simulateLoop k s).2 = none →
      Active (procAt s.processes i) → currentOp (procAt s.processes i) = some op →
      (procAt s.processes i).currentOperationIndex = j →
      (if (procAt s.processes i).remainingTime = 0 then op.duration
        else (procAt s.processes i).remainingTime) = m →
      ((callCount i k s : Int) < m ∨ m ≤ 0) →
      WF (simulateLoop k s).1 ∧ Active (procAt (simulateLoop k s).1.processes i) ∧
      currentOp (procAt (simulateLoop k s).1.processes i) = some op ∧
      (procAt (simulateLoop k s).1.processes i).currentOperationIndex = j ∧
      (procAt (simulateLoop k s).1.processes i).remainingTime =
        (if callCount i k s = 0 then (procAt s.processes i).remainingTime
          else m - callCount i k s) := by
  intro k
  induction k with
  | zero =>
    intro s m hW _ ha hop hj _ _
    exact ⟨hW, ha, hop, hj, rfl⟩
  | succ k ih =>
    intro s m hW hopen ha hop hj hm hcond
    have hx : ¬ (tick s).2.isSome = true := by
      intro hx
      rw [simulateLoop, if_pos hx] at hopen
      rw [hopen] at hx
      exact absurd hx (by simp)
    have e : simulateLoop (k + 1) s = simulateLoop k (tick s).1 := by
      rw [simulateLoop, if_neg hx]
    have ec : callCount i (k + 1) s =
        (if (beforeExecute s).currentProcess = i then 1 else 0) + callCount i k (tick s).1 := rfl
    rw [e] at hopen ⊢
    obtain ⟨wt, hA, hB⟩ := pass_view s hW i ha
    by_cases hc : (beforeExecute s).currentProcess = i
    · rw [ec, if_pos hc] at hcond ⊢
      obtain ⟨_, _, v, a⟩ := hB hc op hop hty
      obtain ⟨v1, v2, v3, v4, v5⟩ := execView_fields _ _ v
      obtain ⟨t1, t2, t3, _, t5, t6, _⟩ := execTick_fields op.duration (procAt s.processes i)
      rw [hm] at t5 t6
      have hm1 : m - 1 ≠ 0 := by
        rcases hcond with h | h
        · push_cast at h; omega
        · omega
      rw [if_neg hm1] at t6
      have hop2 : currentOp (procAt (tick s).1.processes i) = some op := by
        rw [currentOp_of_fields _ _ (v1.trans t1) (v2.trans t2) (v3.trans t3) (v4.trans t6)]
        exact hop
      have hr2 : (procAt (tick s).1.processes i).remainingTime = m - 1 := v5.trans t5
      have hm2 : (if (procAt (tick s).1.processes i).remainingTime = 0 then op.duration
          else (procAt (tick s).1.processes i).remainingTime) = m - 1 := by
        rw [hr2, if_neg hm1]
      have hcond2 : ((callCount i k (tick s).1 : Nat) : Int) < m - 1 ∨ m - 1 ≤ 0 := by
        rcases hcond with h | h
        · left; push_cast at h; omega
        · right; omega
      obtain ⟨r1, r2, r3, r4, r5⟩ := ih (tick s).1 (m - 1) wt hopen a hop2
        ((v4.trans t6).trans hj) hm2 hcond2
      refine ⟨r1, r2, r3, r4, ?_⟩
      have hne : 1 + callCount i k (tick s).1 ≠ 0 := by omega
      rw [r5, hr2, if_neg hne]
      split
      · rename_i h0
        rw [h0]
        push_cast
        omega
      · push_cast
        omega
    · rw [ec, if_neg hc] at hcond ⊢
      obtain ⟨v, a⟩ := hA hc
      obtain ⟨v1, v2, v3, v4, v5⟩ := execView_fields _ _ v
      have hop2 : currentOp (procAt (tick s).1.processes i) = some op := by
        rw [currentOp_of_fields _ _ v1 v2 v3 v4]
        exact hop
      have hm2 : (if (procAt (tick s).1.processes i).remainingTime = 0 then op.duration
          else (procAt (tick s).1.processes i).remainingTime) = m := by
        rw [v5]; exact hm
      have hcond2 : ((callCount i k (tick s).1 : Nat) : Int) < m ∨ m ≤ 0 := by
        rcases hcond with h | h
        · left; push_cast at h; omega
        · right; exact h
      obtain ⟨r1, r2, r3, r4, r5⟩ := ih (tick s).1 m wt hopen a hop2 (v4.trans hj) hm2 hcond2
      refine ⟨r1, r2, r3, r4, ?_⟩
      rw [r5, v5, Nat.zero_add]
/-! ## Exec timing along a run (C19) -/

/-- C19, amended.  Exec timing, whether or not the process is preempted and
re-dispatched in between.  In a run on a table loaded with pids equal to the
positions, let process `i`, not yet arrived, READY or RUNNING at the head of a
pass, stand at an `Exec` operation of duration `d ≥ 1` with
`remainingTime = 0` (the operation has not been visited).  Follow the loop
from there for any number `k` of passes, and let `c` be the number of those
passes in which `executeProcess` was called with `i` in the running slot.  As
long as `c < d` the process is still at that operation, with the operation
index where it was and `remainingTime = d - c` (0 before the first call).  A
pass in which `executeProcess` is not called on `i` (the process waits in the
ready queue, preempted or not yet dispatched) leaves its bursts, indices and
`remainingTime` as they are.  In a pass in which it is called on `i`, call
number `c + 1`, the call changes nothing in the state but the record of `i`,
by the three statements of the `EXEC` branch: `remainingTime` becomes
`d - (c + 1)`; for the first `d - 1` calls that is positive and the operation
index stays; the `d`-th call brings `remainingTime` to 0 and increments
`currentOperationIndex` by one.  The sibling `runProcess` is the same function
of the state. -/
theorem exec_timing_in_run (total : Int → Int) (ps : List Process) (hl : Loaded ps)
    (f : Nat) (i : Int) (op : Operation) (d : Int) (hd : 1 ≤ d)
    (hty : op.type = OperationType.EXEC) (hdur : op.duration = d)
    (hact : Active (procAt (simulateLoop f (initialSim total ps)).1.processes i))
    (hop : currentOp (procAt (simulateLoop f (initialSim total ps)).1.processes i) = some op)
    (hrem : (procAt (simulateLoop f (initialSim total ps)).1.processes i).remainingTime = 0) :
    (∀ k : Nat, (simulateLoop k (simulateLoop f (initialSim total ps)).1).2 = none →
      (callCount i k (simulateLoop f (initialSim total ps)).1 : Int) < d →
      currentOp (procAt (simulateLoop k (simulateLoop f (initialSim total ps)).1).1.processes i)
        = some op ∧
      (procAt (simulateLoop k (simulateLoop f (initialSim total ps)).1).1.processes i
        ).currentOperationIndex
        = (procAt (simulateLoop f (initialSim total ps)).1.processes i).currentOperationIndex ∧
      (procAt (simulateLoop k (simulateLoop f (initialSim total ps)).1).1.processes i
        ).remainingTime
        = (if callCount i k (simulateLoop f (initialSim total ps)).1 = 0 then 0
            else d - callCount i k (simulateLoop f (initialSim total ps)).1) ∧
      ((beforeExecute (simulateLoop k (simulateLoop f (initialSim total ps)).1).1).currentProcess
          ≠ i →
        execView (procAt (tick (simulateLoop k
            (simulateLoop f (initialSim total ps)).1).1).1.processes i)
          = execView (procAt (simulateLoop k
            (simulateLoop f (initialSim total ps)).1).1.processes i) ∧
        callCount i (k + 1) (simulateLoop f (initialSim total ps)).1
          = callCount i k (simulateLoop f (initialSim total ps)).1) ∧
      ((beforeExecute (simulateLoop k (simulateLoop f (initialSim total ps)).1).1).currentProcess
          = i →
        callCount i (k + 1) (simulateLoop f (initialSim total ps)).1
          = callCount i k (simulateLoop f (initialSim total ps)).1 + 1 ∧
        executeProcess (beforeExecute (simulateLoop k (simulateLoop f (initialSim total ps)).1).1)
          = { beforeExecute (simulateLoop k (simulateLoop f (initialSim total ps)).1).1 with
              processes := modifyAt
                (beforeExecute (simulateLoop k
                  (simulateLoop f (initialSim total ps)).1).1).processes i (execTick d) } ∧
        (procAt (executeProcess (beforeExecute (simulateLoop k
            (simulateLoop f (initialSim total ps)).1).1)).processes i).remainingTime
          = d - (callCount i k (simulateLoop f (initialSim total ps)).1 + 1) ∧
        ((callCount i k (simulateLoop f (initialSim total ps)).1 : Int) + 1 < d →
          (procAt (executeProcess (beforeExecute (simulateLoop k
              (simulateLoop f (initialSim total ps)).1).1)).processes i).remainingTime > 0 ∧
          (procAt (executeProcess (beforeExecute (simulateLoop k
              (simulateLoop f (initialSim total ps)).1).1)).processes i).currentOperationIndex
            = (procAt (simulateLoop f (initialSim total ps)).1.processes i
                ).currentOperationIndex) ∧
        ((callCount i k (simulateLoop f (initialSim total ps)).1 : Int) + 1 = d →
          (procAt (executeProcess (beforeExecute (simulateLoop k
              (simulateLoop f (initialSim total ps)).1).1)).processes i).remainingTime = 0 ∧
          (procAt (executeProcess (beforeExecute (simulateLoop k
              (simulateLoop f (initialSim total ps)).1).1)).processes i).currentOperationIndex
            = (procAt (simulateLoop f (initialSim total ps)).1.processes i
                ).currentOperationIndex + 1))) ∧
    ∀ s : Sim, Student.runProcess s = executeProcess s := by
  have _hd := hd
  refine ⟨?_, runProcess_eq⟩
  obtain ⟨H, hH⟩ : ∃ H, H = (simulateLoop f (initialSim total ps)).1 := ⟨_, rfl⟩
  rw [← hH] at hact hop hrem ⊢
  have hW : WF H := by rw [hH]; exact run_wf total ps hl f
  intro k hopen hlt
  have hm : (if (procAt H.processes i).remainingTime = 0 then op.duration
      else (procAt H.processes i).remainingTime) = d := by
    rw [hrem, if_pos rfl, hdur]
  obtain ⟨r1, r2, r3, r4, r5⟩ := exec_run i op hty _ k H d hW hopen hact hop rfl hm (Or.inl hlt)
  rw [hrem] at r5
  obtain ⟨_, hA, hB⟩ := pass_view _ r1 i r2
  have hsn := callCount_snoc i k H hopen
  refine ⟨r3, r4, r5, ?_, ?_⟩
  · intro hc
    rw [hsn, if_neg hc]
    exact ⟨(hA hc).1, rfl⟩
  · intro hc
    obtain ⟨b1, b2, _, _⟩ := hB hc op r3 hty
    rw [hdur] at b1 b2
    obtain ⟨wb, vb, _⟩ := view_before_execute _ r1 i r2
    obtain ⟨_, _, _, v4, v5⟩ := execView_fields _ _ vb
    obtain ⟨_, _, _, _, t5, t6, _⟩ := execTick_fields d
      (procAt (beforeExecute (simulateLoop k H).1).processes i)
    rw [v5, r5] at t5 t6
    rw [v4, r4] at t6
    have hneed : (if (if callCount i k H = 0 then (0 : Int) else d - callCount i k H) = 0 then d
        else (if callCount i k H = 0 then (0 : Int) else d - callCount i k H))
        = d - callCount i k H := by
      by_cases h0 : callCount i k H = 0
      · rw [if_pos h0, if_pos rfl, h0]
        simp
      · rw [if_neg h0, if_neg (by omega)]
    rw [hneed] at t5 t6
    rw [hsn, if_pos hc]
    refine ⟨rfl, b1, ?_, ?_, ?_⟩
    · rw [b2, t5]
      omega
    · intro hlt2
      rw [b2, t5, t6, if_neg (by omega)]
      exact ⟨by omega, rfl⟩
    · intro heq
      rw [b2, t5, t6, if_pos (by omega)]
      exact ⟨by omega, rfl⟩

theorem exec_timing_in_run_witness :
    Loaded lateRivalSim.processes ∧
    (simulateLoop 17 lateRivalSim).1.currentProcess = 1 ∧
    (procAt (simulateLoop 17 lateRivalSim).1.processes 0).state = ProcessState.READY ∧
    callCount 0 21 (simulateLoop 0 lateRivalSim).1 = 19 ∧
    (procAt (executeProcess (beforeExecute (simulateLoop 21
      (simulateLoop 0 lateRivalSim).1).1)).processes 0).remainingTime = 0 ∧
    (procAt (executeProcess (beforeExecute (simulateLoop 21
      (simulateLoop 0 lateRivalSim).1).1)).processes 0).currentOperationIndex = 0 + 1 :=
  ⟨by decide, by decide, by decide, by decide,
   (((exec_timing_in_run (fun _ => 0) lateRivalSim.processes (by decide) 0 0
      (Operation.mkExec OperationType.EXEC 20) 20 (by decide) (by decide) (by decide)
      (by decide) (by decide) (by decide)).1 21 (by decide) (by decide)).2.2.2.2
      (by decide)).2.2.2.2 (by decide)⟩

/-- C19, as stated, fails on a table whose pids are not the positions.  On the
input `1 0 0 CPU{1} IO{5} CPU{1}`, `0 0 0 CPU{30}` the second table entry is
dispatched in pass 0 at its `Exec` of duration 30 with `remainingTime = 0`.
It is called ten times, preempted, and called again from pass 12 on.  In pass
11 the first entry, whose pid field is 1, entered its I/O burst and put
`1` on the I/O queue, so from pass 12 on the I/O stage decrements the
`remainingTime` of the second entry as well: after 19 calls it is 2, and the
20th call of `executeProcess` on the entry, not the 30th, brings it to 0 and
increments `currentOperationIndex`. -/
theorem exec_passed_after_fewer_calls :
    currentOp (procAt swappedExecSim.processes 1)
      = some (Operation.mkExec OperationType.EXEC 30) ∧
    (procAt swappedExecSim.processes 1).remainingTime = 0 ∧
    (procAt swappedExecSim.processes 1).currentOperationIndex = 0 ∧
    (beforeExecute swappedExecSim).currentProcess = 1 ∧
    (procAt (simulateLoop 10 swappedExecSim).1.processes 1).state = ProcessState.READY ∧
    (simulateLoop 12 swappedExecSim).1.ioQueue = [1] ∧
    (procAt (simulateLoop 12 swappedExecSim).1.processes 0).pid = 1 ∧
    (procAt (simulateLoop 12 swappedExecSim).1.processes 0).state = ProcessState.IO_ ∧
    (simulateLoop 21 swappedExecSim).2 = none ∧
    callCount 1 21 swappedExecSim = 19 ∧
    (procAt (simulateLoop 21 swappedExecSim).1.processes 1).remainingTime = 2 ∧
    (procAt (simulateLoop 21 swappedExecSim).1.processes 1).currentOperationIndex = 0 ∧
    (beforeExecute (simulateLoop 21 swappedExecSim).1).currentProcess = 1 ∧
    callCount 1 22 swappedExecSim = 20 ∧
    (procAt (executeProcess (beforeExecute (simulateLoop 21 swappedExecSim).1)).processes 1
      ).remainingTime = 0 ∧
    (procAt (executeProcess (beforeExecute (simulateLoop 21 swappedExecSim).1)).processes 1
      ).currentOperationIndex = 1 ∧
    (procAt (simulateLoop 22 swappedExecSim).1.processes 1).currentOperationIndex = 1 := by
  decide

/-! ## An `Exec` of duration 0 or less along a run (C40) -/

/-- With the result of the decrement inside the 32-bit range the wrapping
branch is `execTick`. -/
theorem execTick32_exact (d : Int) (q : Process)
    (h1 : -2147483648 ≤ (if q.remainingTime = 0 then d else q.remainingTime) - 1)
    (h2 : (if q.remainingTime = 0 then d else q.remainingTime) - 1 ≤ 2147483647) :
    execTick32 d q = execTick d q := by
  unfold execTick32 execTick
  by_cases h0 : q.remainingTime = 0
  · rw [if_pos h0] at h1 h2
    simp only [h0, if_true, wrapInt_exact _ h1 h2]
  · rw [if_neg h0] at h1 h2
    simp only [h0, if_false, wrapInt_exact _ h1 h2]

/-- C40, as stated, fails in two ways.  First, `remainingTime` is a 32-bit
counter: on the input `0 0 0 CPU{-2147483648}` the call of `executeProcess` in
pass 0 finds process 0 at that `Exec` with `remainingTime = 0`, seeds it with
`-2147483648` and decrements; the exact result `-2147483649` is outside the
32-bit range, and the program is left with `remainingTime = 2147483647`, which
is neither negative nor smaller than before.  Second, on a table whose pids
are not the positions the operation index does advance: on
`1 0 3 CPU{R[1,1]}`, `0 0 3 CPU{0,1}`, `2 10 0 CPU{R[1,1]} IO{2} CPU{F[1,1]}`
over one instance of resource 1 the second table entry runs at its `Exec` of
duration 0 for ten passes and is preempted; in pass 12 the request of the
first entry, whose pid field is 1, fails and marks the second entry as the
waiter; in pass 14 the waiting stage grants the request to the second entry and
increments its `currentOperationIndex` past the `Exec` of duration 0. -/
theorem zero_exec_wraps_or_is_passed :
    ((beforeExecute minExecSim).currentProcess = 0 ∧
      currentOp (procAt (beforeExecute minExecSim).processes 0)
        = some (Operation.mkExec OperationType.EXEC (-2147483648)) ∧
      (procAt (beforeExecute minExecSim).processes 0).remainingTime = 0 ∧
      (procAt (executeProcess (beforeExecute minExecSim)).processes 0).remainingTime
        = (execTick (-2147483648)
            (procAt (beforeExecute minExecSim).processes 0)).remainingTime ∧
      (execTick (-2147483648) (procAt (beforeExecute minExecSim).processes 0)).remainingTime
        = -2147483649 ∧
      (execTick32 (-2147483648) (procAt (beforeExecute minExecSim).processes 0)).remainingTime
        = 2147483647 ∧
      (execTick32 (-2147483648) (procAt (beforeExecute minExecSim).processes 0)
        ).currentOperationIndex = 0 ∧
      ¬ ((execTick32 (-2147483648)
          (procAt (beforeExecute minExecSim).processes 0)).remainingTime < 0)) ∧
    (currentOp (procAt swappedZeroSim.processes 1)
        = some (Operation.mkExec OperationType.EXEC 0) ∧
      (procAt swappedZeroSim.processes 1).remainingTime = 0 ∧
      (procAt swappedZeroSim.processes 1).currentOperationIndex = 0 ∧
      (beforeExecute swappedZeroSim).currentProcess = 1 ∧
      callCount 1 10 swappedZeroSim = 10 ∧
      (procAt (simulateLoop 10 swappedZeroSim).1.processes 1).state = ProcessState.READY ∧
      (procAt (simulateLoop 10 swappedZeroSim).1.processes 1).remainingTime = -10 ∧
      (procAt (simulateLoop 12 swappedZeroSim).1.processes 0).pid = 1 ∧
      (beforeExecute (simulateLoop 12 swappedZeroSim).1).currentProcess = 0 ∧
      (simulateLoop 13 swappedZeroSim).1.waitingQueue = [1] ∧
      (procAt (simulateLoop 13 swappedZeroSim).1.processes 1).waitingForResource = 1 ∧
      (simulateLoop 14 swappedZeroSim).2 = none ∧
      (procAt (simulateLoop 14 swappedZeroSim).1.processes 1).currentOperationIndex = 0 ∧
      (procAt (processWaiting (Sched.processIO (checkNewArrivals
          (simulateLoop 14 swappedZeroSim).1))).processes 1).currentOperationIndex = 1 ∧
      callCount 1 15 swappedZeroSim = 10 ∧
      (procAt (simulateLoop 15 swappedZeroSim).1.processes 1).currentOperationIndex = 1 ∧
      currentOp (procAt (simulateLoop 15 swappedZeroSim).1.processes 1)
        = some (Operation.mkExec OperationType.EXEC 1)) := by
  decide

/-- C40, amended.  An `Exec` of duration `d ≤ 0` never completes, as long as
the 32-bit counter cannot wrap around within the 10001 passes of a run:
`d ≥ -2147473647`.  In a run on a table loaded with pids equal to the
positions, let process `i`, not yet arrived, READY or RUNNING at the head of
pass `f`, stand at such an operation with `remainingTime = 0`.  Then at the
head of every later pass of the run the process is still at that operation,
with the operation index where it was, and `remainingTime` is 0 before the
first call of `executeProcess` on `i` and `d - c` after `c` calls.  A pass in
which `executeProcess` is not called on `i` leaves its bursts, indices and
`remainingTime` as they are; every call of `executeProcess` on `i` changes
nothing in the state but the record of `i`, leaves `currentOperationIndex`
unchanged and makes `remainingTime` strictly smaller and negative, never below
`-2147483648`, so that the 32-bit decrement `execTick32` and the exact one
agree on the record.  The sibling `runProcess` is the same function of the
state. -/
theorem zero_exec_never_completes (total : Int → Int) (ps : List Process) (hl : Loaded ps)
    (f : Nat) (hrun : (simulateLoop f (initialSim total ps)).2 = none)
    (i : Int) (op : Operation) (d : Int) (hd : d ≤ 0) (hlow : -2147473647 ≤ d)
    (hty : op.type = OperationType.EXEC) (hdur : op.duration = d)
    (hact : Active (procAt (simulateLoop f (initialSim total ps)).1.processes i))
    (hop : currentOp (procAt (simulateLoop f (initialSim total ps)).1.processes i) = some op)
    (hrem : (procAt (simulateLoop f (initialSim total ps)).1.processes i).remainingTime = 0) :
    (∀ k : Nat, (simulateLoop k (simulateLoop f (initialSim total ps)).1).2 = none →
      currentOp (procAt (simulateLoop k (simulateLoop f (initialSim total ps)).1).1.processes i)
        = some op ∧
      (procAt (simulateLoop k (simulateLoop f (initialSim total ps)).1).1.processes i
        ).currentOperationIndex
        = (procAt (simulateLoop f (initialSim total ps)).1.processes i).currentOperationIndex ∧
      (procAt (simulateLoop k (simulateLoop f (initialSim total ps)).1).1.processes i
        ).remainingTime
        = (if callCount i k (simulateLoop f (initialSim total ps)).1 = 0 then 0
            else d - callCount i k (simulateLoop f (initialSim total ps)).1) ∧
      ((beforeExecute (simulateLoop k (simulateLoop f (initialSim total ps)).1).1).currentProcess
          ≠ i →
        execView (procAt (tick (simulateLoop k
            (simulateLoop f (initialSim total ps)).1).1).1.processes i)
          = execView (procAt (simulateLoop k
            (simulateLoop f (initialSim total ps)).1).1.processes i) ∧
        callCount i (k + 1) (simulateLoop f (initialSim total ps)).1
          = callCount i k (simulateLoop f (initialSim total ps)).1) ∧
      ((beforeExecute (simulateLoop k (simulateLoop f (initialSim total ps)).1).1).currentProcess
          = i →
        callCount i (k + 1) (simulateLoop f (initialSim total ps)).1
          = callCount i k (simulateLoop f (initialSim total ps)).1 + 1 ∧
        executeProcess (beforeExecute (simulateLoop k (simulateLoop f (initialSim total ps)).1).1)
          = { beforeExecute (simulateLoop k (simulateLoop f (initialSim total ps)).1).1 with
              processes := modifyAt
                (beforeExecute (simulateLoop k
                  (simulateLoop f (initialSim total ps)).1).1).processes i (execTick d) } ∧
        (procAt (executeProcess (beforeExecute (simulateLoop k
            (simulateLoop f (initialSim total ps)).1).1)).processes i).currentOperationIndex
          = (procAt (simulateLoop f (initialSim total ps)).1.processes i
              ).currentOperationIndex ∧
        (procAt (executeProcess (beforeExecute (simulateLoop k
            (simulateLoop f (initialSim total ps)).1).1)).processes i).remainingTime
          = d - (callCount i k (simulateLoop f (initialSim total ps)).1 + 1) ∧
        (procAt (executeProcess (beforeExecute (simulateLoop k
            (simulateLoop f (initialSim total ps)).1).1)).processes i).remainingTime
          < (procAt (simulateLoop k (simulateLoop f (initialSim total ps)).1).1.processes i
              ).remainingTime ∧
        (procAt (executeProcess (beforeExecute (simulateLoop k
            (simulateLoop f (initialSim total ps)).1).1)).processes i).remainingTime < 0 ∧
        -2147483648 ≤ (procAt (executeProcess (beforeExecute (simulateLoop k
            (simulateLoop f (initialSim total ps)).1).1)).processes i).remainingTime ∧
        execTick32 d (procAt (beforeExecute (simulateLoop k
            (simulateLoop f (initialSim total ps)).1).1).processes i)
          = execTick d (procAt (beforeExecute (simulateLoop k
            (simulateLoop f (initialSim total ps)).1).1).processes i))) ∧
    ∀ s : Sim, Student.runProcess s = executeProcess s := by
  refine ⟨?_, runProcess_eq⟩
  intro k hopen
  have hk : k ≤ 10000 := by
    have e := simulateLoop_add f (initialSim total ps) k hrun
    have h2 : (simulateLoop (f + k) (initialSim total ps)).2 = none := by rw [e]; exact hopen
    obtain ⟨c1, c2⟩ := simulateLoop_open_clock (f + k) _ h2
    have h0 : (initialSim total ps).currentTime = 0 := rfl
    rw [h0] at c1
    by_cases hz : f + k = 0
    · omega
    · have := c2 (by omega)
      rw [c1] at this
      push_cast at this
      omega
  obtain ⟨H, hH⟩ : ∃ H, H = (simulateLoop f (initialSim total ps)).1 := ⟨_, rfl⟩
  rw [← hH] at hact hop hrem hopen ⊢
  have hW : WF H := by rw [hH]; exact run_wf total ps hl f
  have hm : (if (procAt H.processes i).remainingTime = 0 then op.duration
      else (procAt H.processes i).remainingTime) = d := by
    rw [hrem, if_pos rfl, hdur]
  obtain ⟨r1, r2, r3, r4, r5⟩ := exec_run i op hty _ k H d hW hopen hact hop rfl hm (Or.inr hd)
  rw [hrem] at r5
  obtain ⟨_, hA, hB⟩ := pass_view _ r1 i r2
  have hsn := callCount_snoc i k H hopen
  have hle := callCount_le i k H
  refine ⟨r3, r4, r5, ?_, ?_⟩
  · intro hc
    rw [hsn, if_neg hc]
    exact ⟨(hA hc).1, rfl⟩
  · intro hc
    obtain ⟨b1, b2, _, _⟩ := hB hc op r3 hty
    rw [hdur] at b1 b2
    obtain ⟨wb, vb, _⟩ := view_before_execute _ r1 i r2
    obtain ⟨_, _, _, v4, v5⟩ := execView_fields _ _ vb
    obtain ⟨_, _, _, _, t5, t6, _⟩ := execTick_fields d
      (procAt (beforeExecute (simulateLoop k H).1).processes i)
    rw [v5, r5] at t5 t6
    rw [v4, r4] at t6
    have hneed : (if (if callCount i k H = 0 then (0 : Int) else d - callCount i k H) = 0 then d
        else (if callCount i k H = 0 then (0 : Int) else d - callCount i k H))
        = d - callCount i k H := by
      by_cases h0 : callCount i k H = 0
      · rw [if_pos h0, if_pos rfl, h0]
        simp
      · rw [if_neg h0, if_neg (by omega)]
    have hx : (if (procAt (beforeExecute (simulateLoop k H).1).processes i).remainingTime = 0
        then d else (procAt (beforeExecute (simulateLoop k H).1).processes i).remainingTime)
        = d - callCount i k H := by
      rw [v5, r5]
      exact hneed
    rw [hneed] at t5 t6
    rw [if_neg (by omega)] at t6
    rw [hsn, if_pos hc]
    refine ⟨rfl, b1, ?_, ?_, ?_, ?_, ?_, ?_⟩
    · rw [b2, t6]
    · rw [b2, t5]
      omega
    · rw [b2, t5, r5]
      split <;> omega
    · rw [b2, t5]
      omega
    · rw [b2, t5]
      omega
    · exact execTick32_exact d _ (by rw [hx]; omega) (by rw [hx]; omega)

theorem zero_exec_never_completes_witness :
    Loaded zeroExecSim.processes ∧
    (simulateLoop 5 (simulateLoop 0 zeroExecSim).1).2 = none ∧
    (procAt (simulateLoop 5 (simulateLoop 0 zeroExecSim).1).1.processes 0).currentOperationIndex
      = (procAt (simulateLoop 0 zeroExecSim).1.processes 0).currentOperationIndex ∧
    (procAt (simulateLoop 5 (simulateLoop 0 zeroExecSim).1).1.processes 0).remainingTime = -5 :=
  ⟨by decide, by decide,
   ((zero_exec_never_completes (fun _ => 0) zeroExecSim.processes (by decide) 0 (by decide) 0
      (Operation.mkExec OperationType.EXEC 0) 0 (by decide) (by decide) (by decide) (by decide)
      (by decide) (by decide) (by decide)).1 5 (by decide)).2.1,
   by decide⟩

/-! ## A process in the I/O queue along the passes of a run -/

theorem stuckStage_ioQueue (s : Sim) : (stuckStage s).ioQueue = s.ioQueue := by
  unfold stuckStage
  split <;> rfl

end Sched
